import Mathlib

/-!
# Breakout board (pset6): a shallow embedding of `board.hh`, `board.cc`
and the worker loops of `breakout61.cc`

Pointers become indices: a `pong_ball*` is an index into the list of balls,
a `pong_warp*` an index into `pong_board.warps`, and a `pong_cell&` is a
`cell_ref` (either the off-board `obstacle_cell` or an index into `cells`).
Reads and writes go through these references, so aliasing between the
references `ccur`, `cx`, `cy` and `cnext` of `pong_ball::move` is the same as
in the source.  A failed `assert` or a dereference of a null or dangling
pointer is the result `none`.
-/

set_option autoImplicit false

namespace Pong

/-! ## Data model (`board.hh`) -/

/-- The enumeration `pong_celltype`, in the order of its numeric values. -/
inductive pong_celltype where
  | cell_empty
  | cell_sticky
  | cell_warp
  | cell_trash
  | cell_obstacle
  | cell_paddle
  deriving DecidableEq, Repr

/-- Numeric value of an enumerator, used by the comparisons
`type >= cell_obstacle` and `type > cell_sticky`. -/
def pong_celltype.val : pong_celltype → Nat
  | .cell_empty => 0
  | .cell_sticky => 1
  | .cell_warp => 2
  | .cell_trash => 3
  | .cell_obstacle => 4
  | .cell_paddle => 5

/-- The struct `pong_cell`; the defaults are the member initialisers. -/
structure pong_cell where
  type : pong_celltype := .cell_empty
  ball : Option Nat := none
  strength : Int := 0
  warp : Option Nat := none
  deriving DecidableEq, Repr

/-- The struct `pong_ball` (the reference to its board is the state that
is passed around). -/
structure pong_ball where
  stopped : Bool := false
  x : Int := 0
  y : Int := 0
  dx : Int := 1
  dy : Int := 1
  deriving DecidableEq, Repr

/-- The struct `pong_warp`: coordinates and the single ball slot. -/
structure pong_warp where
  x : Int
  y : Int
  ball : Option Nat := none
  deriving DecidableEq, Repr

/-- The struct `pong_board`.  `warps` holds the warp objects themselves.
`ncollisions` is an `unsigned long` in the source; it is a natural number
here (no wrap-around at `2^64`). -/
structure pong_board where
  width : Int
  height : Int
  cells : List pong_cell
  warps : List pong_warp := []
  obstacle_cell : pong_cell := {}
  ncollisions : Nat := 0
  deriving DecidableEq, Repr

/-- A `pong_cell&` obtained from `pong_board::cell`. -/
inductive cell_ref where
  | obstacle_cell
  | cells (i : Nat)
  deriving DecidableEq, Repr

/-- The constructor `pong_board::pong_board(w, h)`, with the exact number of
cells `w * h`.  The source computes the number in `int`: that is
`pong_board.new_int` below, which builds this board whenever `w * h` is a
non-negative value of `int` (`new_int_eq_new`). -/
def pong_board.new (w h : Int) : pong_board :=
  { width := w
    height := h
    cells := List.replicate (w * h).toNat {}
    obstacle_cell := { type := .cell_obstacle } }

/-- The coordinate test of `pong_board::cell`, negated. -/
def pong_board.in_bounds (b : pong_board) (x y : Int) : Prop :=
  0 ≤ x ∧ x < b.width ∧ 0 ≤ y ∧ y < b.height

instance (b : pong_board) (x y : Int) : Decidable (b.in_bounds x y) := by
  unfold pong_board.in_bounds; infer_instance

/-- The function `pong_board::cell(x, y)`: which cell the returned reference
denotes, with the exact index `y * width + x`.  The source computes the index
in `int`: that is `pong_board.cell_int` below, which agrees with this function
on every board whose `width * height` is a value of `int`
(`cell_int_eq_cell`). -/
def pong_board.cell (b : pong_board) (x y : Int) : cell_ref :=
  if x < 0 ∨ x ≥ b.width ∨ y < 0 ∨ y ≥ b.height then
    .obstacle_cell
  else
    .cells (y * b.width + x).toNat

/-- Reading through a cell reference. -/
def pong_board.read (b : pong_board) : cell_ref → pong_cell
  | .obstacle_cell => b.obstacle_cell
  | .cells i => b.cells.getD i {}

/-- Writing through a cell reference. -/
def pong_board.write (b : pong_board) (r : cell_ref) (c : pong_cell) : pong_board :=
  match r with
  | .obstacle_cell => { b with obstacle_cell := c }
  | .cells i => { b with cells := b.cells.set i c }

/-- The function `pong_cell::hit_obstacle`. -/
def pong_cell.hit_obstacle (c : pong_cell) : pong_cell :=
  if c.type = .cell_obstacle ∧ c.strength ≠ 0 then
    if c.strength - 1 = 0 then
      { c with strength := c.strength - 1, type := .cell_empty }
    else
      { c with strength := c.strength - 1 }
  else
    c

/-- The assignment `c.ball = b` to a cell. -/
def pong_cell.set_ball (c : pong_cell) (b : Option Nat) : pong_cell :=
  { c with ball := b }

/-- The assignment `c.type = t` to a cell. -/
def pong_cell.set_type (c : pong_cell) (t : pong_celltype) : pong_cell :=
  { c with type := t }

/-- The function `pong_warp::accept_ball`: the assertion, then the store. -/
def pong_warp.accept_ball (w : pong_warp) (b : Nat) : Option pong_warp :=
  if w.ball.isSome then none else some { w with ball := some b }

/-- The whole state: the board and the ball objects. -/
structure pong_state where
  board : pong_board
  balls : List pong_ball
  deriving DecidableEq, Repr

/-! ## `pong_ball::move` (`board.cc`) -/

/-- First axis check of `move`: the neighbour `cx` at `(x + dx, y)`. -/
def check_x (bd : pong_board) (m : pong_ball) : pong_board × pong_ball :=
  let cx := bd.cell (m.x + m.dx) m.y
  if pong_celltype.cell_obstacle.val ≤ (bd.read cx).type.val then
    (bd.write cx (bd.read cx).hit_obstacle, { m with dx := -m.dx })
  else
    (bd, m)

/-- Second axis check of `move`: the neighbour `cy` at `(x, y + dy)`. -/
def check_y (bd : pong_board) (m : pong_ball) : pong_board × pong_ball :=
  let cy := bd.cell m.x (m.y + m.dy)
  if pong_celltype.cell_obstacle.val ≤ (bd.read cy).type.val then
    (bd.write cy (bd.read cy).hit_obstacle, { m with dy := -m.dy })
  else
    (bd, m)

/-- Update of a ball object through a pointer. -/
def upd_ball (bs : List pong_ball) (k : Nat) (f : pong_ball → pong_ball) : List pong_ball :=
  match bs[k]? with
  | some b => bs.set k (f b)
  | none => bs

/-- The collision branch of `move` on the ball objects: `i` is `this`,
`j` is `cnext.ball`. -/
def collide (bs : List pong_ball) (i j : Nat) : Option (List pong_ball) :=
  match bs[j]?, bs[i]? with
  | some o, some m =>
    let bs1 :=
      if o.dx ≠ m.dx then
        upd_ball (upd_ball bs j (fun b => { b with dx := m.dx })) i
          (fun b => { b with dx := -b.dx })
      else bs
    match bs1[j]?, bs1[i]? with
    | some o1, some m1 =>
      let bs2 :=
        if o1.dy ≠ m1.dy then
          upd_ball (upd_ball bs1 j (fun b => { b with dy := m1.dy })) i
            (fun b => { b with dy := -b.dy })
        else bs1
      some (upd_ball bs2 j (fun b => { b with stopped := false }))
    | _, _ => none
  | _, _ => none

/-- The branches of `move` on the target cell `cnext`; `bd` and `m` are the
board and `this` after the two axis checks. -/
def move_target (bd : pong_board) (balls : List pong_ball) (i : Nat) (m : pong_ball)
    (ccur : cell_ref) : Option (pong_state × Int) :=
  let cnext := bd.cell (m.x + m.dx) (m.y + m.dy)
  match (bd.read cnext).ball with
  | some j =>
    match collide (balls.set i m) i j with
    | some bs => some ({ board := { bd with ncollisions := bd.ncollisions + 1 }, balls := bs }, 0)
    | none => none
  | none =>
    if (bd.read cnext).type = .cell_warp then
      let bd1 := bd.write ccur ((bd.read ccur).set_ball none)
      let m1 := { m with stopped := true }
      match (bd1.read cnext).warp with
      | none => none
      | some k =>
        match bd1.warps[k]? with
        | none => none
        | some w =>
          match w.accept_ball i with
          | none => none
          | some w1 =>
            some ({ board := { bd1 with warps := bd1.warps.set k w1 },
                    balls := balls.set i m1 }, 0)
    else if (bd.read cnext).type = .cell_trash then
      let bd1 := bd.write ccur ((bd.read ccur).set_ball none)
      some ({ board := bd1, balls := balls.set i m }, -1)
    else if pong_celltype.cell_obstacle.val ≤ (bd.read cnext).type.val then
      let bd1 := bd.write cnext (bd.read cnext).hit_obstacle
      some ({ board := bd1, balls := balls.set i { m with dx := -m.dx, dy := -m.dy } }, 0)
    else
      let m1 := { m with x := m.x + m.dx, y := m.y + m.dy }
      let bd1 := bd.write ccur ((bd.read ccur).set_ball none)
      let bd2 := bd1.write cnext ((bd1.read cnext).set_ball (some i))
      let m2 :=
        if (bd2.read cnext).type = .cell_sticky then
          { m1 with dx := 0, dy := 0, stopped := true }
        else m1
      some ({ board := bd2, balls := balls.set i m2 }, 1)

/-- The function `pong_ball::move()` for the ball `i`. -/
def pong_ball.move (s : pong_state) (i : Nat) : Option (pong_state × Int) :=
  match s.balls[i]? with
  | none => none
  | some me =>
    let ccur := s.board.cell me.x me.y
    if me.stopped then
      some (s, 0)
    else if (s.board.read ccur).ball ≠ some i then
      none
    else
      let r1 := check_x s.board me
      let r2 := check_y r1.1 r1.2
      move_target r2.1 s.balls i r2.2 ccur

/-! ## Worker loops (`breakout61.cc`) -/

/-- One iteration of the outer loop of `warp_thread(w)` for the warp `k`.
While the slot is empty the inner loop spins and nothing changes. -/
def warp_thread (s : pong_state) (k : Nat) : Option pong_state :=
  match s.board.warps[k]? with
  | none => none
  | some w =>
    let cdest := s.board.cell w.x w.y
    match w.ball with
    | none => some s
    | some b =>
      let bd1 := { s.board with warps := s.board.warps.set k { w with ball := none } }
      if (bd1.read cdest).ball.isSome then
        none
      else
        let bd2 := bd1.write cdest ((bd1.read cdest).set_ball (some b))
        match s.balls[b]? with
        | none => none
        | some bl =>
          some { board := bd2
                 balls := s.balls.set b { bl with x := w.x, y := w.y, stopped := false } }

/-- The local variables of `paddle_thread`. -/
structure paddle where
  px : Int
  py : Int
  pw : Int
  dx : Int := 1
  deriving DecidableEq, Repr

/-- The body of the `for` loop of `paddle_thread`, for the column `n`. -/
def paddle_step (px py pw : Int) (bd : pong_board) (n : Nat) : pong_board :=
  let x : Int := n
  if x ≥ px ∧ x < px + pw then
    bd.write (bd.cell x py) ((bd.read (bd.cell x py)).set_type .cell_paddle)
  else
    bd.write (bd.cell x py) ((bd.read (bd.cell x py)).set_type .cell_empty)

/-- The `for` loop of `paddle_thread` that rewrites the row `py`. -/
def paddle_row (b : pong_board) (px py pw : Int) : pong_board :=
  (List.range b.width.toNat).foldl (paddle_step px py pw) b

/-- One iteration of the loop of `paddle_thread`. -/
def paddle_thread (s : pong_state) (p : paddle) : pong_state × paddle :=
  let p1 : paddle :=
    if p.px + p.dx ≥ 0 ∧ p.px + p.dx + p.pw ≤ s.board.width then
      { p with px := p.px + p.dx }
    else
      { p with dx := -p.dx }
  ({ s with board := paddle_row s.board p1.px p1.py p1.pw }, p1)

/-- Repeated calls of `hit_obstacle` on one cell. -/
def hit_times : Nat → pong_cell → pong_cell
  | 0, c => c
  | k + 1, c => hit_times k c.hit_obstacle

/-- A sequence of `move()` calls, by the balls listed, in order. -/
def run_moves : pong_state → List Nat → Option pong_state
  | s, [] => some s
  | s, i :: is =>
    match pong_ball.move s i with
    | none => none
    | some (s1, _) => run_moves s1 is

/-- Scenario A: a `10 x 10` board, an obstacle of strength 2 at `(5,5)`,
one ball at `(4,5)` with velocity `(1,0)`. -/
def scenario_A : pong_state :=
  let b0 := pong_board.new 10 10
  let b1 := b0.write (b0.cell 5 5) { type := .cell_obstacle, strength := 2 }
  let b2 := b1.write (b1.cell 4 5) ((b1.read (b1.cell 4 5)).set_ball (some 0))
  { board := b2, balls := [{ x := 4, y := 5, dx := 1, dy := 0 }] }

/-- The cell of the off-board position as the constructor leaves it. -/
def fresh_obstacle_cell : pong_cell := { type := .cell_obstacle }

/-- A reference denotes an existing object of the board. -/
def ref_ok (b : pong_board) : cell_ref → Prop
  | .obstacle_cell => True
  | .cells i => i < b.cells.length

instance (b : pong_board) (r : cell_ref) : Decidable (ref_ok b r) := by
  cases r <;> unfold ref_ok <;> infer_instance

/-- The vector `cells` has `width * height` elements. -/
def board_ok (b : pong_board) : Prop :=
  b.cells.length = (b.width * b.height).toNat

instance (b : pong_board) : Decidable (board_ok b) := by
  unfold board_ok; infer_instance

/-- A ball in the corner `(0,0)` of a fresh `3 x 3` board, heading off the
board on both axes. -/
def corner_state : pong_state :=
  { board := (pong_board.new 3 3).write ((pong_board.new 3 3).cell 0 0) { ball := some 0 }
    balls := [{ x := 0, y := 0, dx := -1, dy := -1 }] }

/-! ## Well-formed states -/

/-- The occupant named by the cell `r`, if any, is a ball object whose
position is in range and is the position of `r`. -/
def occupant_ok (s : pong_state) (r : cell_ref) : Prop :=
  ∀ b, (s.board.read r).ball = some b →
    ∃ bl, s.balls[b]? = some bl ∧ s.board.in_bounds bl.x bl.y ∧ s.board.cell bl.x bl.y = r

/-- Well-formed states of the sequential model: the shape of the board as
the constructor makes it, the occupancy invariant, and the warp slots as the
setup and the warp branch of `move` leave them. -/
structure state_ok (s : pong_state) : Prop where
  cells_ok : board_ok s.board
  sentinel_type : s.board.obstacle_cell.type = .cell_obstacle
  sentinel_strength : s.board.obstacle_cell.strength = 0
  occupancy : ∀ r, occupant_ok s r
  warp_pos : ∀ (k : Nat) (w : pong_warp), s.board.warps[k]? = some w → s.board.in_bounds w.x w.y
  warp_slot : ∀ (k : Nat) (w : pong_warp) (b : Nat), s.board.warps[k]? = some w → w.ball = some b →
    b < s.balls.length ∧ ∀ r, (s.board.read r).ball ≠ some b
  warp_unique : ∀ (k k1 : Nat) (w w1 : pong_warp) (b : Nat), s.board.warps[k]? = some w → s.board.warps[k1]? = some w1 →
    w.ball = some b → w1.ball = some b → k = k1

/-- Executable check of `occupant_ok` for every element of `cells`. -/
def occupancy_check (s : pong_state) : Bool :=
  (List.range s.board.cells.length).all fun n =>
    match (s.board.read (.cells n)).ball with
    | none => true
    | some b =>
      match s.balls[b]? with
      | none => false
      | some bl => decide (s.board.in_bounds bl.x bl.y ∧ s.board.cell bl.x bl.y = .cells n)

/-- The ball `b` is the occupant of some cell. -/
def on_board (s : pong_state) (b : Nat) : Prop :=
  ∃ r, (s.board.read r).ball = some b

/-- The ball `b` is in the slot of some warp. -/
def in_warp (s : pong_state) (b : Nat) : Prop :=
  ∃ (k : Nat) (w : pong_warp), s.board.warps[k]? = some w ∧ w.ball = some b

/-- The two lists of ball objects have the same length and every ball has
the same position in both. -/
def same_positions (bs bs1 : List pong_ball) : Prop :=
  bs1.length = bs.length ∧
  ∀ (k : Nat) (b : pong_ball), bs[k]? = some b →
    ∃ b1 : pong_ball, bs1[k]? = some b1 ∧ b1.x = b.x ∧ b1.y = b.y

/-- The occupancy invariant: a ball that is the occupant of some cell has a
position in range, is the occupant of the cell at its position, and no other
cell names it. -/
def occupancy_inv (s : pong_state) : Prop :=
  ∀ b, on_board s b →
    ∃ bl, s.balls[b]? = some bl ∧ s.board.in_bounds bl.x bl.y ∧
      (s.board.read (s.board.cell bl.x bl.y)).ball = some b ∧
      ∀ r, (s.board.read r).ball = some b → r = s.board.cell bl.x bl.y

/-- A decidable form of `state_ok`, with every quantifier bounded by the
length of a vector. -/
def state_check (s : pong_state) : Prop :=
  board_ok s.board ∧
  s.board.obstacle_cell.type = .cell_obstacle ∧
  s.board.obstacle_cell.strength = 0 ∧
  s.board.obstacle_cell.ball = none ∧
  (∀ n, n < s.board.cells.length →
    (s.board.read (.cells n)).ball = none ∨
    ∃ b, b < s.balls.length ∧ (s.board.read (.cells n)).ball = some b ∧
      s.board.in_bounds (s.balls.getD b {}).x (s.balls.getD b {}).y ∧
      s.board.cell (s.balls.getD b {}).x (s.balls.getD b {}).y = .cells n) ∧
  (∀ k, k < s.board.warps.length →
    s.board.in_bounds (s.board.warps.getD k ⟨0, 0, none⟩).x
      (s.board.warps.getD k ⟨0, 0, none⟩).y ∧
    ((s.board.warps.getD k ⟨0, 0, none⟩).ball = none ∨
     ∃ b, b < s.balls.length ∧ (s.board.warps.getD k ⟨0, 0, none⟩).ball = some b ∧
       (∀ n, n < s.board.cells.length → (s.board.read (.cells n)).ball ≠ some b) ∧
       ∀ k1, k1 < s.board.warps.length →
         (s.board.warps.getD k1 ⟨0, 0, none⟩).ball = some b → k1 = k))

instance (s : pong_state) : Decidable (state_check s) := by
  unfold state_check; infer_instance

/-- A `4 x 4` board with one warp pair, mouths at `(0,0)` and `(3,3)`, a
sticky cell at `(2,1)`, and three balls: ball 0 at `(1,1)` heading for the
mouth at `(0,0)`, ball 1 at `(1,3)` and ball 2 at `(2,3)` heading for each
other. -/
def warp_state : pong_state :=
  let b0 := pong_board.new 4 4
  let b1 := b0.write (b0.cell 0 0) { type := .cell_warp, warp := some 1 }
  let b2 := b1.write (b1.cell 3 3) { type := .cell_warp, warp := some 0 }
  let b3 := b2.write (b2.cell 2 1) { type := .cell_sticky }
  let b4 := b3.write (b3.cell 1 1) ((b3.read (b3.cell 1 1)).set_ball (some 0))
  let b5 := b4.write (b4.cell 1 3) ((b4.read (b4.cell 1 3)).set_ball (some 1))
  let b6 := b5.write (b5.cell 2 3) ((b5.read (b5.cell 2 3)).set_ball (some 2))
  { board := { b6 with warps := [{ x := 0, y := 0 }, { x := 3, y := 3 }] }
    balls := [{ x := 1, y := 1, dx := -1, dy := -1 },
              { x := 1, y := 3, dx := 1, dy := 0 },
              { x := 2, y := 3, dx := -1, dy := 0 }] }

/-- The reference `cnext` of `move` for a ball `me`: the cell at
`(x + dx, y + dy)` with the velocity left by the two axis checks. -/
def target_ref (s : pong_state) (me : pong_ball) : cell_ref :=
  (check_y (check_x s.board me).1 (check_x s.board me).2).1.cell
    ((check_y (check_x s.board me).1 (check_x s.board me).2).2.x
      + (check_y (check_x s.board me).1 (check_x s.board me).2).2.dx)
    ((check_y (check_x s.board me).1 (check_x s.board me).2).2.y
      + (check_y (check_x s.board me).1 (check_x s.board me).2).2.dy)

/-- The target cell as `move` reads it, after the two axis checks. -/
def target_cell (s : pong_state) (me : pong_ball) : pong_cell :=
  (check_y (check_x s.board me).1 (check_x s.board me).2).1.read (target_ref s me)

/-- The velocity of a ball after the two axis checks of `move`. -/
def bounced (s : pong_state) (me : pong_ball) : pong_ball :=
  (check_y (check_x s.board me).1 (check_x s.board me).2).2

/-- A `3 x 3` board with an obstacle of strength 1 at `(2,1)`, ball 0 at
`(1,1)` with velocity `(1,1)` and ball 1 at `(0,2)` with velocity `(1,-1)`:
the x axis check of ball 0 destroys the obstacle, and the target `(0,2)` of
ball 0 then holds ball 1. -/
def bounce_collision_state : pong_state :=
  let b0 := pong_board.new 3 3
  let b1 := b0.write (b0.cell 2 1) { type := .cell_obstacle, strength := 1 }
  let b2 := b1.write (b1.cell 1 1) ((b1.read (b1.cell 1 1)).set_ball (some 0))
  let b3 := b2.write (b2.cell 0 2) ((b2.read (b2.cell 0 2)).set_ball (some 1))
  { board := b3
    balls := [{ x := 1, y := 1, dx := 1, dy := 1 }, { x := 0, y := 2, dx := 1, dy := -1 }] }

/-- The call `move()` of ball `i` in state `s` takes the collision branch:
the ball is not stopped and its target cell has an occupant. -/
def takes_collision (s : pong_state) (i : Nat) : Bool :=
  match s.balls[i]? with
  | none => false
  | some me => !me.stopped && (target_cell s me).ball.isSome

/-- Number of calls in a sequence of `move()` calls that take the collision
branch. -/
def collision_events : pong_state → List Nat → Nat
  | _, [] => 0
  | s, i :: is =>
    match pong_ball.move s i with
    | none => 0
    | some (s1, _) => (if takes_collision s i then 1 else 0) + collision_events s1 is

/-- A `4 x 4` board with a sticky cell at `(2,1)`, ball 0 at `(1,1)` with
velocity `(1,0)` about to enter it, and ball 1 at `(3,2)` with velocity
`(-1,-1)` heading for the same cell. -/
def sticky_state : pong_state :=
  let b0 := pong_board.new 4 4
  let b1 := b0.write (b0.cell 2 1) { type := .cell_sticky }
  let b2 := b1.write (b1.cell 1 1) ((b1.read (b1.cell 1 1)).set_ball (some 0))
  let b3 := b2.write (b2.cell 3 2) ((b2.read (b2.cell 3 2)).set_ball (some 1))
  { board := b3
    balls := [{ x := 1, y := 1, dx := 1, dy := 0 }, { x := 3, y := 2, dx := -1, dy := -1 }] }

/-- A `4 x 4` board with one warp pair, mouths at `(0,0)` and `(3,3)`, and
two balls on the diagonal, ball 0 at `(1,1)` and ball 1 at `(2,2)`, both
with velocity `(-1,-1)`: both are heading for the mouth at `(0,0)`. -/
def warp_queue_state : pong_state :=
  let b0 := pong_board.new 4 4
  let b1 := b0.write (b0.cell 0 0) { type := .cell_warp, warp := some 1 }
  let b2 := b1.write (b1.cell 3 3) { type := .cell_warp, warp := some 0 }
  let b3 := b2.write (b2.cell 1 1) ((b2.read (b2.cell 1 1)).set_ball (some 0))
  let b4 := b3.write (b3.cell 2 2) ((b3.read (b3.cell 2 2)).set_ball (some 1))
  { board := { b4 with warps := [{ x := 0, y := 0 }, { x := 3, y := 3 }] }
    balls := [{ x := 1, y := 1, dx := -1, dy := -1 }, { x := 2, y := 2, dx := -1, dy := -1 }] }

/-- Scenario B: an otherwise empty `10 x 10` board, ball 0 (`A`) at `(1,1)`
with velocity `(1,0)` and ball 1 (`B`) at `(2,1)` with velocity `(-1,0)`. -/
def scenario_B : pong_state :=
  let b0 := pong_board.new 10 10
  let b1 := b0.write (b0.cell 1 1) ((b0.read (b0.cell 1 1)).set_ball (some 0))
  let b2 := b1.write (b1.cell 2 1) ((b1.read (b1.cell 2 1)).set_ball (some 1))
  { board := b2
    balls := [{ x := 1, y := 1, dx := 1, dy := 0 }, { x := 2, y := 1, dx := -1, dy := 0 }] }

/-- A `4 x 4` board with a ball standing in the row `py = 2` of the paddle,
which is at `px = 2` with width 2 and is moving right. -/
def paddle_state : pong_state :=
  let b0 := pong_board.new 4 4
  let b1 := b0.write (b0.cell 1 2) { ball := some 0 }
  { board := b1, balls := [{ x := 1, y := 2, dx := 1, dy := -1 }] }

/-- One whole operation of a worker in the sequential model: a call of
`move()` by the ball `i`, or an iteration of the warp worker `k`. -/
inductive sched_op where
  | move (i : Nat)
  | warp (k : Nat)
  deriving DecidableEq, Repr

/-- The effect of one operation. -/
def step_op (s : pong_state) : sched_op → Option pong_state
  | .move i => (pong_ball.move s i).map (fun r => r.1)
  | .warp k => warp_thread s k

/-- An execution: the operations of a schedule, one after the other. -/
def run_ops : pong_state → List sched_op → Option pong_state
  | s, [] => some s
  | s, o :: os =>
    match step_op s o with
    | none => none
    | some s1 => run_ops s1 os

/-! ## `move` in two steps, for interleavings of two workers -/

/-- The branch of `move` chosen by the tests on `cnext`. -/
inductive move_branch where
  | collision
  | warp
  | trash
  | obstacle
  | free
  deriving DecidableEq, Repr

/-- The local variables of a call of `move` that has evaluated the tests on
`cnext` and not yet run the branch: the references `ccur` and `cnext` and the
branch chosen. -/
structure move_pending where
  ccur : cell_ref
  cnext : cell_ref
  branch : move_branch
  deriving DecidableEq, Repr

/-- The tests of `move` on the target cell, in their order. -/
def choose_branch (c : pong_cell) : move_branch :=
  match c.ball with
  | some _ => .collision
  | none =>
    if c.type = .cell_warp then .warp
    else if c.type = .cell_trash then .trash
    else if pong_celltype.cell_obstacle.val ≤ c.type.val then .obstacle
    else .free

/-- First step of `move`: from the entry up to and including the tests
`cnext.ball`, `cnext.type == cell_warp`, ... that choose the branch.  A
stopped ball returns here (no pending branch). -/
def move_decide (s : pong_state) (i : Nat) : Option (pong_state × Option move_pending) :=
  match s.balls[i]? with
  | none => none
  | some me =>
    let ccur := s.board.cell me.x me.y
    if me.stopped then
      some (s, none)
    else if (s.board.read ccur).ball ≠ some i then
      none
    else
      let r1 := check_x s.board me
      let r2 := check_y r1.1 r1.2
      let cnext := r2.1.cell (r2.2.x + r2.2.dx) (r2.2.y + r2.2.dy)
      some ({ board := r2.1, balls := s.balls.set i r2.2 },
        some ⟨ccur, cnext, choose_branch (r2.1.read cnext)⟩)

/-- Second step of `move`: the statements of the chosen branch, on the
state as it is when they run. -/
def move_commit (s : pong_state) (i : Nat) (p : move_pending) : Option (pong_state × Int) :=
  match s.balls[i]? with
  | none => none
  | some m =>
    match p.branch with
    | .collision =>
      match (s.board.read p.cnext).ball with
      | none => none
      | some j =>
        match collide s.balls i j with
        | some bs =>
          some ({ board := { s.board with ncollisions := s.board.ncollisions + 1 },
                  balls := bs }, 0)
        | none => none
    | .warp =>
      let bd1 := s.board.write p.ccur ((s.board.read p.ccur).set_ball none)
      match (bd1.read p.cnext).warp with
      | none => none
      | some k =>
        match bd1.warps[k]? with
        | none => none
        | some w =>
          match w.accept_ball i with
          | none => none
          | some w1 =>
            some ({ board := { bd1 with warps := bd1.warps.set k w1 },
                    balls := s.balls.set i { m with stopped := true } }, 0)
    | .trash =>
      some ({ board := s.board.write p.ccur ((s.board.read p.ccur).set_ball none),
              balls := s.balls }, -1)
    | .obstacle =>
      some ({ board := s.board.write p.cnext (s.board.read p.cnext).hit_obstacle,
              balls := s.balls.set i { m with dx := -m.dx, dy := -m.dy } }, 0)
    | .free =>
      let m1 := { m with x := m.x + m.dx, y := m.y + m.dy }
      let bd1 := s.board.write p.ccur ((s.board.read p.ccur).set_ball none)
      let bd2 := bd1.write p.cnext ((bd1.read p.cnext).set_ball (some i))
      let m2 :=
        if (bd2.read p.cnext).type = .cell_sticky then
          { m1 with dx := 0, dy := 0, stopped := true }
        else m1
      some ({ board := bd2, balls := s.balls.set i m2 }, 1)

/-- The two steps of `move`, one right after the other. -/
def move_two_steps (s : pong_state) (i : Nat) : Option (pong_state × Int) :=
  match move_decide s i with
  | none => none
  | some (s1, none) => some (s1, 0)
  | some (s1, some p) => move_commit s1 i p

/-- Two calls of `move`, by the balls `a` and `b`, interleaved: both
evaluate their tests, then both run their branch. -/
def interleaved_moves (s : pong_state) (a b : Nat) : Option (pong_state × Int × Int) :=
  match move_decide s a with
  | some (s1, some pa) =>
    match move_decide s1 b with
    | some (s2, some pb) =>
      match move_commit s2 a pa with
      | some (s3, ra) =>
        match move_commit s3 b pb with
        | some (s4, rb) => some (s4, ra, rb)
        | none => none
      | none => none
    | _ => none
  | _ => none

/-- A `3 x 3` board, ball 0 at `(0,1)` with velocity `(1,0)` and ball 1 at
`(2,1)` with velocity `(-1,0)`: both have the free cell `(1,1)` as target. -/
def race_state : pong_state :=
  let b0 := pong_board.new 3 3
  let b1 := b0.write (b0.cell 0 1) ((b0.read (b0.cell 0 1)).set_ball (some 0))
  let b2 := b1.write (b1.cell 2 1) ((b1.read (b1.cell 2 1)).set_ball (some 1))
  { board := b2
    balls := [{ x := 0, y := 1, dx := 1, dy := 0 }, { x := 2, y := 1, dx := -1, dy := 0 }] }

/-! ## The setup of `main` (`breakout61.cc`) -/

/-- The assignment `c.strength = n` to a cell. -/
def pong_cell.set_strength (c : pong_cell) (n : Int) : pong_cell :=
  { c with strength := n }

/-- The assignment `c.warp = w` to a cell. -/
def pong_cell.set_warp (c : pong_cell) (w : Option Nat) : pong_cell :=
  { c with warp := w }

/-- The options of the command line that the setup uses. -/
structure config where
  width : Int := 100
  height : Int := 31
  nballs : Int := 24
  nsticky : Int := 12
  nwarps : Int := 0
  nbricks : Int := -1
  paddle : Bool := false
  deriving DecidableEq, Repr

/-- The number of brick rows after `if (nbricks < 0) nbricks = height / 3`. -/
def config.bricks (c : config) : Int :=
  if c.nbricks < 0 then Int.tdiv c.height 3 else c.nbricks

/-- The value of an `int` expression whose exact value is `x`: 32 bits, two's
complement.  (Overflow of signed arithmetic is undefined in C++; the
wrap-around is what the usual targets compute.) -/
def int_wrap (x : Int) : Int := (x + 2147483648) % 4294967296 - 2147483648

/-- The exact value `x` is a value of the type `int`. -/
def in_int (x : Int) : Prop := -2147483648 ≤ x ∧ x ≤ 2147483647

instance (x : Int) : Decidable (in_int x) := by
  unfold in_int; infer_instance

/-- The condition under which `main` calls `usage()` and exits (the test
`optind != argc` on the argument list apart), with the sums and products of
the size test computed in `int`. -/
def config.usage (c : config) : Prop :=
  c.width < 2 ∨ c.height < 2 ∨
  int_wrap (int_wrap (int_wrap (c.nballs + c.nsticky) + c.nwarps) + int_wrap (c.width * c.bricks))
    ≥ int_wrap (c.width * int_wrap (c.height - 2)) ∨
  c.width > 1024 ∨ Int.tmod c.nwarps 2 ≠ 0 ∨ c.nballs = 0

instance (c : config) : Decidable c.usage := by
  unfold config.usage; infer_instance

/-- No sum or product of the size test of `main` leaves the range of `int`. -/
def config.no_overflow (c : config) : Prop :=
  in_int (c.nballs + c.nsticky) ∧ in_int (c.nballs + c.nsticky + c.nwarps) ∧
  in_int (c.width * c.bricks) ∧
  in_int (c.nballs + c.nsticky + c.nwarps + c.width * c.bricks) ∧
  in_int (c.height - 2) ∧ in_int (c.width * (c.height - 2))

instance (c : config) : Decidable c.no_overflow := by
  unfold config.no_overflow; infer_instance

/-- The body of the inner loop that places bricks, for row `n`, column `x`. -/
def place_brick (nbricks : Int) (n : Nat) (bd : pong_board) (x : Nat) : pong_board :=
  let bd1 := bd.write (bd.cell x n) ((bd.read (bd.cell x n)).set_type .cell_obstacle)
  bd1.write (bd1.cell x n)
    ((bd1.read (bd1.cell x n)).set_strength (Int.tdiv (nbricks - n - 1) 2 + 1))

/-- The inner loop that places bricks: the row `n`. -/
def place_brick_row (nbricks : Int) (bd : pong_board) (n : Nat) : pong_board :=
  (List.range bd.width.toNat).foldl (place_brick nbricks n) bd

/-- The loop `place bricks`. -/
def place_bricks (bd : pong_board) (nbricks : Int) : pong_board :=
  (List.range nbricks.toNat).foldl (place_brick_row nbricks) bd

/-- The first loop of `place paddle`: the trash row `height - 1`. -/
def place_trash_row (bd : pong_board) : pong_board :=
  (List.range bd.width.toNat).foldl
    (fun b (x : Nat) =>
      b.write (b.cell x (b.height - 1)) ((b.read (b.cell x (b.height - 1))).set_type .cell_trash))
    bd

/-- The second loop of `place paddle`: the first `min 8 width` cells of the
row `height - 2`. -/
def place_paddle_cells (bd : pong_board) : pong_board :=
  (List.range (min 8 bd.width).toNat).foldl
    (fun b (x : Nat) =>
      b.write (b.cell x (b.height - 2))
        ((b.read (b.cell x (b.height - 2))).set_type .cell_paddle))
    bd

/-- The board before the random placements: constructor, bricks, paddle. -/
def initial_board (c : config) : pong_board :=
  let b1 := place_bricks (pong_board.new c.width c.height) c.bricks
  if c.paddle then place_paddle_cells (place_trash_row b1) else b1

/-- A pair of draws `random_int(0, width - 1)`, `random_int(0, height - 3)`.
The function `random_int` is declared in `board.hh` and defined outside the
sources at hand; a draw is a parameter here, taken between the two bounds of
the call. -/
def draw_ok (bd : pong_board) (x y : Int) : Prop :=
  0 ≤ x ∧ x ≤ bd.width - 1 ∧ 0 ≤ y ∧ y ≤ bd.height - 3

instance (bd : pong_board) (x y : Int) : Decidable (draw_ok bd x y) := by
  unfold draw_ok; infer_instance

/-- One sticky cell: `(x, y)` is the draw on which the `do ... while` loop
ends, so the cell is empty; then `cell(x, y).type = cell_sticky`.  The result
is `none` when `(x, y)` is not such a draw. -/
def place_sticky (bd : pong_board) (x y : Int) : Option pong_board :=
  if draw_ok bd x y ∧ (bd.read (bd.cell x y)).type = .cell_empty then
    some (bd.write (bd.cell x y) ((bd.read (bd.cell x y)).set_type .cell_sticky))
  else none

/-- The loop `place sticky locations`, for the list of final draws. -/
def place_stickies : pong_board → List (Int × Int) → Option pong_board
  | bd, [] => some bd
  | bd, d :: ds =>
    match place_sticky bd d.1 d.2 with
    | none => none
    | some bd1 => place_stickies bd1 ds

/-- One iteration of the loop `place warp pairs`: `d1` and `d2` are the final
draws of the two `do ... while` loops.  The new warps get the next two
indices of `board.warps`. -/
def place_warp_pair (bd : pong_board) (d1 d2 : Int × Int) : Option pong_board :=
  if draw_ok bd d1.1 d1.2 ∧ (bd.read (bd.cell d1.1 d1.2)).type = .cell_empty then
    let b1 := bd.write (bd.cell d1.1 d1.2) ((bd.read (bd.cell d1.1 d1.2)).set_type .cell_warp)
    if draw_ok b1 d2.1 d2.2 ∧ (b1.read (b1.cell d2.1 d2.2)).type = .cell_empty then
      let b2 := b1.write (b1.cell d2.1 d2.2)
        ((b1.read (b1.cell d2.1 d2.2)).set_type .cell_warp)
      let b3 := b2.write (b2.cell d1.1 d1.2)
        ((b2.read (b2.cell d1.1 d1.2)).set_warp (some (bd.warps.length + 1)))
      let b4 := b3.write (b3.cell d2.1 d2.2)
        ((b3.read (b3.cell d2.1 d2.2)).set_warp (some bd.warps.length))
      some { b4 with warps := b4.warps ++ [{ x := d1.1, y := d1.2 }, { x := d2.1, y := d2.2 }] }
    else none
  else none

/-- The loop `place warp pairs`, for the list of final draws. -/
def place_warps : pong_board → List ((Int × Int) × (Int × Int)) → Option pong_board
  | bd, [] => some bd
  | bd, d :: ds =>
    match place_warp_pair bd d.1 d.2 with
    | none => none
    | some bd1 => place_warps bd1 ds

/-- One iteration of the loop `place balls`: `(x, y)` is the final draw of
the `do ... while` loop, `rx` and `ry` are the two draws `random_int(0, 1)`
for the velocity.  The new ball gets the next index of `balls`. -/
def place_ball (s : pong_state) (x y rx ry : Int) : Option pong_state :=
  if draw_ok s.board x y ∧
      ¬ (pong_celltype.cell_sticky.val < (s.board.read (s.board.cell x y)).type.val ∨
         (s.board.read (s.board.cell x y)).ball.isSome = true) ∧
      0 ≤ rx ∧ rx ≤ 1 ∧ 0 ≤ ry ∧ ry ≤ 1 then
    some { board := s.board.write (s.board.cell x y)
             ((s.board.read (s.board.cell x y)).set_ball (some s.balls.length))
           balls := s.balls ++ [{ x := x, y := y, dx := if rx ≠ 0 then 1 else -1,
                                  dy := if ry ≠ 0 then 1 else -1 }] }
  else none

/-- The loop `place balls`, for the list of final draws. -/
def place_balls : pong_state → List ((Int × Int) × (Int × Int)) → Option pong_state
  | s, [] => some s
  | s, d :: ds =>
    match place_ball s d.1.1 d.1.2 d.2.1 d.2.2 with
    | none => none
    | some s1 => place_balls s1 ds

/-- The final draws of a run of the setup. -/
structure script where
  stickies : List (Int × Int)
  warps : List ((Int × Int) × (Int × Int))
  balls : List ((Int × Int) × (Int × Int))
  deriving DecidableEq, Repr

/-- The script has one entry for each iteration of the three loops. -/
def script.complete (c : config) (sc : script) : Prop :=
  (sc.stickies.length : Int) = c.nsticky ∧ 2 * (sc.warps.length : Int) = c.nwarps ∧
  (sc.balls.length : Int) = c.nballs

/-- The state that `main` hands to the workers, for the given final draws. -/
def setup (c : config) (sc : script) : Option pong_state :=
  match place_stickies (initial_board c) sc.stickies with
  | none => none
  | some b1 =>
    match place_warps b1 sc.warps with
    | none => none
    | some b2 => place_balls { board := b2, balls := [] } sc.balls

/-- The cells of the rows `0 .. height - 3`, in which the setup places
sticky cells, warps and balls, are the first `width * (height - 2)` elements
of `cells`. -/
def region (bd : pong_board) : Nat := (bd.width * (bd.height - 2)).toNat

/-- Number of cells of the placement rows that are no longer as the
constructor made them. -/
def used_cells (bd : pong_board) : Nat :=
  (bd.cells.take (region bd)).countP (fun c => decide (c ≠ {}))

/-- A small configuration: `5 x 5`, one brick row, the paddle, one sticky
cell, one warp pair, two balls. -/
def small_config : config :=
  { width := 5, height := 5, nballs := 2, nsticky := 1, nwarps := 2, nbricks := 1,
    paddle := true }

/-- Final draws for `small_config`. -/
def small_script : script :=
  { stickies := [(2, 1)]
    warps := [((0, 1), (4, 2))]
    balls := [((1, 2), (0, 0)), ((2, 1), (0, 1))] }

/-- The board while the setup fills it: well formed (no ball is placed yet),
of the configured size, with at most `u` cells of the placement rows in
use. -/
def filling (c : config) (b : pong_board) (u : Nat) : Prop :=
  state_ok { board := b, balls := [] } ∧ b.width = c.width ∧ b.height = c.height ∧
  used_cells b ≤ u

/-- Every cell whose type on `b` is not `cell_empty` has the same type,
strength and warp link on `b1`. -/
def typed_cells_kept (b b1 : pong_board) : Prop :=
  ∀ r, (b.read r).type ≠ .cell_empty →
    (b1.read r).type = (b.read r).type ∧ (b1.read r).strength = (b.read r).strength ∧
    (b1.read r).warp = (b.read r).warp

/-- The state while the setup places the balls: well formed, of the
configured size, with at most `u` cells of the placement rows in use. -/
def placing (c : config) (s : pong_state) (u : Nat) : Prop :=
  state_ok s ∧ s.board.width = c.width ∧ s.board.height = c.height ∧
  used_cells s.board ≤ u

/-- The ball object that `place balls` makes for the draws `(x, y)` and
`(rx, ry)`. -/
def new_ball (x y rx ry : Int) : pong_ball :=
  { x := x, y := y, dx := if rx ≠ 0 then 1 else -1, dy := if ry ≠ 0 then 1 else -1 }

/-- The tunnels of `s` are laid out as those of `s0`: the board has the same
size, the warp objects have the same coordinates, and every warp cell of
`s0` is a warp cell of `s` with the same link. -/
def same_tunnels (s0 s : pong_state) : Prop :=
  s.board.width = s0.board.width ∧ s.board.height = s0.board.height ∧
  s.board.warps.map (fun w => (w.x, w.y)) = s0.board.warps.map (fun w => (w.x, w.y)) ∧
  ∀ r, (s0.board.read r).type = .cell_warp →
    (s.board.read r).type = .cell_warp ∧ (s.board.read r).warp = (s0.board.read r).warp

/-- The cell at `(x, n)` is a brick of the row `n` as `place bricks` makes
it. -/
def is_brick (nbricks : Int) (b : pong_board) (x n : Int) : Prop :=
  (b.read (b.cell x n)).type = .cell_obstacle ∧
  (b.read (b.cell x n)).strength = Int.tdiv (nbricks - n - 1) 2 + 1

/-- Number of sticky cells of the board. -/
def sticky_cells (b : pong_board) : Nat :=
  b.cells.countP (fun c => decide (c.type = .cell_sticky))

/-- The configuration of `./breakout61 -s 2147483647`: every other option
has its default. -/
def overflow_config : config := { nsticky := 2147483647 }

/-! ## Definitions for the branches of `move` and the cooperative loop -/

/-- The test `type >= cell_obstacle` of `move`: obstacle or paddle. -/
def obstacle_class (c : pong_cell) : Prop :=
  pong_celltype.cell_obstacle.val ≤ c.type.val

instance (c : pong_cell) : Decidable (obstacle_class c) := by
  unfold obstacle_class; infer_instance

/-- One call of `hit_obstacle` on the cell `r` when `fire` holds, none
otherwise. -/
def axis_hit (bd : pong_board) (fire : Prop) [Decidable fire] (r : cell_ref) : pong_board :=
  if fire then bd.write r (bd.read r).hit_obstacle else bd

/-- One pass of the loop of the single-threaded mode of `main`:
`for (auto b : balls) b->move();`. -/
def cooperative_pass (s : pong_state) : Option pong_state :=
  run_moves s (List.range s.balls.length)

/-- The first `n` passes of the loop `while (true)` of the single-threaded
mode. -/
def cooperative_loop : Nat → pong_state → Option pong_state
  | 0, s => some s
  | n + 1, s =>
    match cooperative_pass s with
    | none => none
    | some s1 => cooperative_loop n s1

/-- The single-threaded mode of `main` after the setup: the assertion
`nwarps == 0`, then the passes. -/
def single_threaded (c : config) (s : pong_state) (passes : Nat) : Option pong_state :=
  if c.nwarps ≠ 0 then none else cooperative_loop passes s

/-- The configuration of `./breakout61 -1 -P -w 10 -h 4 -b 1 -s 0 -B 0`. -/
def trash_config : config :=
  { width := 10, height := 4, nballs := 1, nsticky := 0, nwarps := 0, nbricks := 0,
    paddle := true }

/-- Final draws for `trash_config`: the ball at `(8,1)` with velocity
`(1,1)`, next to the gap that the paddle leaves in the row `height - 2`. -/
def trash_script : script :=
  { stickies := [], warps := [], balls := [((8, 1), (1, 1))] }

/-- A `3 x 3` board with one ball at `(1,1)` that is not stopped and has
velocity `(0,0)`. -/
def still_state : pong_state :=
  { board := (pong_board.new 3 3).write ((pong_board.new 3 3).cell 1 1) { ball := some 0 }
    balls := [{ x := 1, y := 1, dx := 0, dy := 0 }] }

/-- The first axis check of `move` fires for the ball `me`: the neighbour at
`(x + dx, y)` is an obstacle or a paddle cell (the off-board cell is an
obstacle). -/
def fires_x (s : pong_state) (me : pong_ball) : Prop :=
  obstacle_class (s.board.read (s.board.cell (me.x + me.dx) me.y))

instance (s : pong_state) (me : pong_ball) : Decidable (fires_x s me) := by
  unfold fires_x; infer_instance

/-- The second axis check of `move` fires for the ball `me`: the neighbour at
`(x, y + dy)` is an obstacle or a paddle cell. -/
def fires_y (s : pong_state) (me : pong_ball) : Prop :=
  obstacle_class (s.board.read (s.board.cell me.x (me.y + me.dy)))

instance (s : pong_state) (me : pong_ball) : Decidable (fires_y s me) := by
  unfold fires_y; infer_instance

/-- A fresh `3 x 3` board with one ball at `(x, y)` with velocity
`(dx, dy)`. -/
def axis_state (x y dx dy : Int) : pong_state :=
  { board := (pong_board.new 3 3).write ((pong_board.new 3 3).cell x y) { ball := some 0 }
    balls := [{ x := x, y := y, dx := dx, dy := dy }] }

/-- A `3 x 3` board with an obstacle of strength 2 at `(2,2)` and one ball
at `(1,1)` with velocity `(1,1)`: the two axis neighbours are empty and the
target is the obstacle. -/
def diagonal_state : pong_state :=
  let b0 := pong_board.new 3 3
  let b1 := b0.write (b0.cell 2 2) { type := .cell_obstacle, strength := 2 }
  let b2 := b1.write (b1.cell 1 1) ((b1.read (b1.cell 1 1)).set_ball (some 0))
  { board := b2, balls := [{ x := 1, y := 1, dx := 1, dy := 1 }] }

end Pong

/-! # The io61 cache (`pset4/io61.cc`) -/

namespace Io61

/-- The constant `io61_file::bufsize`. -/
def bufsize : Int := 16384

/-- The flag `O_RDONLY` of `<fcntl.h>`. -/
def O_RDONLY : Int := 0

/-- The flag `O_WRONLY` of `<fcntl.h>`. -/
def O_WRONLY : Int := 1

/-- The value `EOF` of `<cstdio>`. -/
def EOF : Int := -1

/-- The open file that a descriptor denotes, as the system calls below see
it: the bytes of the file, the file position, and whether the descriptor can
be read, written and repositioned. -/
structure kernel_file where
  data : List (Fin 256)
  pos : Nat := 0
  readable : Bool := true
  writable : Bool := false
  seekable : Bool := true
  deriving DecidableEq, Repr

/-- The system call `read(fd, buf, count)` on a file: the result, the bytes
stored in `buf`, and the file after the call.  It returns the next
`min(count, remaining)` bytes and moves the file position past them; on a
descriptor that cannot be read it returns -1. -/
def sys_read (k : kernel_file) (count : Int) : Int × List (Fin 256) × kernel_file :=
  if k.readable then
    let bytes := (k.data.drop k.pos).take count.toNat
    (bytes.length, bytes, { k with pos := k.pos + bytes.length })
  else
    (-1, [], k)

/-- The system call `lseek(fd, off, SEEK_SET)`: the result and the file
after the call.  It fails with -1 for a negative offset and on a descriptor
that cannot be repositioned. -/
def sys_lseek (k : kernel_file) (off : Int) : Int × kernel_file :=
  if k.seekable ∧ 0 ≤ off then (off, { k with pos := off.toNat }) else (-1, k)

/-- The system call `write(fd, buf, count)` with the `count` bytes `bytes`:
the result and the file after the call.  The bytes replace the contents from
the file position on (a gap before it is filled with zeros); on a descriptor
that cannot be written it returns -1. -/
def sys_write (k : kernel_file) (bytes : List (Fin 256)) : Int × kernel_file :=
  if k.writable then
    (bytes.length,
      { k with
        data := k.data.take k.pos ++ List.replicate (k.pos - k.data.length) 0 ++ bytes
                  ++ k.data.drop (k.pos + bytes.length)
        pos := k.pos + bytes.length })
  else
    (-1, k)

/-- The struct `io61_file`.  `fd` is the open file that the descriptor
denotes; `cbuf` gives the byte at each index of the array (indices below
`bufsize`). -/
structure io61_file where
  fd : kernel_file
  cbuf : Nat → Fin 256
  tag : Int
  end_tag : Int
  pos_tag : Int
  readonly : Bool
  writeonly : Bool
  md : Int

/-- The function `io61_fdopen(fd, mode)`.  `fresh` is the object as
`new io61_file` makes it: the struct has no member initialisers and no
constructor, so the members that `io61_fdopen` does not assign keep
whatever `fresh` holds. -/
def io61_fdopen (fd : kernel_file) (mode : Int) (fresh : io61_file) : io61_file :=
  { fresh with fd := fd, md := mode }

/-- The read `f->cbuf[i]`; `none` when the index is outside the array. -/
def cbuf_get (f : io61_file) (i : Int) : Option (Fin 256) :=
  if 0 ≤ i ∧ i < bufsize then some (f.cbuf i.toNat) else none

/-- The write `f->cbuf[i] = b`; `none` when the index is outside the array. -/
def cbuf_set (f : io61_file) (i : Int) (b : Fin 256) : Option io61_file :=
  if 0 ≤ i ∧ i < bufsize then some { f with cbuf := Function.update f.cbuf i.toNat b }
  else none

/-- The function `io61_fill(f)`. -/
def io61_fill (f : io61_file) : io61_file :=
  let f1 := { f with tag := f.end_tag, pos_tag := f.end_tag }
  let r := sys_read f1.fd bufsize
  let f2 := { f1 with fd := r.2.2, cbuf := fun i => r.2.1.getD i (f1.cbuf i) }
  if 0 ≤ r.1 then { f2 with end_tag := f2.tag + r.1 } else f2

/-- The loop of `io61_read`, with `n = sz - pos` iterations to go; `out` is
`buf[0 .. pos)`. -/
def io61_read_loop : Nat → io61_file → List (Fin 256) → Option (io61_file × List (Fin 256))
  | 0, f, out => some (f, out)
  | n + 1, f, out =>
    let f1 := if f.pos_tag = f.end_tag then io61_fill f else f
    if f.pos_tag = f.end_tag ∧ f1.pos_tag = f1.end_tag then
      some (f1, out)
    else
      match cbuf_get f1 (f1.pos_tag - f1.tag) with
      | none => none
      | some b => io61_read_loop n { f1 with pos_tag := f1.pos_tag + 1 } (out ++ [b])

/-- The function `io61_read(f, buf, sz)`: the file after the call and the
bytes stored in `buf`; their number is the value returned.  The result is
`none` when the call reads outside `cbuf`. -/
def io61_read (f : io61_file) (sz : Nat) : Option (io61_file × List (Fin 256)) :=
  io61_read_loop sz f []

/-- The function `io61_readc(f)`. -/
def io61_readc (f : io61_file) : Option (io61_file × Int) :=
  match io61_read f 1 with
  | none => none
  | some (f1, out) =>
    if out.length = 1 then some (f1, ((out.getD 0 0).val : Int)) else some (f1, EOF)

/-- The function `io61_flush(f)`: the file after the call and the value
returned.  The system call `write(f->fd, f->cbuf, f->pos_tag - f->tag)` reads
that many bytes of `cbuf`; the result is `none` when they are not all in the
array. -/
def io61_flush (f : io61_file) : Option (io61_file × Int) :=
  if f.md = O_RDONLY then
    some (f, 0)
  else if 0 ≤ f.pos_tag - f.tag ∧ f.pos_tag - f.tag ≤ bufsize then
    let r := sys_write f.fd ((List.range (f.pos_tag - f.tag).toNat).map f.cbuf)
    some ({ f with fd := r.2, tag := f.end_tag, pos_tag := f.end_tag }, r.1)
  else
    none

/-- The loop of `io61_write`, with the bytes `buf[pos ..]` still to go. -/
def io61_write_loop : List (Fin 256) → io61_file → Nat → Option (io61_file × Nat)
  | [], f, pos => some (f, pos)
  | b :: bs, f, pos =>
    match (if f.end_tag = f.tag + bufsize then (io61_flush f).map (fun r => r.1) else some f) with
    | none => none
    | some f1 =>
      match cbuf_set f1 (f1.pos_tag - f1.tag) b with
      | none => none
      | some f2 =>
        io61_write_loop bs { f2 with pos_tag := f2.pos_tag + 1, end_tag := f2.end_tag + 1 }
          (pos + 1)

/-- The function `io61_write(f, buf, sz)`, `buf` holding the `sz` bytes
`bytes`: the file after the call and the value returned. -/
def io61_write (f : io61_file) (bytes : List (Fin 256)) : Option (io61_file × Nat) :=
  io61_write_loop bytes f 0

/-- The function `io61_seek(f, pos)`: the file after the call and the value
returned.  `%` is the remainder of C++, which has the sign of `pos`. -/
def io61_seek (f : io61_file) (pos : Int) : Option (io61_file × Int) :=
  if f.md = O_RDONLY then
    if f.tag ≤ pos ∧ pos < f.end_tag then
      some ({ f with pos_tag := pos }, 0)
    else
      let r := sys_lseek f.fd (pos - Int.tmod pos bufsize)
      if r.1 ≠ pos - Int.tmod pos bufsize ∨ r.1 < 0 then
        some ({ f with fd := r.2 }, -1)
      else
        let f1 := { f with fd := r.2, pos_tag := pos - Int.tmod pos bufsize,
                           tag := pos - Int.tmod pos bufsize,
                           end_tag := pos - Int.tmod pos bufsize }
        some ({ io61_fill f1 with pos_tag := pos }, 0)
  else if f.md = O_WRONLY then
    match io61_flush f with
    | none => none
    | some (f1, _) =>
      let r := sys_lseek f1.fd pos
      if r.1 ≠ pos ∨ r.1 < 0 then some ({ f1 with fd := r.2 }, -1)
      else some ({ f1 with fd := r.2 }, 0)
  else
    some (f, -1)

/-- The invariant of the cache that the comments of `io61.cc` state:
`tag <= pos_tag <= end_tag` and at most `bufsize` cached bytes. -/
def cache_inv (f : io61_file) : Prop :=
  f.tag ≤ f.pos_tag ∧ f.pos_tag ≤ f.end_tag ∧ f.end_tag - f.tag ≤ bufsize

instance (f : io61_file) : Decidable (cache_inv f) := by
  unfold cache_inv; infer_instance

/-- The read cache `f` over a file with contents `F`, with `p` the offset of
the next byte to return: the file is read-only and readable, the cache
invariant holds, the cached block lies in the file, the file position of the
descriptor is `end_tag`, and the cached bytes are those of the file. -/
def reads_at (F : List (Fin 256)) (f : io61_file) (p : Int) : Prop :=
  f.md = O_RDONLY ∧ f.fd.data = F ∧ f.fd.readable = true ∧
  0 ≤ f.tag ∧ cache_inv f ∧ f.end_tag ≤ F.length ∧ (f.fd.pos : Int) = f.end_tag ∧
  f.pos_tag = p ∧
  ∀ i : Nat, f.tag ≤ i → (i : Int) < f.end_tag → F[i]? = some (f.cbuf (i - f.tag).toNat)

/-- The calls of a program that reads a file. -/
inductive io_op where
  | read (sz : Nat)
  | readc
  | seek (pos : Int)
  deriving DecidableEq, Repr

/-- What a call hands back: the bytes stored by `io61_read` (their number is
the value returned), the value of `io61_readc`, the value of `io61_seek`. -/
inductive io_res where
  | bytes (l : List (Fin 256))
  | char (c : Int)
  | status (r : Int)
  deriving DecidableEq, Repr

/-- One call on the cache. -/
def io61_step (f : io61_file) : io_op → Option (io61_file × io_res)
  | .read sz => (io61_read f sz).map (fun r => (r.1, .bytes r.2))
  | .readc => (io61_readc f).map (fun r => (r.1, .char r.2))
  | .seek pos => (io61_seek f pos).map (fun r => (r.1, .status r.2))

/-- A sequence of calls on the cache, and what each hands back. -/
def io61_run : io61_file → List io_op → Option (io61_file × List io_res)
  | f, [] => some (f, [])
  | f, o :: os =>
    match io61_step f o with
    | none => none
    | some (f1, r) =>
      match io61_run f1 os with
      | none => none
      | some (f2, rs) => some (f2, r :: rs)

/-- The same calls on the contents `F` of the file itself, from the offset
`p`: a read hands back the next `min(sz, |F| - p)` bytes, `readc` the next
byte or `EOF`, a seek sets the offset. -/
def file_run (F : List (Fin 256)) : Nat → List io_op → List io_res
  | _, [] => []
  | p, .read sz :: os =>
    .bytes ((F.drop p).take sz) :: file_run F (p + ((F.drop p).take sz).length) os
  | p, .readc :: os =>
    match F[p]? with
    | some b => .char b.val :: file_run F (p + 1) os
    | none => .char EOF :: file_run F p os
  | _, .seek pos :: os => .status 0 :: file_run F pos.toNat os

/-- A read-only cache that starts empty at offset 0 over the open file
`k`. -/
def open_read (k : kernel_file) : io61_file :=
  { fd := k, cbuf := fun _ => 0, tag := 0, end_tag := 0, pos_tag := 0,
    readonly := false, writeonly := false, md := O_RDONLY }

/-- A file of ten bytes. -/
def ten_bytes : kernel_file :=
  { data := [10, 11, 12, 13, 14, 15, 16, 17, 18, 19] }

/-- A file with no bytes. -/
def empty_file : kernel_file :=
  { data := [] }

/-- An object in storage that an earlier `io61_file`, since closed and
deleted, used: the members hold what that file left, a cache of the ten
bytes of its file with three of them read. -/
def reused_object : io61_file :=
  { fd := ten_bytes, cbuf := fun i => ten_bytes.data.getD i 0, tag := 0, end_tag := 10,
    pos_tag := 3, readonly := false, writeonly := false, md := O_RDONLY }

/-- The tags of a file and a value returned, for comparing results. -/
def tags_of (r : io61_file × Int) : Int × Int × Int × Int :=
  (r.1.tag, r.1.pos_tag, r.1.end_tag, r.2)

end Io61

namespace Pong

/-! ## The board in `int` arithmetic -/

/-- The constructor `pong_board::pong_board(w, h)` with the number of cells
`w * h` computed in `int`, as the source computes it.  The constructor of
the vector takes the number as a `size_t`; a negative `int` becomes a number
above what a vector can hold, the constructor throws `std::length_error`,
and the result is `none`. -/
def pong_board.new_int (w h : Int) : Option pong_board :=
  if int_wrap (w * h) < 0 then
    none
  else
    some
      { width := w
        height := h
        cells := List.replicate (int_wrap (w * h)).toNat {}
        obstacle_cell := { type := .cell_obstacle } }

/-- The function `pong_board::cell(x, y)` with the index
`y * this->width + x` computed in `int`, as the source computes it, and
converted to the `size_t` (64 bits) that `operator[]` of the vector takes. -/
def pong_board.cell_int (b : pong_board) (x y : Int) : cell_ref :=
  if x < 0 ∨ x ≥ b.width ∨ y < 0 ∨ y ≥ b.height then
    .obstacle_cell
  else
    .cells (int_wrap (int_wrap (y * b.width) + x) % 18446744073709551616).toNat

/-- The options `-w 1024 -h 4194307 -b 1 -s 0 -B 0`. -/
def tall_config : config :=
  { width := 1024, height := 4194307, nballs := 1, nsticky := 0, nbricks := 0 }

/-! ## Basic facts about references, reads and writes -/

@[simp] theorem write_width (b : pong_board) (r : cell_ref) (c : pong_cell) :
    (b.write r c).width = b.width := by
  cases r <;> rfl

@[simp] theorem write_height (b : pong_board) (r : cell_ref) (c : pong_cell) :
    (b.write r c).height = b.height := by
  cases r <;> rfl

@[simp] theorem write_warps (b : pong_board) (r : cell_ref) (c : pong_cell) :
    (b.write r c).warps = b.warps := by
  cases r <;> rfl

@[simp] theorem write_ncollisions (b : pong_board) (r : cell_ref) (c : pong_cell) :
    (b.write r c).ncollisions = b.ncollisions := by
  cases r <;> rfl

@[simp] theorem write_cells_length (b : pong_board) (r : cell_ref) (c : pong_cell) :
    (b.write r c).cells.length = b.cells.length := by
  cases r <;> simp [pong_board.write]

@[simp] theorem write_cell (b : pong_board) (r : cell_ref) (c : pong_cell) (x y : Int) :
    (b.write r c).cell x y = b.cell x y := by
  simp [pong_board.cell]

theorem write_obstacle_cell (b : pong_board) (r : cell_ref) (c : pong_cell) :
    (b.write r c).obstacle_cell = if r = .obstacle_cell then c else b.obstacle_cell := by
  cases r <;> simp [pong_board.write]

theorem read_write_ne (b : pong_board) (r r1 : cell_ref) (c : pong_cell) (h : r1 ≠ r) :
    (b.write r c).read r1 = b.read r1 := by
  cases r <;> cases r1 <;> simp_all [pong_board.write, pong_board.read]
  rename_i i j
  rw [List.getElem?_set_ne (fun e => h e.symm)]

theorem read_write_same (b : pong_board) (r : cell_ref) (c : pong_cell) (h : ref_ok b r) :
    (b.write r c).read r = c := by
  cases r with
  | obstacle_cell => rfl
  | cells i =>
    have hi : i < b.cells.length := h
    simp [pong_board.write, pong_board.read, List.getElem?_set_self hi]

theorem read_write_bad (b : pong_board) (r : cell_ref) (c : pong_cell) (h : ¬ ref_ok b r) :
    b.write r c = b := by
  cases r with
  | obstacle_cell => exact absurd trivial h
  | cells i =>
    have hi : b.cells.length ≤ i := Nat.le_of_not_lt h
    simp [pong_board.write, List.set_eq_of_length_le hi]

theorem read_write (b : pong_board) (r r1 : cell_ref) (c : pong_cell) :
    (b.write r c).read r1 = if r1 = r ∧ ref_ok b r then c else b.read r1 := by
  by_cases h : r1 = r
  · subst h
    by_cases hv : ref_ok b r1
    · simp [hv, read_write_same]
    · simp [hv, read_write_bad]
  · simp [h, read_write_ne]

theorem cell_in_bounds (b : pong_board) (x y : Int) (h : b.in_bounds x y) :
    b.cell x y = .cells (y * b.width + x).toNat := by
  obtain ⟨h1, h2, h3, h4⟩ := h
  unfold pong_board.cell
  rw [if_neg]
  omega

theorem cell_off_board (b : pong_board) (x y : Int) (h : ¬ b.in_bounds x y) :
    b.cell x y = .obstacle_cell := by
  unfold pong_board.cell
  rw [if_pos]
  unfold pong_board.in_bounds at h
  omega

theorem cell_eq_obstacle_iff (b : pong_board) (x y : Int) :
    b.cell x y = .obstacle_cell ↔ ¬ b.in_bounds x y := by
  constructor
  · intro h hb
    rw [cell_in_bounds b x y hb] at h
    cases h
  · exact cell_off_board b x y

theorem index_bounds (w h x y : Int) (h1 : 0 ≤ x) (h2 : x < w) (h3 : 0 ≤ y) (h4 : y < h) :
    0 ≤ y * w + x ∧ y * w + x < w * h := by
  have hw : 0 < w := by omega
  constructor
  · have : 0 ≤ y * w := Int.mul_nonneg h3 (by omega)
    omega
  · have h5 : y + 1 ≤ h := by omega
    have h6 : w * (y + 1) ≤ w * h := Int.mul_le_mul_of_nonneg_left h5 (by omega)
    have h7 : w * (y + 1) = y * w + w := by ring
    omega

theorem index_inj (w x y x1 y1 : Int) (h1 : 0 ≤ x) (h2 : x < w) (h3 : 0 ≤ x1) (h4 : x1 < w)
    (he : y1 * w + x1 = y * w + x) : x1 = x ∧ y1 = y := by
  have hy : y1 = y := by
    rcases lt_trichotomy y1 y with hlt | heq | hgt
    · exfalso
      have h5 : y1 + 1 ≤ y := by omega
      have h6 : (y1 + 1) * w ≤ y * w := Int.mul_le_mul_of_nonneg_right h5 (by omega)
      have h7 : (y1 + 1) * w = y1 * w + w := by ring
      omega
    · exact heq
    · exfalso
      have h5 : y + 1 ≤ y1 := by omega
      have h6 : (y + 1) * w ≤ y1 * w := Int.mul_le_mul_of_nonneg_right h5 (by omega)
      have h7 : (y + 1) * w = y * w + w := by ring
      omega
  subst hy
  exact ⟨by omega, rfl⟩

theorem cell_inj (b : pong_board) (x y x1 y1 : Int) (h : b.in_bounds x y)
    (h1 : b.in_bounds x1 y1) (he : b.cell x1 y1 = b.cell x y) : x1 = x ∧ y1 = y := by
  rw [cell_in_bounds b x y h, cell_in_bounds b x1 y1 h1] at he
  obtain ⟨a1, a2, a3, a4⟩ := h
  obtain ⟨c1, c2, c3, c4⟩ := h1
  have i1 := index_bounds b.width b.height x y a1 a2 a3 a4
  have i2 := index_bounds b.width b.height x1 y1 c1 c2 c3 c4
  have he1 : (y1 * b.width + x1).toNat = (y * b.width + x).toNat := by
    injection he
  have he2 : y1 * b.width + x1 = y * b.width + x := by omega
  exact index_inj b.width x y x1 y1 a1 a2 c1 c2 he2

theorem cell_ref_ok (b : pong_board) (hb : board_ok b) (x y : Int) : ref_ok b (b.cell x y) := by
  by_cases h : b.in_bounds x y
  · rw [cell_in_bounds b x y h]
    obtain ⟨a1, a2, a3, a4⟩ := h
    have i1 := index_bounds b.width b.height x y a1 a2 a3 a4
    show _ < b.cells.length
    rw [hb]
    omega
  · rw [cell_off_board b x y h]
    trivial

/-! ## The cell lookup -/

theorem new_board_ok (w h : Int) : board_ok (pong_board.new w h) := by
  simp [board_ok, pong_board.new]

theorem read_cells_eq (b : pong_board) (n : Nat) (h : n < b.cells.length) :
    b.cells[n]? = some (b.read (.cells n)) := by
  simp [pong_board.read, List.getElem?_eq_getElem h]

/-- The lookup with the exact index: an out-of-range coordinate pair denotes
the one `obstacle_cell`; an in-range pair denotes the element of `cells` at
the row-major index `y * width + x`, this index is non-negative and below
`width * height` (so, on a board whose vector has `width * height` elements,
the element exists), and no other in-range pair denotes the same element. -/
theorem cell_lookup (b : pong_board) (x y : Int) :
    ((x < 0 ∨ x ≥ b.width ∨ y < 0 ∨ y ≥ b.height) →
      b.cell x y = .obstacle_cell ∧ b.read (b.cell x y) = b.obstacle_cell) ∧
    (¬ (x < 0 ∨ x ≥ b.width ∨ y < 0 ∨ y ≥ b.height) →
      b.cell x y = .cells (y * b.width + x).toNat ∧
      ((y * b.width + x).toNat : Int) = y * b.width + x ∧
      y * b.width + x < b.width * b.height ∧
      (board_ok b →
        b.cells[(y * b.width + x).toNat]? = some (b.read (b.cell x y))) ∧
      ∀ x1 y1 : Int, ¬ (x1 < 0 ∨ x1 ≥ b.width ∨ y1 < 0 ∨ y1 ≥ b.height) →
        (x1 ≠ x ∨ y1 ≠ y) → b.cell x1 y1 ≠ b.cell x y) := by
  constructor
  · intro h
    have hc : b.cell x y = .obstacle_cell := by
      unfold pong_board.cell
      rw [if_pos h]
    rw [hc]
    exact ⟨rfl, rfl⟩
  · intro h
    have hb : b.in_bounds x y := by
      unfold pong_board.in_bounds
      omega
    have hc := cell_in_bounds b x y hb
    obtain ⟨a1, a2, a3, a4⟩ := hb
    have hi := index_bounds b.width b.height x y a1 a2 a3 a4
    refine ⟨hc, by omega, hi.2, ?_, ?_⟩
    · intro hok
      rw [hc]
      apply read_cells_eq
      rw [hok]
      omega
    · intro x1 y1 h1 hne he
      have hb1 : b.in_bounds x1 y1 := by
        unfold pong_board.in_bounds
        omega
      have := cell_inj b x y x1 y1 ⟨a1, a2, a3, a4⟩ hb1 he
      omega

theorem cell_lookup_witness :
    (pong_board.new 10 10).cell 5 5 = .cells 55 ∧
    (pong_board.new 10 10).cell 4 5 ≠ (pong_board.new 10 10).cell 5 5 ∧
    (pong_board.new 10 10).cell 10 5 = .obstacle_cell :=
  ⟨((cell_lookup (pong_board.new 10 10) 5 5).2 (by decide)).1,
   ((cell_lookup (pong_board.new 10 10) 5 5).2 (by decide)).2.2.2.2 4 5 (by decide) (by decide),
   ((cell_lookup (pong_board.new 10 10) 10 5).1 (by decide)).1⟩

/-! ## Obstacle decay -/

theorem hit_obstacle_ball (c : pong_cell) : c.hit_obstacle.ball = c.ball := by
  unfold pong_cell.hit_obstacle
  split_ifs <;> rfl

theorem hit_obstacle_warp (c : pong_cell) : c.hit_obstacle.warp = c.warp := by
  unfold pong_cell.hit_obstacle
  split_ifs <;> rfl

theorem hit_obstacle_other (c : pong_cell) (h : c.type ≠ .cell_obstacle) :
    c.hit_obstacle = c := by
  unfold pong_cell.hit_obstacle
  rw [if_neg]
  exact fun hc => h hc.1

theorem hit_obstacle_zero (c : pong_cell) (h : c.strength = 0) : c.hit_obstacle = c := by
  unfold pong_cell.hit_obstacle
  rw [if_neg]
  exact fun hc => hc.2 h

theorem hit_times_other (k : Nat) (c : pong_cell) (h : c.type ≠ .cell_obstacle) :
    hit_times k c = c := by
  induction k with
  | zero => rfl
  | succ k ih =>
    show hit_times k c.hit_obstacle = c
    rw [hit_obstacle_other c h]
    exact ih

/-- C2: an obstacle cell of strength `N >= 1` is, after `k` calls of
`hit_obstacle`, still an obstacle of strength `N - k` when `k < N`, and an
empty cell of strength `0` when `k >= N`; no other field changes. -/
theorem obstacle_decay (k : Nat) (c : pong_cell) (N : Int)
    (ht : c.type = .cell_obstacle) (hs : c.strength = N) (hN : 1 ≤ N) :
    ((k : Int) < N → hit_times k c = { c with strength := N - k }) ∧
    (N ≤ (k : Int) → hit_times k c = { c with type := .cell_empty, strength := 0 }) ∧
    0 ≤ (hit_times k c).strength := by
  have key : ∀ (k : Nat) (c : pong_cell) (N : Int), c.type = .cell_obstacle →
      c.strength = N → 1 ≤ N →
      ((k : Int) < N → hit_times k c = { c with strength := N - k }) ∧
      (N ≤ (k : Int) → hit_times k c = { c with type := .cell_empty, strength := 0 }) := by
    clear ht hs hN c N k
    intro k
    induction k with
    | zero =>
      intro c N ht hs hN
      constructor
      · intro _
        show c = _
        cases c
        simp_all
      · intro h
        omega
    | succ k ih =>
      intro c N ht hs hN
      by_cases h1 : N = 1
      · have hc : c.hit_obstacle = { c with type := .cell_empty, strength := 0 } := by
          unfold pong_cell.hit_obstacle
          rw [if_pos ⟨ht, by omega⟩, if_pos (by omega)]
          cases c
          simp_all
        constructor
        · intro h
          push_cast at h
          omega
        · intro _
          show hit_times k c.hit_obstacle = _
          rw [hc]
          exact hit_times_other k _ (by simp)
      · have hc : c.hit_obstacle = { c with strength := N - 1 } := by
          unfold pong_cell.hit_obstacle
          rw [if_pos ⟨ht, by omega⟩, if_neg (by omega), hs]
        have ih1 := ih { c with strength := N - 1 } (N - 1) ht rfl (by omega)
        constructor
        · intro h
          push_cast at h
          show hit_times k c.hit_obstacle = _
          rw [hc, ih1.1 (by omega)]
          simp only [pong_cell.mk.injEq, true_and, and_true]
          push_cast
          ring
        · intro h
          push_cast at h
          show hit_times k c.hit_obstacle = _
          rw [hc, ih1.2 (by omega)]
  have hk := key k c N ht hs hN
  refine ⟨hk.1, hk.2, ?_⟩
  by_cases hlt : (k : Int) < N
  · rw [hk.1 hlt]
    show 0 ≤ N - (k : Int)
    omega
  · rw [hk.2 (by omega)]

theorem obstacle_decay_witness :
    hit_times 2 { type := .cell_obstacle, strength := 3 }
        = { type := .cell_obstacle, strength := 1 } ∧
    hit_times 3 { type := .cell_obstacle, strength := 3 }
        = { type := .cell_empty, strength := 0 } :=
  ⟨(obstacle_decay 2 { type := .cell_obstacle, strength := 3 } 3 rfl rfl (by decide)).1
      (by decide),
   (obstacle_decay 3 { type := .cell_obstacle, strength := 3 } 3 rfl rfl (by decide)).2.1
      (by decide)⟩

/-! ## Frame facts of the two axis checks -/

theorem check_x_eq (bd : pong_board) (m : pong_ball) :
    check_x bd m =
      if pong_celltype.cell_obstacle.val ≤ (bd.read (bd.cell (m.x + m.dx) m.y)).type.val then
        (bd.write (bd.cell (m.x + m.dx) m.y) (bd.read (bd.cell (m.x + m.dx) m.y)).hit_obstacle,
          { m with dx := -m.dx })
      else (bd, m) := rfl

theorem check_y_eq (bd : pong_board) (m : pong_ball) :
    check_y bd m =
      if pong_celltype.cell_obstacle.val ≤ (bd.read (bd.cell m.x (m.y + m.dy))).type.val then
        (bd.write (bd.cell m.x (m.y + m.dy)) (bd.read (bd.cell m.x (m.y + m.dy))).hit_obstacle,
          { m with dy := -m.dy })
      else (bd, m) := rfl

@[simp] theorem check_x_width (bd : pong_board) (m : pong_ball) :
    (check_x bd m).1.width = bd.width := by
  rw [check_x_eq]; split_ifs <;> simp

@[simp] theorem check_x_height (bd : pong_board) (m : pong_ball) :
    (check_x bd m).1.height = bd.height := by
  rw [check_x_eq]; split_ifs <;> simp

@[simp] theorem check_x_warps (bd : pong_board) (m : pong_ball) :
    (check_x bd m).1.warps = bd.warps := by
  rw [check_x_eq]; split_ifs <;> simp

@[simp] theorem check_x_ncollisions (bd : pong_board) (m : pong_ball) :
    (check_x bd m).1.ncollisions = bd.ncollisions := by
  rw [check_x_eq]; split_ifs <;> simp

@[simp] theorem check_x_cells_length (bd : pong_board) (m : pong_ball) :
    (check_x bd m).1.cells.length = bd.cells.length := by
  rw [check_x_eq]; split_ifs <;> simp

@[simp] theorem check_x_cell (bd : pong_board) (m : pong_ball) (x y : Int) :
    (check_x bd m).1.cell x y = bd.cell x y := by
  simp [pong_board.cell]

@[simp] theorem check_x_x (bd : pong_board) (m : pong_ball) : (check_x bd m).2.x = m.x := by
  rw [check_x_eq]; split_ifs <;> rfl

@[simp] theorem check_x_y (bd : pong_board) (m : pong_ball) : (check_x bd m).2.y = m.y := by
  rw [check_x_eq]; split_ifs <;> rfl

@[simp] theorem check_x_dy (bd : pong_board) (m : pong_ball) : (check_x bd m).2.dy = m.dy := by
  rw [check_x_eq]; split_ifs <;> rfl

@[simp] theorem check_x_stopped (bd : pong_board) (m : pong_ball) :
    (check_x bd m).2.stopped = m.stopped := by
  rw [check_x_eq]; split_ifs <;> rfl

theorem hit_write_ball (bd : pong_board) (r r1 : cell_ref) :
    ((bd.write r (bd.read r).hit_obstacle).read r1).ball = (bd.read r1).ball := by
  rw [read_write]
  split_ifs with h
  · rw [hit_obstacle_ball, h.1]
  · rfl

theorem hit_write_warp (bd : pong_board) (r r1 : cell_ref) :
    ((bd.write r (bd.read r).hit_obstacle).read r1).warp = (bd.read r1).warp := by
  rw [read_write]
  split_ifs with h
  · rw [hit_obstacle_warp, h.1]
  · rfl

theorem hit_write_obstacle_cell (bd : pong_board) (r : cell_ref)
    (h : bd.obstacle_cell = fresh_obstacle_cell) :
    (bd.write r (bd.read r).hit_obstacle).obstacle_cell = fresh_obstacle_cell := by
  rw [write_obstacle_cell]
  split_ifs with hr
  · subst hr
    show bd.obstacle_cell.hit_obstacle = _
    rw [h]
    rfl
  · exact h

@[simp] theorem check_x_ball (bd : pong_board) (m : pong_ball) (r : cell_ref) :
    ((check_x bd m).1.read r).ball = (bd.read r).ball := by
  rw [check_x_eq]; split_ifs
  · exact hit_write_ball bd _ r
  · rfl

@[simp] theorem check_x_warp (bd : pong_board) (m : pong_ball) (r : cell_ref) :
    ((check_x bd m).1.read r).warp = (bd.read r).warp := by
  rw [check_x_eq]; split_ifs
  · exact hit_write_warp bd _ r
  · rfl

theorem check_x_obstacle_cell (bd : pong_board) (m : pong_ball)
    (h : bd.obstacle_cell = fresh_obstacle_cell) :
    (check_x bd m).1.obstacle_cell = fresh_obstacle_cell := by
  rw [check_x_eq]; split_ifs
  · exact hit_write_obstacle_cell bd _ h
  · exact h

@[simp] theorem check_y_width (bd : pong_board) (m : pong_ball) :
    (check_y bd m).1.width = bd.width := by
  rw [check_y_eq]; split_ifs <;> simp

@[simp] theorem check_y_height (bd : pong_board) (m : pong_ball) :
    (check_y bd m).1.height = bd.height := by
  rw [check_y_eq]; split_ifs <;> simp

@[simp] theorem check_y_warps (bd : pong_board) (m : pong_ball) :
    (check_y bd m).1.warps = bd.warps := by
  rw [check_y_eq]; split_ifs <;> simp

@[simp] theorem check_y_ncollisions (bd : pong_board) (m : pong_ball) :
    (check_y bd m).1.ncollisions = bd.ncollisions := by
  rw [check_y_eq]; split_ifs <;> simp

@[simp] theorem check_y_cells_length (bd : pong_board) (m : pong_ball) :
    (check_y bd m).1.cells.length = bd.cells.length := by
  rw [check_y_eq]; split_ifs <;> simp

@[simp] theorem check_y_cell (bd : pong_board) (m : pong_ball) (x y : Int) :
    (check_y bd m).1.cell x y = bd.cell x y := by
  simp [pong_board.cell]

@[simp] theorem check_y_x (bd : pong_board) (m : pong_ball) : (check_y bd m).2.x = m.x := by
  rw [check_y_eq]; split_ifs <;> rfl

@[simp] theorem check_y_y (bd : pong_board) (m : pong_ball) : (check_y bd m).2.y = m.y := by
  rw [check_y_eq]; split_ifs <;> rfl

@[simp] theorem check_y_dx (bd : pong_board) (m : pong_ball) : (check_y bd m).2.dx = m.dx := by
  rw [check_y_eq]; split_ifs <;> rfl

@[simp] theorem check_y_stopped (bd : pong_board) (m : pong_ball) :
    (check_y bd m).2.stopped = m.stopped := by
  rw [check_y_eq]; split_ifs <;> rfl

@[simp] theorem check_y_ball (bd : pong_board) (m : pong_ball) (r : cell_ref) :
    ((check_y bd m).1.read r).ball = (bd.read r).ball := by
  rw [check_y_eq]; split_ifs
  · exact hit_write_ball bd _ r
  · rfl

@[simp] theorem check_y_warp (bd : pong_board) (m : pong_ball) (r : cell_ref) :
    ((check_y bd m).1.read r).warp = (bd.read r).warp := by
  rw [check_y_eq]; split_ifs
  · exact hit_write_warp bd _ r
  · rfl

theorem check_y_obstacle_cell (bd : pong_board) (m : pong_ball)
    (h : bd.obstacle_cell = fresh_obstacle_cell) :
    (check_y bd m).1.obstacle_cell = fresh_obstacle_cell := by
  rw [check_y_eq]; split_ifs
  · exact hit_write_obstacle_cell bd _ h
  · exact h

/-- Unfolding of `move` for a ball that passes the `stopped` test and the
assertion. -/
theorem move_eq (s : pong_state) (i : Nat) (me : pong_ball) (hi : s.balls[i]? = some me)
    (hs : me.stopped = false) (ha : (s.board.read (s.board.cell me.x me.y)).ball = some i) :
    pong_ball.move s i =
      move_target (check_y (check_x s.board me).1 (check_x s.board me).2).1 s.balls i
        (check_y (check_x s.board me).1 (check_x s.board me).2).2 (s.board.cell me.x me.y) := by
  unfold pong_ball.move
  simp [hi, hs, ha]

/-- What a returning call of `move` went through. -/
theorem move_cases (s : pong_state) (i : Nat) (s1 : pong_state) (r : Int)
    (h : pong_ball.move s i = some (s1, r)) :
    ∃ me, s.balls[i]? = some me ∧
      ((me.stopped = true ∧ s1 = s ∧ r = 0) ∨
       (me.stopped = false ∧ (s.board.read (s.board.cell me.x me.y)).ball = some i ∧
        move_target (check_y (check_x s.board me).1 (check_x s.board me).2).1 s.balls i
          (check_y (check_x s.board me).1 (check_x s.board me).2).2 (s.board.cell me.x me.y)
          = some (s1, r))) := by
  unfold pong_ball.move at h
  split at h
  · cases h
  · rename_i me hme
    refine ⟨me, hme, ?_⟩
    by_cases hs : me.stopped = true
    · left
      simp [hs] at h
      exact ⟨hs, h.1.symm, h.2.symm⟩
    · right
      have hs1 : me.stopped = false := by simpa using hs
      by_cases ha : (s.board.read (s.board.cell me.x me.y)).ball = some i
      · simp [hs1, ha] at h
        exact ⟨hs1, ha, h⟩
      · simp [hs1, ha] at h

/-- The first test of `move`: a stopped ball returns at once. -/
theorem move_stopped (s : pong_state) (i : Nat) (me : pong_ball)
    (hi : s.balls[i]? = some me) (hs : me.stopped = true) :
    pong_ball.move s i = some (s, 0) := by
  unfold pong_ball.move
  simp [hi, hs]

/-- C6: a call of `move` by a stopped ball returns 0 and leaves the whole
state (every cell, every ball, every warp slot, the collision counter) as it
was. -/
theorem stopped_move_noop (s : pong_state) (i : Nat) (me : pong_ball)
    (hi : s.balls[i]? = some me) (hs : me.stopped = true) :
    pong_ball.move s i = some (s, 0) := by
  unfold pong_ball.move
  simp [hi, hs]

theorem stopped_move_noop_witness :
    pong_ball.move ⟨pong_board.new 3 3, [{ stopped := true, x := 1, y := 1 }]⟩ 0
      = some (⟨pong_board.new 3 3, [{ stopped := true, x := 1, y := 1 }]⟩, 0) :=
  stopped_move_noop ⟨pong_board.new 3 3, [{ stopped := true, x := 1, y := 1 }]⟩ 0
    { stopped := true, x := 1, y := 1 } rfl rfl

/-! ## The branches of `move` on the target cell, one equation each -/

@[simp] theorem set_ball_type_cell (c : pong_cell) (b : Option Nat) :
    (c.set_ball b).type = c.type := rfl

@[simp] theorem set_ball_strength_cell (c : pong_cell) (b : Option Nat) :
    (c.set_ball b).strength = c.strength := rfl

@[simp] theorem set_ball_warp_cell (c : pong_cell) (b : Option Nat) :
    (c.set_ball b).warp = c.warp := rfl

@[simp] theorem set_ball_ball_cell (c : pong_cell) (b : Option Nat) :
    (c.set_ball b).ball = b := rfl

@[simp] theorem set_type_type_cell (c : pong_cell) (t : pong_celltype) :
    (c.set_type t).type = t := rfl

@[simp] theorem set_type_strength_cell (c : pong_cell) (t : pong_celltype) :
    (c.set_type t).strength = c.strength := rfl

@[simp] theorem set_type_warp_cell (c : pong_cell) (t : pong_celltype) :
    (c.set_type t).warp = c.warp := rfl

@[simp] theorem set_type_ball_cell (c : pong_cell) (t : pong_celltype) :
    (c.set_type t).ball = c.ball := rfl

theorem set_ball_type (bd : pong_board) (r r1 : cell_ref) (b : Option Nat) :
    ((bd.write r ((bd.read r).set_ball b)).read r1).type = (bd.read r1).type := by
  rw [read_write]
  split_ifs with h
  · rw [h.1]
    rfl
  · rfl

theorem set_ball_strength (bd : pong_board) (r r1 : cell_ref) (b : Option Nat) :
    ((bd.write r ((bd.read r).set_ball b)).read r1).strength = (bd.read r1).strength := by
  rw [read_write]
  split_ifs with h
  · rw [h.1]
    rfl
  · rfl

theorem set_ball_warp (bd : pong_board) (r r1 : cell_ref) (b : Option Nat) :
    ((bd.write r ((bd.read r).set_ball b)).read r1).warp = (bd.read r1).warp := by
  rw [read_write]
  split_ifs with h
  · rw [h.1]
    rfl
  · rfl

theorem move_target_collision (bd : pong_board) (balls : List pong_ball) (i : Nat)
    (m : pong_ball) (ccur : cell_ref) (j : Nat)
    (hb : (bd.read (bd.cell (m.x + m.dx) (m.y + m.dy))).ball = some j) :
    move_target bd balls i m ccur =
      (collide (balls.set i m) i j).map
        (fun bs => (({ board := { bd with ncollisions := bd.ncollisions + 1 }, balls := bs }
          : pong_state), (0 : Int))) := by
  simp only [move_target, hb]
  cases collide (balls.set i m) i j <;> rfl

theorem move_target_warp (bd : pong_board) (balls : List pong_ball) (i : Nat)
    (m : pong_ball) (ccur : cell_ref)
    (hb : (bd.read (bd.cell (m.x + m.dx) (m.y + m.dy))).ball = none)
    (ht : (bd.read (bd.cell (m.x + m.dx) (m.y + m.dy))).type = .cell_warp) :
    move_target bd balls i m ccur =
      ((bd.read (bd.cell (m.x + m.dx) (m.y + m.dy))).warp).bind fun k =>
        (bd.warps[k]?).bind fun w =>
          (w.accept_ball i).map fun w1 =>
            (({ board := { bd.write ccur ((bd.read ccur).set_ball none) with
                  warps := bd.warps.set k w1 },
                balls := balls.set i { m with stopped := true } } : pong_state), (0 : Int)) := by
  simp only [move_target, hb, ht, if_true, set_ball_warp, write_warps]
  cases (bd.read (bd.cell (m.x + m.dx) (m.y + m.dy))).warp with
  | none => rfl
  | some k =>
    simp only [Option.some_bind]
    cases bd.warps[k]? with
    | none => rfl
    | some w =>
      simp only [Option.some_bind]
      cases w.accept_ball i <;> rfl

theorem move_target_trash (bd : pong_board) (balls : List pong_ball) (i : Nat)
    (m : pong_ball) (ccur : cell_ref)
    (hb : (bd.read (bd.cell (m.x + m.dx) (m.y + m.dy))).ball = none)
    (ht : (bd.read (bd.cell (m.x + m.dx) (m.y + m.dy))).type = .cell_trash) :
    move_target bd balls i m ccur =
      some ({ board := bd.write ccur ((bd.read ccur).set_ball none),
              balls := balls.set i m }, -1) := by
  simp [move_target, hb, ht]

theorem move_target_obstacle (bd : pong_board) (balls : List pong_ball) (i : Nat)
    (m : pong_ball) (ccur : cell_ref)
    (hb : (bd.read (bd.cell (m.x + m.dx) (m.y + m.dy))).ball = none)
    (ht : pong_celltype.cell_obstacle.val
            ≤ (bd.read (bd.cell (m.x + m.dx) (m.y + m.dy))).type.val) :
    move_target bd balls i m ccur =
      some ({ board := bd.write (bd.cell (m.x + m.dx) (m.y + m.dy))
                (bd.read (bd.cell (m.x + m.dx) (m.y + m.dy))).hit_obstacle,
              balls := balls.set i { m with dx := -m.dx, dy := -m.dy } }, 0) := by
  have h1 : (bd.read (bd.cell (m.x + m.dx) (m.y + m.dy))).type ≠ .cell_warp := by
    intro h; rw [h] at ht; exact absurd ht (by decide)
  have h2 : (bd.read (bd.cell (m.x + m.dx) (m.y + m.dy))).type ≠ .cell_trash := by
    intro h; rw [h] at ht; exact absurd ht (by decide)
  simp only [move_target, hb, if_neg h1, if_neg h2, if_pos ht]

theorem move_target_free (bd : pong_board) (balls : List pong_ball) (i : Nat)
    (m : pong_ball) (ccur : cell_ref)
    (hb : (bd.read (bd.cell (m.x + m.dx) (m.y + m.dy))).ball = none)
    (ht : (bd.read (bd.cell (m.x + m.dx) (m.y + m.dy))).type = .cell_empty ∨
          (bd.read (bd.cell (m.x + m.dx) (m.y + m.dy))).type = .cell_sticky) :
    move_target bd balls i m ccur =
      some ({ board :=
                (bd.write ccur ((bd.read ccur).set_ball none)).write
                  (bd.cell (m.x + m.dx) (m.y + m.dy))
                  (((bd.write ccur ((bd.read ccur).set_ball none)).read
                      (bd.cell (m.x + m.dx) (m.y + m.dy))).set_ball (some i)),
              balls := balls.set i
                (if (bd.read (bd.cell (m.x + m.dx) (m.y + m.dy))).type = .cell_sticky then
                  { m with x := m.x + m.dx, y := m.y + m.dy, dx := 0, dy := 0, stopped := true }
                else { m with x := m.x + m.dx, y := m.y + m.dy }) }, 1) := by
  have h1 : (bd.read (bd.cell (m.x + m.dx) (m.y + m.dy))).type ≠ .cell_warp := by
    intro h; rw [h] at ht; simp at ht
  have h2 : (bd.read (bd.cell (m.x + m.dx) (m.y + m.dy))).type ≠ .cell_trash := by
    intro h; rw [h] at ht; simp at ht
  have h3 : ¬ pong_celltype.cell_obstacle.val
      ≤ (bd.read (bd.cell (m.x + m.dx) (m.y + m.dy))).type.val := by
    rcases ht with h | h <;> rw [h] <;> decide
  simp only [move_target, hb, if_neg h1, if_neg h2, if_neg h3]
  rw [set_ball_type, set_ball_type]

/-- The five cases of the target cell. -/
theorem target_cases (c : pong_cell) :
    (∃ j, c.ball = some j) ∨
    (c.ball = none ∧ c.type = .cell_warp) ∨
    (c.ball = none ∧ c.type = .cell_trash) ∨
    (c.ball = none ∧ pong_celltype.cell_obstacle.val ≤ c.type.val) ∨
    (c.ball = none ∧ (c.type = .cell_empty ∨ c.type = .cell_sticky)) := by
  cases hb : c.ball with
  | some j => exact Or.inl ⟨j, rfl⟩
  | none =>
    right
    cases ht : c.type <;> simp [pong_celltype.val]

/-! ## The off-board cell -/

theorem clear_ball_obstacle_cell (bd : pong_board) (r : cell_ref)
    (h : bd.obstacle_cell = fresh_obstacle_cell) :
    (bd.write r ((bd.read r).set_ball none)).obstacle_cell = fresh_obstacle_cell := by
  rw [write_obstacle_cell]
  split_ifs with hr
  · subst hr
    show bd.obstacle_cell.set_ball none = _
    rw [h]
    rfl
  · exact h

theorem move_target_obstacle_cell (bd : pong_board) (balls : List pong_ball) (i : Nat)
    (m : pong_ball) (ccur : cell_ref) (s1 : pong_state) (r : Int)
    (h0 : bd.obstacle_cell = fresh_obstacle_cell)
    (h : move_target bd balls i m ccur = some (s1, r)) :
    s1.board.obstacle_cell = fresh_obstacle_cell := by
  rcases target_cases (bd.read (bd.cell (m.x + m.dx) (m.y + m.dy))) with
    ⟨j, hb⟩ | ⟨hb, ht⟩ | ⟨hb, ht⟩ | ⟨hb, ht⟩ | ⟨hb, ht⟩
  · rw [move_target_collision bd balls i m ccur j hb] at h
    cases hc : collide (balls.set i m) i j with
    | none => rw [hc] at h; cases h
    | some bs =>
      rw [hc] at h
      cases h
      exact h0
  · rw [move_target_warp bd balls i m ccur hb ht] at h
    cases hw : (bd.read (bd.cell (m.x + m.dx) (m.y + m.dy))).warp with
    | none => rw [hw] at h; cases h
    | some k =>
      rw [hw] at h
      simp only [Option.some_bind] at h
      cases hk : bd.warps[k]? with
      | none => rw [hk] at h; cases h
      | some w =>
        rw [hk] at h
        simp only [Option.some_bind] at h
        cases ha : w.accept_ball i with
        | none => rw [ha] at h; cases h
        | some w1 =>
          rw [ha] at h
          cases h
          exact clear_ball_obstacle_cell bd ccur h0
  · rw [move_target_trash bd balls i m ccur hb ht] at h
    cases h
    exact clear_ball_obstacle_cell bd ccur h0
  · rw [move_target_obstacle bd balls i m ccur hb ht] at h
    cases h
    exact hit_write_obstacle_cell bd _ h0
  · rw [move_target_free bd balls i m ccur hb ht] at h
    cases h
    show (pong_board.write _ _ _).obstacle_cell = _
    rw [write_obstacle_cell]
    split_ifs with hr
    · exfalso
      rw [hr] at ht
      have ht1 : bd.obstacle_cell.type = .cell_empty ∨ bd.obstacle_cell.type = .cell_sticky := ht
      rw [h0] at ht1
      revert ht1
      decide
    · exact clear_ball_obstacle_cell bd ccur h0

theorem move_obstacle_cell (s : pong_state) (i : Nat) (s1 : pong_state) (r : Int)
    (h0 : s.board.obstacle_cell = fresh_obstacle_cell)
    (h : pong_ball.move s i = some (s1, r)) :
    s1.board.obstacle_cell = fresh_obstacle_cell := by
  obtain ⟨me, _, hc⟩ := move_cases s i s1 r h
  rcases hc with ⟨_, hs, _⟩ | ⟨_, _, ht⟩
  · rw [hs]
    exact h0
  · exact move_target_obstacle_cell _ _ _ _ _ _ _
      (check_y_obstacle_cell _ _ (check_x_obstacle_cell _ _ h0)) ht

/-- C3: if the off-board cell is as the constructor leaves it (type
obstacle, strength 0, no occupant, no warp), then after any sequence of
`move()` calls by any balls it is still exactly that cell, and every
off-board coordinate still reads it. -/
theorem sentinel_unchanged (s : pong_state) (l : List Nat) (s1 : pong_state)
    (h0 : s.board.obstacle_cell = fresh_obstacle_cell)
    (h : run_moves s l = some s1) :
    s1.board.obstacle_cell = fresh_obstacle_cell ∧
    s1.board.obstacle_cell.type = .cell_obstacle ∧
    s1.board.obstacle_cell.strength = 0 ∧
    s1.board.obstacle_cell.ball = none ∧
    ∀ x y : Int, ¬ s1.board.in_bounds x y →
      s1.board.read (s1.board.cell x y) = fresh_obstacle_cell := by
  have key : s1.board.obstacle_cell = fresh_obstacle_cell := by
    induction l generalizing s with
    | nil =>
      simp only [run_moves, Option.some.injEq] at h
      rw [← h]
      exact h0
    | cons i is ih =>
      simp only [run_moves] at h
      split at h
      · cases h
      · rename_i s2 r hm
        exact ih s2 (move_obstacle_cell s i s2 r h0 hm) h
  refine ⟨key, ?_, ?_, ?_, ?_⟩
  · rw [key]; rfl
  · rw [key]; rfl
  · rw [key]; rfl
  · intro x y hxy
    rw [cell_off_board _ x y hxy]
    exact key

theorem sentinel_unchanged_witness :
    ∃ s1, run_moves corner_state [0, 0, 0, 0] = some s1 ∧
      s1.board.obstacle_cell = fresh_obstacle_cell :=
  ⟨(run_moves corner_state [0, 0, 0, 0]).get (by decide), by decide,
    (sentinel_unchanged corner_state [0, 0, 0, 0] _ (by decide)
      (Option.some_get (by decide)).symm).1⟩

/-! ## Preservation of well-formedness -/

theorem cell_congr (bd bd1 : pong_board) (hw : bd1.width = bd.width)
    (hh : bd1.height = bd.height) (x y : Int) : bd1.cell x y = bd.cell x y := by
  simp [pong_board.cell, hw, hh]

theorem in_bounds_congr (bd bd1 : pong_board) (hw : bd1.width = bd.width)
    (hh : bd1.height = bd.height) (x y : Int) : bd1.in_bounds x y ↔ bd.in_bounds x y := by
  simp [pong_board.in_bounds, hw, hh]

/-- Well-formedness survives any change that keeps the shape of the board
and the warps, keeps the off-board cell an obstacle of strength 0, only
keeps or removes occupants, and keeps every ball's position. -/
theorem state_ok_weaken (bd bd1 : pong_board) (bs bs1 : List pong_ball)
    (hw : bd1.width = bd.width) (hh : bd1.height = bd.height)
    (hl : bd1.cells.length = bd.cells.length) (hwarps : bd1.warps = bd.warps)
    (ht : bd1.obstacle_cell.type = .cell_obstacle) (hs : bd1.obstacle_cell.strength = 0)
    (hball : ∀ r, (bd1.read r).ball = (bd.read r).ball ∨ (bd1.read r).ball = none)
    (hlen : bs1.length = bs.length)
    (hpos : ∀ (k : Nat) (b : pong_ball), bs[k]? = some b →
      ∃ b1 : pong_ball, bs1[k]? = some b1 ∧ b1.x = b.x ∧ b1.y = b.y)
    (h : state_ok ⟨bd, bs⟩) : state_ok ⟨bd1, bs1⟩ := by
  have hcell := cell_congr bd bd1 hw hh
  have hin := in_bounds_congr bd bd1 hw hh
  constructor
  · show board_ok bd1
    unfold board_ok
    rw [hl, hw, hh]
    exact h.cells_ok
  · exact ht
  · exact hs
  · intro r b hb
    change (bd1.read r).ball = some b at hb
    rcases hball r with e | e
    · rw [e] at hb
      obtain ⟨bl, h1, h2, h3⟩ := h.occupancy r b hb
      obtain ⟨b1, h4, h5, h6⟩ := hpos b bl h1
      refine ⟨b1, h4, ?_, ?_⟩
      · rw [h5, h6]
        exact (hin _ _).2 h2
      · rw [h5, h6]
        exact (hcell _ _).trans h3
    · rw [e] at hb
      cases hb
  · intro k w hk
    change bd1.warps[k]? = some w at hk
    rw [hwarps] at hk
    exact (hin _ _).2 (h.warp_pos k w hk)
  · intro k w b hk hb
    change bd1.warps[k]? = some w at hk
    rw [hwarps] at hk
    obtain ⟨h1, h2⟩ := h.warp_slot k w b hk hb
    refine ⟨by rw [hlen]; exact h1, ?_⟩
    intro r hr
    change (bd1.read r).ball = some b at hr
    rcases hball r with e | e
    · rw [e] at hr
      exact h2 r hr
    · rw [e] at hr
      cases hr
  · intro k k1 w w1 b hk hk1
    change bd1.warps[k]? = some w at hk
    change bd1.warps[k1]? = some w1 at hk1
    rw [hwarps] at hk hk1
    exact h.warp_unique k k1 w w1 b hk hk1

theorem set_same_pos (bs : List pong_ball) (i : Nat) (me m : pong_ball)
    (hi : bs[i]? = some me) (hx : m.x = me.x) (hy : m.y = me.y) :
    ∀ (k : Nat) (b : pong_ball), bs[k]? = some b →
      ∃ b1 : pong_ball, (bs.set i m)[k]? = some b1 ∧ b1.x = b.x ∧ b1.y = b.y := by
  intro k b hk
  by_cases e : i = k
  · subst e
    have hlt : i < bs.length := by
      rcases List.getElem?_eq_some.1 hi with ⟨hlt, _⟩
      exact hlt
    rw [hi] at hk
    cases hk
    exact ⟨m, List.getElem?_set_self hlt, hx, hy⟩
  · exact ⟨b, by rw [List.getElem?_set_ne e]; exact hk, rfl, rfl⟩

theorem hit_obstacle_sentinel (c : pong_cell) (ht : c.type = .cell_obstacle)
    (hs : c.strength = 0) :
    c.hit_obstacle.type = .cell_obstacle ∧ c.hit_obstacle.strength = 0 := by
  rw [hit_obstacle_zero c hs]
  exact ⟨ht, hs⟩

theorem hit_write_sentinel (bd : pong_board) (r : cell_ref)
    (ht : bd.obstacle_cell.type = .cell_obstacle) (hs : bd.obstacle_cell.strength = 0) :
    (bd.write r (bd.read r).hit_obstacle).obstacle_cell.type = .cell_obstacle ∧
    (bd.write r (bd.read r).hit_obstacle).obstacle_cell.strength = 0 := by
  rw [write_obstacle_cell]
  split_ifs with hr
  · subst hr
    exact hit_obstacle_sentinel _ ht hs
  · exact ⟨ht, hs⟩

theorem check_x_sentinel (bd : pong_board) (m : pong_ball)
    (ht : bd.obstacle_cell.type = .cell_obstacle) (hs : bd.obstacle_cell.strength = 0) :
    (check_x bd m).1.obstacle_cell.type = .cell_obstacle ∧
    (check_x bd m).1.obstacle_cell.strength = 0 := by
  rw [check_x_eq]; split_ifs
  · exact hit_write_sentinel bd _ ht hs
  · exact ⟨ht, hs⟩

theorem check_y_sentinel (bd : pong_board) (m : pong_ball)
    (ht : bd.obstacle_cell.type = .cell_obstacle) (hs : bd.obstacle_cell.strength = 0) :
    (check_y bd m).1.obstacle_cell.type = .cell_obstacle ∧
    (check_y bd m).1.obstacle_cell.strength = 0 := by
  rw [check_y_eq]; split_ifs
  · exact hit_write_sentinel bd _ ht hs
  · exact ⟨ht, hs⟩

theorem clear_write_sentinel (bd : pong_board) (r : cell_ref) (b : Option Nat)
    (ht : bd.obstacle_cell.type = .cell_obstacle) (hs : bd.obstacle_cell.strength = 0) :
    (bd.write r ((bd.read r).set_ball b)).obstacle_cell.type = .cell_obstacle ∧
    (bd.write r ((bd.read r).set_ball b)).obstacle_cell.strength = 0 := by
  rw [write_obstacle_cell]
  split_ifs with hr
  · subst hr
    exact ⟨ht, hs⟩
  · exact ⟨ht, hs⟩

theorem clear_write_ball (bd : pong_board) (r r1 : cell_ref) :
    ((bd.write r ((bd.read r).set_ball none)).read r1).ball = (bd.read r1).ball ∨
    ((bd.write r ((bd.read r).set_ball none)).read r1).ball = none := by
  rw [read_write]
  split_ifs with h
  · right; rfl
  · left; rfl

/-- The state after the two axis checks, with the new velocity stored. -/
theorem checks_state_ok (s : pong_state) (i : Nat) (me : pong_ball)
    (hi : s.balls[i]? = some me) (h : state_ok s) :
    state_ok ⟨(check_y (check_x s.board me).1 (check_x s.board me).2).1,
      s.balls.set i (check_y (check_x s.board me).1 (check_x s.board me).2).2⟩ := by
  have hsx := check_x_sentinel s.board me h.sentinel_type h.sentinel_strength
  have hsy := check_y_sentinel (check_x s.board me).1 (check_x s.board me).2 hsx.1 hsx.2
  refine state_ok_weaken s.board _ s.balls _ (by simp) (by simp) (by simp) (by simp)
    hsy.1 hsy.2 (fun r => Or.inl (by simp)) (by simp)
    (set_same_pos s.balls i me _ hi (by simp) (by simp)) h

/-! ## The collision branch on the ball objects -/

theorem getElem?_upd_ball (bs : List pong_ball) (k n : Nat) (f : pong_ball → pong_ball) :
    (upd_ball bs k f)[n]? = if n = k then (bs[k]?).map f else bs[n]? := by
  unfold upd_ball
  cases hk : bs[k]? with
  | none =>
    split_ifs with e
    · subst e
      simp [hk]
    · rfl
  | some b =>
    have hlt : k < bs.length := (List.getElem?_eq_some.1 hk).1
    split_ifs with e
    · subst e
      simp [List.getElem?_set_self hlt]
    · simp [List.getElem?_set_ne (fun h => e h.symm)]

/-- The collision branch for two different balls `i` (`this`) and `j`
(`cnext.ball`): `j` takes the velocity of `i` and is no longer stopped, and
`i` negates each component that differed. -/
theorem collide_ne (bs : List pong_ball) (i j : Nat) (m o : pong_ball) (hij : i ≠ j)
    (hi : bs[i]? = some m) (hj : bs[j]? = some o) :
    collide bs i j = some
      ((bs.set j { o with dx := m.dx, dy := m.dy, stopped := false }).set i
        { m with dx := if o.dx = m.dx then m.dx else -m.dx,
                 dy := if o.dy = m.dy then m.dy else -m.dy }) := by
  have hji : j ≠ i := fun h => hij h.symm
  have hil : i < bs.length := (List.getElem?_eq_some.1 hi).1
  have hjl : j < bs.length := (List.getElem?_eq_some.1 hj).1
  unfold collide
  simp only [hi, hj]
  by_cases hdx : o.dx = m.dx <;> by_cases hdy : o.dy = m.dy <;>
    simp only [hdx, hdy, ne_eq, not_true_eq_false, not_false_eq_true, if_true, if_false,
      getElem?_upd_ball, hij, hji, hi, hj, Option.map_some', Option.some.injEq] <;>
    apply List.ext_getElem? <;> intro n <;>
    simp only [getElem?_upd_ball, List.getElem?_set, hi, hj, hil, hjl, hij, hji, if_true,
      if_false, List.length_set, Option.map_some'] <;>
    (have h1 : (i = n) = (n = i) := propext eq_comm
     have h2 : (j = n) = (n = j) := propext eq_comm
     simp only [h1, h2]
     by_cases hni : n = i <;> by_cases hnj : n = j <;> simp_all)

/-- The collision branch when `cnext.ball` is `this`: only the `stopped`
flag is written. -/
theorem collide_self (bs : List pong_ball) (i : Nat) (m : pong_ball)
    (hi : bs[i]? = some m) :
    collide bs i i = some (bs.set i { m with stopped := false }) := by
  unfold collide
  simp only [hi, ne_eq, not_true_eq_false, if_false]
  simp [upd_ball, hi]

theorem collide_eq_none (bs : List pong_ball) (i j : Nat)
    (h : collide bs i j = none) : bs[i]? = none ∨ bs[j]? = none := by
  cases hi : bs[i]? with
  | none => exact Or.inl rfl
  | some m =>
    cases hj : bs[j]? with
    | none => exact Or.inr rfl
    | some o =>
      exfalso
      by_cases hij : i = j
      · subst hij
        rw [collide_self bs i m hi] at h
        cases h
      · rw [collide_ne bs i j m o hij hi hj] at h
        cases h

theorem same_positions_refl (bs : List pong_ball) : same_positions bs bs :=
  ⟨rfl, fun _ b hk => ⟨b, hk, rfl, rfl⟩⟩

theorem same_positions_trans (bs bs1 bs2 : List pong_ball) (h1 : same_positions bs bs1)
    (h2 : same_positions bs1 bs2) : same_positions bs bs2 := by
  refine ⟨h2.1.trans h1.1, ?_⟩
  intro k b hk
  obtain ⟨b1, e1, x1, y1⟩ := h1.2 k b hk
  obtain ⟨b2, e2, x2, y2⟩ := h2.2 k b1 e1
  exact ⟨b2, e2, x2.trans x1, y2.trans y1⟩

theorem same_positions_set (bs : List pong_ball) (i : Nat) (me m : pong_ball)
    (hi : bs[i]? = some me) (hx : m.x = me.x) (hy : m.y = me.y) :
    same_positions bs (bs.set i m) :=
  ⟨by simp, set_same_pos bs i me m hi hx hy⟩

theorem same_positions_collide (bs bs1 : List pong_ball) (i j : Nat)
    (h : collide bs i j = some bs1) : same_positions bs bs1 := by
  cases hi : bs[i]? with
  | none => simp [collide, hi] at h
  | some m =>
    cases hj : bs[j]? with
    | none => simp [collide, hj] at h
    | some o =>
      have hil : i < bs.length := (List.getElem?_eq_some.1 hi).1
      by_cases hij : i = j
      · subst hij
        rw [collide_self bs i m hi] at h
        cases h
        exact same_positions_set bs i m _ hi rfl rfl
      · rw [collide_ne bs i j m o hij hi hj] at h
        cases h
        have hj1 : same_positions bs
            (bs.set j { o with dx := m.dx, dy := m.dy, stopped := false }) :=
          same_positions_set bs j o _ hj rfl rfl
        have hi1 : (bs.set j { o with dx := m.dx, dy := m.dy, stopped := false })[i]?
            = some m := by
          rw [List.getElem?_set_ne (fun e => hij e.symm)]
          exact hi
        exact same_positions_trans _ _ _ hj1 (same_positions_set _ i m _ hi1 rfl rfl)

theorem read_ncollisions (bd : pong_board) (n : Nat) (r : cell_ref) :
    ({ bd with ncollisions := n } : pong_board).read r = bd.read r := by
  cases r <;> rfl

theorem read_warps (bd : pong_board) (ws : List pong_warp) (r : cell_ref) :
    ({ bd with warps := ws } : pong_board).read r = bd.read r := by
  cases r <;> rfl

theorem ref_ok_congr (bd bd1 : pong_board) (hl : bd1.cells.length = bd.cells.length)
    (r : cell_ref) : ref_ok bd1 r ↔ ref_ok bd r := by
  cases r with
  | obstacle_cell => exact Iff.rfl
  | cells n =>
    show n < bd1.cells.length ↔ n < bd.cells.length
    rw [hl]

/-- In a well-formed state only the cell at its position can name a ball. -/
theorem occupant_cell (bd : pong_board) (bs : List pong_ball) (i : Nat) (m : pong_ball)
    (hok : state_ok ⟨bd, bs⟩) (hi : bs[i]? = some m) (r : cell_ref)
    (hr : (bd.read r).ball = some i) : r = bd.cell m.x m.y ∧ bd.in_bounds m.x m.y := by
  obtain ⟨bl, h1, h2, h3⟩ := hok.occupancy r i hr
  have e : bs[i]? = some bl := h1
  rw [hi] at e
  cases e
  exact ⟨h3.symm, h2⟩

/-- Clearing the occupant of the cell at the position of ball `i` leaves no
cell that names `i`. -/
theorem clear_not_named (bd : pong_board) (bs : List pong_ball) (i : Nat) (m : pong_ball)
    (hok : state_ok ⟨bd, bs⟩) (hi : bs[i]? = some m) (r : cell_ref) :
    ((bd.write (bd.cell m.x m.y) ((bd.read (bd.cell m.x m.y)).set_ball none)).read r).ball
      ≠ some i := by
  rw [read_write]
  split_ifs with h
  · simp
  · intro hr
    have hc := (occupant_cell bd bs i m hok hi r hr).1
    exact h ⟨hc, hc ▸ cell_ref_ok bd hok.cells_ok m.x m.y⟩

/-- Well-formedness after `accept_ball` stores an off-board ball in an
empty slot. -/
theorem state_ok_accept (bd : pong_board) (bs : List pong_ball) (i k : Nat) (w : pong_warp)
    (hok : state_ok ⟨bd, bs⟩) (hk : bd.warps[k]? = some w) (hi : i < bs.length)
    (hoff : ∀ r, (bd.read r).ball ≠ some i)
    (hslot : ∀ (k1 : Nat) (w1 : pong_warp), bd.warps[k1]? = some w1 → w1.ball ≠ some i) :
    state_ok ⟨{ bd with warps := bd.warps.set k { w with ball := some i } }, bs⟩ := by
  have hkl : k < bd.warps.length := (List.getElem?_eq_some.1 hk).1
  have hget : ∀ (k1 : Nat) (w1 : pong_warp),
      (bd.warps.set k { w with ball := some i })[k1]? = some w1 →
      (k1 = k ∧ w1 = { w with ball := some i }) ∨ (k1 ≠ k ∧ bd.warps[k1]? = some w1) := by
    intro k1 w1 h1
    by_cases e : k1 = k
    · subst e
      rw [List.getElem?_set_self hkl] at h1
      cases h1
      exact Or.inl ⟨rfl, rfl⟩
    · rw [List.getElem?_set_ne (fun h => e h.symm)] at h1
      exact Or.inr ⟨e, h1⟩
  constructor
  · exact hok.cells_ok
  · exact hok.sentinel_type
  · exact hok.sentinel_strength
  · intro r b hb
    exact hok.occupancy r b (by rw [← read_warps bd _ r]; exact hb)
  · intro k1 w1 h1
    rcases hget k1 w1 h1 with ⟨_, e⟩ | ⟨_, e⟩
    · rw [e]
      exact hok.warp_pos k w hk
    · exact hok.warp_pos k1 w1 e
  · intro k1 w1 b h1 hb
    rcases hget k1 w1 h1 with ⟨_, e⟩ | ⟨_, e⟩
    · rw [e] at hb
      cases hb
      exact ⟨hi, fun r hr => hoff r (by rw [← read_warps bd _ r]; exact hr)⟩
    · obtain ⟨a1, a2⟩ := hok.warp_slot k1 w1 b e hb
      exact ⟨a1, fun r hr => a2 r (by rw [← read_warps bd _ r]; exact hr)⟩
  · intro k1 k2 w1 w2 b h1 h2 hb1 hb2
    rcases hget k1 w1 h1 with ⟨e1, e⟩ | ⟨e1, e⟩
    · rcases hget k2 w2 h2 with ⟨e2, e'⟩ | ⟨e2, e'⟩
      · rw [e1, e2]
      · exfalso
        rw [e] at hb1
        cases hb1
        exact hslot k2 w2 e' hb2
    · rcases hget k2 w2 h2 with ⟨e2, e'⟩ | ⟨e2, e'⟩
      · exfalso
        rw [e'] at hb2
        cases hb2
        exact hslot k1 w1 e hb1
      · exact hok.warp_unique k1 k2 w1 w2 b e e' hb1 hb2

/-- Occupants after the ball `i` has left `ccur` and entered `cnext`. -/
theorem move_write_ball (bd : pong_board) (ccur cnext r : cell_ref) (i : Nat)
    (hcur : ref_ok bd ccur) (hnext : ref_ok bd cnext) :
    (((bd.write ccur ((bd.read ccur).set_ball none)).write cnext
        (((bd.write ccur ((bd.read ccur).set_ball none)).read cnext).set_ball (some i))).read
        r).ball =
      if r = cnext then some i else if r = ccur then none else (bd.read r).ball := by
  have hnext1 : ref_ok (bd.write ccur ((bd.read ccur).set_ball none)) cnext :=
    (ref_ok_congr bd _ (by simp) cnext).2 hnext
  rw [read_write]
  by_cases e1 : r = cnext
  · rw [if_pos ⟨e1, hnext1⟩, if_pos e1]
    rfl
  · rw [if_neg (fun h => e1 h.1), if_neg e1, read_write]
    by_cases e2 : r = ccur
    · rw [if_pos ⟨e2, hcur⟩, if_pos e2]
      rfl
    · rw [if_neg (fun h => e2 h.1), if_neg e2]

/-- Well-formedness after the ball `i` moves from its cell to a free cell
that is empty or sticky. -/
theorem state_ok_move (bd : pong_board) (bs : List pong_ball) (i : Nat) (m m1 : pong_ball)
    (x1 y1 : Int) (hok : state_ok ⟨bd, bs⟩) (hi : bs[i]? = some m)
    (hocc : (bd.read (bd.cell m.x m.y)).ball = some i)
    (hnb : (bd.read (bd.cell x1 y1)).ball = none)
    (hty : (bd.read (bd.cell x1 y1)).type = .cell_empty ∨
           (bd.read (bd.cell x1 y1)).type = .cell_sticky)
    (hx : m1.x = x1) (hy : m1.y = y1) :
    state_ok ⟨(bd.write (bd.cell m.x m.y) ((bd.read (bd.cell m.x m.y)).set_ball none)).write
        (bd.cell x1 y1)
        (((bd.write (bd.cell m.x m.y) ((bd.read (bd.cell m.x m.y)).set_ball none)).read
          (bd.cell x1 y1)).set_ball (some i)),
      bs.set i m1⟩ := by
  have hil : i < bs.length := (List.getElem?_eq_some.1 hi).1
  have hcur : ref_ok bd (bd.cell m.x m.y) := cell_ref_ok bd hok.cells_ok _ _
  have hnext : ref_ok bd (bd.cell x1 y1) := cell_ref_ok bd hok.cells_ok _ _
  have hne : bd.cell x1 y1 ≠ bd.cell m.x m.y := by
    intro e
    rw [e, hocc] at hnb
    cases hnb
  have hin1 : bd.in_bounds x1 y1 := by
    by_contra hc
    rw [cell_off_board bd x1 y1 hc] at hty
    have hty1 : bd.obstacle_cell.type = .cell_empty ∨ bd.obstacle_cell.type = .cell_sticky :=
      hty
    rw [hok.sentinel_type] at hty1
    revert hty1
    decide
  have hball := fun r => move_write_ball bd (bd.cell m.x m.y) (bd.cell x1 y1) r i hcur hnext
  have hs1 := clear_write_sentinel bd (bd.cell m.x m.y) none hok.sentinel_type
    hok.sentinel_strength
  have hs2 := clear_write_sentinel (bd.write (bd.cell m.x m.y)
    ((bd.read (bd.cell m.x m.y)).set_ball none)) (bd.cell x1 y1) (some i) hs1.1 hs1.2
  constructor
  · show board_ok _
    unfold board_ok
    simp only [write_cells_length, write_width, write_height]
    exact hok.cells_ok
  · exact hs2.1
  · exact hs2.2
  · intro r b hb
    change (pong_board.read _ r).ball = some b at hb
    rw [hball r] at hb
    show ∃ bl, (bs.set i m1)[b]? = some bl ∧ pong_board.in_bounds _ bl.x bl.y ∧
      pong_board.cell _ bl.x bl.y = r
    simp only [write_cell, pong_board.in_bounds, write_width, write_height]
    split_ifs at hb with e1 e2
    · cases hb
      refine ⟨m1, List.getElem?_set_self hil, ?_, ?_⟩
      · rw [hx, hy]
        exact hin1
      · rw [hx, hy, e1]
    · obtain ⟨bl, h1, h2, h3⟩ := hok.occupancy r b hb
      have hbi : i ≠ b := by
        intro e
        subst e
        exact e2 (occupant_cell bd bs i m hok hi r hb).1
      exact ⟨bl, by rw [List.getElem?_set_ne hbi]; exact h1, h2, h3⟩
  · intro k w hk
    simp only [write_warps] at hk
    have := hok.warp_pos k w hk
    simpa [pong_board.in_bounds] using this
  · intro k w b hk hb
    simp only [write_warps] at hk
    obtain ⟨a1, a2⟩ := hok.warp_slot k w b hk hb
    refine ⟨by simpa using a1, ?_⟩
    intro r hr
    change (pong_board.read _ r).ball = some b at hr
    rw [hball r] at hr
    split_ifs at hr with e1 e2
    · cases hr
      exact a2 _ hocc
    · exact a2 r hr
  · intro k k1 w w1 b hk hk1
    simp only [write_warps] at hk hk1
    exact hok.warp_unique k k1 w w1 b hk hk1

/-- Inversion of `accept_ball`. -/
theorem accept_ball_some (w w1 : pong_warp) (i : Nat) (h : w.accept_ball i = some w1) :
    w.ball = none ∧ w1 = { w with ball := some i } := by
  unfold pong_warp.accept_ball at h
  cases hb : w.ball with
  | none =>
    rw [hb] at h
    simp at h
    exact ⟨rfl, h.symm⟩
  | some b =>
    rw [hb] at h
    simp at h

/-- Inversion of the warp branch. -/
theorem move_target_warp_some (bd : pong_board) (balls : List pong_ball) (i : Nat)
    (m : pong_ball) (ccur : cell_ref) (s1 : pong_state) (r : Int)
    (hb : (bd.read (bd.cell (m.x + m.dx) (m.y + m.dy))).ball = none)
    (ht : (bd.read (bd.cell (m.x + m.dx) (m.y + m.dy))).type = .cell_warp)
    (h : move_target bd balls i m ccur = some (s1, r)) :
    ∃ (k : Nat) (w : pong_warp),
      (bd.read (bd.cell (m.x + m.dx) (m.y + m.dy))).warp = some k ∧
      bd.warps[k]? = some w ∧ w.ball = none ∧ r = 0 ∧
      s1 = { board := { bd.write ccur ((bd.read ccur).set_ball none) with
                warps := bd.warps.set k { w with ball := some i } },
             balls := balls.set i { m with stopped := true } } := by
  rw [move_target_warp bd balls i m ccur hb ht] at h
  cases hw : (bd.read (bd.cell (m.x + m.dx) (m.y + m.dy))).warp with
  | none => rw [hw] at h; cases h
  | some k =>
    rw [hw] at h
    simp only [Option.some_bind] at h
    cases hk : bd.warps[k]? with
    | none => rw [hk] at h; cases h
    | some w =>
      rw [hk] at h
      simp only [Option.some_bind] at h
      cases ha : w.accept_ball i with
      | none => rw [ha] at h; cases h
      | some w1 =>
        rw [ha] at h
        obtain ⟨hwb, hw1⟩ := accept_ball_some w w1 i ha
        subst hw1
        cases h
        exact ⟨k, w, rfl, hk, hwb, rfl, rfl⟩

theorem same_positions_set_set (bs : List pong_ball) (i : Nat) (m m1 : pong_ball)
    (hil : i < bs.length) (hx : m1.x = m.x) (hy : m1.y = m.y) :
    same_positions (bs.set i m) (bs.set i m1) := by
  have h := same_positions_set (bs.set i m) i m m1
    (List.getElem?_set_self hil) hx hy
  rw [List.set_set] at h
  exact h

/-- Well-formedness after the branches of `move` on the target cell, and
the ball destroyed on a trash cell is named by no cell. -/
theorem move_target_state_ok (bd : pong_board) (balls : List pong_ball) (i : Nat)
    (m : pong_ball) (ccur : cell_ref) (s1 : pong_state) (r : Int)
    (hok : state_ok ⟨bd, balls.set i m⟩) (hil : i < balls.length)
    (hcur : ccur = bd.cell m.x m.y) (hocc : (bd.read ccur).ball = some i)
    (h : move_target bd balls i m ccur = some (s1, r)) :
    state_ok s1 ∧ (r = -1 → ∀ r1, (s1.board.read r1).ball ≠ some i) := by
  have him : (balls.set i m)[i]? = some m := List.getElem?_set_self hil
  subst hcur
  rcases target_cases (bd.read (bd.cell (m.x + m.dx) (m.y + m.dy))) with
    ⟨j, hb⟩ | ⟨hb, ht⟩ | ⟨hb, ht⟩ | ⟨hb, ht⟩ | ⟨hb, ht⟩
  · rw [move_target_collision bd balls i m _ j hb] at h
    cases hc : collide (balls.set i m) i j with
    | none => rw [hc] at h; cases h
    | some bs =>
      rw [hc] at h
      cases h
      have hp := same_positions_collide _ _ i j hc
      refine ⟨state_ok_weaken bd _ (balls.set i m) bs rfl rfl rfl rfl hok.sentinel_type
        hok.sentinel_strength (fun r1 => Or.inl (by rw [read_ncollisions])) hp.1 hp.2 hok, ?_⟩
      intro h0
      exact absurd h0 (by decide)
  · obtain ⟨k, w, hw, hk, hwb, hr, hs1⟩ := move_target_warp_some bd balls i m _ s1 r hb ht h
    subst hs1
    refine ⟨?_, fun h0 => absurd (hr ▸ h0) (by decide)⟩
    have hp := same_positions_set_set balls i m { m with stopped := true } hil rfl rfl
    have hs := clear_write_sentinel bd (bd.cell m.x m.y) none hok.sentinel_type
      hok.sentinel_strength
    have hok1 : state_ok ⟨bd.write (bd.cell m.x m.y) ((bd.read (bd.cell m.x m.y)).set_ball none),
        balls.set i { m with stopped := true }⟩ :=
      state_ok_weaken bd _ (balls.set i m) _ (by simp) (by simp) (by simp) (by simp)
        hs.1 hs.2 (fun r1 => clear_write_ball bd _ r1) hp.1 hp.2 hok
    have hacc := state_ok_accept _ _ i k w hok1 (by rw [write_warps]; exact hk)
      (by simpa using hil) (fun r1 => clear_not_named bd _ i m hok him r1)
      (fun k1 w1 h1 hb1 =>
        (hok.warp_slot k1 w1 i (by rw [write_warps] at h1; exact h1) hb1).2 _ hocc)
    rw [write_warps] at hacc
    exact hacc
  · rw [move_target_trash bd balls i m _ hb ht] at h
    cases h
    have hs := clear_write_sentinel bd (bd.cell m.x m.y) none hok.sentinel_type
      hok.sentinel_strength
    have hp := same_positions_refl (balls.set i m)
    exact ⟨state_ok_weaken bd _ (balls.set i m) _ (by simp) (by simp) (by simp) (by simp)
        hs.1 hs.2 (fun r1 => clear_write_ball bd _ r1) hp.1 hp.2 hok,
      fun _ r1 => clear_not_named bd _ i m hok him r1⟩
  · rw [move_target_obstacle bd balls i m _ hb ht] at h
    cases h
    have hs := hit_write_sentinel bd (bd.cell (m.x + m.dx) (m.y + m.dy)) hok.sentinel_type
      hok.sentinel_strength
    have hp := same_positions_set_set balls i m { m with dx := -m.dx, dy := -m.dy } hil rfl rfl
    exact ⟨state_ok_weaken bd _ (balls.set i m) _ (by simp) (by simp) (by simp) (by simp)
        hs.1 hs.2 (fun r1 => Or.inl (hit_write_ball bd _ r1)) hp.1 hp.2 hok,
      fun h0 => absurd h0 (by decide)⟩
  · rw [move_target_free bd balls i m _ hb ht] at h
    cases h
    refine ⟨?_, fun h0 => absurd h0 (by decide)⟩
    have hmv := state_ok_move bd (balls.set i m) i m
      (if (bd.read (bd.cell (m.x + m.dx) (m.y + m.dy))).type = .cell_sticky then
        { m with x := m.x + m.dx, y := m.y + m.dy, dx := 0, dy := 0, stopped := true }
      else { m with x := m.x + m.dx, y := m.y + m.dy })
      (m.x + m.dx) (m.y + m.dy) hok him hocc hb ht
      (by split_ifs <;> rfl) (by split_ifs <;> rfl)
    rw [List.set_set] at hmv
    exact hmv

/-- A returning call of `move` keeps the state well formed, and a ball it
reports destroyed is named by no cell afterwards. -/
theorem move_state_ok (s : pong_state) (i : Nat) (s1 : pong_state) (r : Int)
    (hok : state_ok s) (h : pong_ball.move s i = some (s1, r)) :
    state_ok s1 ∧ (r = -1 → ∀ r1, (s1.board.read r1).ball ≠ some i) := by
  obtain ⟨me, hi, hc⟩ := move_cases s i s1 r h
  rcases hc with ⟨_, hs, hr⟩ | ⟨_, ha, ht⟩
  · subst hs
    exact ⟨hok, fun h0 => absurd (hr ▸ h0) (by decide)⟩
  · have hil : i < s.balls.length := (List.getElem?_eq_some.1 hi).1
    exact move_target_state_ok _ s.balls i _ _ s1 r (checks_state_ok s i me hi hok) hil
      (by simp) (by simpa using ha) ht

/-! ## The warp worker -/

/-- What a returning iteration of `warp_thread` went through. -/
theorem warp_thread_cases (s : pong_state) (k : Nat) (s1 : pong_state)
    (h : warp_thread s k = some s1) :
    ∃ w, s.board.warps[k]? = some w ∧
      ((w.ball = none ∧ s1 = s) ∨
       (∃ b bl, w.ball = some b ∧ (s.board.read (s.board.cell w.x w.y)).ball = none ∧
          s.balls[b]? = some bl ∧
          s1 = { board :=
                   ({ s.board with warps := s.board.warps.set k { w with ball := none } }
                      : pong_board).write (s.board.cell w.x w.y)
                     ((s.board.read (s.board.cell w.x w.y)).set_ball (some b)),
                 balls := s.balls.set b { bl with x := w.x, y := w.y, stopped := false } })) := by
  unfold warp_thread at h
  cases hk : s.board.warps[k]? with
  | none => rw [hk] at h; cases h
  | some w =>
    rw [hk] at h
    refine ⟨w, rfl, ?_⟩
    cases hb : w.ball with
    | none =>
      left
      simp only [hb] at h
      cases h
      exact ⟨rfl, rfl⟩
    | some b =>
      right
      simp only [hb, read_warps] at h
      cases hc : (s.board.read (s.board.cell w.x w.y)).ball with
      | some c => simp [hc] at h
      | none =>
        simp only [hc, Option.isSome_none] at h
        cases hbl : s.balls[b]? with
        | none => simp [hbl] at h
        | some bl =>
          simp only [hbl] at h
          refine ⟨b, bl, rfl, rfl, hbl, ?_⟩
          simpa using h.symm

/-- Well-formedness after the warp worker has placed the ball of its slot on
the destination cell. -/
theorem state_ok_place (s : pong_state) (k b : Nat) (w : pong_warp) (bl : pong_ball)
    (hok : state_ok s) (hk : s.board.warps[k]? = some w) (hb : w.ball = some b)
    (hbl : s.balls[b]? = some bl) :
    state_ok
      { board :=
          ({ s.board with warps := s.board.warps.set k { w with ball := none } }
            : pong_board).write (s.board.cell w.x w.y)
            ((s.board.read (s.board.cell w.x w.y)).set_ball (some b)),
        balls := s.balls.set b { bl with x := w.x, y := w.y, stopped := false } } := by
  have hkl : k < s.board.warps.length := (List.getElem?_eq_some.1 hk).1
  have hbll : b < s.balls.length := (List.getElem?_eq_some.1 hbl).1
  have hin := hok.warp_pos k w hk
  have hoff := (hok.warp_slot k w b hk hb).2
  have hdest : ref_ok ({ s.board with warps := s.board.warps.set k { w with ball := none } }
      : pong_board) (s.board.cell w.x w.y) :=
    (ref_ok_congr s.board _ rfl _).2 (cell_ref_ok s.board hok.cells_ok _ _)
  have hball : ∀ r,
      ((({ s.board with warps := s.board.warps.set k { w with ball := none } }
        : pong_board).write (s.board.cell w.x w.y)
          ((s.board.read (s.board.cell w.x w.y)).set_ball (some b))).read r).ball =
        if r = s.board.cell w.x w.y then some b else (s.board.read r).ball := by
    intro r
    rw [read_write]
    by_cases e : r = s.board.cell w.x w.y
    · rw [if_pos ⟨e, hdest⟩, if_pos e]
      rfl
    · rw [if_neg (fun h => e h.1), if_neg e, read_warps]
  have hget : ∀ (k1 : Nat) (w1 : pong_warp),
      (s.board.warps.set k { w with ball := none })[k1]? = some w1 →
      (k1 = k ∧ w1 = { w with ball := none }) ∨ (k1 ≠ k ∧ s.board.warps[k1]? = some w1) := by
    intro k1 w1 h1
    by_cases e : k1 = k
    · subst e
      rw [List.getElem?_set_self hkl] at h1
      cases h1
      exact Or.inl ⟨rfl, rfl⟩
    · rw [List.getElem?_set_ne (fun h => e h.symm)] at h1
      exact Or.inr ⟨e, h1⟩
  constructor
  · show board_ok _
    unfold board_ok
    simp only [write_cells_length, write_width, write_height]
    exact hok.cells_ok
  · rw [write_obstacle_cell]
    split_ifs with hr
    · rw [hr]
      exact hok.sentinel_type
    · exact hok.sentinel_type
  · rw [write_obstacle_cell]
    split_ifs with hr
    · rw [hr]
      exact hok.sentinel_strength
    · exact hok.sentinel_strength
  · intro r c hc
    change (pong_board.read _ r).ball = some c at hc
    rw [hball r] at hc
    show ∃ bl1, (s.balls.set b _)[c]? = some bl1 ∧ pong_board.in_bounds _ bl1.x bl1.y ∧
      pong_board.cell _ bl1.x bl1.y = r
    simp only [write_cell, pong_board.in_bounds, write_width, write_height]
    split_ifs at hc with e1
    · cases hc
      exact ⟨_, List.getElem?_set_self hbll, hin, by rw [e1]; rfl⟩
    · obtain ⟨bl1, h1, h2, h3⟩ := hok.occupancy r c hc
      have hne : b ≠ c := by
        intro e
        subst e
        exact hoff r hc
      exact ⟨bl1, by rw [List.getElem?_set_ne hne]; exact h1, h2, h3⟩
  · intro k1 w1 h1
    simp only [write_warps] at h1
    show pong_board.in_bounds _ w1.x w1.y
    simp only [pong_board.in_bounds, write_width, write_height]
    rcases hget k1 w1 h1 with ⟨_, e⟩ | ⟨_, e⟩
    · rw [e]
      exact hin
    · exact hok.warp_pos k1 w1 e
  · intro k1 w1 c h1 hc
    simp only [write_warps] at h1
    rcases hget k1 w1 h1 with ⟨_, e⟩ | ⟨e1, e⟩
    · rw [e] at hc
      cases hc
    · obtain ⟨a1, a2⟩ := hok.warp_slot k1 w1 c e hc
      refine ⟨by simpa using a1, ?_⟩
      intro r hr
      change (pong_board.read _ r).ball = some c at hr
      rw [hball r] at hr
      split_ifs at hr with e2
      · cases hr
        exact e1 (hok.warp_unique k1 k w1 w b e hk hc hb)
      · exact a2 r hr
  · intro k1 k2 w1 w2 c h1 h2 hc1 hc2
    simp only [write_warps] at h1 h2
    rcases hget k1 w1 h1 with ⟨_, e⟩ | ⟨_, e⟩
    · rw [e] at hc1
      cases hc1
    · rcases hget k2 w2 h2 with ⟨_, e'⟩ | ⟨_, e'⟩
      · rw [e'] at hc2
        cases hc2
      · exact hok.warp_unique k1 k2 w1 w2 c e e' hc1 hc2

theorem warp_thread_state_ok (s : pong_state) (k : Nat) (s1 : pong_state)
    (hok : state_ok s) (h : warp_thread s k = some s1) : state_ok s1 := by
  obtain ⟨w, hk, hc⟩ := warp_thread_cases s k s1 h
  rcases hc with ⟨_, hs⟩ | ⟨b, bl, hb, _, hbl, hs⟩
  · rw [hs]
    exact hok
  · rw [hs]
    exact state_ok_place s k b w bl hok hk hb hbl

/-! ## The paddle worker -/

/-- The type the row rewrite gives to column `n`. -/
theorem paddle_step_eq (px py pw : Int) (bd : pong_board) (n : Nat) :
    paddle_step px py pw bd n =
      bd.write (bd.cell n py)
        ((bd.read (bd.cell n py)).set_type
          (if (n : Int) ≥ px ∧ (n : Int) < px + pw then .cell_paddle else .cell_empty)) := by
  unfold paddle_step
  simp only []
  split_ifs <;> rfl

/-- The row rewrite, column by column: after the columns below `n` the cells
`(x, py)` with `x < n` have their new type and nothing else has changed. -/
theorem paddle_fold (b : pong_board) (px py pw : Int) (hok : board_ok b)
    (hpy : 0 ≤ py ∧ py < b.height) (n : Nat) (hn : (n : Int) ≤ b.width) :
    ((List.range n).foldl (paddle_step px py pw) b).width = b.width ∧
    ((List.range n).foldl (paddle_step px py pw) b).height = b.height ∧
    ((List.range n).foldl (paddle_step px py pw) b).warps = b.warps ∧
    ((List.range n).foldl (paddle_step px py pw) b).ncollisions = b.ncollisions ∧
    ((List.range n).foldl (paddle_step px py pw) b).cells.length = b.cells.length ∧
    (∀ x : Nat, x < n →
      ((List.range n).foldl (paddle_step px py pw) b).read (b.cell x py) =
        (b.read (b.cell x py)).set_type
          (if (x : Int) ≥ px ∧ (x : Int) < px + pw then .cell_paddle else .cell_empty)) ∧
    (∀ r, (∀ x : Nat, x < n → r ≠ b.cell x py) →
      ((List.range n).foldl (paddle_step px py pw) b).read r = b.read r) := by
  induction n with
  | zero =>
    exact ⟨rfl, rfl, rfl, rfl, rfl, fun x hx => absurd hx (Nat.not_lt_zero x), fun _ _ => rfl⟩
  | succ n ih =>
    have hn1 : (n : Int) ≤ b.width := by push_cast at hn; omega
    obtain ⟨h1, h2, h3, h4, h5, h6, h7⟩ := ih hn1
    rw [List.range_succ, List.foldl_append]
    simp only [List.foldl_cons, List.foldl_nil]
    rw [paddle_step_eq]
    have hcell : ∀ x y, ((List.range n).foldl (paddle_step px py pw) b).cell x y = b.cell x y :=
      cell_congr b _ h1 h2
    rw [hcell]
    have hinb : ∀ x : Nat, x < n + 1 → b.in_bounds x py := by
      intro x hx
      refine ⟨by omega, ?_, hpy.1, hpy.2⟩
      push_cast at hn
      omega
    have hne : ∀ x : Nat, x < n → b.cell n py ≠ b.cell x py := by
      intro x hx e
      have := cell_inj b x py n py (hinb x (by omega)) (hinb n (by omega)) e
      omega
    have hrefn : ref_ok ((List.range n).foldl (paddle_step px py pw) b) (b.cell n py) :=
      (ref_ok_congr b _ h5 _).2 (cell_ref_ok b hok _ _)
    refine ⟨by simp [h1], by simp [h2], by simp [h3], by simp [h4], by simp [h5], ?_, ?_⟩
    · intro x hx
      by_cases e : x = n
      · subst e
        rw [read_write_same _ _ _ hrefn, h7 _ hne]
      · rw [read_write_ne _ _ _ _ (fun h => hne x (by omega) h.symm)]
        exact h6 x (by omega)
    · intro r hr
      rw [read_write_ne _ _ _ _ (hr n (by omega))]
      exact h7 r (fun x hx => hr x (by omega))

/-- The row rewrite changes no field of any cell but the type. -/
theorem paddle_row_frame (b : pong_board) (px py pw : Int) (hok : board_ok b)
    (hpy : 0 ≤ py ∧ py < b.height) (r : cell_ref) :
    ((paddle_row b px py pw).read r).ball = (b.read r).ball ∧
    ((paddle_row b px py pw).read r).strength = (b.read r).strength ∧
    ((paddle_row b px py pw).read r).warp = (b.read r).warp := by
  have hn : ((b.width.toNat : Nat) : Int) ≤ b.width ∨ b.width < 0 := by omega
  by_cases hw : b.width < 0
  · have h0 : b.width.toNat = 0 := by omega
    unfold paddle_row
    rw [h0]
    exact ⟨rfl, rfl, rfl⟩
  · obtain ⟨_, _, _, _, _, h6, h7⟩ := paddle_fold b px py pw hok hpy b.width.toNat (by omega)
    unfold paddle_row
    by_cases hr : ∃ x : Nat, x < b.width.toNat ∧ r = b.cell x py
    · obtain ⟨x, hx, e⟩ := hr
      rw [e, h6 x hx]
      exact ⟨rfl, rfl, rfl⟩
    · rw [h7 r (fun x hx e => hr ⟨x, hx, e⟩)]
      exact ⟨rfl, rfl, rfl⟩

/-- The row rewrite does not touch the off-board cell. -/
theorem paddle_row_obstacle_cell (b : pong_board) (px py pw : Int) (hok : board_ok b)
    (hpy : 0 ≤ py ∧ py < b.height) :
    (paddle_row b px py pw).obstacle_cell = b.obstacle_cell := by
  by_cases hw : b.width < 0
  · have h0 : b.width.toNat = 0 := by omega
    unfold paddle_row
    rw [h0]
    rfl
  · obtain ⟨_, _, _, _, _, _, h7⟩ := paddle_fold b px py pw hok hpy b.width.toNat (by omega)
    refine h7 .obstacle_cell (fun x hx e => ?_)
    have hin : b.in_bounds x py := ⟨by omega, by omega, hpy.1, hpy.2⟩
    rw [cell_in_bounds b x py hin] at e
    cases e

theorem paddle_row_dims (b : pong_board) (px py pw : Int) (hok : board_ok b)
    (hpy : 0 ≤ py ∧ py < b.height) :
    (paddle_row b px py pw).width = b.width ∧ (paddle_row b px py pw).height = b.height ∧
    (paddle_row b px py pw).warps = b.warps ∧
    (paddle_row b px py pw).ncollisions = b.ncollisions ∧
    (paddle_row b px py pw).cells.length = b.cells.length := by
  by_cases hw : b.width < 0
  · have h0 : b.width.toNat = 0 := by omega
    unfold paddle_row
    rw [h0]
    exact ⟨rfl, rfl, rfl, rfl, rfl⟩
  · obtain ⟨h1, h2, h3, h4, h5, _, _⟩ :=
      paddle_fold b px py pw hok hpy b.width.toNat (by omega)
    exact ⟨h1, h2, h3, h4, h5⟩

theorem paddle_thread_balls (s : pong_state) (p : paddle) :
    (paddle_thread s p).1.balls = s.balls := rfl

theorem paddle_thread_py (s : pong_state) (p : paddle) :
    (paddle_thread s p).2.py = p.py ∧ (paddle_thread s p).2.pw = p.pw := by
  unfold paddle_thread
  simp only []
  split_ifs <;> exact ⟨rfl, rfl⟩

theorem paddle_thread_board (s : pong_state) (p : paddle) :
    (paddle_thread s p).1.board =
      paddle_row s.board (paddle_thread s p).2.px p.py p.pw := by
  unfold paddle_thread
  simp only []
  split_ifs <;> rfl

theorem paddle_thread_state_ok (s : pong_state) (p : paddle) (hok : state_ok s)
    (hpy : 0 ≤ p.py ∧ p.py < s.board.height) : state_ok (paddle_thread s p).1 := by
  have hd := paddle_row_dims s.board (paddle_thread s p).2.px p.py p.pw hok.cells_ok hpy
  have ho := paddle_row_obstacle_cell s.board (paddle_thread s p).2.px p.py p.pw
    hok.cells_ok hpy
  have hf := paddle_row_frame s.board (paddle_thread s p).2.px p.py p.pw hok.cells_ok hpy
  have h := state_ok_weaken s.board (paddle_row s.board (paddle_thread s p).2.px p.py p.pw)
    s.balls s.balls hd.1 hd.2.1 hd.2.2.2.2 hd.2.2.1
    (by rw [ho]; exact hok.sentinel_type) (by rw [ho]; exact hok.sentinel_strength)
    (fun r => Or.inl (hf r).1) rfl (same_positions_refl _).2 hok
  rw [← paddle_thread_board] at h
  exact h

/-! ## Which balls are on the board after an operation -/

theorem not_in_warp_of_named (bd : pong_board) (bs : List pong_ball) (i : Nat) (r : cell_ref)
    (hok : state_ok ⟨bd, bs⟩) (hr : (bd.read r).ball = some i) (k : Nat) (w : pong_warp)
    (hk : bd.warps[k]? = some w) : w.ball ≠ some i :=
  fun hb => (hok.warp_slot k w i hk hb).2 r hr

theorem clear_named_iff (bd : pong_board) (bs : List pong_ball) (i : Nat) (m : pong_ball)
    (hok : state_ok ⟨bd, bs⟩) (hi : bs[i]? = some m)
    (hocc : (bd.read (bd.cell m.x m.y)).ball = some i) (b : Nat) :
    (∃ r, ((bd.write (bd.cell m.x m.y) ((bd.read (bd.cell m.x m.y)).set_ball none)).read
        r).ball = some b) ↔ ((∃ r, (bd.read r).ball = some b) ∧ b ≠ i) := by
  constructor
  · rintro ⟨r, hr⟩
    have hbi : b ≠ i := by
      intro e
      subst e
      exact clear_not_named bd bs b m hok hi r hr
    rcases clear_write_ball bd (bd.cell m.x m.y) r with e | e
    · rw [e] at hr
      exact ⟨⟨r, hr⟩, hbi⟩
    · rw [e] at hr
      cases hr
  · rintro ⟨⟨r, hr⟩, hbi⟩
    refine ⟨r, ?_⟩
    rw [read_write_ne]
    · exact hr
    · intro e
      rw [e, hocc] at hr
      cases hr
      exact hbi rfl

theorem move_target_on_board (bd : pong_board) (balls : List pong_ball) (i : Nat)
    (m : pong_ball) (ccur : cell_ref) (s1 : pong_state) (r : Int)
    (hok : state_ok ⟨bd, balls.set i m⟩) (hil : i < balls.length)
    (hcur : ccur = bd.cell m.x m.y) (hocc : (bd.read ccur).ball = some i)
    (h : move_target bd balls i m ccur = some (s1, r)) (b : Nat) :
    on_board s1 b ↔
      ((∃ r1, (bd.read r1).ball = some b) ∧ ¬ (b = i ∧ (r = -1 ∨ in_warp s1 i))) := by
  have him : (balls.set i m)[i]? = some m := List.getElem?_set_self hil
  have hnw := not_in_warp_of_named bd _ i ccur hok hocc
  subst hcur
  rcases target_cases (bd.read (bd.cell (m.x + m.dx) (m.y + m.dy))) with
    ⟨j, hb⟩ | ⟨hb, ht⟩ | ⟨hb, ht⟩ | ⟨hb, ht⟩ | ⟨hb, ht⟩
  · rw [move_target_collision bd balls i m _ j hb] at h
    cases hc : collide (balls.set i m) i j with
    | none => rw [hc] at h; cases h
    | some bs =>
      rw [hc] at h
      cases h
      have hno : ¬ (b = i ∧ ((0 : Int) = -1 ∨
          in_warp ⟨{ bd with ncollisions := bd.ncollisions + 1 }, bs⟩ i)) := by
        rintro ⟨_, h0 | ⟨k, w, hk, hw⟩⟩
        · exact absurd h0 (by decide)
        · exact hnw k w hk hw
      simp only [hno, not_false_eq_true, and_true]
      unfold on_board
      simp only [read_ncollisions]
  · obtain ⟨k, w, hw, hk, hwb, hr, hs1⟩ := move_target_warp_some bd balls i m _ s1 r hb ht h
    subst hs1
    have hkl : k < bd.warps.length := (List.getElem?_eq_some.1 hk).1
    have hin : in_warp ⟨{ bd.write (bd.cell m.x m.y) ((bd.read (bd.cell m.x m.y)).set_ball none)
        with warps := bd.warps.set k { w with ball := some i } },
        balls.set i { m with stopped := true }⟩ i :=
      ⟨k, _, List.getElem?_set_self hkl, rfl⟩
    unfold on_board
    simp only [read_warps]
    rw [clear_named_iff bd _ i m hok him hocc b]
    constructor
    · rintro ⟨h1, h2⟩
      exact ⟨h1, fun h3 => h2 h3.1⟩
    · rintro ⟨h1, h2⟩
      exact ⟨h1, fun h3 => h2 ⟨h3, Or.inr hin⟩⟩
  · rw [move_target_trash bd balls i m _ hb ht] at h
    cases h
    unfold on_board
    rw [clear_named_iff bd _ i m hok him hocc b]
    constructor
    · rintro ⟨h1, h2⟩
      exact ⟨h1, fun h3 => h2 h3.1⟩
    · rintro ⟨h1, h2⟩
      exact ⟨h1, fun h3 => h2 ⟨h3, Or.inl rfl⟩⟩
  · rw [move_target_obstacle bd balls i m _ hb ht] at h
    cases h
    have hno : ¬ (b = i ∧ ((0 : Int) = -1 ∨
        in_warp ⟨bd.write (bd.cell (m.x + m.dx) (m.y + m.dy))
          (bd.read (bd.cell (m.x + m.dx) (m.y + m.dy))).hit_obstacle,
          balls.set i { m with dx := -m.dx, dy := -m.dy }⟩ i)) := by
      rintro ⟨_, h0 | ⟨k, w, hk, hw⟩⟩
      · exact absurd h0 (by decide)
      · exact hnw k w (by simpa using hk) hw
    simp only [hno, not_false_eq_true, and_true]
    unfold on_board
    simp only [hit_write_ball]
  · rw [move_target_free bd balls i m _ hb ht] at h
    cases h
    have hcur : ref_ok bd (bd.cell m.x m.y) := cell_ref_ok bd hok.cells_ok _ _
    have hnext : ref_ok bd (bd.cell (m.x + m.dx) (m.y + m.dy)) :=
      cell_ref_ok bd hok.cells_ok _ _
    have hball := fun r1 => move_write_ball bd (bd.cell m.x m.y)
      (bd.cell (m.x + m.dx) (m.y + m.dy)) r1 i hcur hnext
    have hno : ∀ bs2, ¬ (b = i ∧ ((1 : Int) = -1 ∨
        in_warp ⟨(bd.write (bd.cell m.x m.y) ((bd.read (bd.cell m.x m.y)).set_ball none)).write
          (bd.cell (m.x + m.dx) (m.y + m.dy))
          (((bd.write (bd.cell m.x m.y) ((bd.read (bd.cell m.x m.y)).set_ball none)).read
            (bd.cell (m.x + m.dx) (m.y + m.dy))).set_ball (some i)), bs2⟩ i)) := by
      rintro bs2 ⟨_, h0 | ⟨k, w, hk, hw⟩⟩
      · exact absurd h0 (by decide)
      · exact hnw k w (by simpa using hk) hw
    simp only [hno, not_false_eq_true, and_true]
    unfold on_board
    simp only [hball]
    constructor
    · rintro ⟨r1, hr1⟩
      split_ifs at hr1 with e1 e2
      · cases hr1
        exact ⟨_, hocc⟩
      · exact ⟨r1, hr1⟩
    · rintro ⟨r1, hr1⟩
      by_cases hbi : b = i
      · subst hbi
        exact ⟨bd.cell (m.x + m.dx) (m.y + m.dy), by rw [if_pos rfl]⟩
      · refine ⟨r1, ?_⟩
        rw [if_neg, if_neg]
        · exact hr1
        · intro e
          rw [e, hocc] at hr1
          cases hr1
          exact hbi rfl
        · intro e
          rw [e, hb] at hr1
          cases hr1

/-- After a returning call of `move` by the ball `i`, the balls on the board
are those that were on it, except `i` itself when the call destroyed it or
handed it to a warp. -/
theorem move_on_board (s : pong_state) (i : Nat) (s1 : pong_state) (r : Int)
    (hok : state_ok s) (h : pong_ball.move s i = some (s1, r)) (b : Nat) :
    on_board s1 b ↔ (on_board s b ∧ ¬ (b = i ∧ (r = -1 ∨ in_warp s1 i))) := by
  obtain ⟨me, hi, hc⟩ := move_cases s i s1 r h
  rcases hc with ⟨_, hs, hr⟩ | ⟨_, ha, ht⟩
  · subst hs
    subst hr
    constructor
    · intro hb
      refine ⟨hb, ?_⟩
      rintro ⟨e, h0 | ⟨k, w, hk, hw⟩⟩
      · exact absurd h0 (by decide)
      · obtain ⟨r1, hr1⟩ := hb
        exact (hok.warp_slot k w b hk (e ▸ hw)).2 r1 hr1
    · exact fun hb => hb.1
  · have hil : i < s.balls.length := (List.getElem?_eq_some.1 hi).1
    have := move_target_on_board _ s.balls i _ _ s1 r (checks_state_ok s i me hi hok) hil
      (by simp) (by simpa using ha) ht b
    rw [this]
    unfold on_board
    simp only [check_y_ball, check_x_ball]

/-- After an iteration of the warp worker `k`, the balls on the board are
those that were on it and the ball the worker took from its slot. -/
theorem warp_thread_on_board (s : pong_state) (k : Nat) (s1 : pong_state)
    (hok : state_ok s) (h : warp_thread s k = some s1) (c : Nat) :
    on_board s1 c ↔
      (on_board s c ∨ ∃ w : pong_warp, s.board.warps[k]? = some w ∧ w.ball = some c) := by
  obtain ⟨w, hk, hc⟩ := warp_thread_cases s k s1 h
  rcases hc with ⟨hn, hs⟩ | ⟨b, bl, hb, hfree, hbl, hs⟩
  · subst hs
    constructor
    · exact fun h1 => Or.inl h1
    · rintro (h1 | ⟨w1, hk1, hc1⟩)
      · exact h1
      · rw [hk] at hk1
        cases hk1
        rw [hn] at hc1
        cases hc1
  · subst hs
    have hdest : ref_ok ({ s.board with warps := s.board.warps.set k { w with ball := none } }
        : pong_board) (s.board.cell w.x w.y) :=
      (ref_ok_congr s.board _ rfl _).2 (cell_ref_ok s.board hok.cells_ok _ _)
    have hball : ∀ r,
        ((({ s.board with warps := s.board.warps.set k { w with ball := none } }
          : pong_board).write (s.board.cell w.x w.y)
            ((s.board.read (s.board.cell w.x w.y)).set_ball (some b))).read r).ball =
          if r = s.board.cell w.x w.y then some b else (s.board.read r).ball := by
      intro r
      rw [read_write]
      by_cases e : r = s.board.cell w.x w.y
      · rw [if_pos ⟨e, hdest⟩, if_pos e]
        rfl
      · rw [if_neg (fun h => e h.1), if_neg e, read_warps]
    unfold on_board
    simp only [hball]
    constructor
    · rintro ⟨r, hr⟩
      split_ifs at hr with e
      · cases hr
        exact Or.inr ⟨w, hk, hb⟩
      · exact Or.inl ⟨r, hr⟩
    · rintro (⟨r, hr⟩ | ⟨w1, hk1, hc1⟩)
      · refine ⟨r, ?_⟩
        rw [if_neg]
        · exact hr
        · intro e
          rw [e, hfree] at hr
          cases hr
      · rw [hk] at hk1
        cases hk1
        rw [hb] at hc1
        cases hc1
        exact ⟨s.board.cell w.x w.y, by rw [if_pos rfl]⟩

theorem paddle_thread_on_board (s : pong_state) (p : paddle) (hok : state_ok s)
    (hpy : 0 ≤ p.py ∧ p.py < s.board.height) (c : Nat) :
    on_board (paddle_thread s p).1 c ↔ on_board s c := by
  unfold on_board
  rw [paddle_thread_board]
  simp only [(paddle_row_frame s.board _ p.py p.pw hok.cells_ok hpy _).1]

/-! ## The occupancy invariant -/

theorem read_cells_none (bd : pong_board) (n : Nat) (h : bd.cells.length ≤ n) :
    (bd.read (.cells n)).ball = none := by
  simp [pong_board.read, List.getElem?_eq_none h]

theorem getD_of_getElem? {α : Type} (l : List α) (k : Nat) (a d : α) (h : l[k]? = some a) :
    l.getD k d = a := by
  simp [h]

theorem getElem?_of_lt_getD {α : Type} (l : List α) (k : Nat) (d : α) (h : k < l.length) :
    l[k]? = some (l.getD k d) := by
  simp [List.getElem?_eq_getElem h]

/-- The decidable check implies well-formedness. -/
theorem state_ok_of_check (s : pong_state) (h : state_check s) : state_ok s := by
  obtain ⟨h1, h2, h3, h4, h5, h6⟩ := h
  have hnamed : ∀ r b, (s.board.read r).ball = some b →
      ∃ n, r = .cells n ∧ n < s.board.cells.length := by
    intro r b hb
    cases r with
    | obstacle_cell =>
      have : s.board.obstacle_cell.ball = some b := hb
      rw [h4] at this
      cases this
    | cells n =>
      refine ⟨n, rfl, ?_⟩
      by_contra hn
      rw [read_cells_none s.board n (by omega)] at hb
      cases hb
  constructor
  · exact h1
  · exact h2
  · exact h3
  · intro r b hb
    obtain ⟨n, e, hn⟩ := hnamed r b hb
    subst e
    rcases h5 n hn with e | ⟨b1, hb1, e, hin, hc⟩
    · rw [e] at hb
      cases hb
    · rw [e] at hb
      cases hb
      exact ⟨_, getElem?_of_lt_getD s.balls b {} hb1, hin, hc⟩
  · intro k w hk
    have hkl : k < s.board.warps.length := (List.getElem?_eq_some.1 hk).1
    have := (h6 k hkl).1
    rw [getD_of_getElem? _ k w _ hk] at this
    exact this
  · intro k w b hk hb
    have hkl : k < s.board.warps.length := (List.getElem?_eq_some.1 hk).1
    have := (h6 k hkl).2
    rw [getD_of_getElem? _ k w _ hk] at this
    rcases this with e | ⟨b1, hb1, e, hcells, _⟩
    · rw [e] at hb
      cases hb
    · rw [e] at hb
      cases hb
      refine ⟨hb1, ?_⟩
      intro r hr
      obtain ⟨n, e1, hn⟩ := hnamed r b hr
      subst e1
      exact hcells n hn hr
  · intro k k1 w w1 b hk hk1 hb hb1
    have hkl : k < s.board.warps.length := (List.getElem?_eq_some.1 hk).1
    have hkl1 : k1 < s.board.warps.length := (List.getElem?_eq_some.1 hk1).1
    have := (h6 k1 hkl1).2
    rw [getD_of_getElem? _ k1 w1 _ hk1] at this
    rcases this with e | ⟨b1, _, e, _, hu⟩
    · rw [e] at hb1
      cases hb1
    · rw [e] at hb1
      cases hb1
      exact hu k hkl (by rw [getD_of_getElem? _ k w _ hk]; exact hb)

/-- Well-formed states satisfy the occupancy invariant. -/
theorem occupancy_of_state_ok (s : pong_state) (hok : state_ok s) : occupancy_inv s := by
  rintro b ⟨r, hr⟩
  obtain ⟨bl, h1, h2, h3⟩ := hok.occupancy r b hr
  refine ⟨bl, h1, h2, by rw [h3]; exact hr, ?_⟩
  intro r1 hr1
  obtain ⟨bl1, e1, _, e3⟩ := hok.occupancy r1 b hr1
  rw [h1] at e1
  cases e1
  exact e3.symm

/-- C4: in a well-formed state of the sequential model the occupancy
invariant holds (every ball that is the occupant of a cell has a position in
range, is the occupant of the cell at its position, and is named by no other
cell), and well-formedness, hence the invariant, holds again after every
returning `move()`, after every iteration of a warp worker, and after every
paddle tick (the paddle row being a row of the board).  The balls on the
board afterwards are known exactly: `move()` removes the moving ball when it
destroys it (result -1) or hands it to a warp, and no other; the warp worker
adds the ball of its slot; the paddle changes nothing.  A ball that was
destroyed or handed to a warp is the occupant of no cell. -/
theorem occupancy_preserved (s : pong_state) (hok : state_ok s) :
    occupancy_inv s ∧
    (∀ (i : Nat) (s1 : pong_state) (r : Int), pong_ball.move s i = some (s1, r) →
      state_ok s1 ∧ occupancy_inv s1 ∧
      (∀ b, on_board s1 b ↔ (on_board s b ∧ ¬ (b = i ∧ (r = -1 ∨ in_warp s1 i)))) ∧
      ((r = -1 ∨ in_warp s1 i) → ∀ r1, (s1.board.read r1).ball ≠ some i)) ∧
    (∀ (k : Nat) (s1 : pong_state), warp_thread s k = some s1 →
      state_ok s1 ∧ occupancy_inv s1 ∧
      ∀ c, on_board s1 c ↔
        (on_board s c ∨ ∃ w : pong_warp, s.board.warps[k]? = some w ∧ w.ball = some c)) ∧
    (∀ p : paddle, 0 ≤ p.py → p.py < s.board.height →
      state_ok (paddle_thread s p).1 ∧ occupancy_inv (paddle_thread s p).1 ∧
      ∀ c, on_board (paddle_thread s p).1 c ↔ on_board s c) := by
  refine ⟨occupancy_of_state_ok s hok, ?_, ?_, ?_⟩
  · intro i s1 r h
    have h1 := move_state_ok s i s1 r hok h
    refine ⟨h1.1, occupancy_of_state_ok s1 h1.1, move_on_board s i s1 r hok h, ?_⟩
    rintro (h0 | ⟨k, w, hk, hw⟩)
    · exact h1.2 h0
    · exact (h1.1.warp_slot k w i hk hw).2
  · intro k s1 h
    have h1 := warp_thread_state_ok s k s1 hok h
    exact ⟨h1, occupancy_of_state_ok s1 h1, warp_thread_on_board s k s1 hok h⟩
  · intro p h0 h1
    have h2 := paddle_thread_state_ok s p hok ⟨h0, h1⟩
    exact ⟨h2, occupancy_of_state_ok _ h2, paddle_thread_on_board s p hok ⟨h0, h1⟩⟩

theorem occupancy_preserved_witness :
    state_ok warp_state ∧
    (∃ s1, pong_ball.move warp_state 0 = some (s1, 0) ∧ occupancy_inv s1 ∧ in_warp s1 0 ∧
      ¬ on_board s1 0 ∧ on_board s1 1) :=
  ⟨state_ok_of_check warp_state (by decide),
   (pong_ball.move warp_state 0).get (by decide) |>.1,
   by decide,
   ((occupancy_preserved warp_state (state_ok_of_check warp_state (by decide))).2.1 0 _ 0
      (by decide)).2.1,
   ⟨1, { x := 3, y := 3, ball := some 0 }, by decide, rfl⟩,
   fun ⟨r1, hr1⟩ =>
     ((occupancy_preserved warp_state (state_ok_of_check warp_state (by decide))).2.1 0 _ 0
       (by decide)).2.2.2 (Or.inr ⟨1, { x := 3, y := 3, ball := some 0 }, by decide, rfl⟩)
       r1 hr1,
   ⟨.cells 13, by decide⟩⟩

/-! ## The result of `move` -/

/-- Result and new position of `this` in each branch on the target cell. -/
theorem move_target_result (bd : pong_board) (balls : List pong_ball) (i : Nat)
    (m : pong_ball) (ccur : cell_ref) (s1 : pong_state) (r : Int) (hil : i < balls.length)
    (h : move_target bd balls i m ccur = some (s1, r)) :
    ∃ b1, s1.balls[i]? = some b1 ∧
      ((((∃ j, (bd.read (bd.cell (m.x + m.dx) (m.y + m.dy))).ball = some j) ∨
          ((bd.read (bd.cell (m.x + m.dx) (m.y + m.dy))).ball = none ∧
            ((bd.read (bd.cell (m.x + m.dx) (m.y + m.dy))).type = .cell_warp ∨
             pong_celltype.cell_obstacle.val
               ≤ (bd.read (bd.cell (m.x + m.dx) (m.y + m.dy))).type.val))) ∧
        r = 0 ∧ b1.x = m.x ∧ b1.y = m.y) ∨
       ((bd.read (bd.cell (m.x + m.dx) (m.y + m.dy))).ball = none ∧
        (bd.read (bd.cell (m.x + m.dx) (m.y + m.dy))).type = .cell_trash ∧
        r = -1 ∧ b1.x = m.x ∧ b1.y = m.y) ∨
       ((bd.read (bd.cell (m.x + m.dx) (m.y + m.dy))).ball = none ∧
        ((bd.read (bd.cell (m.x + m.dx) (m.y + m.dy))).type = .cell_empty ∨
         (bd.read (bd.cell (m.x + m.dx) (m.y + m.dy))).type = .cell_sticky) ∧
        r = 1 ∧ b1.x = m.x + m.dx ∧ b1.y = m.y + m.dy)) := by
  have him : (balls.set i m)[i]? = some m := List.getElem?_set_self hil
  rcases target_cases (bd.read (bd.cell (m.x + m.dx) (m.y + m.dy))) with
    ⟨j, hb⟩ | ⟨hb, ht⟩ | ⟨hb, ht⟩ | ⟨hb, ht⟩ | ⟨hb, ht⟩
  · rw [move_target_collision bd balls i m _ j hb] at h
    cases hc : collide (balls.set i m) i j with
    | none => rw [hc] at h; cases h
    | some bs =>
      rw [hc] at h
      cases h
      obtain ⟨b1, e1, e2, e3⟩ := (same_positions_collide _ _ i j hc).2 i m him
      exact ⟨b1, e1, Or.inl ⟨Or.inl ⟨j, hb⟩, rfl, e2, e3⟩⟩
  · obtain ⟨k, w, hw, hk, hwb, hr, hs1⟩ := move_target_warp_some bd balls i m _ s1 r hb ht h
    subst hs1
    exact ⟨_, List.getElem?_set_self hil, Or.inl ⟨Or.inr ⟨hb, Or.inl ht⟩, hr, rfl, rfl⟩⟩
  · rw [move_target_trash bd balls i m _ hb ht] at h
    cases h
    exact ⟨_, List.getElem?_set_self hil, Or.inr (Or.inl ⟨hb, ht, rfl, rfl, rfl⟩)⟩
  · rw [move_target_obstacle bd balls i m _ hb ht] at h
    cases h
    exact ⟨_, List.getElem?_set_self hil, Or.inl ⟨Or.inr ⟨hb, Or.inr ht⟩, rfl, rfl, rfl⟩⟩
  · rw [move_target_free bd balls i m _ hb ht] at h
    cases h
    refine ⟨_, List.getElem?_set_self hil, Or.inr (Or.inr ⟨hb, ht, rfl, ?_, ?_⟩)⟩
    · split_ifs <;> rfl
    · split_ifs <;> rfl

/-- Every branch on the target cell except the warp branch returns. -/
theorem move_target_returns (bd : pong_board) (balls : List pong_ball) (i : Nat)
    (m : pong_ball) (ccur : cell_ref) (hil : i < balls.length)
    (hocc : ∀ j, (bd.read (bd.cell (m.x + m.dx) (m.y + m.dy))).ball = some j →
      j < balls.length)
    (hw : ¬ ((bd.read (bd.cell (m.x + m.dx) (m.y + m.dy))).ball = none ∧
      (bd.read (bd.cell (m.x + m.dx) (m.y + m.dy))).type = .cell_warp)) :
    ∃ s1 r, move_target bd balls i m ccur = some (s1, r) := by
  rcases target_cases (bd.read (bd.cell (m.x + m.dx) (m.y + m.dy))) with
    ⟨j, hb⟩ | ⟨hb, ht⟩ | ⟨hb, ht⟩ | ⟨hb, ht⟩ | ⟨hb, ht⟩
  · rw [move_target_collision bd balls i m _ j hb]
    cases hc : collide (balls.set i m) i j with
    | none =>
      exfalso
      rcases collide_eq_none _ i j hc with e | e
      · rw [List.getElem?_eq_none_iff] at e
        simp at e
        omega
      · rw [List.getElem?_eq_none_iff] at e
        have := hocc j hb
        simp at e
        omega
    | some bs => exact ⟨_, _, rfl⟩
  · exact absurd ⟨hb, ht⟩ hw
  · exact ⟨_, _, move_target_trash bd balls i m _ hb ht⟩
  · exact ⟨_, _, move_target_obstacle bd balls i m _ hb ht⟩
  · exact ⟨_, _, move_target_free bd balls i m _ hb ht⟩

/-- The result of a returning `move()`: in a well-formed state, for a ball
that is stopped or on the board at its position, a returning `move()` leaves
the ball at a new position if and only if it returns 1, if and only if the
ball was not stopped and the target cell (read after the axis checks) is
unoccupied and of type empty or sticky; it returns -1 if and only if the
ball was not stopped and the target cell is unoccupied and of type trash;
otherwise it returns 0 and the position is unchanged.  The call does return
in every case but the warp branch, where `accept_ball` asserts that the slot
is empty. -/
theorem move_result (s : pong_state) (i : Nat) (me : pong_ball) (hok : state_ok s)
    (hi : s.balls[i]? = some me)
    (hon : me.stopped = false → (s.board.read (s.board.cell me.x me.y)).ball = some i) :
    (∀ (s1 : pong_state) (r : Int), pong_ball.move s i = some (s1, r) →
      ∃ b1, s1.balls[i]? = some b1 ∧
        (r = 1 ↔ (b1.x ≠ me.x ∨ b1.y ≠ me.y)) ∧
        ((b1.x ≠ me.x ∨ b1.y ≠ me.y) ↔
          (me.stopped = false ∧ (target_cell s me).ball = none ∧
            ((target_cell s me).type = .cell_empty ∨
             (target_cell s me).type = .cell_sticky))) ∧
        (r = -1 ↔
          (me.stopped = false ∧ (target_cell s me).ball = none ∧
            (target_cell s me).type = .cell_trash)) ∧
        (r = 1 ∨ r = -1 ∨ (r = 0 ∧ b1.x = me.x ∧ b1.y = me.y))) ∧
    (¬ (me.stopped = false ∧ (target_cell s me).ball = none ∧
        (target_cell s me).type = .cell_warp) →
      ∃ s1 r, pong_ball.move s i = some (s1, r)) := by
  have hil : i < s.balls.length := (List.getElem?_eq_some.1 hi).1
  constructor
  · intro s1 r h
    obtain ⟨me1, hi1, hc⟩ := move_cases s i s1 r h
    rw [hi] at hi1
    cases hi1
    rcases hc with ⟨hst, hs, hr⟩ | ⟨hst, ha, ht⟩
    · subst hs
      subst hr
      refine ⟨me, hi, ?_, ?_, ?_, Or.inr (Or.inr ⟨rfl, rfl, rfl⟩)⟩
      · simp
      · simp [hst]
      · simp [hst]
    · obtain ⟨b1, hb1, hcase⟩ := move_target_result _ s.balls i _ _ s1 r hil ht
      refine ⟨b1, hb1, ?_⟩
      have hne : ∀ m : pong_ball, (bounced s me) = m →
          (target_cell s me).ball = none → (m.dx ≠ 0 ∨ m.dy ≠ 0) := by
        intro m hm hnone
        by_contra hc
        have hdx : (bounced s me).dx = 0 := by rw [hm]; omega
        have hdy : (bounced s me).dy = 0 := by rw [hm]; omega
        have : (target_cell s me).ball = some i := by
          unfold target_cell target_ref
          unfold bounced at hdx hdy
          rw [hdx, hdy]
          simpa using ha
        rw [this] at hnone
        cases hnone
      have hcase1 :
          (((∃ j, (target_cell s me).ball = some j) ∨
              ((target_cell s me).ball = none ∧
                ((target_cell s me).type = .cell_warp ∨
                 pong_celltype.cell_obstacle.val ≤ (target_cell s me).type.val))) ∧
            r = 0 ∧ b1.x = (bounced s me).x ∧ b1.y = (bounced s me).y) ∨
          ((target_cell s me).ball = none ∧ (target_cell s me).type = .cell_trash ∧
            r = -1 ∧ b1.x = (bounced s me).x ∧ b1.y = (bounced s me).y) ∨
          ((target_cell s me).ball = none ∧
            ((target_cell s me).type = .cell_empty ∨
             (target_cell s me).type = .cell_sticky) ∧
            r = 1 ∧ b1.x = (bounced s me).x + (bounced s me).dx ∧
            b1.y = (bounced s me).y + (bounced s me).dy) := hcase
      have hbx : (bounced s me).x = me.x := by unfold bounced; simp
      have hby : (bounced s me).y = me.y := by unfold bounced; simp
      rw [hbx, hby] at hcase1
      generalize target_cell s me = T at hcase1 hne ⊢
      rcases hcase1 with ⟨hc1, hr, hx, hy⟩ | ⟨hb, hty, hr, hx, hy⟩ | ⟨hb, hty, hr, hx, hy⟩
      · subst hr
        have hnot : ¬ (T.ball = none ∧
            (T.type = .cell_empty ∨ T.type = .cell_sticky ∨ T.type = .cell_trash)) := by
          rintro ⟨h2, h3⟩
          rcases hc1 with ⟨j, hj⟩ | ⟨_, hw | ho⟩
          · rw [hj] at h2
            cases h2
          · rw [hw] at h3
            simp at h3
          · rcases h3 with h3 | h3 | h3 <;> rw [h3] at ho <;> exact absurd ho (by decide)
        refine ⟨by simp [hx, hy], ?_, ?_, Or.inr (Or.inr ⟨rfl, hx, hy⟩)⟩
        · constructor
          · intro h1
            exact absurd h1 (by simp [hx, hy])
          · rintro ⟨_, h2, h3⟩
            exfalso
            rcases h3 with h3 | h3
            · exact hnot ⟨h2, Or.inl h3⟩
            · exact hnot ⟨h2, Or.inr (Or.inl h3)⟩
        · constructor
          · intro h1
            exact absurd h1 (by decide)
          · rintro ⟨_, h2, h3⟩
            exact absurd ⟨h2, Or.inr (Or.inr h3)⟩ hnot
      · subst hr
        refine ⟨by simp [hx, hy], ?_, ?_, Or.inr (Or.inl rfl)⟩
        · constructor
          · intro h1
            exact absurd h1 (by simp [hx, hy])
          · rintro ⟨_, _, h3⟩
            rw [hty] at h3
            simp at h3
        · simp [hst, hb, hty]
      · subst hr
        have hmoved : b1.x ≠ me.x ∨ b1.y ≠ me.y := by
          rcases hne _ rfl hb with h1 | h1
          · left; rw [hx]; omega
          · right; rw [hy]; omega
        refine ⟨by simp [hmoved], ?_, ?_, Or.inl rfl⟩
        · simp [hmoved, hst, hb, hty]
        · constructor
          · intro h1
            exact absurd h1 (by decide)
          · rintro ⟨_, _, h3⟩
            rw [h3] at hty
            simp at hty
  · intro hw
    by_cases hst : me.stopped = true
    · exact ⟨s, 0, move_stopped s i me hi hst⟩
    · have hst1 : me.stopped = false := by simpa using hst
      rw [move_eq s i me hi hst1 (hon hst1)]
      have hok1 := checks_state_ok s i me hi hok
      apply move_target_returns _ _ _ _ _ hil
      · intro j hj
        obtain ⟨bl, h1, _, _⟩ := hok1.occupancy _ j hj
        have : j < (s.balls.set i _).length := (List.getElem?_eq_some.1 h1).1
        simpa using this
      · intro h1
        apply hw
        refine ⟨hst1, ?_, ?_⟩
        · exact h1.1
        · exact h1.2

theorem move_result_scenario_A :
    ∃ s1 r, pong_ball.move scenario_A 0 = some (s1, r) :=
  (move_result scenario_A 0 { x := 4, y := 5, dx := 1, dy := 0 }
    (state_ok_of_check scenario_A (by decide)) rfl (by decide)).2 (by decide)

/-! ## Collision resolution -/

theorem hit_obstacle_type (c : pong_cell) :
    c.hit_obstacle.type = c.type ∨
    (c.type = .cell_obstacle ∧ c.strength = 1 ∧ c.hit_obstacle.type = .cell_empty) := by
  unfold pong_cell.hit_obstacle
  split_ifs with h1 h2
  · right
    exact ⟨h1.1, by omega, rfl⟩
  · left; rfl
  · left; rfl

theorem hit_write_type (bd : pong_board) (r r1 : cell_ref) :
    ((bd.write r (bd.read r).hit_obstacle).read r1).type = (bd.read r1).type ∨
    (r1 = r ∧ (bd.read r1).type = .cell_obstacle ∧ (bd.read r1).strength = 1 ∧
      ((bd.write r (bd.read r).hit_obstacle).read r1).type = .cell_empty) := by
  rw [read_write]
  split_ifs with h
  · obtain ⟨e, _⟩ := h
    subst e
    rcases hit_obstacle_type (bd.read r1) with h1 | h1
    · exact Or.inl h1
    · exact Or.inr ⟨rfl, h1⟩
  · left; rfl

/-- A cell type changed by the first axis check: the neighbour `cx` was an
obstacle of strength 1 and is now empty. -/
theorem check_x_type (bd : pong_board) (m : pong_ball) (r : cell_ref) :
    ((check_x bd m).1.read r).type = (bd.read r).type ∨
    (r = bd.cell (m.x + m.dx) m.y ∧ (bd.read r).type = .cell_obstacle ∧
      (bd.read r).strength = 1 ∧ ((check_x bd m).1.read r).type = .cell_empty) := by
  rw [check_x_eq]
  split_ifs
  · exact hit_write_type bd _ r
  · left; rfl

/-- A cell type changed by the second axis check: the neighbour `cy` was an
obstacle of strength 1 and is now empty. -/
theorem check_y_type (bd : pong_board) (m : pong_ball) (r : cell_ref) :
    ((check_y bd m).1.read r).type = (bd.read r).type ∨
    (r = bd.cell m.x (m.y + m.dy) ∧ (bd.read r).type = .cell_obstacle ∧
      (bd.read r).strength = 1 ∧ ((check_y bd m).1.read r).type = .cell_empty) := by
  rw [check_y_eq]
  split_ifs
  · exact hit_write_type bd _ r
  · left; rfl

/-- Cell types after both axis checks. -/
theorem checks_type (bd : pong_board) (m : pong_ball) (r : cell_ref) :
    ((check_y (check_x bd m).1 (check_x bd m).2).1.read r).type = (bd.read r).type ∨
    ((r = bd.cell (m.x + m.dx) m.y ∨ r = bd.cell m.x (m.y + m.dy)) ∧
      (bd.read r).type = .cell_obstacle ∧
      ((check_y (check_x bd m).1 (check_x bd m).2).1.read r).type = .cell_empty) := by
  rcases check_y_type (check_x bd m).1 (check_x bd m).2 r with h1 | ⟨h1, h2, _, h4⟩
  · rcases check_x_type bd m r with h2 | ⟨h2, h3, _, h5⟩
    · left
      rw [h1, h2]
    · right
      exact ⟨Or.inl h2, h3, by rw [h1, h5]⟩
  · rcases check_x_type bd m r with h5 | ⟨_, _, _, h8⟩
    · right
      refine ⟨Or.inr ?_, by rw [← h5]; exact h2, h4⟩
      simpa using h1
    · rw [h8] at h2
      cases h2

/-- C7 (amended): when the target cell of a moving ball `i` holds another
ball `j`, whatever the type of the target cell, `move()` returns 0; `j`
then has the velocity `(vx, vy)` that `i` had after its axis checks and is
not stopped; `i` has each component negated where it differed from that of
`j` and unchanged where it was equal; no other ball object has changed; the
collision counter has grown by one; no position and no cell occupant has
changed; and the board is exactly as the two axis checks left it, so that a
cell whose type has changed is an axis neighbour that was an obstacle and
is now empty. -/
theorem collision_resolution (s : pong_state) (i j : Nat) (me o : pong_ball)
    (hi : s.balls[i]? = some me) (hst : me.stopped = false)
    (ha : (s.board.read (s.board.cell me.x me.y)).ball = some i)
    (ht : (target_cell s me).ball = some j) (hij : j ≠ i) (hj : s.balls[j]? = some o) :
    ∃ s1, pong_ball.move s i = some (s1, 0) ∧
      s1.balls[j]? = some { o with dx := (bounced s me).dx, dy := (bounced s me).dy,
                                   stopped := false } ∧
      s1.balls[i]? = some
        { me with dx := if o.dx = (bounced s me).dx then (bounced s me).dx
                        else -(bounced s me).dx,
                  dy := if o.dy = (bounced s me).dy then (bounced s me).dy
                        else -(bounced s me).dy } ∧
      (∀ k, k ≠ i → k ≠ j → s1.balls[k]? = s.balls[k]?) ∧
      s1.board.ncollisions = s.board.ncollisions + 1 ∧
      (∀ r, (s1.board.read r).ball = (s.board.read r).ball) ∧
      s1.board = { (check_y (check_x s.board me).1 (check_x s.board me).2).1 with
                   ncollisions := s.board.ncollisions + 1 } ∧
      (∀ r, (s1.board.read r).type ≠ (s.board.read r).type →
        (r = s.board.cell (me.x + me.dx) me.y ∨
         r = s.board.cell me.x (me.y + me.dy)) ∧
        (s.board.read r).type = .cell_obstacle ∧ (s1.board.read r).type = .cell_empty) := by
  have hil : i < s.balls.length := (List.getElem?_eq_some.1 hi).1
  have hjl : j < s.balls.length := (List.getElem?_eq_some.1 hj).1
  have hm : (s.balls.set i (bounced s me))[i]? = some (bounced s me) :=
    List.getElem?_set_self hil
  have ho : (s.balls.set i (bounced s me))[j]? = some o := by
    rw [List.getElem?_set_ne (fun e => hij e.symm)]
    exact hj
  have hc := collide_ne (s.balls.set i (bounced s me)) i j (bounced s me) o
    (fun e => hij e.symm) hm ho
  have hmove : pong_ball.move s i = some
      (⟨{ (check_y (check_x s.board me).1 (check_x s.board me).2).1 with
            ncollisions := (check_y (check_x s.board me).1 (check_x s.board me).2).1.ncollisions
              + 1 },
        ((s.balls.set i (bounced s me)).set j
          { o with dx := (bounced s me).dx, dy := (bounced s me).dy, stopped := false }).set i
          { bounced s me with
              dx := if o.dx = (bounced s me).dx then (bounced s me).dx else -(bounced s me).dx,
              dy := if o.dy = (bounced s me).dy then (bounced s me).dy
                    else -(bounced s me).dy }⟩, 0) := by
    rw [move_eq s i me hi hst ha, move_target_collision _ _ _ _ _ j ht]
    change Option.map _ (collide (s.balls.set i (bounced s me)) i j) = _
    rw [hc]
    rfl
  refine ⟨_, hmove, ?_, ?_, ?_, ?_, ?_, ?_, ?_⟩
  · show (List.set _ i _)[j]? = _
    rw [List.getElem?_set_ne (fun e => hij e.symm), List.getElem?_set_self (by simpa using hjl)]
  · show (List.set _ i _)[i]? = _
    rw [List.getElem?_set_self (by simpa using hil)]
    congr 1
    have hbx : (bounced s me).x = me.x := by unfold bounced; simp
    have hby : (bounced s me).y = me.y := by unfold bounced; simp
    have hbs : (bounced s me).stopped = me.stopped := by unfold bounced; simp
    simp only [hbx, hby, hbs]
  · intro k hki hkj
    show (List.set _ i _)[k]? = _
    rw [List.getElem?_set_ne (fun e => hki e.symm), List.getElem?_set_ne (fun e => hkj e.symm),
      List.getElem?_set_ne (fun e => hki e.symm)]
  · show _ + 1 = _
    simp
  · intro r
    show (pong_board.read _ r).ball = _
    rw [read_ncollisions]
    simp
  · show _ = _
    simp
  · intro r hr
    change (pong_board.read _ r).type ≠ _ at hr
    show _ ∧ _ ∧ (pong_board.read _ r).type = _
    rw [read_ncollisions] at hr ⊢
    rcases checks_type s.board me r with h1 | h1
    · exact absurd h1 hr
    · exact h1

theorem collision_resolution_witness :
    ∃ s1, pong_ball.move bounce_collision_state 0 = some (s1, 0) ∧
      s1.balls[1]? = some { x := 0, y := 2, dx := -1, dy := 1 } ∧
      s1.balls[0]? = some { x := 1, y := 1, dx := 1, dy := -1 } ∧
      s1.board.ncollisions = 1 := by
  obtain ⟨s1, h1, h2, h3, _, h5, _⟩ := collision_resolution bounce_collision_state 0 1
    { x := 1, y := 1, dx := 1, dy := 1 } { x := 0, y := 2, dx := 1, dy := -1 }
    rfl rfl (by decide) (by decide) (by decide) rfl
  exact ⟨s1, h1, h2, h3, h5⟩

/-- C7 as stated fails: in `bounce_collision_state` the call `move()` of
ball 0 takes the collision branch (its target cell holds ball 1) and returns
0, yet the type of the cell `(2,1)` has changed, from obstacle to empty. -/
theorem collision_changes_cell_type :
    (target_cell bounce_collision_state { x := 1, y := 1, dx := 1, dy := 1 }).ball = some 1 ∧
    ∃ s1, pong_ball.move bounce_collision_state 0 = some (s1, 0) ∧
      (bounce_collision_state.board.read (bounce_collision_state.board.cell 2 1)).type
        = .cell_obstacle ∧
      (s1.board.read (s1.board.cell 2 1)).type = .cell_empty ∧
      ¬ ∀ r, (s1.board.read r).type = (bounce_collision_state.board.read r).type := by
  refine ⟨by decide, (pong_ball.move bounce_collision_state 0).get (by decide) |>.1,
    by decide, by decide, by decide, ?_⟩
  intro h
  exact absurd (h (.cells 5)) (by decide)

/-! ## Collision accounting -/

theorem move_target_ncollisions (bd : pong_board) (balls : List pong_ball) (i : Nat)
    (m : pong_ball) (ccur : cell_ref) (s1 : pong_state) (r : Int)
    (h : move_target bd balls i m ccur = some (s1, r)) :
    s1.board.ncollisions = bd.ncollisions +
      (if (bd.read (bd.cell (m.x + m.dx) (m.y + m.dy))).ball.isSome then 1 else 0) := by
  rcases target_cases (bd.read (bd.cell (m.x + m.dx) (m.y + m.dy))) with
    ⟨j, hb⟩ | ⟨hb, ht⟩ | ⟨hb, ht⟩ | ⟨hb, ht⟩ | ⟨hb, ht⟩
  · rw [move_target_collision bd balls i m _ j hb] at h
    cases hc : collide (balls.set i m) i j with
    | none => rw [hc] at h; cases h
    | some bs =>
      rw [hc] at h
      cases h
      simp [hb]
  · obtain ⟨k, w, _, _, _, _, hs1⟩ := move_target_warp_some bd balls i m _ s1 r hb ht h
    subst hs1
    simp [hb]
  · rw [move_target_trash bd balls i m _ hb ht] at h
    cases h
    simp [hb]
  · rw [move_target_obstacle bd balls i m _ hb ht] at h
    cases h
    simp [hb]
  · rw [move_target_free bd balls i m _ hb ht] at h
    cases h
    simp [hb]

theorem move_ncollisions (s : pong_state) (i : Nat) (s1 : pong_state) (r : Int)
    (h : pong_ball.move s i = some (s1, r)) :
    s1.board.ncollisions = s.board.ncollisions + (if takes_collision s i then 1 else 0) := by
  obtain ⟨me, hi, hc⟩ := move_cases s i s1 r h
  rcases hc with ⟨hst, hs, _⟩ | ⟨hst, _, ht⟩
  · subst hs
    simp [takes_collision, hi, hst]
  · have := move_target_ncollisions _ _ _ _ _ _ _ ht
    rw [this]
    simp only [check_y_ncollisions, check_x_ncollisions, takes_collision, hi, hst,
      Bool.not_false, Bool.true_and]
    rfl

/-- C8: a returning `move()` leaves the collision counter one higher when
it took the collision branch (ball not stopped, target cell occupied) and
unchanged in every other outcome; hence after any sequence of returning
`move()` calls the counter has grown by exactly the number of calls that took
the collision branch. -/
theorem collision_accounting (s : pong_state) (l : List Nat) (s1 : pong_state)
    (h : run_moves s l = some s1) :
    (∀ (i : Nat) (s2 : pong_state) (r : Int), pong_ball.move s i = some (s2, r) →
      (takes_collision s i = true → s2.board.ncollisions = s.board.ncollisions + 1) ∧
      (takes_collision s i = false → s2.board.ncollisions = s.board.ncollisions)) ∧
    s1.board.ncollisions = s.board.ncollisions + collision_events s l := by
  constructor
  · intro i s2 r hm
    have := move_ncollisions s i s2 r hm
    constructor
    · intro ht
      rw [this, ht]
      rfl
    · intro ht
      rw [this, ht]
      rfl
  · induction l generalizing s with
    | nil =>
      simp only [run_moves, Option.some.injEq] at h
      subst h
      rfl
    | cons i is ih =>
      simp only [run_moves] at h
      cases hm : pong_ball.move s i with
      | none => rw [hm] at h; cases h
      | some p =>
        obtain ⟨s2, r⟩ := p
        rw [hm] at h
        have h1 := ih s2 h
        have h2 := move_ncollisions s i s2 r hm
        rw [h1, h2]
        simp only [collision_events, hm]
        omega

theorem collision_accounting_witness :
    ∃ s1, run_moves bounce_collision_state [0, 1, 0, 1, 1] = some s1 ∧
      collision_events bounce_collision_state [0, 1, 0, 1, 1] = 3 ∧
      s1.board.ncollisions =
        bounce_collision_state.board.ncollisions
          + collision_events bounce_collision_state [0, 1, 0, 1, 1] :=
  ⟨(run_moves bounce_collision_state [0, 1, 0, 1, 1]).get (by decide), by decide, by decide,
    (collision_accounting bounce_collision_state [0, 1, 0, 1, 1] _
      (Option.some_get (by decide)).symm).2⟩

/-! ## Sticky capture and release -/

theorem collide_some_valid (bs bs1 : List pong_ball) (i j : Nat)
    (h : collide bs i j = some bs1) : ∃ m o, bs[i]? = some m ∧ bs[j]? = some o := by
  cases hi : bs[i]? with
  | none => simp [collide, hi] at h
  | some m =>
    cases hj : bs[j]? with
    | none => simp [collide, hj] at h
    | some o => exact ⟨m, o, rfl, rfl⟩

/-- The ball objects after the branches on the target cell: only `this`
and, in the collision branch, the occupant of the target cell are written. -/
theorem move_target_other_ball (bd : pong_board) (balls : List pong_ball) (j : Nat)
    (m : pong_ball) (ccur : cell_ref) (s1 : pong_state) (r : Int) (i : Nat) (hij : i ≠ j)
    (hnot : (bd.read (bd.cell (m.x + m.dx) (m.y + m.dy))).ball ≠ some i)
    (h : move_target bd balls j m ccur = some (s1, r)) :
    s1.balls[i]? = balls[i]? := by
  have hji : j ≠ i := fun e => hij e.symm
  rcases target_cases (bd.read (bd.cell (m.x + m.dx) (m.y + m.dy))) with
    ⟨k, hb⟩ | ⟨hb, ht⟩ | ⟨hb, ht⟩ | ⟨hb, ht⟩ | ⟨hb, ht⟩
  · rw [move_target_collision bd balls j m _ k hb] at h
    have hki : k ≠ i := by
      intro e
      subst e
      exact hnot hb
    cases hc : collide (balls.set j m) j k with
    | none => rw [hc] at h; cases h
    | some bs =>
      rw [hc] at h
      cases h
      obtain ⟨mj, o, h1, h2⟩ := collide_some_valid _ _ j k hc
      show bs[i]? = _
      by_cases hjk : j = k
      · subst hjk
        rw [collide_self _ j mj h1] at hc
        cases hc
        rw [List.getElem?_set_ne hji, List.getElem?_set_ne hji]
      · rw [collide_ne _ j k mj o hjk h1 h2] at hc
        cases hc
        rw [List.getElem?_set_ne hji, List.getElem?_set_ne hki, List.getElem?_set_ne hji]
  · obtain ⟨k, w, _, _, _, _, hs1⟩ := move_target_warp_some bd balls j m _ s1 r hb ht h
    subst hs1
    exact List.getElem?_set_ne hji
  · rw [move_target_trash bd balls j m _ hb ht] at h
    cases h
    exact List.getElem?_set_ne hji
  · rw [move_target_obstacle bd balls j m _ hb ht] at h
    cases h
    exact List.getElem?_set_ne hji
  · rw [move_target_free bd balls j m _ hb ht] at h
    cases h
    exact List.getElem?_set_ne hji

/-- A call of `move` by the ball `j` writes another ball `i` only when it
collides with it. -/
theorem move_other_ball (s : pong_state) (j : Nat) (s1 : pong_state) (r : Int) (i : Nat)
    (hij : i ≠ j) (h : pong_ball.move s j = some (s1, r))
    (hnot : ∀ mj, s.balls[j]? = some mj → mj.stopped = false →
      (target_cell s mj).ball ≠ some i) :
    s1.balls[i]? = s.balls[i]? := by
  obtain ⟨mj, hj, hc⟩ := move_cases s j s1 r h
  rcases hc with ⟨_, hs, _⟩ | ⟨hst, _, ht⟩
  · rw [hs]
  · exact move_target_other_ball _ _ j _ _ s1 r i hij (hnot mj hj hst) ht

/-- The collision branch, seen from the ball that is hit. -/
theorem move_hits_ball (s : pong_state) (j : Nat) (s1 : pong_state) (r : Int) (i : Nat)
    (mj bi : pong_ball) (hij : i ≠ j) (hj : s.balls[j]? = some mj) (hi : s.balls[i]? = some bi)
    (hst : mj.stopped = false) (ht : (target_cell s mj).ball = some i)
    (h : pong_ball.move s j = some (s1, r)) :
    r = 0 ∧
    s1.balls[i]? = some { bi with dx := (bounced s mj).dx, dy := (bounced s mj).dy,
                                  stopped := false } ∧
    ((bounced s mj).dx ≠ 0 ∨ (bounced s mj).dy ≠ 0) := by
  have hjl : j < s.balls.length := (List.getElem?_eq_some.1 hj).1
  have hil : i < s.balls.length := (List.getElem?_eq_some.1 hi).1
  obtain ⟨mj1, hj1, hc⟩ := move_cases s j s1 r h
  rw [hj] at hj1
  cases hj1
  rcases hc with ⟨hst1, _, _⟩ | ⟨_, ha, hmt⟩
  · rw [hst] at hst1
    cases hst1
  · have hm : (s.balls.set j (bounced s mj))[j]? = some (bounced s mj) :=
      List.getElem?_set_self hjl
    have ho : (s.balls.set j (bounced s mj))[i]? = some bi := by
      rw [List.getElem?_set_ne (fun e => hij e.symm)]
      exact hi
    have hc := collide_ne (s.balls.set j (bounced s mj)) j i (bounced s mj) bi
      (fun e => hij e.symm) hm ho
    rw [move_target_collision _ _ _ _ _ i ht] at hmt
    change Option.map _ (collide (s.balls.set j (bounced s mj)) j i) = _ at hmt
    rw [hc] at hmt
    cases hmt
    refine ⟨rfl, ?_, ?_⟩
    · show (List.set _ j _)[i]? = _
      rw [List.getElem?_set_ne (fun e => hij e.symm),
        List.getElem?_set_self (by simpa using hil)]
    · by_contra hz
      have hdx : (bounced s mj).dx = 0 := by omega
      have hdy : (bounced s mj).dy = 0 := by omega
      have hself : (target_cell s mj).ball = some j := by
        unfold target_cell target_ref
        unfold bounced at hdx hdy
        rw [hdx, hdy]
        simpa using ha
      rw [hself] at ht
      cases ht
      exact hij rfl

/-- The branch into an empty or sticky cell: the ball stops exactly when
the cell it has entered is sticky. -/
theorem move_target_sticky (bd : pong_board) (balls : List pong_ball) (i : Nat)
    (m : pong_ball) (ccur : cell_ref) (s1 : pong_state) (hil : i < balls.length)
    (h : move_target bd balls i m ccur = some (s1, 1)) :
    ∃ b1, s1.balls[i]? = some b1 ∧ b1.x = m.x + m.dx ∧ b1.y = m.y + m.dy ∧
      (s1.board.read (s1.board.cell b1.x b1.y)).type
        = (bd.read (bd.cell (m.x + m.dx) (m.y + m.dy))).type ∧
      ((bd.read (bd.cell (m.x + m.dx) (m.y + m.dy))).type = .cell_sticky →
        b1.dx = 0 ∧ b1.dy = 0 ∧ b1.stopped = true) := by
  rcases target_cases (bd.read (bd.cell (m.x + m.dx) (m.y + m.dy))) with
    ⟨j, hb⟩ | ⟨hb, ht⟩ | ⟨hb, ht⟩ | ⟨hb, ht⟩ | ⟨hb, ht⟩
  · rw [move_target_collision bd balls i m _ j hb] at h
    cases hc : collide (balls.set i m) i j with
    | none => rw [hc] at h; cases h
    | some bs =>
      rw [hc] at h
      simp at h
  · obtain ⟨k, w, _, _, _, hr, _⟩ := move_target_warp_some bd balls i m _ s1 1 hb ht h
    exact absurd hr (by decide)
  · rw [move_target_trash bd balls i m _ hb ht] at h
    simp at h
  · rw [move_target_obstacle bd balls i m _ hb ht] at h
    simp at h
  · rw [move_target_free bd balls i m _ hb ht] at h
    simp only [Option.some.injEq, Prod.mk.injEq, and_true] at h
    subst h
    refine ⟨_, List.getElem?_set_self hil, ?_, ?_, ?_, ?_⟩
    · split_ifs <;> rfl
    · split_ifs <;> rfl
    · have hx : (if (bd.read (bd.cell (m.x + m.dx) (m.y + m.dy))).type = .cell_sticky then
          ({ m with x := m.x + m.dx, y := m.y + m.dy, dx := 0, dy := 0, stopped := true }
            : pong_ball)
        else { m with x := m.x + m.dx, y := m.y + m.dy }).x = m.x + m.dx := by
        split_ifs <;> rfl
      have hy : (if (bd.read (bd.cell (m.x + m.dx) (m.y + m.dy))).type = .cell_sticky then
          ({ m with x := m.x + m.dx, y := m.y + m.dy, dx := 0, dy := 0, stopped := true }
            : pong_ball)
        else { m with x := m.x + m.dx, y := m.y + m.dy }).y = m.y + m.dy := by
        split_ifs <;> rfl
      simp only [hx, hy, write_cell]
      rw [set_ball_type, set_ball_type]
    · intro hs
      rw [if_pos hs]
      exact ⟨rfl, rfl, rfl⟩

/-- C9: a ball whose `move()` returns 1 and leaves it on a sticky cell has
velocity `(0,0)` and is stopped.  While a ball `i` is stopped: its own
`move()` changes nothing; a `move()` of another ball whose target cell does
not hold `i` (in a well-formed state: whose target is not the cell of `i`),
a paddle tick and, for a ball on the board of a well-formed state, an
iteration of a warp worker leave the ball object of `i` as it is; and a
`move()` after which `i` is no longer stopped is a call by another ball that
took the collision branch on the cell holding `i`, returned 0, left `i` at
its position and gave it a velocity different from `(0,0)`. -/
theorem sticky_capture_release (s : pong_state) (i : Nat) (bi : pong_ball)
    (hi : s.balls[i]? = some bi) :
    (∀ (s1 : pong_state) (b1 : pong_ball), pong_ball.move s i = some (s1, 1) →
      s1.balls[i]? = some b1 →
      (s1.board.read (s1.board.cell b1.x b1.y)).type = .cell_sticky →
      b1.dx = 0 ∧ b1.dy = 0 ∧ b1.stopped = true) ∧
    (bi.stopped = true →
      pong_ball.move s i = some (s, 0) ∧
      (∀ (j : Nat) (s1 : pong_state) (r : Int), j ≠ i → pong_ball.move s j = some (s1, r) →
        (∀ mj, s.balls[j]? = some mj → mj.stopped = false →
          (target_cell s mj).ball ≠ some i) →
        s1.balls[i]? = some bi) ∧
      (state_ok s → on_board s i →
        ∀ (j : Nat) (s1 : pong_state) (r : Int) (mj : pong_ball), j ≠ i →
          pong_ball.move s j = some (s1, r) → s.balls[j]? = some mj →
          target_ref s mj ≠ s.board.cell bi.x bi.y → s1.balls[i]? = some bi) ∧
      (∀ p : paddle, (paddle_thread s p).1.balls[i]? = some bi) ∧
      (state_ok s → on_board s i →
        ∀ (k : Nat) (s1 : pong_state), warp_thread s k = some s1 → s1.balls[i]? = some bi) ∧
      (∀ (j : Nat) (s1 : pong_state) (r : Int) (b1 : pong_ball),
        pong_ball.move s j = some (s1, r) → s1.balls[i]? = some b1 → b1.stopped = false →
        j ≠ i ∧ r = 0 ∧
        (∃ mj, s.balls[j]? = some mj ∧ mj.stopped = false ∧
          (target_cell s mj).ball = some i) ∧
        (b1.dx ≠ 0 ∨ b1.dy ≠ 0) ∧ b1.x = bi.x ∧ b1.y = bi.y)) := by
  have hil : i < s.balls.length := (List.getElem?_eq_some.1 hi).1
  constructor
  · intro s1 b1 h hb1 hty
    obtain ⟨me, hme, hc⟩ := move_cases s i s1 1 h
    rcases hc with ⟨_, _, h0⟩ | ⟨_, _, ht⟩
    · exact absurd h0 (by decide)
    · obtain ⟨b2, e1, _, _, e4, e5⟩ := move_target_sticky _ _ _ _ _ _ hil ht
      rw [hb1] at e1
      cases e1
      rw [e4] at hty
      exact e5 hty
  · intro hst
    have hother : ∀ (j : Nat) (s1 : pong_state) (r : Int), j ≠ i →
        pong_ball.move s j = some (s1, r) →
        (∀ mj, s.balls[j]? = some mj → mj.stopped = false →
          (target_cell s mj).ball ≠ some i) →
        s1.balls[i]? = some bi := by
      intro j s1 r hji h hnot
      rw [move_other_ball s j s1 r i (fun e => hji e.symm) h hnot]
      exact hi
    refine ⟨move_stopped s i bi hi hst, hother, ?_, ?_, ?_, ?_⟩
    · intro hok hon j s1 r mj hji h hj hne
      apply hother j s1 r hji h
      intro mj1 hj1 _ hocc
      rw [hj] at hj1
      cases hj1
      apply hne
      have hocc1 : (s.board.read (target_ref s mj)).ball = some i := by
        have : (target_cell s mj).ball = (s.board.read (target_ref s mj)).ball := by
          unfold target_cell
          simp
        rw [← this]
        exact hocc
      exact (occupant_cell s.board s.balls i bi hok hi _ hocc1).1
    · intro p
      exact hi
    · intro hok hon k s1 h
      obtain ⟨w, hk, hc⟩ := warp_thread_cases s k s1 h
      rcases hc with ⟨_, hs⟩ | ⟨b, bl, hb, _, _, hs⟩
      · rw [hs]
        exact hi
      · subst hs
        have hbi : b ≠ i := by
          intro e
          subst e
          obtain ⟨r1, hr1⟩ := hon
          exact (hok.warp_slot k w b hk hb).2 r1 hr1
        show (s.balls.set b _)[i]? = _
        rw [List.getElem?_set_ne hbi]
        exact hi
    · intro j s1 r b1 h hb1 hns
      have hji : j ≠ i := by
        intro e
        subst e
        rw [move_stopped s j bi hi hst] at h
        cases h
        rw [hi] at hb1
        cases hb1
        rw [hst] at hns
        cases hns
      by_cases hex : ∃ mj, s.balls[j]? = some mj ∧ mj.stopped = false ∧
          (target_cell s mj).ball = some i
      · obtain ⟨mj, hj, hms, hocc⟩ := hex
        obtain ⟨hr, hb2, hv⟩ := move_hits_ball s j s1 r i mj bi (fun e => hji e.symm) hj hi
          hms hocc h
        rw [hb1] at hb2
        cases hb2
        exact ⟨hji, hr, ⟨mj, hj, hms, hocc⟩, hv, rfl, rfl⟩
      · exfalso
        have := hother j s1 r hji h (fun mj hj hms hocc => hex ⟨mj, hj, hms, hocc⟩)
        rw [hb1] at this
        cases this
        rw [hst] at hns
        cases hns

theorem sticky_capture_release_witness :
    (∃ s1, pong_ball.move sticky_state 0 = some (s1, 1) ∧
      s1.balls[0]? = some { x := 2, y := 1, dx := 0, dy := 0, stopped := true }) ∧
    (∃ s1, run_moves sticky_state [0, 0, 1] = some s1 ∧
      s1.balls[0]? = some { x := 2, y := 1, dx := -1, dy := -1, stopped := false }) ∧
    (∀ (s1 : pong_state) (b1 : pong_ball), pong_ball.move sticky_state 0 = some (s1, 1) →
      s1.balls[0]? = some b1 →
      (s1.board.read (s1.board.cell b1.x b1.y)).type = .cell_sticky →
      b1.dx = 0 ∧ b1.dy = 0 ∧ b1.stopped = true) :=
  ⟨⟨(pong_ball.move sticky_state 0).get (by decide) |>.1, by decide, by decide⟩,
   ⟨(run_moves sticky_state [0, 0, 1]).get (by decide), by decide, by decide⟩,
   (sticky_capture_release sticky_state 0 { x := 1, y := 1, dx := 1, dy := 0 } rfl).1⟩

/-! ## Scenario A: a bounce off an obstacle on the x axis -/

theorem check_x_read_ne (bd : pong_board) (m : pong_ball) (r : cell_ref)
    (h : r ≠ bd.cell (m.x + m.dx) m.y) : (check_x bd m).1.read r = bd.read r := by
  rw [check_x_eq]
  split_ifs
  · exact read_write_ne bd _ r _ h
  · rfl

theorem check_y_read_ne (bd : pong_board) (m : pong_ball) (r : cell_ref)
    (h : r ≠ bd.cell m.x (m.y + m.dy)) : (check_y bd m).1.read r = bd.read r := by
  rw [check_y_eq]
  split_ifs
  · exact read_write_ne bd _ r _ h
  · rfl

theorem check_y_dy_zero (bd : pong_board) (m : pong_ball) (h : m.dy = 0) :
    (check_y bd m).2.dy = 0 := by
  rw [check_y_eq]
  split_ifs
  · show -m.dy = 0
    rw [h]
    rfl
  · exact h

/-- The first axis check when the neighbour is obstacle-class. -/
theorem check_x_hit (bd : pong_board) (m : pong_ball)
    (h : pong_celltype.cell_obstacle.val ≤ (bd.read (bd.cell (m.x + m.dx) m.y)).type.val) :
    check_x bd m =
      (bd.write (bd.cell (m.x + m.dx) m.y) (bd.read (bd.cell (m.x + m.dx) m.y)).hit_obstacle,
        { m with dx := -m.dx }) := by
  rw [check_x_eq, if_pos h]

/-- A hit on an obstacle of strength `n >= 1`. -/
theorem hit_obstacle_strength (c : pong_cell) (n : Int) (ht : c.type = .cell_obstacle)
    (hs : c.strength = n) (hn : 1 ≤ n) :
    c.hit_obstacle.strength = n - 1 ∧
    c.hit_obstacle.type = (if n = 1 then .cell_empty else .cell_obstacle) := by
  unfold pong_cell.hit_obstacle
  rw [if_pos ⟨ht, by omega⟩]
  by_cases h1 : n = 1
  · rw [if_pos (by omega), if_pos h1]
    exact ⟨by show c.strength - 1 = n - 1; rw [hs], rfl⟩
  · rw [if_neg (by omega), if_neg h1]
    exact ⟨by show c.strength - 1 = n - 1; rw [hs], ht⟩

/-- C10: a ball on the board at `(x,y)` with velocity `(dx,0)`, `dx` in
`{-1,+1}`, whose neighbour `(x+dx,y)` is an obstacle of strength `n >= 1`
and whose cell `(x-dx,y)` is in range, unoccupied and empty: one `move()`
returns 1, leaves that obstacle with strength `n-1` (empty when `n = 1`),
the ball at `(x-dx,y)` with velocity `(-dx,0)`, not stopped, as the occupant
of its new cell, and its old cell without occupant. -/
theorem bounce_off_obstacle (s : pong_state) (i : Nat) (me : pong_ball) (n : Int)
    (hbd : board_ok s.board) (hi : s.balls[i]? = some me) (hst : me.stopped = false)
    (hin : s.board.in_bounds me.x me.y)
    (ha : (s.board.read (s.board.cell me.x me.y)).ball = some i)
    (hdy : me.dy = 0) (hdx : me.dx = 1 ∨ me.dx = -1)
    (hot : (s.board.read (s.board.cell (me.x + me.dx) me.y)).type = .cell_obstacle)
    (hos : (s.board.read (s.board.cell (me.x + me.dx) me.y)).strength = n) (hn : 1 ≤ n)
    (hin1 : s.board.in_bounds (me.x - me.dx) me.y)
    (hfree : (s.board.read (s.board.cell (me.x - me.dx) me.y)).ball = none)
    (hempty : (s.board.read (s.board.cell (me.x - me.dx) me.y)).type = .cell_empty) :
    ∃ s1, pong_ball.move s i = some (s1, 1) ∧
      (s1.board.read (s1.board.cell (me.x + me.dx) me.y)).strength = n - 1 ∧
      (s1.board.read (s1.board.cell (me.x + me.dx) me.y)).type
        = (if n = 1 then .cell_empty else .cell_obstacle) ∧
      s1.balls[i]? = some { me with x := me.x - me.dx, dx := -me.dx } ∧
      (s1.board.read (s1.board.cell (me.x - me.dx) me.y)).ball = some i ∧
      (s1.board.read (s1.board.cell me.x me.y)).ball = none := by
  have hil : i < s.balls.length := (List.getElem?_eq_some.1 hi).1
  -- the three cells are different
  have hne_cx_cur : s.board.cell (me.x + me.dx) me.y ≠ s.board.cell me.x me.y := by
    intro e
    by_cases hb : s.board.in_bounds (me.x + me.dx) me.y
    · have := cell_inj s.board me.x me.y _ _ hin hb e
      omega
    · rw [cell_off_board _ _ _ hb, cell_in_bounds _ _ _ hin] at e
      cases e
  have hne_cn_cur : s.board.cell (me.x - me.dx) me.y ≠ s.board.cell me.x me.y := by
    intro e
    have := cell_inj s.board me.x me.y _ _ hin hin1 e
    omega
  have hne_cn_cx : s.board.cell (me.x - me.dx) me.y ≠ s.board.cell (me.x + me.dx) me.y := by
    intro e
    by_cases hb : s.board.in_bounds (me.x + me.dx) me.y
    · have := cell_inj s.board _ _ _ _ hb hin1 e
      omega
    · rw [cell_off_board _ _ _ hb, cell_in_bounds _ _ _ hin1] at e
      cases e
  -- the first axis check fires
  have hX := check_x_hit s.board me (by rw [hot])
  have hcy : (check_x s.board me).1.cell (check_x s.board me).2.x
      ((check_x s.board me).2.y + (check_x s.board me).2.dy) = s.board.cell me.x me.y := by
    simp [hdy]
  -- the ball after both checks
  have hMx : (bounced s me).x = me.x := by unfold bounced; simp
  have hMy : (bounced s me).y = me.y := by unfold bounced; simp
  have hMs : (bounced s me).stopped = false := by unfold bounced; simpa using hst
  have hMdx : (bounced s me).dx = -me.dx := by
    unfold bounced
    rw [check_y_dx, hX]
  have hMdy : (bounced s me).dy = 0 := by
    unfold bounced
    exact check_y_dy_zero _ _ (by simpa using hdy)
  -- the board after both checks
  have hBne : ∀ r, r ≠ s.board.cell me.x me.y →
      (check_y (check_x s.board me).1 (check_x s.board me).2).1.read r
        = (check_x s.board me).1.read r := by
    intro r hr
    exact check_y_read_ne _ _ r (by rw [hcy]; exact hr)
  have hBcx : (check_y (check_x s.board me).1 (check_x s.board me).2).1.read
      (s.board.cell (me.x + me.dx) me.y)
        = (s.board.read (s.board.cell (me.x + me.dx) me.y)).hit_obstacle := by
    rw [hBne _ hne_cx_cur, hX]
    exact read_write_same _ _ _ (cell_ref_ok s.board hbd _ _)
  have hBcn : (check_y (check_x s.board me).1 (check_x s.board me).2).1.read
      (s.board.cell (me.x - me.dx) me.y) = s.board.read (s.board.cell (me.x - me.dx) me.y) := by
    rw [hBne _ hne_cn_cur]
    exact check_x_read_ne _ _ _ hne_cn_cx
  have hcn : (check_y (check_x s.board me).1 (check_x s.board me).2).1.cell
      ((check_y (check_x s.board me).1 (check_x s.board me).2).2.x
        + (check_y (check_x s.board me).1 (check_x s.board me).2).2.dx)
      ((check_y (check_x s.board me).1 (check_x s.board me).2).2.y
        + (check_y (check_x s.board me).1 (check_x s.board me).2).2.dy)
      = s.board.cell (me.x - me.dx) me.y := by
    have e1 : (check_y (check_x s.board me).1 (check_x s.board me).2).2.dx = -me.dx := hMdx
    have e2 : (check_y (check_x s.board me).1 (check_x s.board me).2).2.dy = 0 := hMdy
    rw [e1, e2]
    simp only [check_y_cell, check_x_cell, check_y_x, check_x_x, check_y_y, check_x_y]
    congr 1
    omega
  have hb : ((check_y (check_x s.board me).1 (check_x s.board me).2).1.read
      ((check_y (check_x s.board me).1 (check_x s.board me).2).1.cell
        ((check_y (check_x s.board me).1 (check_x s.board me).2).2.x
          + (check_y (check_x s.board me).1 (check_x s.board me).2).2.dx)
        ((check_y (check_x s.board me).1 (check_x s.board me).2).2.y
          + (check_y (check_x s.board me).1 (check_x s.board me).2).2.dy))).ball = none := by
    rw [hcn, hBcn]
    exact hfree
  have ht : ((check_y (check_x s.board me).1 (check_x s.board me).2).1.read
      ((check_y (check_x s.board me).1 (check_x s.board me).2).1.cell
        ((check_y (check_x s.board me).1 (check_x s.board me).2).2.x
          + (check_y (check_x s.board me).1 (check_x s.board me).2).2.dx)
        ((check_y (check_x s.board me).1 (check_x s.board me).2).2.y
          + (check_y (check_x s.board me).1 (check_x s.board me).2).2.dy))).type
        = .cell_empty := by
    rw [hcn, hBcn]
    exact hempty
  have hmove := move_target_free _ s.balls i _ (s.board.cell me.x me.y) hb (Or.inl ht)
  rw [← move_eq s i me hi hst ha] at hmove
  rw [if_neg (by rw [ht]; decide), hcn] at hmove
  have hrefcur : ref_ok (check_y (check_x s.board me).1 (check_x s.board me).2).1
      (s.board.cell me.x me.y) :=
    (ref_ok_congr s.board _ (by simp) _).2 (cell_ref_ok s.board hbd _ _)
  have hrefcn : ref_ok (check_y (check_x s.board me).1 (check_x s.board me).2).1
      (s.board.cell (me.x - me.dx) me.y) :=
    (ref_ok_congr s.board _ (by simp) _).2 (cell_ref_ok s.board hbd _ _)
  have hhit := hit_obstacle_strength _ n hot hos hn
  refine ⟨_, hmove, ?_, ?_, ?_, ?_, ?_⟩
  · show (pong_board.read _ (pong_board.cell _ _ _)).strength = _
    simp only [write_cell, check_y_cell, check_x_cell]
    rw [read_write_ne _ _ _ _ hne_cn_cx.symm, read_write_ne _ _ _ _ hne_cx_cur, hBcx]
    exact hhit.1
  · show (pong_board.read _ (pong_board.cell _ _ _)).type = _
    simp only [write_cell, check_y_cell, check_x_cell]
    rw [read_write_ne _ _ _ _ hne_cn_cx.symm, read_write_ne _ _ _ _ hne_cx_cur, hBcx]
    exact hhit.2
  · show (List.set _ i _)[i]? = _
    rw [List.getElem?_set_self hil]
    congr 1
    have e1 : (check_y (check_x s.board me).1 (check_x s.board me).2).2.dx = -me.dx := hMdx
    have e2 : (check_y (check_x s.board me).1 (check_x s.board me).2).2.dy = 0 := hMdy
    have e3 : (check_y (check_x s.board me).1 (check_x s.board me).2).2.stopped
        = me.stopped := by simp
    simp only [e1, e2, e3, check_y_x, check_x_x, check_y_y, check_x_y, hdy, add_zero]
    congr 1
  · show (pong_board.read _ (pong_board.cell _ _ _)).ball = _
    simp only [write_cell, check_y_cell, check_x_cell]
    rw [move_write_ball _ _ _ _ i hrefcur hrefcn, if_pos rfl]
  · show (pong_board.read _ (pong_board.cell _ _ _)).ball = _
    simp only [write_cell, check_y_cell, check_x_cell]
    rw [move_write_ball _ _ _ _ i hrefcur hrefcn, if_neg hne_cn_cur.symm, if_pos rfl]

theorem bounce_off_obstacle_witness :
    ∃ s1, pong_ball.move scenario_A 0 = some (s1, 1) ∧
      (s1.board.read (s1.board.cell 5 5)).strength = 1 ∧
      (s1.board.read (s1.board.cell 5 5)).type = .cell_obstacle ∧
      s1.balls[0]? = some { x := 3, y := 5, dx := -1, dy := 0 } ∧
      (s1.board.read (s1.board.cell 3 5)).ball = some 0 ∧
      (s1.board.read (s1.board.cell 4 5)).ball = none :=
  bounce_off_obstacle scenario_A 0 { x := 4, y := 5, dx := 1, dy := 0 } 2 (by decide) rfl rfl
    (by decide) (by decide) rfl (Or.inl rfl) (by decide) (by decide) (by decide) (by decide)
    (by decide) (by decide)

/-- C5, at the input where the code departs from it: from
`warp_queue_state` (well formed) ball 0 enters the warp mouth at `(0,0)` and
ball 1 follows to `(1,1)`; the state reached is well formed, ball 1 is not
stopped, is the occupant of its cell, and its target cell `(0,0)` is an
unoccupied warp cell, so `move()` should return 0; but the slot of the
linked endpoint still holds ball 0, the assertion of `accept_ball` fails and
`move()` returns no result. -/
theorem move_aborts_on_busy_warp :
    state_ok warp_queue_state ∧
    ∃ s2, run_moves warp_queue_state [0, 1] = some s2 ∧ state_ok s2 ∧
      s2.balls[1]? = some { x := 1, y := 1, dx := -1, dy := -1 } ∧
      (s2.board.read (s2.board.cell 1 1)).ball = some 1 ∧
      (target_cell s2 { x := 1, y := 1, dx := -1, dy := -1 }).ball = none ∧
      (target_cell s2 { x := 1, y := 1, dx := -1, dy := -1 }).type = .cell_warp ∧
      (target_cell s2 { x := 1, y := 1, dx := -1, dy := -1 }).warp = some 1 ∧
      s2.board.warps[1]? = some { x := 3, y := 3, ball := some 0 } ∧
      pong_ball.move s2 1 = none := by
  refine ⟨state_ok_of_check _ (by decide),
    (run_moves warp_queue_state [0, 1]).get (by decide), by decide,
    state_ok_of_check _ (by decide), by decide, by decide, by decide, by decide, by decide,
    by decide, by decide⟩

/-! ## Scenario B: two balls heading for each other -/

theorem check_x_none (bd : pong_board) (m : pong_ball)
    (h : ¬ pong_celltype.cell_obstacle.val ≤ (bd.read (bd.cell (m.x + m.dx) m.y)).type.val) :
    check_x bd m = (bd, m) := by
  rw [check_x_eq, if_neg h]

theorem check_y_none (bd : pong_board) (m : pong_ball)
    (h : ¬ pong_celltype.cell_obstacle.val ≤ (bd.read (bd.cell m.x (m.y + m.dy))).type.val) :
    check_y bd m = (bd, m) := by
  rw [check_y_eq, if_neg h]

/-- The state after the collision branch for two different balls. -/
theorem move_collision_state (s : pong_state) (i j : Nat) (me o : pong_ball)
    (hi : s.balls[i]? = some me) (hst : me.stopped = false)
    (ha : (s.board.read (s.board.cell me.x me.y)).ball = some i)
    (ht : (target_cell s me).ball = some j) (hij : j ≠ i) (hj : s.balls[j]? = some o) :
    pong_ball.move s i = some
      (⟨{ (check_y (check_x s.board me).1 (check_x s.board me).2).1 with
            ncollisions := (check_y (check_x s.board me).1 (check_x s.board me).2).1.ncollisions
              + 1 },
        ((s.balls.set i (bounced s me)).set j
          { o with dx := (bounced s me).dx, dy := (bounced s me).dy, stopped := false }).set i
          { bounced s me with
              dx := if o.dx = (bounced s me).dx then (bounced s me).dx else -(bounced s me).dx,
              dy := if o.dy = (bounced s me).dy then (bounced s me).dy
                    else -(bounced s me).dy }⟩, 0) := by
  have hil : i < s.balls.length := (List.getElem?_eq_some.1 hi).1
  have hm : (s.balls.set i (bounced s me))[i]? = some (bounced s me) :=
    List.getElem?_set_self hil
  have ho : (s.balls.set i (bounced s me))[j]? = some o := by
    rw [List.getElem?_set_ne (fun e => hij e.symm)]
    exact hj
  have hc := collide_ne (s.balls.set i (bounced s me)) i j (bounced s me) o
    (fun e => hij e.symm) hm ho
  rw [move_eq s i me hi hst ha, move_target_collision _ _ _ _ _ j ht]
  change Option.map _ (collide (s.balls.set i (bounced s me)) i j) = _
  rw [hc]
  rfl

/-- A ball with velocity `(dx, 0)` whose own cell and next cell are not
obstacle-class and whose next cell is free and empty moves into it. -/
theorem move_straight (s : pong_state) (i : Nat) (me : pong_ball)
    (hi : s.balls[i]? = some me) (hst : me.stopped = false)
    (ha : (s.board.read (s.board.cell me.x me.y)).ball = some i) (hdy : me.dy = 0)
    (hself : ¬ pong_celltype.cell_obstacle.val
      ≤ (s.board.read (s.board.cell me.x me.y)).type.val)
    (hnb : (s.board.read (s.board.cell (me.x + me.dx) me.y)).ball = none)
    (hty : (s.board.read (s.board.cell (me.x + me.dx) me.y)).type = .cell_empty) :
    pong_ball.move s i = some
      (⟨(s.board.write (s.board.cell me.x me.y)
            ((s.board.read (s.board.cell me.x me.y)).set_ball none)).write
          (s.board.cell (me.x + me.dx) me.y)
          (((s.board.write (s.board.cell me.x me.y)
              ((s.board.read (s.board.cell me.x me.y)).set_ball none)).read
            (s.board.cell (me.x + me.dx) me.y)).set_ball (some i)),
        s.balls.set i { me with x := me.x + me.dx }⟩, 1) := by
  have hX : check_x s.board me = (s.board, me) :=
    check_x_none _ _ (by rw [hty]; decide)
  have hcy : s.board.cell me.x (me.y + me.dy) = s.board.cell me.x me.y := by
    rw [hdy, add_zero]
  have hY : check_y s.board me = (s.board, me) :=
    check_y_none _ _ (by rw [hcy]; exact hself)
  have hcn : s.board.cell (me.x + me.dx) (me.y + me.dy)
      = s.board.cell (me.x + me.dx) me.y := by
    rw [hdy, add_zero]
  rw [move_eq s i me hi hst ha, hX]
  simp only []
  rw [hY]
  simp only []
  rw [move_target_free _ _ _ _ _ (by rw [hcn]; exact hnb) (Or.inl (by rw [hcn]; exact hty))]
  rw [hcn, if_neg (by rw [hty]; decide)]
  simp only [hdy, add_zero]

/-- Two balls face to face on a row: `i` at `(x,y)` with velocity `(d,0)`
and `j` at `(x+d,y)` with velocity `(-d,0)`, on empty cells, with the cell
behind `j` free and empty.  The call of `i` resolves a collision; the call
of `j` that follows moves `j` one cell away. -/
theorem head_on_pair (s : pong_state) (i j : Nat) (me o : pong_ball) (d : Int)
    (hbd : board_ok s.board) (hi : s.balls[i]? = some me) (hj : s.balls[j]? = some o)
    (hij : j ≠ i) (hd : d = 1 ∨ d = -1)
    (hms : me.stopped = false) (hos : o.stopped = false)
    (hmdx : me.dx = d) (hodx : o.dx = -d) (hmdy : me.dy = 0) (hody : o.dy = 0)
    (hox : o.x = me.x + d) (hoy : o.y = me.y)
    (hcur : (s.board.read (s.board.cell me.x me.y)).ball = some i)
    (hcurt : (s.board.read (s.board.cell me.x me.y)).type = .cell_empty)
    (hoth : (s.board.read (s.board.cell o.x o.y)).ball = some j)
    (hotht : (s.board.read (s.board.cell o.x o.y)).type = .cell_empty)
    (hbeh : (s.board.read (s.board.cell (o.x + d) o.y)).ball = none)
    (hbeht : (s.board.read (s.board.cell (o.x + d) o.y)).type = .cell_empty) :
    ∃ s1 s2, pong_ball.move s i = some (s1, 0) ∧ pong_ball.move s1 j = some (s2, 1) ∧
      s1.balls[i]? = some { me with dx := -d } ∧
      s1.balls[j]? = some { o with dx := d } ∧
      s1.board.ncollisions = s.board.ncollisions + 1 ∧
      s2.balls[i]? = some { me with dx := -d } ∧
      s2.balls[j]? = some { o with x := o.x + d, dx := d } ∧
      s2.board.ncollisions = s.board.ncollisions + 1 ∧
      (s2.board.read (s2.board.cell (o.x + d) o.y)).ball = some j ∧
      (s2.board.read (s2.board.cell o.x o.y)).ball = none ∧
      (s2.board.read (s2.board.cell me.x me.y)).ball = some i := by
  have hil : i < s.balls.length := (List.getElem?_eq_some.1 hi).1
  have hjl : j < s.balls.length := (List.getElem?_eq_some.1 hj).1
  have hocell : s.board.cell (me.x + me.dx) me.y = s.board.cell o.x o.y := by
    rw [hmdx, hox, hoy]
  -- the axis checks of `i` do not fire
  have hX : check_x s.board me = (s.board, me) :=
    check_x_none _ _ (by rw [hocell, hotht]; decide)
  have hY : check_y s.board me = (s.board, me) :=
    check_y_none _ _ (by rw [hmdy, add_zero, hcurt]; decide)
  have hB : bounced s me = me := by
    unfold bounced
    rw [hX]
    simp only []
    rw [hY]
  have hBd : (check_y (check_x s.board me).1 (check_x s.board me).2).1 = s.board := by
    rw [hX]
    simp only []
    rw [hY]
  have hT : (target_cell s me).ball = some j := by
    unfold target_cell target_ref
    rw [hX]
    simp only []
    rw [hY]
    simp only []
    rw [hmdy, add_zero, hocell]
    exact hoth
  have h1 := move_collision_state s i j me o hi hms hcur hT hij hj
  rw [hB, hBd] at h1
  have hne : ¬ o.dx = me.dx := by
    rw [hodx, hmdx]
    omega
  have hme1 : ({ me with dx := (if o.dx = me.dx then me.dx else -me.dx),
                         dy := (if o.dy = me.dy then me.dy else -me.dy) } : pong_ball)
      = { me with dx := -d } := by
    rw [if_neg hne, if_pos (by rw [hody, hmdy]), hmdx]
  have ho1 : ({ o with dx := me.dx, dy := me.dy, stopped := false } : pong_ball)
      = { o with dx := d } := by
    rw [hmdx, hmdy, ← hody, ← hos]
  rw [hme1, ho1] at h1
  -- the state after the first call
  have hb1i : (((s.balls.set i me).set j { o with dx := d }).set i { me with dx := -d })[i]?
      = some { me with dx := -d } :=
    List.getElem?_set_self (by simpa using hil)
  have hb1j : (((s.balls.set i me).set j { o with dx := d }).set i { me with dx := -d })[j]?
      = some { o with dx := d } := by
    rw [List.getElem?_set_ne (fun e => hij e.symm), List.getElem?_set_self (by simpa using hjl)]
  -- the second call
  have h2 := move_straight
    ⟨{ s.board with ncollisions := s.board.ncollisions + 1 },
      ((s.balls.set i me).set j { o with dx := d }).set i { me with dx := -d }⟩
    j { o with dx := d } hb1j hos
    (by show (pong_board.read _ _).ball = _; rw [read_ncollisions]; exact hoth) hody
    (by show ¬ _ ≤ (pong_board.read _ _).type.val; rw [read_ncollisions]
        show ¬ _ ≤ (s.board.read (s.board.cell o.x o.y)).type.val
        rw [hotht]; decide)
    (by show (pong_board.read _ _).ball = _; rw [read_ncollisions]; exact hbeh)
    (by show (pong_board.read _ _).type = _; rw [read_ncollisions]; exact hbeht)
  have hr1 : ref_ok ({ s.board with ncollisions := s.board.ncollisions + 1 } : pong_board)
      (s.board.cell o.x o.y) :=
    (ref_ok_congr s.board _ rfl _).2 (cell_ref_ok s.board hbd _ _)
  have hr2 : ref_ok ({ s.board with ncollisions := s.board.ncollisions + 1 } : pong_board)
      (s.board.cell (o.x + d) o.y) :=
    (ref_ok_congr s.board _ rfl _).2 (cell_ref_ok s.board hbd _ _)
  have hne1 : s.board.cell o.x o.y ≠ s.board.cell (o.x + d) o.y := by
    intro e
    rw [e, hbeh] at hoth
    cases hoth
  have hne2 : s.board.cell me.x me.y ≠ s.board.cell (o.x + d) o.y := by
    intro e
    rw [e, hbeh] at hcur
    cases hcur
  have hne3 : s.board.cell me.x me.y ≠ s.board.cell o.x o.y := by
    intro e
    rw [e, hoth] at hcur
    cases hcur
    exact hij rfl
  refine ⟨_, _, h1, h2, hb1i, hb1j, rfl, ?_, ?_, ?_, ?_, ?_, ?_⟩
  · show (List.set _ j _)[i]? = _
    rw [List.getElem?_set_ne hij]
    exact hb1i
  · show (List.set _ j _)[j]? = _
    rw [List.getElem?_set_self (by simpa using hjl)]
  · show (pong_board.write _ _ _).ncollisions = _
    simp
  · show (pong_board.read _ (pong_board.cell _ _ _)).ball = _
    simp only [write_cell]
    show (pong_board.read _ (s.board.cell (o.x + d) o.y)).ball = _
    exact (move_write_ball _ (s.board.cell o.x o.y) (s.board.cell (o.x + d) o.y) _ j hr1
      hr2).trans (if_pos rfl)
  · show (pong_board.read _ (pong_board.cell _ _ _)).ball = _
    simp only [write_cell]
    show (pong_board.read _ (s.board.cell o.x o.y)).ball = _
    refine (move_write_ball _ (s.board.cell o.x o.y) (s.board.cell (o.x + d) o.y) _ j hr1
      hr2).trans ?_
    rw [if_neg hne1, if_pos rfl]
  · show (pong_board.read _ (pong_board.cell _ _ _)).ball = _
    simp only [write_cell]
    show (pong_board.read _ (s.board.cell me.x me.y)).ball = _
    refine (move_write_ball _ (s.board.cell o.x o.y) (s.board.cell (o.x + d) o.y) _ j hr1
      hr2).trans ?_
    rw [if_neg hne2, if_neg hne3, read_ncollisions]
    exact hcur

/-- C11 (amended): ball `a` (`A`) at `(x,y)` with velocity `(1,0)` and ball
`b` (`B`) at `(x+1,y)` with velocity `(-1,0)`, both on empty cells of a
board, with the cells `(x-1,y)` and `(x+2,y)` free and empty (Scenario B is
`x = 1`, `y = 1` on a `10 x 10` board).  After one `move()` call from each,
in either order: the first call targets the other ball's cell and resolves a
collision (result 0), which swaps the velocities and makes the collision
counter one higher; the second call, by the ball that is now heading away,
targets the free cell behind it and moves there (result 1), without a second
collision.  So the velocities are swapped (`A` has `(-1,0)`, `B` has
`(1,0)`), the counter has grown by one, the first mover is where it was and
the second mover is one cell further away (`B` at `(x+2,y)` in the order
`A, B`; `A` at `(x-1,y)` in the order `B, A`). -/
theorem scenario_B_moves (s : pong_state) (a b : Nat) (A B : pong_ball)
    (hbd : board_ok s.board) (ha : s.balls[a]? = some A) (hb : s.balls[b]? = some B)
    (hab : a ≠ b)
    (hAs : A.stopped = false) (hBs : B.stopped = false)
    (hAdx : A.dx = 1) (hAdy : A.dy = 0) (hBdx : B.dx = -1) (hBdy : B.dy = 0)
    (hBx : B.x = A.x + 1) (hBy : B.y = A.y)
    (hcA : (s.board.read (s.board.cell A.x A.y)).ball = some a)
    (htA : (s.board.read (s.board.cell A.x A.y)).type = .cell_empty)
    (hcB : (s.board.read (s.board.cell B.x B.y)).ball = some b)
    (htB : (s.board.read (s.board.cell B.x B.y)).type = .cell_empty)
    (hcL : (s.board.read (s.board.cell (A.x - 1) A.y)).ball = none)
    (htL : (s.board.read (s.board.cell (A.x - 1) A.y)).type = .cell_empty)
    (hcR : (s.board.read (s.board.cell (B.x + 1) B.y)).ball = none)
    (htR : (s.board.read (s.board.cell (B.x + 1) B.y)).type = .cell_empty) :
    (∃ s1 s2, pong_ball.move s a = some (s1, 0) ∧ pong_ball.move s1 b = some (s2, 1) ∧
      s1.board.ncollisions = s.board.ncollisions + 1 ∧
      s2.board.ncollisions = s.board.ncollisions + 1 ∧
      s2.balls[a]? = some { A with dx := -1 } ∧
      s2.balls[b]? = some { B with x := B.x + 1, dx := 1 } ∧
      (s2.board.read (s2.board.cell A.x A.y)).ball = some a ∧
      (s2.board.read (s2.board.cell (B.x + 1) B.y)).ball = some b ∧
      (s2.board.read (s2.board.cell B.x B.y)).ball = none) ∧
    (∃ s1 s2, pong_ball.move s b = some (s1, 0) ∧ pong_ball.move s1 a = some (s2, 1) ∧
      s1.board.ncollisions = s.board.ncollisions + 1 ∧
      s2.board.ncollisions = s.board.ncollisions + 1 ∧
      s2.balls[b]? = some { B with dx := 1 } ∧
      s2.balls[a]? = some { A with x := A.x - 1, dx := -1 } ∧
      (s2.board.read (s2.board.cell B.x B.y)).ball = some b ∧
      (s2.board.read (s2.board.cell (A.x - 1) A.y)).ball = some a ∧
      (s2.board.read (s2.board.cell A.x A.y)).ball = none) := by
  constructor
  · obtain ⟨s1, s2, h1, h2, _, _, h5, h6, h7, h8, h9, h10, h11⟩ :=
      head_on_pair s a b A B 1 hbd ha hb (fun e => hab e.symm) (Or.inl rfl) hAs hBs hAdx
        hBdx hAdy hBdy hBx hBy hcA htA hcB htB hcR htR
    exact ⟨s1, s2, h1, h2, h5, h8, h6, h7, h11, h9, h10⟩
  · have hAx : A.x = B.x + -1 := by omega
    have hsub : A.x + -1 = A.x - 1 := by omega
    obtain ⟨s1, s2, h1, h2, _, _, h5, h6, h7, h8, h9, h10, h11⟩ :=
      head_on_pair s b a B A (-1) hbd hb ha hab (Or.inr rfl) hBs hAs hBdx
        (by rw [hAdx]; rfl) hBdy hAdy hAx hBy.symm hcB htB hcA htA
        (by rw [hsub]; exact hcL) (by rw [hsub]; exact htL)
    rw [hsub] at h7 h9
    exact ⟨s1, s2, h1, h2, h5, h8, h6, h7, h11, h9, h10⟩

theorem scenario_B_moves_witness :
    (∃ s1 s2, pong_ball.move scenario_B 0 = some (s1, 0) ∧
      pong_ball.move s1 1 = some (s2, 1) ∧ s2.board.ncollisions = 1 ∧
      s2.balls[0]? = some { x := 1, y := 1, dx := -1, dy := 0 } ∧
      s2.balls[1]? = some { x := 3, y := 1, dx := 1, dy := 0 }) ∧
    (∃ s1 s2, pong_ball.move scenario_B 1 = some (s1, 0) ∧
      pong_ball.move s1 0 = some (s2, 1) ∧ s2.board.ncollisions = 1 ∧
      s2.balls[1]? = some { x := 2, y := 1, dx := 1, dy := 0 } ∧
      s2.balls[0]? = some { x := 0, y := 1, dx := -1, dy := 0 }) := by
  have h := scenario_B_moves scenario_B 0 1 { x := 1, y := 1, dx := 1, dy := 0 }
    { x := 2, y := 1, dx := -1, dy := 0 } (by decide) rfl rfl (by decide) rfl rfl rfl rfl rfl
    rfl rfl rfl (by decide) (by decide) (by decide) (by decide) (by decide) (by decide)
    (by decide) (by decide)
  obtain ⟨⟨s1, s2, h1, h2, _, h4, h5, h6, _⟩, ⟨t1, t2, g1, g2, _, g4, g5, g6, _⟩⟩ := h
  exact ⟨⟨s1, s2, h1, h2, h4, h5, h6⟩, ⟨t1, t2, g1, g2, g4, g5, g6⟩⟩

/-- C11 as stated fails: in Scenario B, in the order `A, B`, the call of `A`
resolves a collision, but the call of `B` that follows does not target the
cell of `A`: it takes no collision branch, returns 1 and moves `B` from
`(2,1)` to `(3,1)`; in the order `B, A` it is `A` that moves, to `(0,1)`. -/
theorem scenario_B_second_ball_moves :
    (∃ s1 s2, pong_ball.move scenario_B 0 = some (s1, 0) ∧
      pong_ball.move s1 1 = some (s2, 1) ∧ takes_collision s1 1 = false ∧
      scenario_B.balls[1]? = some { x := 2, y := 1, dx := -1, dy := 0 } ∧
      s2.balls[1]? = some { x := 3, y := 1, dx := 1, dy := 0 }) ∧
    (∃ s1 s2, pong_ball.move scenario_B 1 = some (s1, 0) ∧
      pong_ball.move s1 0 = some (s2, 1) ∧ takes_collision s1 0 = false ∧
      scenario_B.balls[0]? = some { x := 1, y := 1, dx := 1, dy := 0 } ∧
      s2.balls[0]? = some { x := 0, y := 1, dx := -1, dy := 0 }) := by
  refine ⟨⟨(pong_ball.move scenario_B 0).get (by decide) |>.1,
      (run_moves scenario_B [0, 1]).get (by decide), by decide, by decide, by decide,
      by decide, by decide⟩,
    ⟨(pong_ball.move scenario_B 1).get (by decide) |>.1,
      (run_moves scenario_B [1, 0]).get (by decide), by decide, by decide, by decide,
      by decide, by decide⟩⟩

/-! ## Warp transfer -/

theorem accept_ball_empty (w : pong_warp) (i : Nat) (h : w.ball = none) :
    w.accept_ball i = some { w with ball := some i } := by
  unfold pong_warp.accept_ball
  rw [h]
  rfl

/-- The warp branch of `move` when the slot of the linked endpoint is
empty. -/
theorem move_warp_state (s : pong_state) (i k : Nat) (me : pong_ball) (w : pong_warp)
    (hi : s.balls[i]? = some me) (hst : me.stopped = false)
    (ha : (s.board.read (s.board.cell me.x me.y)).ball = some i)
    (htb : (target_cell s me).ball = none) (htt : (target_cell s me).type = .cell_warp)
    (htw : (target_cell s me).warp = some k) (hk : s.board.warps[k]? = some w)
    (hw : w.ball = none) :
    pong_ball.move s i = some
      (⟨{ (check_y (check_x s.board me).1 (check_x s.board me).2).1.write
            (s.board.cell me.x me.y)
            (((check_y (check_x s.board me).1 (check_x s.board me).2).1.read
              (s.board.cell me.x me.y)).set_ball none) with
          warps := s.board.warps.set k { w with ball := some i } },
        s.balls.set i { bounced s me with stopped := true }⟩, 0) := by
  rw [move_eq s i me hi hst ha, move_target_warp _ _ _ _ _ htb htt]
  have e1 : ((check_y (check_x s.board me).1 (check_x s.board me).2).1.read
      ((check_y (check_x s.board me).1 (check_x s.board me).2).1.cell
        ((check_y (check_x s.board me).1 (check_x s.board me).2).2.x
          + (check_y (check_x s.board me).1 (check_x s.board me).2).2.dx)
        ((check_y (check_x s.board me).1 (check_x s.board me).2).2.y
          + (check_y (check_x s.board me).1 (check_x s.board me).2).2.dy))).warp = some k := htw
  have e2 : (check_y (check_x s.board me).1 (check_x s.board me).2).1.warps = s.board.warps := by
    simp
  rw [e1, e2]
  simp only [Option.some_bind, hk, accept_ball_empty w i hw, Option.map_some']
  rfl

/-- C12: in a well-formed state, when the target cell of a non-stopped ball
`i` on the board is an unoccupied warp cell whose linked endpoint `k` holds
no ball, `move()` returns 0; afterwards the former cell of `i` has no
occupant, no cell names `i`, the ball is stopped at its old position with
the velocity left by the axis checks, the slot of the endpoint `k` holds
`i`, every other endpoint, every other ball object and the collision counter
are unchanged, and the target cell is as it was. -/
theorem warp_transfer (s : pong_state) (i k : Nat) (me : pong_ball) (w : pong_warp)
    (hok : state_ok s) (hi : s.balls[i]? = some me) (hst : me.stopped = false)
    (ha : (s.board.read (s.board.cell me.x me.y)).ball = some i)
    (htb : (target_cell s me).ball = none) (htt : (target_cell s me).type = .cell_warp)
    (htw : (target_cell s me).warp = some k) (hk : s.board.warps[k]? = some w)
    (hw : w.ball = none) :
    ∃ s1, pong_ball.move s i = some (s1, 0) ∧
      (s1.board.read (s1.board.cell me.x me.y)).ball = none ∧
      (∀ r, (s1.board.read r).ball ≠ some i) ∧
      s1.balls[i]? = some { me with dx := (bounced s me).dx, dy := (bounced s me).dy,
                                    stopped := true } ∧
      (∀ j, j ≠ i → s1.balls[j]? = s.balls[j]?) ∧
      s1.board.warps[k]? = some { w with ball := some i } ∧
      (∀ k1, k1 ≠ k → s1.board.warps[k1]? = s.board.warps[k1]?) ∧
      s1.board.ncollisions = s.board.ncollisions ∧
      s1.board.read (target_ref s me) = target_cell s me := by
  have hil : i < s.balls.length := (List.getElem?_eq_some.1 hi).1
  have hkl : k < s.board.warps.length := (List.getElem?_eq_some.1 hk).1
  have hok1 := checks_state_ok s i me hi hok
  have him : (s.balls.set i (bounced s me))[i]? = some (bounced s me) :=
    List.getElem?_set_self hil
  have hbx : (bounced s me).x = me.x := by unfold bounced; simp
  have hby : (bounced s me).y = me.y := by unfold bounced; simp
  have hpos : (check_y (check_x s.board me).1 (check_x s.board me).2).1.cell
      (bounced s me).x (bounced s me).y = s.board.cell me.x me.y := by
    rw [hbx, hby]
    simp
  have hocc : ((check_y (check_x s.board me).1 (check_x s.board me).2).1.read
      (s.board.cell me.x me.y)).ball = some i := by
    simpa using ha
  have hnamed := clear_not_named _ _ i (bounced s me) hok1 him
  rw [hpos] at hnamed
  have hrefcur : ref_ok (check_y (check_x s.board me).1 (check_x s.board me).2).1
      (s.board.cell me.x me.y) :=
    (ref_ok_congr s.board _ (by simp) _).2 (cell_ref_ok s.board hok.cells_ok _ _)
  refine ⟨_, move_warp_state s i k me w hi hst ha htb htt htw hk hw, ?_, ?_, ?_, ?_, ?_, ?_,
    ?_, ?_⟩
  · show (pong_board.read _ (pong_board.cell _ _ _)).ball = none
    rw [read_warps]
    have hc : pong_board.cell
        ({ (check_y (check_x s.board me).1 (check_x s.board me).2).1.write
            (s.board.cell me.x me.y)
            (((check_y (check_x s.board me).1 (check_x s.board me).2).1.read
              (s.board.cell me.x me.y)).set_ball none) with
          warps := s.board.warps.set k { w with ball := some i } } : pong_board) me.x me.y
        = s.board.cell me.x me.y := by
      apply cell_congr <;> simp
    rw [hc, read_write_same _ _ _ hrefcur]
    rfl
  · intro r
    show (pong_board.read _ r).ball ≠ some i
    rw [read_warps]
    exact hnamed r
  · show (List.set _ i _)[i]? = _
    rw [List.getElem?_set_self hil]
    congr 1
    have hbs : (bounced s me).stopped = me.stopped := by unfold bounced; simp
    simp only [hbx, hby]
  · intro j hji
    show (List.set _ i _)[j]? = _
    rw [List.getElem?_set_ne (fun e => hji e.symm)]
  · show (List.set _ k _)[k]? = _
    rw [List.getElem?_set_self hkl]
  · intro k1 hk1
    show (List.set _ k _)[k1]? = _
    rw [List.getElem?_set_ne (fun e => hk1 e.symm)]
  · show (pong_board.write _ _ _).ncollisions = _
    simp
  · show pong_board.read _ (target_ref s me) = _
    rw [read_warps, read_write_ne]
    · rfl
    · intro e
      have : (target_cell s me).ball = some i := by
        unfold target_cell
        rw [e]
        exact hocc
      rw [this] at htb
      cases htb

theorem warp_transfer_witness :
    ∃ s1, pong_ball.move warp_state 0 = some (s1, 0) ∧
      (s1.board.read (s1.board.cell 1 1)).ball = none ∧
      s1.balls[0]? = some { x := 1, y := 1, dx := -1, dy := -1, stopped := true } ∧
      s1.board.warps[1]? = some { x := 3, y := 3, ball := some 0 } := by
  obtain ⟨s1, h1, h2, _, h4, _, h6, _⟩ := warp_transfer warp_state 0 1
    { x := 1, y := 1, dx := -1, dy := -1 } { x := 3, y := 3 }
    (state_ok_of_check _ (by decide)) rfl rfl (by decide) (by decide) (by decide) (by decide)
    (by decide) rfl
  exact ⟨s1, h1, h2, h4, h6⟩

/-! ## The paddle tick -/

/-- The new type of each cell of the paddle row, and every other cell. -/
theorem paddle_row_read (b : pong_board) (px py pw : Int) (hok : board_ok b)
    (hpy : 0 ≤ py ∧ py < b.height) :
    (∀ x : Int, 0 ≤ x → x < b.width →
      (paddle_row b px py pw).read (b.cell x py) =
        (b.read (b.cell x py)).set_type
          (if x ≥ px ∧ x < px + pw then .cell_paddle else .cell_empty)) ∧
    (∀ r, (∀ x : Int, 0 ≤ x → x < b.width → r ≠ b.cell x py) →
      (paddle_row b px py pw).read r = b.read r) := by
  by_cases hw : b.width < 0
  · constructor
    · intro x h0 h1
      omega
    · intro r _
      have h0 : b.width.toNat = 0 := by omega
      unfold paddle_row
      rw [h0]
      rfl
  · obtain ⟨_, _, _, _, _, h6, h7⟩ := paddle_fold b px py pw hok hpy b.width.toNat (by omega)
    constructor
    · intro x h0 h1
      have hx : ((x.toNat : Nat) : Int) = x := by omega
      have := h6 x.toNat (by omega)
      rw [hx] at this
      exact this
    · intro r hr
      exact h7 r (fun x hx => hr x (by omega) (by omega))

theorem count_interval (n : Nat) (a k : Int) (ha : 0 ≤ a) :
    (List.range n).countP (fun x : Nat => decide (a ≤ (x : Int) ∧ (x : Int) < a + k))
      = (min (a + k) n - a).toNat := by
  induction n with
  | zero =>
    simp only [List.range_zero, List.countP_nil]
    omega
  | succ n ih =>
    rw [List.range_succ, List.countP_append, ih]
    simp only [List.countP_cons, List.countP_nil]
    by_cases h : a ≤ (n : Int) ∧ (n : Int) < a + k
    · simp only [h, and_self, decide_True, if_true]
      push_cast
      omega
    · simp only [h, decide_False, Bool.false_eq_true, if_false]
      push_cast
      omega

theorem countP_congr_range (n : Nat) (p q : Nat → Bool) (h : ∀ x, x < n → p x = q x) :
    (List.range n).countP p = (List.range n).countP q := by
  apply List.countP_congr
  intro x hx
  rw [h x (List.mem_range.1 hx)]

/-- C17: one tick of the paddle worker, from a state of the paddle with
`0 <= px`, `px + pw <= width` and `dx` in `{-1,+1}`, on a row `py` of the
board: the new left edge is `px + dx` with the same `dx` when
`0 <= px + dx` and `px + dx + pw <= width`, and otherwise `px` stays and
`dx` is negated; so `0 <= px'` and `px' + pw <= width` hold again; after
the tick a cell `(x, py)` of the row is paddle-typed when
`px' <= x < px' + pw` and empty-typed otherwise, and the row has exactly
`pw` paddle-typed cells (none when `pw` is negative). -/
theorem paddle_tick (s : pong_state) (p : paddle) (hbd : board_ok s.board)
    (hpy : 0 ≤ p.py ∧ p.py < s.board.height) (hpx : 0 ≤ p.px)
    (hpw : p.px + p.pw ≤ s.board.width) (hdx : p.dx = 1 ∨ p.dx = -1) :
    ((0 ≤ p.px + p.dx ∧ p.px + p.dx + p.pw ≤ s.board.width) →
      (paddle_thread s p).2.px = p.px + p.dx ∧ (paddle_thread s p).2.dx = p.dx) ∧
    (¬ (0 ≤ p.px + p.dx ∧ p.px + p.dx + p.pw ≤ s.board.width) →
      (paddle_thread s p).2.px = p.px ∧ (paddle_thread s p).2.dx = -p.dx) ∧
    (paddle_thread s p).2.py = p.py ∧ (paddle_thread s p).2.pw = p.pw ∧
    0 ≤ (paddle_thread s p).2.px ∧
    (paddle_thread s p).2.px + (paddle_thread s p).2.pw ≤ s.board.width ∧
    ((paddle_thread s p).2.dx = 1 ∨ (paddle_thread s p).2.dx = -1) ∧
    (∀ x : Int, 0 ≤ x → x < s.board.width →
      ((paddle_thread s p).1.board.read ((paddle_thread s p).1.board.cell x p.py)).type =
        if (paddle_thread s p).2.px ≤ x ∧ x < (paddle_thread s p).2.px + p.pw then
          .cell_paddle
        else .cell_empty) ∧
    (List.range s.board.width.toNat).countP
      (fun n : Nat => decide (((paddle_thread s p).1.board.read
        ((paddle_thread s p).1.board.cell n p.py)).type = .cell_paddle)) = p.pw.toNat := by
  have hp1 : (0 ≤ p.px + p.dx ∧ p.px + p.dx + p.pw ≤ s.board.width →
      (paddle_thread s p).2.px = p.px + p.dx ∧ (paddle_thread s p).2.dx = p.dx) ∧
      (¬ (0 ≤ p.px + p.dx ∧ p.px + p.dx + p.pw ≤ s.board.width) →
      (paddle_thread s p).2.px = p.px ∧ (paddle_thread s p).2.dx = -p.dx) := by
    unfold paddle_thread
    simp only [ge_iff_le]
    constructor
    · intro h
      rw [if_pos h]
      exact ⟨rfl, rfl⟩
    · intro h
      rw [if_neg h]
      exact ⟨rfl, rfl⟩
  have hpp := paddle_thread_py s p
  have hrange : 0 ≤ (paddle_thread s p).2.px ∧
      (paddle_thread s p).2.px + p.pw ≤ s.board.width ∧
      ((paddle_thread s p).2.dx = 1 ∨ (paddle_thread s p).2.dx = -1) := by
    by_cases h : 0 ≤ p.px + p.dx ∧ p.px + p.dx + p.pw ≤ s.board.width
    · obtain ⟨e1, e2⟩ := hp1.1 h
      rw [e1, e2]
      exact ⟨h.1, h.2, hdx⟩
    · obtain ⟨e1, e2⟩ := hp1.2 h
      rw [e1, e2]
      refine ⟨hpx, hpw, ?_⟩
      omega
  have hd := paddle_row_dims s.board (paddle_thread s p).2.px p.py p.pw hbd hpy
  have hcell : ∀ x y, (paddle_thread s p).1.board.cell x y = s.board.cell x y := by
    intro x y
    rw [paddle_thread_board]
    exact cell_congr _ _ hd.1 hd.2.1 x y
  have hty : ∀ x : Int, 0 ≤ x → x < s.board.width →
      ((paddle_thread s p).1.board.read ((paddle_thread s p).1.board.cell x p.py)).type =
        if (paddle_thread s p).2.px ≤ x ∧ x < (paddle_thread s p).2.px + p.pw then
          .cell_paddle
        else .cell_empty := by
    intro x h0 h1
    rw [hcell, paddle_thread_board,
      (paddle_row_read s.board _ p.py p.pw hbd hpy).1 x h0 h1]
    rfl
  refine ⟨hp1.1, hp1.2, hpp.1, hpp.2, hrange.1, by rw [hpp.2]; exact hrange.2.1,
    hrange.2.2, hty, ?_⟩
  rw [countP_congr_range _ _
    (fun x : Nat => decide ((paddle_thread s p).2.px ≤ (x : Int) ∧
      (x : Int) < (paddle_thread s p).2.px + p.pw))]
  · rw [count_interval _ _ _ hrange.1]
    have := hrange.2.1
    omega
  · intro x hx
    rw [hty x (by omega) (by omega)]
    by_cases h : (paddle_thread s p).2.px ≤ (x : Int) ∧
        (x : Int) < (paddle_thread s p).2.px + p.pw
    · simp [h]
    · simp [h]

/-- C18: a paddle tick on a row `py` of the board changes nothing but the
type of cells of that row: the ball objects, the collision counter, the
warps, the shape of the board and the off-board cell are unchanged, every
cell keeps its occupant, strength and warp link, and every cell outside the
row `py` is unchanged altogether. -/
theorem paddle_tick_frame (s : pong_state) (p : paddle) (hbd : board_ok s.board)
    (hpy : 0 ≤ p.py ∧ p.py < s.board.height) :
    (paddle_thread s p).1.balls = s.balls ∧
    (paddle_thread s p).1.board.ncollisions = s.board.ncollisions ∧
    (paddle_thread s p).1.board.warps = s.board.warps ∧
    (paddle_thread s p).1.board.width = s.board.width ∧
    (paddle_thread s p).1.board.height = s.board.height ∧
    (paddle_thread s p).1.board.cells.length = s.board.cells.length ∧
    (paddle_thread s p).1.board.obstacle_cell = s.board.obstacle_cell ∧
    (∀ r, ((paddle_thread s p).1.board.read r).ball = (s.board.read r).ball ∧
      ((paddle_thread s p).1.board.read r).strength = (s.board.read r).strength ∧
      ((paddle_thread s p).1.board.read r).warp = (s.board.read r).warp) ∧
    (∀ r, (∀ x : Int, 0 ≤ x → x < s.board.width → r ≠ s.board.cell x p.py) →
      (paddle_thread s p).1.board.read r = s.board.read r) ∧
    (∀ (x y : Int), y ≠ p.py → s.board.in_bounds x y →
      (paddle_thread s p).1.board.read ((paddle_thread s p).1.board.cell x y)
        = s.board.read (s.board.cell x y)) := by
  have hd := paddle_row_dims s.board (paddle_thread s p).2.px p.py p.pw hbd hpy
  have hr := paddle_row_read s.board (paddle_thread s p).2.px p.py p.pw hbd hpy
  rw [paddle_thread_board]
  refine ⟨rfl, hd.2.2.2.1, hd.2.2.1, hd.1, hd.2.1, hd.2.2.2.2,
    paddle_row_obstacle_cell _ _ _ _ hbd hpy,
    fun r => paddle_row_frame _ _ _ _ hbd hpy r, hr.2, ?_⟩
  intro x y hy hin
  rw [cell_congr _ _ hd.1 hd.2.1 x y]
  apply hr.2
  intro x1 h0 h1 e
  have := cell_inj s.board x1 p.py x y ⟨h0, h1, hpy.1, hpy.2⟩ hin e
  exact hy this.2

theorem paddle_tick_witness :
    (paddle_thread paddle_state { px := 2, py := 2, pw := 2, dx := 1 }).2.px = 2 ∧
    (paddle_thread paddle_state { px := 2, py := 2, pw := 2, dx := 1 }).2.dx = -1 ∧
    (List.range 4).countP
      (fun n : Nat => decide (((paddle_thread paddle_state
          { px := 2, py := 2, pw := 2, dx := 1 }).1.board.read
        ((paddle_thread paddle_state { px := 2, py := 2, pw := 2, dx := 1 }).1.board.cell
          n 2)).type = .cell_paddle)) = 2 :=
  ⟨((paddle_tick paddle_state { px := 2, py := 2, pw := 2, dx := 1 } (by decide) (by decide)
      (by decide) (by decide) (Or.inl rfl)).2.1 (by decide)).1,
   ((paddle_tick paddle_state { px := 2, py := 2, pw := 2, dx := 1 } (by decide) (by decide)
      (by decide) (by decide) (Or.inl rfl)).2.1 (by decide)).2,
   (paddle_tick paddle_state { px := 2, py := 2, pw := 2, dx := 1 } (by decide) (by decide)
      (by decide) (by decide) (Or.inl rfl)).2.2.2.2.2.2.2.2⟩

theorem paddle_tick_frame_witness :
    ((paddle_thread paddle_state { px := 2, py := 2, pw := 2, dx := 1 }).1.board.read
      (.cells 9)).ball = some 0 ∧
    (paddle_thread paddle_state { px := 2, py := 2, pw := 2, dx := 1 }).1.balls
      = [{ x := 1, y := 2, dx := 1, dy := -1 }] :=
  ⟨((paddle_tick_frame paddle_state { px := 2, py := 2, pw := 2, dx := 1 } (by decide)
      (by decide)).2.2.2.2.2.2.2.1 (.cells 9)).1,
   (paddle_tick_frame paddle_state { px := 2, py := 2, pw := 2, dx := 1 } (by decide)
      (by decide)).1⟩

/-! ## The single slot of a warp endpoint -/

theorem accept_ball_busy (w : pong_warp) (b c : Nat) (h : w.ball = some c) :
    w.accept_ball b = none := by
  unfold pong_warp.accept_ball
  rw [h]
  rfl

/-- C13, at an input where the code departs from it: an endpoint whose slot
is empty accepts a ball, and the same endpoint, while that ball has not yet
been taken by the worker, does not accept the next one: the assertion
`!this->ball` fails. -/
theorem accept_ball_second_arrival :
    (({ x := 3, y := 3, ball := none } : pong_warp).accept_ball 0
      = some { x := 3, y := 3, ball := some 0 }) ∧
    (({ x := 3, y := 3, ball := some 0 } : pong_warp).accept_ball 1 = none) ∧
    ((({ x := 3, y := 3, ball := none } : pong_warp).accept_ball 0).bind
      (fun w => w.accept_ball 1) = none) :=
  ⟨rfl, rfl, rfl⟩

/-! ## Executions of whole operations -/

theorem run_ops_append (s : pong_state) (l r : List sched_op) :
    run_ops s (l ++ r) = (run_ops s l).bind (fun s1 => run_ops s1 r) := by
  induction l generalizing s with
  | nil => rfl
  | cons o os ih =>
    simp only [List.cons_append, run_ops]
    cases step_op s o with
    | none => rfl
    | some s1 => exact ih s1

/-- The warp worker with an occupied destination cell. -/
theorem warp_thread_busy (s : pong_state) (k b c : Nat) (w : pong_warp)
    (hk : s.board.warps[k]? = some w) (hb : w.ball = some b)
    (hc : (s.board.read (s.board.cell w.x w.y)).ball = some c) : warp_thread s k = none := by
  unfold warp_thread
  simp only [hk, hb, read_warps, hc, Option.isSome_some, if_true]

/-- C15, at an input where the code departs from it: from
`warp_queue_state`, ball 0 enters the mouth at `(0,0)`, the worker of the
endpoint at `(3,3)` places it on `(3,3)`, ball 1 moves to `(1,1)` and then
enters the same mouth.  The state reached is well formed, the slot of the
endpoint holds ball 1 and its destination cell `(3,3)` is still occupied by
ball 0: the next iteration of the worker does not wait, the assertion
`!cdest.ball` fails. -/
theorem warp_thread_aborts_on_occupied_destination :
    ∃ s4, run_ops warp_queue_state [.move 0, .warp 1, .move 1, .move 1] = some s4 ∧
      state_ok s4 ∧
      s4.board.warps[1]? = some { x := 3, y := 3, ball := some 1 } ∧
      (s4.board.read (s4.board.cell 3 3)).ball = some 0 ∧
      s4.balls[0]? = some { x := 3, y := 3, dx := -1, dy := -1 } ∧
      warp_thread s4 1 = none :=
  ⟨(run_ops warp_queue_state [.move 0, .warp 1, .move 1, .move 1]).get (by decide),
    by decide, state_ok_of_check _ (by decide), by decide, by decide, by decide, by decide⟩

/-- C16, at an input where the code departs from it: from
`warp_queue_state`, ball 0 arrives at the endpoint at `(3,3)` (through the
mouth at `(0,0)`) and, before the worker of that endpoint has run, ball 1
arrives at the same endpoint.  The second arrival fails the assertion of
`accept_ball`, so that no execution continues from there: neither ball is
ever placed at the destination. -/
theorem second_arrival_aborts :
    ∃ s2, run_ops warp_queue_state [.move 0, .move 1] = some s2 ∧
      s2.board.warps[1]? = some { x := 3, y := 3, ball := some 0 } ∧
      (∀ r, (s2.board.read r).ball ≠ some 0) ∧
      (target_cell s2 { x := 1, y := 1, dx := -1, dy := -1 }).warp = some 1 ∧
      step_op s2 (.move 1) = none ∧
      ∀ rest, run_ops warp_queue_state ([.move 0, .move 1, .move 1] ++ rest) = none := by
  refine ⟨(run_ops warp_queue_state [.move 0, .move 1]).get (by decide), by decide,
    by decide, ?_, by decide, by decide, ?_⟩
  · have hok : state_ok ((run_ops warp_queue_state [.move 0, .move 1]).get (by decide)) :=
      state_ok_of_check _ (by decide)
    exact (hok.warp_slot 1 { x := 3, y := 3, ball := some 0 } 0 (by decide) rfl).2
  · intro rest
    rw [run_ops_append]
    have : run_ops warp_queue_state [.move 0, .move 1, .move 1] = none := by decide
    rw [this]
    rfl

/-! ## Interleaved calls of `move` -/

/-- The second step, run right after the first, is the branch of `move`. -/
theorem move_commit_eq (bd : pong_board) (balls : List pong_ball) (i : Nat) (m : pong_ball)
    (ccur : cell_ref) (hil : i < balls.length) :
    move_commit ⟨bd, balls.set i m⟩ i
      ⟨ccur, bd.cell (m.x + m.dx) (m.y + m.dy),
        choose_branch (bd.read (bd.cell (m.x + m.dx) (m.y + m.dy)))⟩
      = move_target bd balls i m ccur := by
  have him : (balls.set i m)[i]? = some m := List.getElem?_set_self hil
  rcases target_cases (bd.read (bd.cell (m.x + m.dx) (m.y + m.dy))) with
    ⟨j, hb⟩ | ⟨hb, ht⟩ | ⟨hb, ht⟩ | ⟨hb, ht⟩ | ⟨hb, ht⟩
  · rw [move_target_collision bd balls i m _ j hb]
    simp only [move_commit, him, choose_branch, hb]
    cases collide (balls.set i m) i j <;> rfl
  · rw [move_target_warp bd balls i m _ hb ht]
    simp only [move_commit, him, choose_branch, hb, ht, if_true, set_ball_warp, write_warps,
      List.set_set]
    cases (bd.read (bd.cell (m.x + m.dx) (m.y + m.dy))).warp with
    | none => rfl
    | some k =>
      simp only [Option.some_bind]
      cases bd.warps[k]? with
      | none => rfl
      | some w =>
        simp only [Option.some_bind]
        cases w.accept_ball i <;> rfl
  · rw [move_target_trash bd balls i m _ hb ht]
    simp [move_commit, him, choose_branch, hb, ht]
  · rw [move_target_obstacle bd balls i m _ hb ht]
    have h1 : (bd.read (bd.cell (m.x + m.dx) (m.y + m.dy))).type ≠ .cell_warp := by
      intro h; rw [h] at ht; exact absurd ht (by decide)
    have h2 : (bd.read (bd.cell (m.x + m.dx) (m.y + m.dy))).type ≠ .cell_trash := by
      intro h; rw [h] at ht; exact absurd ht (by decide)
    simp only [move_commit, him, choose_branch, hb, if_neg h1, if_neg h2, if_pos ht,
      List.set_set]
  · rw [move_target_free bd balls i m _ hb ht]
    have h1 : (bd.read (bd.cell (m.x + m.dx) (m.y + m.dy))).type ≠ .cell_warp := by
      intro h; rw [h] at ht; simp at ht
    have h2 : (bd.read (bd.cell (m.x + m.dx) (m.y + m.dy))).type ≠ .cell_trash := by
      intro h; rw [h] at ht; simp at ht
    have h3 : ¬ pong_celltype.cell_obstacle.val
        ≤ (bd.read (bd.cell (m.x + m.dx) (m.y + m.dy))).type.val := by
      rcases ht with h | h <;> rw [h] <;> decide
    simp only [move_commit, him, choose_branch, hb, if_neg h1, if_neg h2, if_neg h3,
      List.set_set]
    rw [set_ball_type, set_ball_type]

/-- The two steps of `move`, run one right after the other, are `move`. -/
theorem move_two_steps_eq (s : pong_state) (i : Nat) :
    move_two_steps s i = pong_ball.move s i := by
  unfold move_two_steps move_decide pong_ball.move
  cases hi : s.balls[i]? with
  | none => rfl
  | some me =>
    have hil : i < s.balls.length := (List.getElem?_eq_some.1 hi).1
    simp only []
    by_cases hst : me.stopped = true
    · simp [hst]
    · by_cases ha : (s.board.read (s.board.cell me.x me.y)).ball = some i
      · simp only [hst, ha, ne_eq, not_true_eq_false, if_false, Bool.false_eq_true]
        exact move_commit_eq _ _ _ _ _ hil
      · simp [hst, ha]

/-- C19, at an input where the code departs from it: in `race_state` the
calls `move()` of ball 0 and of ball 1 are interleaved, each evaluating the
tests on its target cell `(1,1)` before the other has run its branch.  Both
calls return 1 and both balls end at `(1,1)`; the cell names ball 1 only, no
cell names ball 0, and no collision is counted.  In either sequential order
the second call collides (counter 1) and the balls end on different cells,
so the state reached is the result of no sequential order; and the next
`move()` of ball 0 fails its assertion. -/
theorem interleaved_moves_lose_update :
    ∃ sf t1 t2, interleaved_moves race_state 0 1 = some (sf, 1, 1) ∧
      sf.balls[0]? = some { x := 1, y := 1, dx := 1, dy := 0 } ∧
      sf.balls[1]? = some { x := 1, y := 1, dx := -1, dy := 0 } ∧
      (sf.board.read (sf.board.cell 1 1)).ball = some 1 ∧
      (∀ r, (sf.board.read r).ball ≠ some 0) ∧
      sf.board.ncollisions = 0 ∧
      run_moves race_state [0, 1] = some t1 ∧ run_moves race_state [1, 0] = some t2 ∧
      t1.board.ncollisions = 1 ∧ t2.board.ncollisions = 1 ∧
      sf ≠ t1 ∧ sf ≠ t2 ∧
      pong_ball.move sf 0 = none := by
  refine ⟨(interleaved_moves race_state 0 1).get (by decide) |>.1,
    (run_moves race_state [0, 1]).get (by decide),
    (run_moves race_state [1, 0]).get (by decide),
    by decide, by decide, by decide, by decide, ?_, by decide, by decide, by decide,
    by decide, by decide, by decide, by decide, by decide⟩
  intro r hr
  have hok : state_ok ((interleaved_moves race_state 0 1).get (by decide) |>.1) :=
    state_ok_of_check _ (by decide)
  obtain ⟨bl, h1, _, h3⟩ := hok.occupancy r 0 hr
  have hb : bl = { x := 1, y := 1, dx := 1, dy := 0 } := by
    have : ((interleaved_moves race_state 0 1).get (by decide) |>.1).balls[0]?
        = some { x := 1, y := 1, dx := 1, dy := 0 } := by decide
    rw [this] at h1
    exact (Option.some.inj h1).symm
  subst hb
  rw [← h3] at hr
  revert hr
  decide

/-! ## The setup: cells in use -/

@[simp] theorem set_strength_type_cell (c : pong_cell) (n : Int) :
    (c.set_strength n).type = c.type := rfl

@[simp] theorem set_strength_ball_cell (c : pong_cell) (n : Int) :
    (c.set_strength n).ball = c.ball := rfl

@[simp] theorem set_strength_warp_cell (c : pong_cell) (n : Int) :
    (c.set_strength n).warp = c.warp := rfl

@[simp] theorem set_strength_strength_cell (c : pong_cell) (n : Int) :
    (c.set_strength n).strength = n := rfl

@[simp] theorem set_warp_type_cell (c : pong_cell) (w : Option Nat) :
    (c.set_warp w).type = c.type := rfl

@[simp] theorem set_warp_ball_cell (c : pong_cell) (w : Option Nat) :
    (c.set_warp w).ball = c.ball := rfl

@[simp] theorem set_warp_strength_cell (c : pong_cell) (w : Option Nat) :
    (c.set_warp w).strength = c.strength := rfl

@[simp] theorem set_warp_warp_cell (c : pong_cell) (w : Option Nat) :
    (c.set_warp w).warp = w := rfl

theorem countP_take_set_le {α : Type} (p : α → Bool) (l : List α) (R i : Nat) (c : α) :
    ((l.set i c).take R).countP p ≤ (l.take R).countP p + 1 := by
  induction l generalizing R i with
  | nil => simp
  | cons a t ih =>
    cases R with
    | zero => simp
    | succ R =>
      cases i with
      | zero =>
        simp only [List.set_cons_zero, List.take_succ_cons, List.countP_cons]
        split <;> split <;> omega
      | succ i =>
        simp only [List.set_cons_succ, List.take_succ_cons, List.countP_cons]
        have := ih R i
        omega

theorem countP_take_set_of_pos {α : Type} (p : α → Bool) (l : List α) (R i : Nat) (c : α)
    (h : ∀ a, l[i]? = some a → p a = true) :
    ((l.set i c).take R).countP p ≤ (l.take R).countP p := by
  induction l generalizing R i with
  | nil => simp
  | cons a t ih =>
    cases R with
    | zero => simp
    | succ R =>
      cases i with
      | zero =>
        have ha : p a = true := h a (by simp)
        simp only [List.set_cons_zero, List.take_succ_cons, List.countP_cons, ha, if_true]
        split <;> omega
      | succ i =>
        simp only [List.set_cons_succ, List.take_succ_cons, List.countP_cons]
        have := ih R i (fun b hb => h b (by simpa using hb))
        omega

theorem take_set_of_le {α : Type} (l : List α) (R i : Nat) (c : α) (h : R ≤ i) :
    (l.set i c).take R = l.take R := by
  induction l generalizing R i with
  | nil => simp
  | cons a t ih =>
    cases R with
    | zero => simp
    | succ R =>
      cases i with
      | zero => omega
      | succ i =>
        simp only [List.set_cons_succ, List.take_succ_cons]
        rw [ih R i (by omega)]

@[simp] theorem region_write (b : pong_board) (r : cell_ref) (c : pong_cell) :
    region (b.write r c) = region b := by
  simp [region]

/-- A write makes at most one more cell used. -/
theorem used_write_le (b : pong_board) (r : cell_ref) (c : pong_cell) :
    used_cells (b.write r c) ≤ used_cells b + 1 := by
  unfold used_cells
  rw [region_write]
  cases r with
  | obstacle_cell => exact Nat.le_succ _
  | cells i => exact countP_take_set_le _ _ _ _ _

/-- A write to a cell that is in use already, or to none, adds nothing. -/
theorem used_write_used (b : pong_board) (r : cell_ref) (c : pong_cell)
    (h : ref_ok b r → b.read r ≠ {}) : used_cells (b.write r c) ≤ used_cells b := by
  unfold used_cells
  rw [region_write]
  cases r with
  | obstacle_cell => exact Nat.le_refl _
  | cells i =>
    refine countP_take_set_of_pos _ _ _ _ _ ?_
    intro a ha
    have hi : i < b.cells.length := (List.getElem?_eq_some.1 ha).1
    have hr : b.read (.cells i) = a := by
      simp [pong_board.read, ha]
    have := h hi
    rw [hr] at this
    simpa using this

/-- A write outside the placement rows adds nothing. -/
theorem used_write_outside (b : pong_board) (r : cell_ref) (c : pong_cell)
    (h : ∀ i, r = .cells i → region b ≤ i) : used_cells (b.write r c) = used_cells b := by
  unfold used_cells
  rw [region_write]
  cases r with
  | obstacle_cell => rfl
  | cells i =>
    show ((b.cells.set i c).take _).countP _ = _
    rw [take_set_of_le _ _ _ _ (h i rfl)]

/-- While fewer cells are in use than the placement rows have, a cell of
these rows is still as the constructor made it. -/
theorem exists_pristine (b : pong_board) (hok : board_ok b) (hw : 0 < b.width)
    (hu : used_cells b < region b) :
    ∃ x y, draw_ok b x y ∧ b.read (b.cell x y) = {} := by
  have hRle : region b ≤ b.cells.length := by
    rw [hok]
    unfold region
    have : b.width * (b.height - 2) ≤ b.width * b.height :=
      Int.mul_le_mul_of_nonneg_left (by omega) (by omega)
    omega
  have hlen : (b.cells.take (region b)).length = region b := by
    rw [List.length_take]; omega
  have hne : (b.cells.take (region b)).countP (fun c => decide (c ≠ {}))
      ≠ (b.cells.take (region b)).length := by
    unfold used_cells at hu
    omega
  have hex : ∃ a ∈ b.cells.take (region b), a = ({} : pong_cell) := by
    by_contra hcon
    apply hne
    rw [List.countP_eq_length]
    intro a ha
    simp only [decide_eq_true_eq]
    intro e
    exact hcon ⟨a, ha, e⟩
  obtain ⟨a, ha, rfl⟩ := hex
  obtain ⟨i, hi, hget⟩ := List.getElem_of_mem ha
  rw [hlen] at hi
  rw [List.getElem_take] at hget
  have hiR : (i : Int) < b.width * (b.height - 2) := by
    unfold region at hi
    omega
  have hmod := Int.emod_add_ediv (i : Int) b.width
  have hx0 : 0 ≤ (i : Int) % b.width := Int.emod_nonneg _ (by omega)
  have hx1 : (i : Int) % b.width < b.width := Int.emod_lt_of_pos _ hw
  have hy0 : 0 ≤ (i : Int) / b.width := Int.ediv_nonneg (by omega) (by omega)
  have hy1 : (i : Int) / b.width < b.height - 2 :=
    Int.ediv_lt_of_lt_mul hw (by rw [Int.mul_comm]; exact hiR)
  refine ⟨(i : Int) % b.width, (i : Int) / b.width, ⟨hx0, by omega, hy0, by omega⟩, ?_⟩
  rw [cell_in_bounds b _ _ ⟨hx0, hx1, hy0, by omega⟩]
  have hidx : ((i : Int) / b.width * b.width + (i : Int) % b.width).toNat = i := by
    have : (i : Int) / b.width * b.width = b.width * ((i : Int) / b.width) := Int.mul_comm _ _
    omega
  rw [hidx]
  simp only [pong_board.read]
  rw [List.getD_eq_getElem?_getD, List.getElem?_eq_getElem (by omega), hget]
  rfl

/-! ## The setup: bricks and paddle -/

/-- A write to a cell of the board that keeps the occupant keeps the state
well formed. -/
theorem state_ok_touch (b : pong_board) (bs : List pong_ball) (r : cell_ref) (c : pong_cell)
    (hr : r ≠ .obstacle_cell) (hc : c.ball = (b.read r).ball) (h : state_ok ⟨b, bs⟩) :
    state_ok ⟨b.write r c, bs⟩ := by
  refine state_ok_weaken b (b.write r c) bs bs (by simp) (by simp) (by simp) (by simp)
    ?_ ?_ ?_ rfl (fun k bl hk => ⟨bl, hk, rfl, rfl⟩) h
  · rw [write_obstacle_cell, if_neg hr]; exact h.sentinel_type
  · rw [write_obstacle_cell, if_neg hr]; exact h.sentinel_strength
  · intro r1
    left
    rw [read_write]
    split
    · rename_i h1
      rw [hc, h1.1]
    · rfl

theorem foldl_range_inv {β : Type} (f : β → Nat → β) (P : β → Nat → Prop) (n : Nat) (b : β)
    (h0 : P b 0) (hs : ∀ b k, k < n → P b k → P (f b k) (k + 1)) :
    P ((List.range n).foldl f b) n := by
  induction n with
  | zero => exact h0
  | succ n ih =>
    rw [List.range_succ, List.foldl_append]
    exact hs _ n (Nat.lt_succ_self n) (ih (fun b k hk => hs b k (Nat.lt_succ_of_lt hk)))

theorem filling_mono (c : config) (b : pong_board) (u v : Nat) (h : filling c b u)
    (huv : u ≤ v) : filling c b v :=
  ⟨h.1, h.2.1, h.2.2.1, Nat.le_trans h.2.2.2 huv⟩

theorem filling_write (c : config) (b : pong_board) (u : Nat) (r : cell_ref) (cl : pong_cell)
    (h : filling c b u) (hr : r ≠ .obstacle_cell) (hc : cl.ball = (b.read r).ball) :
    filling c (b.write r cl) (u + 1) :=
  ⟨state_ok_touch b [] r cl hr hc h.1, by simp [h.2.1], by simp [h.2.2.1],
    Nat.le_trans (used_write_le b r cl) (Nat.succ_le_succ h.2.2.2)⟩

theorem filling_write_used (c : config) (b : pong_board) (u : Nat) (r : cell_ref)
    (cl : pong_cell) (h : filling c b u) (hr : r ≠ .obstacle_cell)
    (hc : cl.ball = (b.read r).ball) (hu : b.read r ≠ {}) :
    filling c (b.write r cl) u :=
  ⟨state_ok_touch b [] r cl hr hc h.1, by simp [h.2.1], by simp [h.2.2.1],
    Nat.le_trans (used_write_used b r cl (fun _ => hu)) h.2.2.2⟩

theorem filling_write_outside (c : config) (b : pong_board) (u : Nat) (r : cell_ref)
    (cl : pong_cell) (h : filling c b u) (hr : r ≠ .obstacle_cell)
    (hc : cl.ball = (b.read r).ball) (ho : ∀ i, r = .cells i → region b ≤ i) :
    filling c (b.write r cl) u :=
  ⟨state_ok_touch b [] r cl hr hc h.1, by simp [h.2.1], by simp [h.2.2.1],
    by rw [used_write_outside b r cl ho]; exact h.2.2.2⟩

theorem cell_ne_obstacle (b : pong_board) (x y : Int) (h : b.in_bounds x y) :
    b.cell x y ≠ .obstacle_cell := by
  rw [cell_in_bounds b x y h]
  intro e
  cases e

theorem read_new (w h : Int) (r : cell_ref) : ((pong_board.new w h).read r).ball = none := by
  cases r with
  | obstacle_cell => rfl
  | cells i =>
    simp only [pong_board.read, pong_board.new]
    rw [List.getD_eq_getElem?_getD]
    by_cases hi : i < (w * h).toNat
    · rw [List.getElem?_eq_getElem (by simpa using hi)]
      simp
    · rw [List.getElem?_eq_none (by simpa using hi)]
      rfl

theorem filling_new (c : config) : filling c (pong_board.new c.width c.height) 0 := by
  refine ⟨⟨new_board_ok _ _, rfl, rfl, ?_, ?_, ?_, ?_⟩, rfl, rfl, ?_⟩
  · intro r b hb
    change ((pong_board.new c.width c.height).read r).ball = some b at hb
    rw [read_new] at hb
    cases hb
  · intro k w hk
    simp [pong_board.new] at hk
  · intro k w b hk
    simp [pong_board.new] at hk
  · intro k k1 w w1 b hk
    simp [pong_board.new] at hk
  · unfold used_cells
    rw [Nat.le_zero, List.countP_eq_zero]
    intro a ha
    have := List.mem_of_mem_take ha
    simp only [pong_board.new, List.mem_replicate] at this
    simp [this.2]

theorem set_type_ne_default (cl : pong_cell) (t : pong_celltype) (ht : t ≠ .cell_empty) :
    cl.set_type t ≠ {} := by
  intro e
  have : (cl.set_type t).type = ({} : pong_cell).type := by rw [e]
  exact ht this

theorem place_brick_filling (c : config) (nbricks : Int) (n x : Nat) (b : pong_board) (u : Nat)
    (h : filling c b u) (hx : (x : Int) < c.width) (hn : (n : Int) < c.height) :
    filling c (place_brick nbricks n b x) (u + 1) := by
  have hin : b.in_bounds x n := ⟨by omega, by rw [h.2.1]; exact hx, by omega,
    by rw [h.2.2.1]; exact hn⟩
  have hr := cell_ne_obstacle b _ _ hin
  have h1 := filling_write c b u _ ((b.read (b.cell x n)).set_type .cell_obstacle) h hr rfl
  unfold place_brick
  simp only [write_cell]
  refine filling_write_used c _ (u + 1) _ _ h1 hr rfl ?_
  rw [read_write_same b _ _ (cell_ref_ok b h.1.cells_ok _ _)]
  exact set_type_ne_default _ _ (by decide)

theorem place_brick_row_filling (c : config) (nbricks : Int) (n : Nat) (b : pong_board)
    (u : Nat) (h : filling c b u) (hn : (n : Int) < c.height) :
    filling c (place_brick_row nbricks b n) (u + c.width.toNat) := by
  unfold place_brick_row
  rw [h.2.1]
  refine foldl_range_inv (place_brick nbricks n) (fun bd k => filling c bd (u + k)) _ b h ?_
  intro bd k hk hbd
  exact place_brick_filling c nbricks n k bd (u + k) hbd (by omega) hn

theorem place_bricks_filling (c : config) (nbricks : Int) (b : pong_board) (u : Nat)
    (h : filling c b u) (hn : nbricks ≤ c.height) :
    filling c (place_bricks b nbricks) (u + nbricks.toNat * c.width.toNat) := by
  unfold place_bricks
  refine foldl_range_inv (place_brick_row nbricks)
    (fun bd k => filling c bd (u + k * c.width.toNat)) _ b (by simpa using h) ?_
  intro bd k hk hbd
  have := place_brick_row_filling c nbricks k bd _ hbd (by omega)
  rw [Nat.succ_mul, ← Nat.add_assoc]
  exact this

theorem region_index (b : pong_board) (x y : Int) (hx : 0 ≤ x) (hw : 0 ≤ b.width)
    (hy : b.height - 2 ≤ y) : region b ≤ (y * b.width + x).toNat := by
  unfold region
  have h1 : (b.height - 2) * b.width ≤ y * b.width := Int.mul_le_mul_of_nonneg_right hy hw
  have h2 : b.width * (b.height - 2) = (b.height - 2) * b.width := Int.mul_comm _ _
  omega

theorem write_low_row_filling (c : config) (b : pong_board) (u : Nat) (x : Nat) (y : Int)
    (t : pong_celltype) (h : filling c b u) (hx : (x : Int) < c.width)
    (hy1 : c.height - 2 ≤ y) (hy2 : y < c.height) (hh : 2 ≤ c.height) :
    filling c (b.write (b.cell x y) ((b.read (b.cell x y)).set_type t)) u := by
  have hin : b.in_bounds x y := ⟨by omega, by rw [h.2.1]; exact hx, by omega,
    by rw [h.2.2.1]; exact hy2⟩
  refine filling_write_outside c b u _ _ h (cell_ne_obstacle b _ _ hin) rfl ?_
  intro i hi
  rw [cell_in_bounds b _ _ hin] at hi
  injection hi with hi
  rw [← hi]
  exact region_index b x y (by omega) (by rw [h.2.1]; omega) (by rw [h.2.2.1]; exact hy1)

theorem place_trash_row_filling (c : config) (b : pong_board) (u : Nat) (h : filling c b u)
    (hh : 2 ≤ c.height) : filling c (place_trash_row b) u := by
  unfold place_trash_row
  rw [h.2.1]
  refine foldl_range_inv _ (fun bd _ => filling c bd u) _ b h ?_
  intro bd k hk hbd
  have := write_low_row_filling c bd u k (bd.height - 1) .cell_trash hbd (by omega)
    (by rw [hbd.2.2.1]; omega) (by rw [hbd.2.2.1]; omega) hh
  exact this

theorem place_paddle_cells_filling (c : config) (b : pong_board) (u : Nat)
    (h : filling c b u) (hh : 2 ≤ c.height) : filling c (place_paddle_cells b) u := by
  unfold place_paddle_cells
  rw [h.2.1]
  refine foldl_range_inv _ (fun bd _ => filling c bd u) _ b h ?_
  intro bd k hk hbd
  have := write_low_row_filling c bd u k (bd.height - 2) .cell_paddle hbd (by omega)
    (by rw [hbd.2.2.1]) (by rw [hbd.2.2.1]; omega) hh
  exact this

/-- The board after the bricks and the paddle: well formed, and at most
`width * nbricks` cells of the placement rows are in use. -/
theorem initial_board_filling (c : config) (hh : 2 ≤ c.height) (hn : c.bricks ≤ c.height) :
    filling c (initial_board c) (c.bricks.toNat * c.width.toNat) := by
  have h1 := place_bricks_filling c c.bricks _ 0 (filling_new c) hn
  rw [Nat.zero_add] at h1
  unfold initial_board
  simp only []
  split
  · exact place_paddle_cells_filling c _ _ (place_trash_row_filling c _ _ h1 hh) hh
  · exact h1

/-! ## The setup: sticky cells -/

theorem typed_cells_kept_refl (b : pong_board) : typed_cells_kept b b :=
  fun _ _ => ⟨rfl, rfl, rfl⟩

theorem typed_cells_kept_trans (b b1 b2 : pong_board) (h1 : typed_cells_kept b b1)
    (h2 : typed_cells_kept b1 b2) : typed_cells_kept b b2 := by
  intro r hr
  obtain ⟨a1, a2, a3⟩ := h1 r hr
  obtain ⟨c1, c2, c3⟩ := h2 r (by rw [a1]; exact hr)
  exact ⟨c1.trans a1, c2.trans a2, c3.trans a3⟩

/-- A write to a cell of type `cell_empty` keeps the typed cells. -/
theorem typed_cells_kept_write (b : pong_board) (r : cell_ref) (cl : pong_cell)
    (h : (b.read r).type = .cell_empty) : typed_cells_kept b (b.write r cl) := by
  intro r1 hr1
  have hne : r1 ≠ r := by
    intro e
    rw [e] at hr1
    exact hr1 h
  rw [read_write_ne b r r1 cl hne]
  exact ⟨rfl, rfl, rfl⟩

theorem draw_in_bounds (b : pong_board) (x y : Int) (h : draw_ok b x y) : b.in_bounds x y := by
  obtain ⟨h1, h2, h3, h4⟩ := h
  exact ⟨h1, by omega, h3, by omega⟩

theorem place_sticky_some (b : pong_board) (x y : Int) (b1 : pong_board)
    (h : place_sticky b x y = some b1) :
    draw_ok b x y ∧ (b.read (b.cell x y)).type = .cell_empty ∧
    b1 = b.write (b.cell x y) ((b.read (b.cell x y)).set_type .cell_sticky) := by
  unfold place_sticky at h
  split at h
  · rename_i hc
    exact ⟨hc.1, hc.2, (Option.some.inj h).symm⟩
  · cases h

theorem place_sticky_filling (c : config) (b : pong_board) (u : Nat) (x y : Int)
    (b1 : pong_board) (hf : filling c b u) (h : place_sticky b x y = some b1) :
    filling c b1 (u + 1) ∧ typed_cells_kept b b1 ∧ b1.warps = b.warps ∧
    (b1.read (b.cell x y)).type = .cell_sticky := by
  obtain ⟨hd, ht, rfl⟩ := place_sticky_some b x y b1 h
  refine ⟨filling_write c b u _ _ hf (cell_ne_obstacle b _ _ (draw_in_bounds b x y hd)) rfl,
    typed_cells_kept_write b _ _ ht, by simp, ?_⟩
  rw [read_write_same b _ _ (cell_ref_ok b hf.1.cells_ok _ _)]
  rfl

theorem filling_cell (c : config) (b b1 : pong_board) (u u1 : Nat) (h : filling c b u)
    (h1 : filling c b1 u1) (x y : Int) : b1.cell x y = b.cell x y :=
  cell_congr b b1 (h1.2.1.trans h.2.1.symm) (h1.2.2.1.trans h.2.2.1.symm) x y

/-- The loop that places the sticky cells: every cell it has made sticky is
sticky at the end, and no typed cell is overwritten. -/
theorem place_stickies_filling (c : config) (ds : List (Int × Int)) (b : pong_board) (u : Nat)
    (b1 : pong_board) (hf : filling c b u) (h : place_stickies b ds = some b1) :
    filling c b1 (u + ds.length) ∧ typed_cells_kept b b1 ∧ b1.warps = b.warps ∧
    ∀ d ∈ ds, (b1.read (b1.cell d.1 d.2)).type = .cell_sticky := by
  induction ds generalizing b u with
  | nil =>
    have e : b1 = b := (Option.some.inj h).symm
    subst e
    exact ⟨hf, typed_cells_kept_refl _, rfl, fun d hd => absurd hd (List.not_mem_nil d)⟩
  | cons d ds ih =>
    unfold place_stickies at h
    cases hp : place_sticky b d.1 d.2 with
    | none => rw [hp] at h; cases h
    | some b2 =>
      rw [hp] at h
      obtain ⟨g1, g2, g3, g4⟩ := place_sticky_filling c b u d.1 d.2 b2 hf hp
      obtain ⟨k1, k2, k3, k4⟩ := ih b2 (u + 1) g1 h
      refine ⟨?_, typed_cells_kept_trans _ _ _ g2 k2, k3.trans g3, ?_⟩
      · rw [List.length_cons, Nat.add_comm ds.length 1, ← Nat.add_assoc]
        exact k1
      · intro e he
        rcases List.mem_cons.1 he with rfl | he
        · rw [filling_cell c b b1 _ _ hf k1]
          have := k2 (b.cell e.1 e.2) (by rw [g4]; decide)
          rw [this.1, g4]
        · exact k4 e he

/-- While fewer cells are in use than the placement rows have, the loop that
draws a sticky cell can end. -/
theorem place_sticky_progress (c : config) (b : pong_board) (u : Nat) (hf : filling c b u)
    (hw : 0 < c.width) (hu : u < region b) : ∃ x y b1, place_sticky b x y = some b1 := by
  obtain ⟨x, y, hd, hr⟩ := exists_pristine b hf.1.cells_ok (by rw [hf.2.1]; exact hw)
    (Nat.lt_of_le_of_lt hf.2.2.2 hu)
  refine ⟨x, y, b.write (b.cell x y) ((b.read (b.cell x y)).set_type .cell_sticky), ?_⟩
  unfold place_sticky
  rw [if_pos]
  exact ⟨hd, by rw [hr]⟩

/-! ## The setup: warp pairs -/

/-- New warps with an empty slot and a position on the board keep the state
well formed. -/
theorem state_ok_add_warps (b : pong_board) (bs : List pong_ball) (ws : List pong_warp)
    (hws : ∀ w ∈ ws, b.in_bounds w.x w.y ∧ w.ball = none) (h : state_ok ⟨b, bs⟩) :
    state_ok ⟨{ b with warps := b.warps ++ ws }, bs⟩ := by
  have hget : ∀ (k : Nat) (w : pong_warp), (b.warps ++ ws)[k]? = some w →
      b.warps[k]? = some w ∨ (b.in_bounds w.x w.y ∧ w.ball = none) := by
    intro k w hk
    by_cases hlt : k < b.warps.length
    · rw [List.getElem?_append_left hlt] at hk
      exact Or.inl hk
    · rw [List.getElem?_append_right (Nat.le_of_not_lt hlt)] at hk
      exact Or.inr (hws w (List.getElem?_mem hk))
  constructor
  · exact h.cells_ok
  · exact h.sentinel_type
  · exact h.sentinel_strength
  · intro r bn hb
    rw [show (pong_state.board ⟨{ b with warps := b.warps ++ ws }, bs⟩).read r = b.read r from
      read_warps b _ r] at hb
    exact h.occupancy r bn hb
  · intro k w hk
    rcases hget k w hk with e | e
    · exact h.warp_pos k w e
    · exact e.1
  · intro k w bn hk hb
    rcases hget k w hk with e | e
    · obtain ⟨h1, h2⟩ := h.warp_slot k w bn e hb
      refine ⟨h1, fun r hr => h2 r ?_⟩
      rw [show (pong_state.board ⟨{ b with warps := b.warps ++ ws }, bs⟩).read r = b.read r
        from read_warps b _ r] at hr
      exact hr
    · rw [e.2] at hb
      cases hb
  · intro k k1 w w1 bn hk hk1 hb hb1
    rcases hget k w hk with e | e
    · rcases hget k1 w1 hk1 with e1 | e1
      · exact h.warp_unique k k1 w w1 bn e e1 hb hb1
      · rw [e1.2] at hb1
        cases hb1
    · rw [e.2] at hb
      cases hb

theorem filling_add_warps (c : config) (b : pong_board) (u : Nat) (ws : List pong_warp)
    (hws : ∀ w ∈ ws, b.in_bounds w.x w.y ∧ w.ball = none) (h : filling c b u) :
    filling c { b with warps := b.warps ++ ws } u :=
  ⟨state_ok_add_warps b [] ws hws h.1, h.2.1, h.2.2.1, h.2.2.2⟩

theorem place_warp_pair_some (b : pong_board) (d1 d2 : Int × Int) (b1 : pong_board)
    (hok : board_ok b) (h : place_warp_pair b d1 d2 = some b1) :
    draw_ok b d1.1 d1.2 ∧ (b.read (b.cell d1.1 d1.2)).type = .cell_empty ∧
    draw_ok b d2.1 d2.2 ∧
    ((b.write (b.cell d1.1 d1.2) ((b.read (b.cell d1.1 d1.2)).set_type .cell_warp)).read
      (b.cell d2.1 d2.2)).type = .cell_empty ∧
    b1 = { (((b.write (b.cell d1.1 d1.2) ((b.read (b.cell d1.1 d1.2)).set_type .cell_warp)).write
            (b.cell d2.1 d2.2) ((b.read (b.cell d2.1 d2.2)).set_type .cell_warp)).write
            (b.cell d1.1 d1.2)
            (((b.read (b.cell d1.1 d1.2)).set_type .cell_warp).set_warp
              (some (b.warps.length + 1)))).write
          (b.cell d2.1 d2.2)
          (((b.read (b.cell d2.1 d2.2)).set_type .cell_warp).set_warp (some b.warps.length))
        with warps := b.warps ++ [{ x := d1.1, y := d1.2 }, { x := d2.1, y := d2.2 }] } := by
  unfold place_warp_pair at h
  simp only [write_cell] at h
  split at h
  · rename_i hc1
    split at h
    · rename_i hc2
      have hd2 : draw_ok b d2.1 d2.2 := by
        have := hc2.1
        simpa [draw_ok] using this
      have hne : b.cell d2.1 d2.2 ≠ b.cell d1.1 d1.2 := by
        intro e
        have := hc2.2
        rw [e, read_write_same b _ _ (cell_ref_ok b hok _ _)] at this
        cases this
      have hr2 : (b.write (b.cell d1.1 d1.2)
          ((b.read (b.cell d1.1 d1.2)).set_type .cell_warp)).read (b.cell d2.1 d2.2)
          = b.read (b.cell d2.1 d2.2) := read_write_ne b _ _ _ hne
      have hr1 : ((b.write (b.cell d1.1 d1.2)
          ((b.read (b.cell d1.1 d1.2)).set_type .cell_warp)).write (b.cell d2.1 d2.2)
            ((b.read (b.cell d2.1 d2.2)).set_type .cell_warp)).read (b.cell d1.1 d1.2)
          = (b.read (b.cell d1.1 d1.2)).set_type .cell_warp := by
        rw [read_write_ne _ _ _ _ (fun e => hne e.symm),
          read_write_same b _ _ (cell_ref_ok b hok _ _)]
      have hr3 : (((b.write (b.cell d1.1 d1.2)
          ((b.read (b.cell d1.1 d1.2)).set_type .cell_warp)).write (b.cell d2.1 d2.2)
            ((b.read (b.cell d2.1 d2.2)).set_type .cell_warp)).write (b.cell d1.1 d1.2)
            (((b.read (b.cell d1.1 d1.2)).set_type .cell_warp).set_warp
              (some (b.warps.length + 1)))).read (b.cell d2.1 d2.2)
          = (b.read (b.cell d2.1 d2.2)).set_type .cell_warp := by
        rw [read_write_ne _ _ _ _ hne]
        refine read_write_same _ _ _ ?_
        exact (ref_ok_congr b _ (by simp) _).2 (cell_ref_ok b hok _ _)
      refine ⟨hc1.1, hc1.2, hd2, hc2.2, ?_⟩
      rw [hr2, hr1, hr3] at h
      simp only [write_warps] at h
      exact (Option.some.inj h).symm
    · cases h
  · cases h

/-- One warp pair: the two mouths are different cells of the placement rows,
each becomes a warp cell that links to the warp object of the other, and no
typed cell is overwritten. -/
theorem place_warp_pair_filling (c : config) (b : pong_board) (u : Nat) (d1 d2 : Int × Int)
    (b1 : pong_board) (hf : filling c b u) (h : place_warp_pair b d1 d2 = some b1) :
    filling c b1 (u + 2) ∧ typed_cells_kept b b1 ∧
    b1.warps = b.warps ++ [{ x := d1.1, y := d1.2 }, { x := d2.1, y := d2.2 }] ∧
    d1 ≠ d2 ∧ draw_ok b d1.1 d1.2 ∧ draw_ok b d2.1 d2.2 ∧
    (b1.read (b.cell d1.1 d1.2)).type = .cell_warp ∧
    (b1.read (b.cell d1.1 d1.2)).warp = some (b.warps.length + 1) ∧
    (b1.read (b.cell d2.1 d2.2)).type = .cell_warp ∧
    (b1.read (b.cell d2.1 d2.2)).warp = some b.warps.length := by
  have hok := hf.1.cells_ok
  obtain ⟨hd1, ht1, hd2, ht2, rfl⟩ := place_warp_pair_some b d1 d2 b1 hok h
  have hv1 := cell_ref_ok b hok d1.1 d1.2
  have hv2 := cell_ref_ok b hok d2.1 d2.2
  have hn1 := cell_ne_obstacle b _ _ (draw_in_bounds b _ _ hd1)
  have hn2 := cell_ne_obstacle b _ _ (draw_in_bounds b _ _ hd2)
  generalize hr1 : b.cell d1.1 d1.2 = r1 at *
  generalize hr2 : b.cell d2.1 d2.2 = r2 at *
  have hne : r2 ≠ r1 := by
    intro e
    rw [e, read_write_same b _ _ hv1] at ht2
    cases ht2
  have hne1 : r1 ≠ r2 := fun e => hne e.symm
  have hdne : d1 ≠ d2 := by
    intro e
    apply hne
    rw [← hr1, ← hr2, e]
  have ht2b : (b.read r2).type = .cell_empty := by
    rw [read_write_ne b _ _ _ hne] at ht2
    exact ht2
  have f1 := filling_write c b u r1 ((b.read r1).set_type .cell_warp) hf hn1 rfl
  have f2 := filling_write c _ (u + 1) r2 ((b.read r2).set_type .cell_warp) f1 hn2
    (by rw [read_write_ne b _ _ _ hne]; rfl)
  have e3 : ((b.write r1 ((b.read r1).set_type .cell_warp)).write r2
      ((b.read r2).set_type .cell_warp)).read r1 = (b.read r1).set_type .cell_warp := by
    rw [read_write_ne _ _ _ _ hne1, read_write_same b _ _ hv1]
  have f3 := filling_write_used c _ (u + 1 + 1) r1
    (((b.read r1).set_type .cell_warp).set_warp (some (b.warps.length + 1))) f2 hn1
    (by rw [e3]; rfl) (by rw [e3]; exact set_type_ne_default _ _ (by decide))
  have e4 : (((b.write r1 ((b.read r1).set_type .cell_warp)).write r2
      ((b.read r2).set_type .cell_warp)).write r1
        (((b.read r1).set_type .cell_warp).set_warp (some (b.warps.length + 1)))).read r2
      = (b.read r2).set_type .cell_warp := by
    rw [read_write_ne _ _ _ _ hne]
    exact read_write_same _ _ _ ((ref_ok_congr b _ (by simp) _).2 hv2)
  have f4 := filling_write_used c _ (u + 1 + 1) r2
    (((b.read r2).set_type .cell_warp).set_warp (some b.warps.length)) f3 hn2
    (by rw [e4]; rfl) (by rw [e4]; exact set_type_ne_default _ _ (by decide))
  have hin1 : b.in_bounds d1.1 d1.2 := draw_in_bounds b _ _ hd1
  have hin2 : b.in_bounds d2.1 d2.2 := draw_in_bounds b _ _ hd2
  have f5 := filling_add_warps c _ (u + 1 + 1)
    [{ x := d1.1, y := d1.2 }, { x := d2.1, y := d2.2 }] (by
      intro w hw
      simp only [List.mem_cons, List.mem_singleton, List.not_mem_nil, or_false] at hw
      rcases hw with rfl | rfl
      · exact ⟨(in_bounds_congr b _ (by simp) (by simp) _ _).2 hin1, rfl⟩
      · exact ⟨(in_bounds_congr b _ (by simp) (by simp) _ _).2 hin2, rfl⟩) f4
  simp only [write_warps] at f5
  have e5 : ((((b.write r1 ((b.read r1).set_type .cell_warp)).write r2
      ((b.read r2).set_type .cell_warp)).write r1
        (((b.read r1).set_type .cell_warp).set_warp (some (b.warps.length + 1)))).write r2
        (((b.read r2).set_type .cell_warp).set_warp (some b.warps.length))).read r1
      = ((b.read r1).set_type .cell_warp).set_warp (some (b.warps.length + 1)) := by
    rw [read_write_ne _ _ _ _ hne1]
    exact read_write_same _ _ _ ((ref_ok_congr b _ (by simp) _).2 hv1)
  have e6 : ((((b.write r1 ((b.read r1).set_type .cell_warp)).write r2
      ((b.read r2).set_type .cell_warp)).write r1
        (((b.read r1).set_type .cell_warp).set_warp (some (b.warps.length + 1)))).write r2
        (((b.read r2).set_type .cell_warp).set_warp (some b.warps.length))).read r2
      = ((b.read r2).set_type .cell_warp).set_warp (some b.warps.length) :=
    read_write_same _ _ _ ((ref_ok_congr b _ (by simp) _).2 hv2)
  refine ⟨f5, ?_, rfl, hdne, hd1, hd2, ?_, ?_, ?_, ?_⟩
  · intro r hr
    have a1 : r ≠ r1 := by
      intro e; rw [e] at hr; exact hr ht1
    have a2 : r ≠ r2 := by
      intro e; rw [e] at hr; exact hr ht2b
    rw [read_warps, read_write_ne _ _ _ _ a2, read_write_ne _ _ _ _ a1,
      read_write_ne _ _ _ _ a2, read_write_ne _ _ _ _ a1]
    exact ⟨rfl, rfl, rfl⟩
  · rw [read_warps, e5]; rfl
  · rw [read_warps, e5]; rfl
  · rw [read_warps, e6]; rfl
  · rw [read_warps, e6]; rfl

theorem draw_ok_congr (b b1 : pong_board) (hw : b1.width = b.width) (hh : b1.height = b.height)
    (x y : Int) : draw_ok b1 x y ↔ draw_ok b x y := by
  simp [draw_ok, hw, hh]

/-- The loop that places the warp pairs: the pair number `k` has the warp
objects number `2k` and `2k+1` (counted from the warps that were there), its
two mouths are different cells of the placement rows, and at the end of the
loop each mouth is a warp cell that links to the warp object of the other
mouth. -/
theorem place_warps_filling (c : config) (ws : List ((Int × Int) × (Int × Int)))
    (b : pong_board) (u : Nat) (b1 : pong_board) (hf : filling c b u)
    (h : place_warps b ws = some b1) :
    filling c b1 (u + 2 * ws.length) ∧ typed_cells_kept b b1 ∧
    b1.warps.length = b.warps.length + 2 * ws.length ∧
    (∀ (j : Nat) (w : pong_warp), b.warps[j]? = some w → b1.warps[j]? = some w) ∧
    ∀ (k : Nat) (d1 d2 : Int × Int), ws[k]? = some (d1, d2) →
      d1 ≠ d2 ∧ draw_ok b1 d1.1 d1.2 ∧ draw_ok b1 d2.1 d2.2 ∧
      b1.warps[b.warps.length + 2 * k]? = some { x := d1.1, y := d1.2 } ∧
      b1.warps[b.warps.length + 2 * k + 1]? = some { x := d2.1, y := d2.2 } ∧
      (b1.read (b1.cell d1.1 d1.2)).type = .cell_warp ∧
      (b1.read (b1.cell d1.1 d1.2)).warp = some (b.warps.length + 2 * k + 1) ∧
      (b1.read (b1.cell d2.1 d2.2)).type = .cell_warp ∧
      (b1.read (b1.cell d2.1 d2.2)).warp = some (b.warps.length + 2 * k) := by
  induction ws generalizing b u with
  | nil =>
    have e : b1 = b := (Option.some.inj h).symm
    subst e
    refine ⟨hf, typed_cells_kept_refl _, rfl, fun _ _ hj => hj, ?_⟩
    intro k d1 d2 hk
    simp at hk
  | cons d ws ih =>
    unfold place_warps at h
    cases hp : place_warp_pair b d.1 d.2 with
    | none => rw [hp] at h; cases h
    | some b2 =>
      rw [hp] at h
      obtain ⟨g1, g2, g3, g4, g5, g6, g7, g8, g9, g10⟩ :=
        place_warp_pair_filling c b u d.1 d.2 b2 hf hp
      obtain ⟨k1, k2, k3, k4, k5⟩ := ih b2 (u + 2) g1 h
      have hlen2 : b2.warps.length = b.warps.length + 2 := by
        rw [g3, List.length_append]; rfl
      have hw : b1.width = b.width := k1.2.1.trans hf.2.1.symm
      have hh : b1.height = b.height := k1.2.2.1.trans hf.2.2.1.symm
      have hcell := cell_congr b b1 hw hh
      refine ⟨?_, typed_cells_kept_trans _ _ _ g2 k2, ?_, ?_, ?_⟩
      · have : u + 2 * (d :: ws).length = u + 2 + 2 * ws.length := by
          rw [List.length_cons]; omega
        rw [this]
        exact k1
      · rw [k3, hlen2, List.length_cons]; omega
      · intro j w hj
        apply k4
        rw [g3, List.getElem?_append_left (List.getElem?_eq_some.1 hj).1]
        exact hj
      · intro k d1 d2 hk
        cases k with
        | zero =>
          have e : d = (d1, d2) := by simpa using hk
          subst e
          simp only at g4 g5 g6 g7 g8 g9 g10 hp
          refine ⟨g4, (draw_ok_congr b b1 hw hh _ _).2 g5, (draw_ok_congr b b1 hw hh _ _).2 g6,
            ?_, ?_, ?_, ?_, ?_, ?_⟩
          · apply k4
            rw [Nat.mul_zero, Nat.add_zero, g3, List.getElem?_append_right (Nat.le_refl _)]
            simp
          · apply k4
            rw [Nat.mul_zero, Nat.add_zero, g3, List.getElem?_append_right (by omega)]
            simp
          · rw [hcell, (k2 _ (by rw [g7]; decide)).1, g7]
          · rw [hcell, (k2 _ (by rw [g7]; decide)).2.2, g8]
          · rw [hcell, (k2 _ (by rw [g9]; decide)).1, g9]
          · rw [hcell, (k2 _ (by rw [g9]; decide)).2.2, g10]; rfl
        | succ k =>
          have hk1 : ws[k]? = some (d1, d2) := by simpa using hk
          obtain ⟨a1, a2, a3, a4, a5, a6, a7, a8, a9⟩ := k5 k d1 d2 hk1
          have e1 : b.warps.length + 2 * (k + 1) = b2.warps.length + 2 * k := by
            rw [hlen2]; omega
          rw [e1]
          exact ⟨a1, a2, a3, a4, a5, a6, a7, a8, a9⟩

/-- While at least two cells of the placement rows are not in use, the two
loops that draw the mouths of a warp pair can end. -/
theorem place_warp_pair_progress (c : config) (b : pong_board) (u : Nat) (hf : filling c b u)
    (hw : 0 < c.width) (hu : u + 1 < region b) :
    ∃ d1 d2 b1, place_warp_pair b d1 d2 = some b1 := by
  obtain ⟨x, y, hd, hr⟩ := exists_pristine b hf.1.cells_ok (by rw [hf.2.1]; exact hw)
    (Nat.lt_of_le_of_lt hf.2.2.2 (by omega))
  have f1 := filling_write c b u (b.cell x y) ((b.read (b.cell x y)).set_type .cell_warp) hf
    (cell_ne_obstacle b _ _ (draw_in_bounds b _ _ hd)) rfl
  obtain ⟨x2, y2, hd2, hr2⟩ := exists_pristine _ f1.1.cells_ok (by rw [f1.2.1]; exact hw)
    (Nat.lt_of_le_of_lt f1.2.2.2 (by rw [region_write]; exact hu))
  have hsome : (place_warp_pair b (x, y) (x2, y2)).isSome = true := by
    unfold place_warp_pair
    simp only []
    rw [if_pos ⟨hd, by rw [hr]⟩, if_pos ⟨hd2, by rw [hr2]⟩]
    rfl
  exact ⟨(x, y), (x2, y2), _, (Option.some_get hsome).symm⟩

/-! ## The setup: balls -/

theorem place_ball_some (s : pong_state) (x y rx ry : Int) (s1 : pong_state)
    (h : place_ball s x y rx ry = some s1) :
    draw_ok s.board x y ∧ (s.board.read (s.board.cell x y)).type.val ≤ 1 ∧
    (s.board.read (s.board.cell x y)).ball = none ∧
    s1 = { board := s.board.write (s.board.cell x y)
             ((s.board.read (s.board.cell x y)).set_ball (some s.balls.length))
           balls := s.balls ++ [new_ball x y rx ry] } := by
  unfold place_ball at h
  split at h
  · rename_i hc
    obtain ⟨h1, h2, _⟩ := hc
    rw [not_or] at h2
    refine ⟨h1, ?_, ?_, (Option.some.inj h).symm⟩
    · have h3 := h2.1
      have hs : pong_celltype.cell_sticky.val = 1 := rfl
      rw [hs] at h3
      omega
    · cases hb : (s.board.read (s.board.cell x y)).ball with
      | none => rfl
      | some j => rw [hb] at h2; exact absurd rfl h2.2
  · cases h

/-- A new ball on an unoccupied cell of the board keeps the state well
formed. -/
theorem state_ok_new_ball (s : pong_state) (nb : pong_ball)
    (hin : s.board.in_bounds nb.x nb.y) (h : state_ok s) :
    state_ok { board := s.board.write (s.board.cell nb.x nb.y)
                 ((s.board.read (s.board.cell nb.x nb.y)).set_ball (some s.balls.length))
               balls := s.balls ++ [nb] } := by
  have hv := cell_ref_ok s.board h.cells_ok nb.x nb.y
  have hn := cell_ne_obstacle s.board _ _ hin
  have hold : ∀ (b : Nat) (bl : pong_ball), s.balls[b]? = some bl →
      (s.balls ++ [nb])[b]? = some bl := by
    intro b bl hb
    rw [List.getElem?_append_left (List.getElem?_eq_some.1 hb).1]
    exact hb
  constructor
  · show board_ok (s.board.write _ _)
    unfold board_ok
    simp only [write_cells_length, write_width, write_height]
    exact h.cells_ok
  · show (s.board.write _ _).obstacle_cell.type = _
    rw [write_obstacle_cell, if_neg hn]; exact h.sentinel_type
  · show (s.board.write _ _).obstacle_cell.strength = _
    rw [write_obstacle_cell, if_neg hn]; exact h.sentinel_strength
  · intro r b hb
    change ((s.board.write _ _).read r).ball = some b at hb
    show ∃ bl, (s.balls ++ [nb])[b]? = some bl ∧ (s.board.write _ _).in_bounds bl.x bl.y ∧
      (s.board.write _ _).cell bl.x bl.y = r
    simp only [write_cell]
    by_cases hr : r = s.board.cell nb.x nb.y
    · subst hr
      rw [read_write_same _ _ _ hv] at hb
      have e : s.balls.length = b := by simpa using hb
      subst e
      refine ⟨nb, by simp, (in_bounds_congr s.board _ (by simp) (by simp) _ _).2 hin, rfl⟩
    · rw [read_write_ne _ _ _ _ hr] at hb
      obtain ⟨bl, h1, h2, h3⟩ := h.occupancy r b hb
      exact ⟨bl, hold b bl h1, (in_bounds_congr s.board _ (by simp) (by simp) _ _).2 h2, h3⟩
  · intro k w hk
    change (s.board.write _ _).warps[k]? = some w at hk
    rw [write_warps] at hk
    exact (in_bounds_congr s.board _ (by simp) (by simp) _ _).2 (h.warp_pos k w hk)
  · intro k w b hk hb
    change (s.board.write _ _).warps[k]? = some w at hk
    rw [write_warps] at hk
    obtain ⟨h1, h2⟩ := h.warp_slot k w b hk hb
    refine ⟨by rw [List.length_append]; exact Nat.lt_succ_of_lt h1, ?_⟩
    intro r hr
    change ((s.board.write _ _).read r).ball = some b at hr
    by_cases hrr : r = s.board.cell nb.x nb.y
    · subst hrr
      rw [read_write_same _ _ _ hv] at hr
      have e : s.balls.length = b := by simpa using hr
      omega
    · rw [read_write_ne _ _ _ _ hrr] at hr
      exact h2 r hr
  · intro k k1 w w1 b hk hk1
    change (s.board.write _ _).warps[k]? = some w at hk
    change (s.board.write _ _).warps[k1]? = some w1 at hk1
    rw [write_warps] at hk hk1
    exact h.warp_unique k k1 w w1 b hk hk1

/-- One ball of the setup: it is put on an unoccupied empty or sticky cell of
the placement rows, as the last of the balls so far; no cell changes its
type, strength or warp link and no occupant is overwritten. -/
theorem place_ball_placing (c : config) (s : pong_state) (u : Nat) (x y rx ry : Int)
    (s1 : pong_state) (hp : placing c s u) (h : place_ball s x y rx ry = some s1) :
    placing c s1 (u + 1) ∧ s1.board.warps = s.board.warps ∧
    (∀ r, (s1.board.read r).type = (s.board.read r).type ∧
      (s1.board.read r).strength = (s.board.read r).strength ∧
      (s1.board.read r).warp = (s.board.read r).warp) ∧
    s1.balls = s.balls ++ [new_ball x y rx ry] ∧
    (∀ r b, (s.board.read r).ball = some b → (s1.board.read r).ball = some b) ∧
    draw_ok s.board x y ∧
    (s1.board.read (s.board.cell x y)).ball = some s.balls.length ∧
    (s.board.read (s.board.cell x y)).type.val ≤ 1 := by
  obtain ⟨hd, ht, hb, rfl⟩ := place_ball_some s x y rx ry s1 h
  have hin := draw_in_bounds _ _ _ hd
  have hv := cell_ref_ok s.board hp.1.cells_ok x y
  refine ⟨⟨state_ok_new_ball s (new_ball x y rx ry) hin hp.1, by simp [hp.2.1],
    by simp [hp.2.2.1], Nat.le_trans (used_write_le _ _ _) (Nat.succ_le_succ hp.2.2.2)⟩,
    by simp, ?_, rfl, ?_, hd, ?_, ht⟩
  · intro r
    exact ⟨set_ball_type _ _ _ _, set_ball_strength _ _ _ _, set_ball_warp _ _ _ _⟩
  · intro r b hr
    show ((s.board.write _ _).read r).ball = some b
    have hne : r ≠ s.board.cell x y := by
      intro e
      rw [e, hb] at hr
      cases hr
    rw [read_write_ne _ _ _ _ hne]
    exact hr
  · show ((s.board.write _ _).read _).ball = _
    rw [read_write_same _ _ _ hv]
    rfl

/-- The loop that places the balls. -/
theorem place_balls_placing (c : config) (ds : List ((Int × Int) × (Int × Int)))
    (s : pong_state) (u : Nat) (s1 : pong_state) (hp : placing c s u)
    (h : place_balls s ds = some s1) :
    placing c s1 (u + ds.length) ∧ s1.board.warps = s.board.warps ∧
    (∀ r, (s1.board.read r).type = (s.board.read r).type ∧
      (s1.board.read r).strength = (s.board.read r).strength ∧
      (s1.board.read r).warp = (s.board.read r).warp) ∧
    s1.balls.length = s.balls.length + ds.length ∧
    (∀ (j : Nat) (bl : pong_ball), s.balls[j]? = some bl → s1.balls[j]? = some bl) ∧
    (∀ r b, (s.board.read r).ball = some b → (s1.board.read r).ball = some b) ∧
    ∀ (j : Nat) (d v : Int × Int), ds[j]? = some (d, v) →
      draw_ok s1.board d.1 d.2 ∧
      s1.balls[s.balls.length + j]? = some (new_ball d.1 d.2 v.1 v.2) ∧
      (s1.board.read (s1.board.cell d.1 d.2)).ball = some (s.balls.length + j) ∧
      (s1.board.read (s1.board.cell d.1 d.2)).type.val ≤ 1 := by
  induction ds generalizing s u with
  | nil =>
    have e : s1 = s := (Option.some.inj h).symm
    subst e
    refine ⟨hp, rfl, fun _ => ⟨rfl, rfl, rfl⟩, rfl, fun _ _ hj => hj, fun _ _ hr => hr, ?_⟩
    intro j d v hj
    simp at hj
  | cons e ds ih =>
    unfold place_balls at h
    cases hq : place_ball s e.1.1 e.1.2 e.2.1 e.2.2 with
    | none => rw [hq] at h; cases h
    | some s2 =>
      rw [hq] at h
      obtain ⟨g1, g2, g3, g4, g5, g6, g7, g8⟩ :=
        place_ball_placing c s u e.1.1 e.1.2 e.2.1 e.2.2 s2 hp hq
      obtain ⟨k1, k2, k3, k4, k5, k6, k7⟩ := ih s2 (u + 1) g1 h
      have hlen2 : s2.balls.length = s.balls.length + 1 := by
        rw [g4, List.length_append]; rfl
      have hw : s1.board.width = s.board.width := k1.2.1.trans hp.2.1.symm
      have hh : s1.board.height = s.board.height := k1.2.2.1.trans hp.2.2.1.symm
      have hcell := cell_congr s.board s1.board hw hh
      refine ⟨?_, k2.trans g2, ?_, ?_, ?_, fun r b hr => k6 r b (g5 r b hr), ?_⟩
      · have : u + (e :: ds).length = u + 1 + ds.length := by
          rw [List.length_cons]; omega
        rw [this]
        exact k1
      · intro r
        exact ⟨(k3 r).1.trans (g3 r).1, (k3 r).2.1.trans (g3 r).2.1,
          (k3 r).2.2.trans (g3 r).2.2⟩
      · rw [k4, hlen2, List.length_cons]; omega
      · intro j bl hj
        apply k5
        rw [g4, List.getElem?_append_left (List.getElem?_eq_some.1 hj).1]
        exact hj
      · intro j d v hj
        cases j with
        | zero =>
          have e1 : e = (d, v) := by simpa using hj
          subst e1
          simp only at g6 g7 g8
          refine ⟨(draw_ok_congr s.board s1.board hw hh _ _).2 g6, ?_, ?_, ?_⟩
          · apply k5
            rw [Nat.add_zero, g4, List.getElem?_append_right (Nat.le_refl _)]
            simp
          · rw [hcell]
            exact k6 _ _ g7
          · rw [hcell, (k3 _).1, (g3 _).1]
            exact g8
        | succ j =>
          have hj1 : ds[j]? = some (d, v) := by simpa using hj
          obtain ⟨a1, a2, a3, a4⟩ := k7 j d v hj1
          have e1 : s.balls.length + (j + 1) = s2.balls.length + j := by
            rw [hlen2]; omega
          rw [e1]
          exact ⟨a1, a2, a3, a4⟩

/-- While fewer cells are in use than the placement rows have, the loop that
draws the cell of a ball can end. -/
theorem place_ball_progress (c : config) (s : pong_state) (u : Nat) (hp : placing c s u)
    (hw : 0 < c.width) (hu : u < region s.board) (rx ry : Int) (hrx : 0 ≤ rx ∧ rx ≤ 1)
    (hry : 0 ≤ ry ∧ ry ≤ 1) : ∃ x y s1, place_ball s x y rx ry = some s1 := by
  obtain ⟨x, y, hd, hr⟩ := exists_pristine s.board hp.1.cells_ok (by rw [hp.2.1]; exact hw)
    (Nat.lt_of_le_of_lt hp.2.2.2 hu)
  have hsome : (place_ball s x y rx ry).isSome = true := by
    unfold place_ball
    rw [if_pos]
    · rfl
    · refine ⟨hd, ?_, hrx.1, hrx.2, hry.1, hry.2⟩
      rw [hr]
      decide
  exact ⟨x, y, _, (Option.some_get hsome).symm⟩

/-! ## The setup as a whole -/

theorem int_wrap_of_in_int (x : Int) (h : in_int x) : int_wrap x = x := by
  unfold int_wrap
  obtain ⟨h1, h2⟩ := h
  omega

/-- What the test of `main` gives for non-negative counts, when its
arithmetic does not overflow. -/
theorem config_fit (c : config) (h : ¬ c.usage) (hr : c.no_overflow) (h1 : 0 ≤ c.nballs)
    (h2 : 0 ≤ c.nsticky) (h3 : 0 ≤ c.nwarps) :
    2 ≤ c.width ∧ 2 ≤ c.height ∧ 0 ≤ c.bricks ∧ c.bricks ≤ c.height - 3 ∧
    c.nballs + c.nsticky + c.nwarps + c.width * c.bricks < c.width * (c.height - 2) ∧
    1 ≤ c.nballs ∧ c.nwarps % 2 = 0 := by
  obtain ⟨r1, r2, r3, r4, r5, r6⟩ := hr
  unfold config.usage at h
  rw [int_wrap_of_in_int _ r1, int_wrap_of_in_int _ r2, int_wrap_of_in_int _ r3,
    int_wrap_of_in_int _ r4, int_wrap_of_in_int _ r5, int_wrap_of_in_int _ r6] at h
  simp only [not_or, not_lt, ge_iff_le, not_le, gt_iff_lt, ne_eq, not_not] at h
  obtain ⟨a1, a2, a3, _, a5, a6⟩ := h
  have hb0 : 0 ≤ c.bricks := by
    unfold config.bricks
    split
    · exact Int.tdiv_nonneg (by omega) (by omega)
    · omega
  have hnb : 1 ≤ c.nballs := by omega
  have hlt : c.width * c.bricks < c.width * (c.height - 2) := by omega
  have hb1 : c.bricks < c.height - 2 := Int.lt_of_mul_lt_mul_left hlt (by omega)
  refine ⟨a1, a2, hb0, by omega, a3, hnb, ?_⟩
  rw [Int.tmod_eq_emod h3 (by omega)] at a5
  exact a5

theorem place_brick_warps (nbricks : Int) (n : Nat) (b : pong_board) (x : Nat) :
    (place_brick nbricks n b x).warps = b.warps := by
  simp [place_brick]

theorem initial_board_warps (c : config) : (initial_board c).warps = [] := by
  have h1 : (place_bricks (pong_board.new c.width c.height) c.bricks).warps = [] := by
    unfold place_bricks
    refine foldl_range_inv _ (fun (bd : pong_board) _ => bd.warps = []) _ _ rfl ?_
    intro bd k _ hbd
    unfold place_brick_row
    refine foldl_range_inv _ (fun (b : pong_board) _ => b.warps = []) _ _ hbd ?_
    intro b x _ hb
    rw [place_brick_warps]
    exact hb
  unfold initial_board
  simp only []
  split
  · unfold place_paddle_cells
    refine foldl_range_inv _ (fun (bd : pong_board) _ => bd.warps = []) _ _ ?_ ?_
    · unfold place_trash_row
      refine foldl_range_inv _ (fun (bd : pong_board) _ => bd.warps = []) _ _ h1 ?_
      intro b x _ hb
      simpa using hb
    · intro b x _ hb
      simpa using hb
  · exact h1

theorem setup_stages (c : config) (sc : script) (s : pong_state) (h : setup c sc = some s) :
    ∃ b1 b2, place_stickies (initial_board c) sc.stickies = some b1 ∧
      place_warps b1 sc.warps = some b2 ∧
      place_balls { board := b2, balls := [] } sc.balls = some s := by
  unfold setup at h
  cases h1 : place_stickies (initial_board c) sc.stickies with
  | none => simp [h1] at h
  | some b1 =>
    simp only [h1] at h
    cases h2 : place_warps b1 sc.warps with
    | none => simp [h2] at h
    | some b2 =>
      simp only [h2] at h
      exact ⟨b1, b2, rfl, h2, h⟩

/-- The state that the setup hands over, for any final draws: it is well
formed and of the configured size; no typed cell of the board with bricks
and paddle has been overwritten; every sticky cell is sticky; the warp pair
number `k` has the warp objects `2k` and `2k+1`, with empty slots, at two
different cells of the placement rows, each a warp cell that links to the
warp object of the other; the ball number `j` stands at its drawn position,
on a cell of type empty or sticky that names it. -/
theorem setup_facts (c : config) (sc : script) (s : pong_state) (hh : 2 ≤ c.height)
    (hn : c.bricks ≤ c.height) (h : setup c sc = some s) :
    placing c s (c.bricks.toNat * c.width.toNat + sc.stickies.length + 2 * sc.warps.length
      + sc.balls.length) ∧
    typed_cells_kept (initial_board c) s.board ∧
    (∀ d ∈ sc.stickies, (s.board.read (s.board.cell d.1 d.2)).type = .cell_sticky) ∧
    (∀ (k : Nat) (d1 d2 : Int × Int), sc.warps[k]? = some (d1, d2) →
      d1 ≠ d2 ∧ draw_ok s.board d1.1 d1.2 ∧ draw_ok s.board d2.1 d2.2 ∧
      s.board.warps[2 * k]? = some { x := d1.1, y := d1.2 } ∧
      s.board.warps[2 * k + 1]? = some { x := d2.1, y := d2.2 } ∧
      (s.board.read (s.board.cell d1.1 d1.2)).type = .cell_warp ∧
      (s.board.read (s.board.cell d1.1 d1.2)).warp = some (2 * k + 1) ∧
      (s.board.read (s.board.cell d2.1 d2.2)).type = .cell_warp ∧
      (s.board.read (s.board.cell d2.1 d2.2)).warp = some (2 * k)) ∧
    (∀ (j : Nat) (d v : Int × Int), sc.balls[j]? = some (d, v) →
      draw_ok s.board d.1 d.2 ∧ s.balls[j]? = some (new_ball d.1 d.2 v.1 v.2) ∧
      (s.board.read (s.board.cell d.1 d.2)).ball = some j ∧
      (s.board.read (s.board.cell d.1 d.2)).type.val ≤ 1) ∧
    s.balls.length = sc.balls.length ∧ s.board.warps.length = 2 * sc.warps.length := by
  obtain ⟨b1, b2, e1, e2, e3⟩ := setup_stages c sc s h
  have f0 := initial_board_filling c hh hn
  obtain ⟨f1, t1, w1, s1⟩ := place_stickies_filling c sc.stickies _ _ b1 f0 e1
  obtain ⟨f2, t2, l2, _, p2⟩ := place_warps_filling c sc.warps b1 _ b2 f1 e2
  obtain ⟨f3, w3, t3, l3, _, _, p3⟩ := place_balls_placing c sc.balls ⟨b2, []⟩ _ s f2 e3
  have hw0 : b1.warps.length = 0 := by rw [w1, initial_board_warps]; rfl
  have hcell2 : ∀ x y, s.board.cell x y = b2.cell x y :=
    cell_congr b2 s.board (f3.2.1.trans f2.2.1.symm) (f3.2.2.1.trans f2.2.2.1.symm)
  have hcell1 : ∀ x y, s.board.cell x y = b1.cell x y :=
    cell_congr b1 s.board (f3.2.1.trans f1.2.1.symm) (f3.2.2.1.trans f1.2.2.1.symm)
  have hdraw : ∀ x y, draw_ok b2 x y → draw_ok s.board x y := fun x y hd =>
    (draw_ok_congr b2 s.board (f3.2.1.trans f2.2.1.symm) (f3.2.2.1.trans f2.2.2.1.symm) x y).2 hd
  refine ⟨f3, ?_, ?_, ?_, ?_, ?_, ?_⟩
  · intro r hr
    obtain ⟨a1, a2, a3⟩ := typed_cells_kept_trans _ _ _ t1 t2 r hr
    exact ⟨(t3 r).1.trans a1, (t3 r).2.1.trans a2, (t3 r).2.2.trans a3⟩
  · intro d hd
    have a := s1 d hd
    rw [hcell1, (t3 _).1, (t2 _ (by rw [a]; decide)).1, a]
  · intro k d1 d2 hk
    obtain ⟨a1, a2, a3, a4, a5, a6, a7, a8, a9⟩ := p2 k d1 d2 hk
    rw [hw0, Nat.zero_add] at a4 a5 a7 a9
    refine ⟨a1, hdraw _ _ a2, hdraw _ _ a3, by rw [w3]; exact a4, by rw [w3]; exact a5,
      ?_, ?_, ?_, ?_⟩
    · rw [hcell2, (t3 _).1]; exact a6
    · rw [hcell2, (t3 _).2.2]; exact a7
    · rw [hcell2, (t3 _).1]; exact a8
    · rw [hcell2, (t3 _).2.2]; exact a9
  · intro j d v hj
    obtain ⟨a1, a2, a3, a4⟩ := p3 j d v hj
    simp only [List.length_nil, Nat.zero_add] at a2 a3
    exact ⟨a1, a2, a3, a4⟩
  · simpa using l3
  · rw [w3, l2, hw0, Nat.zero_add]

/-! ## Every placement loop of the setup ends -/

theorem region_bound (c : config) (b : pong_board) (hw : b.width = c.width)
    (hh : b.height = c.height) (h0 : 0 ≤ c.width) (hb : 0 ≤ c.bricks) (u : Nat) (t : Int)
    (ht : t + c.width * c.bricks < c.width * (c.height - 2)) (hu : (u : Int) < t) :
    c.bricks.toNat * c.width.toNat + u < region b := by
  unfold region
  rw [hw, hh]
  have hB : ((c.bricks.toNat * c.width.toNat : Nat) : Int) = c.width * c.bricks := by
    push_cast
    rw [Int.toNat_of_nonneg hb, Int.toNat_of_nonneg h0, Int.mul_comm]
  omega

theorem setup_stickies_only (c : config) (ss : List (Int × Int)) (s : pong_state) :
    setup c ⟨ss, [], []⟩ = some s ↔
      ∃ b, place_stickies (initial_board c) ss = some b ∧ s = ⟨b, []⟩ := by
  unfold setup
  cases place_stickies (initial_board c) ss with
  | none => simp
  | some b =>
    simp only [place_warps, place_balls, Option.some.injEq]
    constructor
    · intro h; exact ⟨b, rfl, h.symm⟩
    · rintro ⟨b1, h1, h2⟩; rw [h2, h1]

theorem setup_no_balls (c : config) (ss : List (Int × Int))
    (ws : List ((Int × Int) × (Int × Int))) (s : pong_state) :
    setup c ⟨ss, ws, []⟩ = some s ↔
      ∃ b1 b, place_stickies (initial_board c) ss = some b1 ∧ place_warps b1 ws = some b ∧
        s = ⟨b, []⟩ := by
  unfold setup
  cases place_stickies (initial_board c) ss with
  | none => simp
  | some b1 =>
    simp only []
    cases hw : place_warps b1 ws with
    | none =>
      simp only [false_iff, not_exists, not_and, reduceCtorEq]
      intro b2 b3 h1 h2
      have e : b1 = b2 := Option.some.inj h1
      subst e
      rw [hw] at h2
      cases h2
    | some b =>
      simp only [place_balls, Option.some.injEq]
      constructor
      · intro h; exact ⟨b1, b, rfl, hw, h.symm⟩
      · rintro ⟨b2, b3, h1, h2, h3⟩
        subst h1
        rw [hw] at h2
        rw [h3, Option.some.inj h2]

theorem place_stickies_snoc (b : pong_board) (ss : List (Int × Int)) (d : Int × Int)
    (b1 b2 : pong_board) (h1 : place_stickies b ss = some b1)
    (h2 : place_sticky b1 d.1 d.2 = some b2) : place_stickies b (ss ++ [d]) = some b2 := by
  induction ss generalizing b with
  | nil =>
    have e : b1 = b := (Option.some.inj h1).symm
    subst e
    simp [place_stickies, h2]
  | cons a ss ih =>
    simp only [List.cons_append, place_stickies] at h1 ⊢
    cases hp : place_sticky b a.1 a.2 with
    | none => simp [hp] at h1
    | some b3 =>
      simp only [hp] at h1 ⊢
      exact ih b3 h1

theorem place_warps_snoc (b : pong_board) (ws : List ((Int × Int) × (Int × Int)))
    (d : (Int × Int) × (Int × Int)) (b1 b2 : pong_board) (h1 : place_warps b ws = some b1)
    (h2 : place_warp_pair b1 d.1 d.2 = some b2) : place_warps b (ws ++ [d]) = some b2 := by
  induction ws generalizing b with
  | nil =>
    have e : b1 = b := (Option.some.inj h1).symm
    subst e
    simp [place_warps, h2]
  | cons a ws ih =>
    simp only [List.cons_append, place_warps] at h1 ⊢
    cases hp : place_warp_pair b a.1 a.2 with
    | none => simp [hp] at h1
    | some b3 =>
      simp only [hp] at h1 ⊢
      exact ih b3 h1

theorem place_balls_snoc (s : pong_state) (bs : List ((Int × Int) × (Int × Int)))
    (d : (Int × Int) × (Int × Int)) (s1 s2 : pong_state) (h1 : place_balls s bs = some s1)
    (h2 : place_ball s1 d.1.1 d.1.2 d.2.1 d.2.2 = some s2) :
    place_balls s (bs ++ [d]) = some s2 := by
  induction bs generalizing s with
  | nil =>
    have e : s1 = s := (Option.some.inj h1).symm
    subst e
    simp [place_balls, h2]
  | cons a bs ih =>
    simp only [List.cons_append, place_balls] at h1 ⊢
    cases hp : place_ball s a.1.1 a.1.2 a.2.1 a.2.2 with
    | none => simp [hp] at h1
    | some s3 =>
      simp only [hp] at h1 ⊢
      exact ih s3 h1

/-- In an accepted configuration, while sticky cells are still to be placed,
an eligible cell remains. -/
theorem sticky_step_possible (c : config) (hcfg : ¬ c.usage) (hr : c.no_overflow)
    (h1 : 0 ≤ c.nballs)
    (h2 : 0 ≤ c.nsticky) (h3 : 0 ≤ c.nwarps) (ss : List (Int × Int)) (s : pong_state)
    (hl : (ss.length : Int) < c.nsticky) (h : setup c ⟨ss, [], []⟩ = some s) :
    ∃ x y b1, place_sticky s.board x y = some b1 := by
  obtain ⟨a1, a2, a3, a4, a5, a6, a7⟩ := config_fit c hcfg hr h1 h2 h3
  obtain ⟨f, _⟩ := setup_facts c ⟨ss, [], []⟩ s a2 (by omega) h
  obtain ⟨b, _, rfl⟩ := (setup_stickies_only c ss s).1 h
  have hu := region_bound c b f.2.1 f.2.2.1 (by omega) a3 ss.length
    (c.nballs + c.nsticky + c.nwarps) a5 (by omega)
  have f1 : filling c b (c.bricks.toNat * c.width.toNat + ss.length) := by
    simpa using f
  exact place_sticky_progress c b _ f1 (by omega) hu

/-- In an accepted configuration, while warp pairs are still to be placed,
two eligible cells remain. -/
theorem warp_step_possible (c : config) (hcfg : ¬ c.usage) (hr : c.no_overflow)
    (h1 : 0 ≤ c.nballs)
    (h2 : 0 ≤ c.nsticky) (h3 : 0 ≤ c.nwarps) (ss : List (Int × Int))
    (ws : List ((Int × Int) × (Int × Int))) (s : pong_state)
    (hl : (ss.length : Int) = c.nsticky) (hl2 : 2 * (ws.length : Int) < c.nwarps)
    (h : setup c ⟨ss, ws, []⟩ = some s) :
    ∃ d1 d2 b1, place_warp_pair s.board d1 d2 = some b1 := by
  obtain ⟨a1, a2, a3, a4, a5, a6, a7⟩ := config_fit c hcfg hr h1 h2 h3
  obtain ⟨f, _⟩ := setup_facts c ⟨ss, ws, []⟩ s a2 (by omega) h
  obtain ⟨b1, b, _, _, rfl⟩ := (setup_no_balls c ss ws s).1 h
  have hu := region_bound c b f.2.1 f.2.2.1 (by omega) a3 (ss.length + 2 * ws.length + 1)
    (c.nballs + c.nsticky + c.nwarps) a5 (by push_cast; omega)
  have f1 : filling c b (c.bricks.toNat * c.width.toNat + ss.length + 2 * ws.length) := by
    simpa using f
  exact place_warp_pair_progress c b _ f1 (by omega) (by omega)

/-- In an accepted configuration, while balls are still to be placed, an
eligible cell remains. -/
theorem ball_step_possible (c : config) (hcfg : ¬ c.usage) (hr : c.no_overflow)
    (h1 : 0 ≤ c.nballs)
    (h2 : 0 ≤ c.nsticky) (h3 : 0 ≤ c.nwarps) (sc : script) (s : pong_state)
    (hl : (sc.stickies.length : Int) = c.nsticky)
    (hl2 : 2 * (sc.warps.length : Int) = c.nwarps)
    (hl3 : (sc.balls.length : Int) < c.nballs) (h : setup c sc = some s)
    (rx ry : Int) (hrx : 0 ≤ rx ∧ rx ≤ 1) (hry : 0 ≤ ry ∧ ry ≤ 1) :
    ∃ x y s1, place_ball s x y rx ry = some s1 := by
  obtain ⟨a1, a2, a3, a4, a5, a6, a7⟩ := config_fit c hcfg hr h1 h2 h3
  obtain ⟨f, _⟩ := setup_facts c sc s a2 (by omega) h
  have hu := region_bound c s.board f.2.1 f.2.2.1 (by omega) a3
    (sc.stickies.length + 2 * sc.warps.length + sc.balls.length)
    (c.nballs + c.nsticky + c.nwarps) a5 (by push_cast; omega)
  exact place_ball_progress c s _ f (by omega) (by omega) rx ry hrx hry

theorem stickies_exist (c : config) (hcfg : ¬ c.usage) (hr : c.no_overflow)
    (h1 : 0 ≤ c.nballs)
    (h2 : 0 ≤ c.nsticky) (h3 : 0 ≤ c.nwarps) (n : Nat) (hn : (n : Int) ≤ c.nsticky) :
    ∃ ss s, ss.length = n ∧ setup c ⟨ss, [], []⟩ = some s := by
  induction n with
  | zero => exact ⟨[], ⟨initial_board c, []⟩, rfl, rfl⟩
  | succ n ih =>
    obtain ⟨ss, s, hl, hs⟩ := ih (by omega)
    obtain ⟨x, y, b1, hp⟩ := sticky_step_possible c hcfg hr h1 h2 h3 ss s (by omega) hs
    obtain ⟨b, hb, rfl⟩ := (setup_stickies_only c ss s).1 hs
    refine ⟨ss ++ [(x, y)], ⟨b1, []⟩, by simp [hl], ?_⟩
    exact (setup_stickies_only c _ _).2 ⟨b1, place_stickies_snoc _ ss (x, y) b b1 hb hp, rfl⟩

theorem warps_exist (c : config) (hcfg : ¬ c.usage) (hr : c.no_overflow)
    (h1 : 0 ≤ c.nballs)
    (h2 : 0 ≤ c.nsticky) (h3 : 0 ≤ c.nwarps) (p : Nat) (hp : 2 * (p : Int) ≤ c.nwarps) :
    ∃ ss ws s, (ss.length : Int) = c.nsticky ∧ ws.length = p ∧
      setup c ⟨ss, ws, []⟩ = some s := by
  induction p with
  | zero =>
    obtain ⟨ss, s, hl, hs⟩ := stickies_exist c hcfg hr h1 h2 h3 c.nsticky.toNat (by omega)
    exact ⟨ss, [], s, by omega, rfl, hs⟩
  | succ p ih =>
    obtain ⟨ss, ws, s, hl, hl2, hs⟩ := ih (by omega)
    obtain ⟨d1, d2, b3, hq⟩ := warp_step_possible c hcfg hr h1 h2 h3 ss ws s hl (by omega) hs
    obtain ⟨b1, b, hb1, hb, rfl⟩ := (setup_no_balls c ss ws s).1 hs
    refine ⟨ss, ws ++ [(d1, d2)], ⟨b3, []⟩, hl, by simp [hl2], ?_⟩
    exact (setup_no_balls c _ _ _).2
      ⟨b1, b3, hb1, place_warps_snoc _ ws (d1, d2) b b3 hb hq, rfl⟩

theorem balls_exist (c : config) (hcfg : ¬ c.usage) (hr : c.no_overflow)
    (h1 : 0 ≤ c.nballs)
    (h2 : 0 ≤ c.nsticky) (h3 : 0 ≤ c.nwarps) (n : Nat) (hn : (n : Int) ≤ c.nballs) :
    ∃ sc s, (sc.stickies.length : Int) = c.nsticky ∧ 2 * (sc.warps.length : Int) = c.nwarps ∧
      sc.balls.length = n ∧ setup c sc = some s := by
  induction n with
  | zero =>
    have a7 := (config_fit c hcfg hr h1 h2 h3).2.2.2.2.2.2
    obtain ⟨ss, ws, s, hl, hl2, hs⟩ := warps_exist c hcfg hr h1 h2 h3 (c.nwarps / 2).toNat
      (by omega)
    exact ⟨⟨ss, ws, []⟩, s, hl, by rw [hl2]; omega, rfl, hs⟩
  | succ n ih =>
    obtain ⟨sc, s, hl, hl2, hl3, hs⟩ := ih (by omega)
    obtain ⟨x, y, s1, hq⟩ := ball_step_possible c hcfg hr h1 h2 h3 sc s hl hl2 (by omega) hs 0 0
      (by decide) (by decide)
    obtain ⟨b1, b2, e1, e2, e3⟩ := setup_stages c sc s hs
    refine ⟨⟨sc.stickies, sc.warps, sc.balls ++ [((x, y), (0, 0))]⟩, s1, hl, hl2,
      by simp [hl3], ?_⟩
    unfold setup
    simp only [e1, e2]
    exact place_balls_snoc _ sc.balls ((x, y), (0, 0)) s s1 e3 hq

/-- In an accepted configuration the setup can run to its end. -/
theorem complete_script_exists (c : config) (hcfg : ¬ c.usage) (hr : c.no_overflow)
    (h1 : 0 ≤ c.nballs)
    (h2 : 0 ≤ c.nsticky) (h3 : 0 ≤ c.nwarps) :
    ∃ sc s, sc.complete c ∧ setup c sc = some s := by
  obtain ⟨sc, s, hl, hl2, hl3, hs⟩ := balls_exist c hcfg hr h1 h2 h3 c.nballs.toNat (by omega)
  exact ⟨sc, s, ⟨hl, hl2, by omega⟩, hs⟩

/-! ## The layout of the tunnels is kept by every operation -/

theorem same_tunnels_refl (s : pong_state) : same_tunnels s s :=
  ⟨rfl, rfl, rfl, fun _ h => ⟨h, rfl⟩⟩

theorem same_tunnels_trans (s0 s1 s2 : pong_state) (h1 : same_tunnels s0 s1)
    (h2 : same_tunnels s1 s2) : same_tunnels s0 s2 := by
  obtain ⟨a1, a2, a3, a4⟩ := h1
  obtain ⟨c1, c2, c3, c4⟩ := h2
  refine ⟨c1.trans a1, c2.trans a2, c3.trans a3, ?_⟩
  intro r hr
  obtain ⟨e1, e2⟩ := a4 r hr
  obtain ⟨e3, e4⟩ := c4 r e1
  exact ⟨e3, e4.trans e2⟩

theorem warps_pos_set (l : List pong_warp) (k : Nat) (w w1 : pong_warp)
    (hk : l[k]? = some w) (hx : w1.x = w.x) (hy : w1.y = w.y) :
    (l.set k w1).map (fun w => (w.x, w.y)) = l.map (fun w => (w.x, w.y)) := by
  apply List.ext_getElem?
  intro n
  rw [List.getElem?_map, List.getElem?_map, List.getElem?_set]
  split
  · rename_i e
    subst e
    have hlt : k < l.length := (List.getElem?_eq_some.1 hk).1
    simp [hlt, hk, hx, hy]
  · rfl

theorem move_target_tunnels (bd : pong_board) (balls : List pong_ball) (i : Nat)
    (m : pong_ball) (ccur : cell_ref) (s1 : pong_state) (r : Int)
    (h : move_target bd balls i m ccur = some (s1, r)) :
    s1.board.width = bd.width ∧ s1.board.height = bd.height ∧
    s1.board.warps.map (fun w => (w.x, w.y)) = bd.warps.map (fun w => (w.x, w.y)) ∧
    ∀ r1, (s1.board.read r1).warp = (bd.read r1).warp ∧
      ((bd.read r1).type = .cell_warp → (s1.board.read r1).type = .cell_warp) := by
  rcases target_cases (bd.read (bd.cell (m.x + m.dx) (m.y + m.dy))) with
    ⟨j, hb⟩ | ⟨hb, ht⟩ | ⟨hb, ht⟩ | ⟨hb, ht⟩ | ⟨hb, ht⟩
  · rw [move_target_collision bd balls i m ccur j hb] at h
    cases hc : collide (balls.set i m) i j with
    | none => rw [hc] at h; cases h
    | some bs =>
      rw [hc] at h
      have e := (Prod.mk.inj (Option.some.inj h)).1
      subst e
      exact ⟨rfl, rfl, rfl, fun r1 => ⟨by simp [read_ncollisions], fun h1 => by
        simpa [read_ncollisions] using h1⟩⟩
  · rw [move_target_warp bd balls i m ccur hb ht] at h
    cases hw : (bd.read (bd.cell (m.x + m.dx) (m.y + m.dy))).warp with
    | none => rw [hw] at h; cases h
    | some k =>
      rw [hw] at h
      simp only [Option.some_bind] at h
      cases hk : bd.warps[k]? with
      | none => rw [hk] at h; cases h
      | some w =>
        rw [hk] at h
        simp only [Option.some_bind] at h
        cases ha : w.accept_ball i with
        | none => rw [ha] at h; cases h
        | some w1 =>
          rw [ha] at h
          have e := (Prod.mk.inj (Option.some.inj h)).1
          subst e
          have hw1 := accept_ball_some w w1 i ha
          refine ⟨by simp, by simp, ?_, ?_⟩
          · exact warps_pos_set bd.warps k w w1 hk (by rw [hw1.2]) (by rw [hw1.2])
          · intro r1
            simp only [read_warps]
            exact ⟨set_ball_warp _ _ _ _, fun h1 => by rw [set_ball_type]; exact h1⟩
  · rw [move_target_trash bd balls i m ccur hb ht] at h
    have e := (Prod.mk.inj (Option.some.inj h)).1
    subst e
    refine ⟨by simp, by simp, by simp, ?_⟩
    intro r1
    exact ⟨set_ball_warp _ _ _ _, fun h1 => by
      show ((bd.write _ _).read r1).type = _
      rw [set_ball_type]; exact h1⟩
  · rw [move_target_obstacle bd balls i m ccur hb ht] at h
    have e := (Prod.mk.inj (Option.some.inj h)).1
    subst e
    refine ⟨by simp, by simp, by simp, ?_⟩
    intro r1
    refine ⟨hit_write_warp _ _ _, fun h1 => ?_⟩
    rcases hit_write_type bd (bd.cell (m.x + m.dx) (m.y + m.dy)) r1 with h2 | ⟨_, h2, _⟩
    · exact h2.trans h1
    · rw [h1] at h2; cases h2
  · rw [move_target_free bd balls i m ccur hb ht] at h
    have e := (Prod.mk.inj (Option.some.inj h)).1
    subst e
    refine ⟨by simp, by simp, by simp, ?_⟩
    intro r1
    refine ⟨?_, fun h1 => ?_⟩
    · show ((pong_board.write _ _ _).read r1).warp = _
      rw [set_ball_warp, set_ball_warp]
    · show ((pong_board.write _ _ _).read r1).type = _
      rw [set_ball_type, set_ball_type]
      exact h1

theorem move_same_tunnels (s : pong_state) (i : Nat) (s1 : pong_state) (r : Int)
    (h : pong_ball.move s i = some (s1, r)) : same_tunnels s s1 := by
  obtain ⟨me, _, hc⟩ := move_cases s i s1 r h
  rcases hc with ⟨_, e, _⟩ | ⟨_, _, ht⟩
  · rw [e]
    exact same_tunnels_refl s
  · obtain ⟨a1, a2, a3, a4⟩ := move_target_tunnels _ _ _ _ _ _ _ ht
    refine ⟨by simpa using a1, by simpa using a2, by simpa using a3, ?_⟩
    intro r1 hr1
    have hty : ((check_y (check_x s.board me).1 (check_x s.board me).2).1.read r1).type
        = .cell_warp := by
      rcases checks_type s.board me r1 with h1 | ⟨_, h1, _⟩
      · exact h1.trans hr1
      · rw [hr1] at h1; cases h1
    exact ⟨(a4 r1).2 hty, by rw [(a4 r1).1]; simp⟩

theorem warp_thread_same_tunnels (s : pong_state) (k : Nat) (s1 : pong_state)
    (h : warp_thread s k = some s1) : same_tunnels s s1 := by
  obtain ⟨w, hk, hc⟩ := warp_thread_cases s k s1 h
  rcases hc with ⟨_, e⟩ | ⟨b, bl, _, _, _, e⟩
  · rw [e]
    exact same_tunnels_refl s
  · subst e
    refine ⟨by simp, by simp, ?_, ?_⟩
    · simp only [write_warps]
      exact warps_pos_set s.board.warps k w _ hk rfl rfl
    · intro r hr
      have e1 := set_ball_type ({ s.board with warps := s.board.warps.set k { w with ball := none } }
        : pong_board) (s.board.cell w.x w.y) r (some b)
      have e2 := set_ball_warp ({ s.board with warps := s.board.warps.set k { w with ball := none } }
        : pong_board) (s.board.cell w.x w.y) r (some b)
      simp only [read_warps] at e1 e2
      exact ⟨e1.trans hr, e2⟩

theorem step_op_ok (s : pong_state) (o : sched_op) (s1 : pong_state) (hok : state_ok s)
    (h : step_op s o = some s1) : state_ok s1 ∧ same_tunnels s s1 := by
  cases o with
  | move i =>
    simp only [step_op, Option.map_eq_some'] at h
    obtain ⟨⟨s2, r⟩, h1, h2⟩ := h
    simp only at h2
    subst h2
    exact ⟨(move_state_ok s i s2 r hok h1).1, move_same_tunnels s i s2 r h1⟩
  | warp k =>
    exact ⟨warp_thread_state_ok s k s1 hok h, warp_thread_same_tunnels s k s1 h⟩

/-- Every execution from a well-formed state ends in a well-formed state
with the same layout of the tunnels. -/
theorem run_ops_ok (s : pong_state) (ops : List sched_op) (s1 : pong_state) (hok : state_ok s)
    (h : run_ops s ops = some s1) : state_ok s1 ∧ same_tunnels s s1 := by
  induction ops generalizing s with
  | nil =>
    have e : s1 = s := (Option.some.inj h).symm
    subst e
    exact ⟨hok, same_tunnels_refl _⟩
  | cons o os ih =>
    simp only [run_ops] at h
    cases ho : step_op s o with
    | none => simp [ho] at h
    | some s2 =>
      simp only [ho] at h
      obtain ⟨a1, a2⟩ := step_op_ok s o s2 hok ho
      obtain ⟨c1, c2⟩ := ih s2 a1 h
      exact ⟨c1, same_tunnels_trans _ _ _ a2 c2⟩

/-- The warp worker with a ball in the slot and a free destination cell. -/
theorem warp_thread_place (s : pong_state) (k b : Nat) (w : pong_warp) (bl : pong_ball)
    (hk : s.board.warps[k]? = some w) (hb : w.ball = some b)
    (hfree : (s.board.read (s.board.cell w.x w.y)).ball = none) (hbl : s.balls[b]? = some bl) :
    warp_thread s k = some
      { board := ({ s.board with warps := s.board.warps.set k { w with ball := none } }
                    : pong_board).write (s.board.cell w.x w.y)
                   ((s.board.read (s.board.cell w.x w.y)).set_ball (some b)),
        balls := s.balls.set b { bl with x := w.x, y := w.y, stopped := false } } := by
  unfold warp_thread
  simp only [hk, hb, read_warps, hfree, hbl]
  rfl

/-! ## Transit through a tunnel -/

/-- A ball that enters the mouth at `e`, whose cell links to the warp object
`kx` at `x`, is put in the slot of `kx` by `move`, and one iteration of the
worker of `kx` with a free destination cell puts it on the cell at `x`. -/
theorem tunnel_transit (s0 s : pong_state) (e x : Int × Int) (kx i : Nat) (me : pong_ball)
    (w0 : pong_warp) (hok : state_ok s) (hlay : same_tunnels s0 s)
    (hwx : s0.board.warps[kx]? = some w0) (hx : w0.x = x.1) (hy : w0.y = x.2)
    (hte : (s0.board.read (s0.board.cell e.1 e.2)).type = .cell_warp)
    (hle : (s0.board.read (s0.board.cell e.1 e.2)).warp = some kx)
    (hi : s.balls[i]? = some me) (hst : me.stopped = false)
    (ha : (s.board.read (s.board.cell me.x me.y)).ball = some i)
    (htr : target_ref s me = s.board.cell e.1 e.2) (htb : (target_cell s me).ball = none)
    (hslot : ∀ w, s.board.warps[kx]? = some w → w.ball = none) :
    ∃ s1, pong_ball.move s i = some (s1, 0) ∧
      s1.board.warps[kx]? = some { x := x.1, y := x.2, ball := some i } ∧
      s1.balls[i]? = some { bounced s me with stopped := true } ∧
      ((s1.board.read (s1.board.cell x.1 x.2)).ball = none →
        ∃ s2, warp_thread s1 kx = some s2 ∧
          (s2.board.read (s2.board.cell x.1 x.2)).ball = some i ∧
          s2.balls[i]? = some { bounced s me with x := x.1, y := x.2, stopped := false } ∧
          s2.board.warps[kx]? = some { x := x.1, y := x.2 } ∧ state_ok s2) := by
  obtain ⟨l1, l2, l3, l4⟩ := hlay
  have hcell : ∀ a b, s.board.cell a b = s0.board.cell a b := cell_congr s0.board s.board l1 l2
  obtain ⟨w, hk, hwx1, hwy1⟩ : ∃ w, s.board.warps[kx]? = some w ∧ w.x = x.1 ∧ w.y = x.2 := by
    have h1 := congrArg (fun l => l[kx]?) l3
    simp only [List.getElem?_map, hwx, Option.map_some'] at h1
    cases hw : s.board.warps[kx]? with
    | none => rw [hw] at h1; cases h1
    | some w =>
      rw [hw] at h1
      have h2 := Prod.mk.inj (Option.some.inj h1)
      exact ⟨w, rfl, h2.1.trans hx, h2.2.trans hy⟩
  have hw : w.ball = none := hslot w hk
  obtain ⟨t1, t2⟩ : (s.board.read (s.board.cell e.1 e.2)).type = .cell_warp ∧
      (s.board.read (s.board.cell e.1 e.2)).warp = some kx := by
    rw [hcell]
    exact ⟨(l4 _ hte).1, (l4 _ hte).2.trans hle⟩
  have htt : (target_cell s me).type = .cell_warp := by
    unfold target_cell
    rw [htr]
    rcases checks_type s.board me (s.board.cell e.1 e.2) with h1 | ⟨_, h1, _⟩
    · exact h1.trans t1
    · rw [t1] at h1; cases h1
  have htw : (target_cell s me).warp = some kx := by
    unfold target_cell
    rw [htr]
    simpa using t2
  have hil : i < s.balls.length := (List.getElem?_eq_some.1 hi).1
  have hkl : kx < s.board.warps.length := (List.getElem?_eq_some.1 hk).1
  have hwe : ({ w with ball := some i } : pong_warp) = { x := x.1, y := x.2, ball := some i } := by
    rw [← hwx1, ← hwy1]
  obtain ⟨s1, hmove, hk1, hb1⟩ : ∃ s1, pong_ball.move s i = some (s1, 0) ∧
      s1.board.warps[kx]? = some { x := x.1, y := x.2, ball := some i } ∧
      s1.balls[i]? = some { bounced s me with stopped := true } := by
    refine ⟨_, move_warp_state s i kx me w hi hst ha htb htt htw hk hw, ?_,
      List.getElem?_set_self hil⟩
    show (s.board.warps.set kx _)[kx]? = _
    rw [List.getElem?_set_self hkl, hwe]
  have hok1 := (move_state_ok s i s1 0 hok hmove).1
  have hil1 : i < s1.balls.length := (List.getElem?_eq_some.1 hb1).1
  have hkl1 : kx < s1.board.warps.length := (List.getElem?_eq_some.1 hk1).1
  refine ⟨s1, hmove, hk1, hb1, ?_⟩
  intro hfree
  have hplace := warp_thread_place s1 kx i _ _ hk1 rfl hfree hb1
  refine ⟨_, hplace, ?_, ?_, ?_, warp_thread_state_ok s1 kx _ hok1 hplace⟩
  · show ((pong_board.write _ (s1.board.cell x.1 x.2) _).read
      ((pong_board.write _ (s1.board.cell x.1 x.2) _).cell x.1 x.2)).ball = _
    rw [write_cell]
    show ((pong_board.write _ (s1.board.cell x.1 x.2) _).read (s1.board.cell x.1 x.2)).ball = _
    rw [read_write_same]
    · rfl
    · exact (ref_ok_congr s1.board _ rfl _).2 (cell_ref_ok _ hok1.cells_ok _ _)
  · show (s1.balls.set i _)[i]? = _
    rw [List.getElem?_set_self hil1]
  · show ((pong_board.write _ _ _).warps)[kx]? = _
    rw [write_warps]
    show (s1.board.warps.set kx _)[kx]? = _
    rw [List.getElem?_set_self hkl1]

/-- C14: on a board of at least two rows whose brick rows are rows of the
board (as in every configuration with non-negative counts that `main`
accepts without overflow in its size test), for the warp pair number `k`
that the setup builds from the final draws `d1` and `d2` (warp objects
`w1 = warps[2k]` at `d1` and `w2 = warps[2k+1]` at `d2`): the
two mouths are different cells of the board, the cell at `d1` is a warp cell
that links to `w2`, the cell at `d2` is a warp cell that links to `w1`, and
both slots are empty.  Hence, in every state reached from the setup by whole
operations (calls of `move`, iterations of warp workers), a moving ball on
the board whose target is the unoccupied cell at `d1`, while the slot of
`w2` is empty, is put in the slot of `w2` by `move()` (result 0, stopped,
with the velocity left by the axis checks); and one iteration of the worker
of `w2` with a free destination cell makes it the occupant of the cell at
`d2`, with position `d2`, not stopped, with that same velocity, and leaves
the slot empty and the state well formed.  The same holds from `d2` to
`d1`. -/
theorem warp_pair_transit (c : config) (sc : script) (s0 : pong_state) (k : Nat)
    (d1 d2 : Int × Int) (hh : 2 ≤ c.height) (hn : c.bricks ≤ c.height)
    (h0 : setup c sc = some s0) (hk : sc.warps[k]? = some (d1, d2)) :
    (d1 ≠ d2 ∧ s0.board.in_bounds d1.1 d1.2 ∧ s0.board.in_bounds d2.1 d2.2 ∧
      s0.board.warps[2 * k]? = some { x := d1.1, y := d1.2 } ∧
      s0.board.warps[2 * k + 1]? = some { x := d2.1, y := d2.2 } ∧
      (s0.board.read (s0.board.cell d1.1 d1.2)).type = .cell_warp ∧
      (s0.board.read (s0.board.cell d1.1 d1.2)).warp = some (2 * k + 1) ∧
      (s0.board.read (s0.board.cell d2.1 d2.2)).type = .cell_warp ∧
      (s0.board.read (s0.board.cell d2.1 d2.2)).warp = some (2 * k)) ∧
    (∀ (ops : List sched_op) (s : pong_state) (i : Nat) (me : pong_ball),
      run_ops s0 ops = some s → s.balls[i]? = some me → me.stopped = false →
      (s.board.read (s.board.cell me.x me.y)).ball = some i →
      target_ref s me = s.board.cell d1.1 d1.2 → (target_cell s me).ball = none →
      (∀ w, s.board.warps[2 * k + 1]? = some w → w.ball = none) →
      ∃ s1, pong_ball.move s i = some (s1, 0) ∧
        s1.board.warps[2 * k + 1]? = some { x := d2.1, y := d2.2, ball := some i } ∧
        s1.balls[i]? = some { bounced s me with stopped := true } ∧
        ((s1.board.read (s1.board.cell d2.1 d2.2)).ball = none →
          ∃ s2, warp_thread s1 (2 * k + 1) = some s2 ∧
            (s2.board.read (s2.board.cell d2.1 d2.2)).ball = some i ∧
            s2.balls[i]? = some { bounced s me with x := d2.1, y := d2.2, stopped := false } ∧
            s2.board.warps[2 * k + 1]? = some { x := d2.1, y := d2.2 } ∧ state_ok s2)) ∧
    (∀ (ops : List sched_op) (s : pong_state) (i : Nat) (me : pong_ball),
      run_ops s0 ops = some s → s.balls[i]? = some me → me.stopped = false →
      (s.board.read (s.board.cell me.x me.y)).ball = some i →
      target_ref s me = s.board.cell d2.1 d2.2 → (target_cell s me).ball = none →
      (∀ w, s.board.warps[2 * k]? = some w → w.ball = none) →
      ∃ s1, pong_ball.move s i = some (s1, 0) ∧
        s1.board.warps[2 * k]? = some { x := d1.1, y := d1.2, ball := some i } ∧
        s1.balls[i]? = some { bounced s me with stopped := true } ∧
        ((s1.board.read (s1.board.cell d1.1 d1.2)).ball = none →
          ∃ s2, warp_thread s1 (2 * k) = some s2 ∧
            (s2.board.read (s2.board.cell d1.1 d1.2)).ball = some i ∧
            s2.balls[i]? = some { bounced s me with x := d1.1, y := d1.2, stopped := false } ∧
            s2.board.warps[2 * k]? = some { x := d1.1, y := d1.2 } ∧ state_ok s2)) := by
  obtain ⟨f, _, _, fw, _⟩ := setup_facts c sc s0 hh hn h0
  obtain ⟨g1, g2, g3, g4, g5, g6, g7, g8, g9⟩ := fw k d1 d2 hk
  refine ⟨⟨g1, draw_in_bounds _ _ _ g2, draw_in_bounds _ _ _ g3, g4, g5, g6, g7, g8, g9⟩,
    ?_, ?_⟩
  · intro ops s i me hr hi hst ha htr htb hslot
    obtain ⟨hok, hlay⟩ := run_ops_ok s0 ops s f.1 hr
    exact tunnel_transit s0 s d1 d2 (2 * k + 1) i me _ hok hlay g5 rfl rfl g6 g7 hi hst ha htr
      htb hslot
  · intro ops s i me hr hi hst ha htr htb hslot
    obtain ⟨hok, hlay⟩ := run_ops_ok s0 ops s f.1 hr
    exact tunnel_transit s0 s d2 d1 (2 * k) i me _ hok hlay g4 rfl rfl g8 g9 hi hst ha htr
      htb hslot


theorem warp_pair_transit_witness :
    ∃ s0 s1 s2, setup small_config small_script = some s0 ∧
      s0.balls[0]? = some { x := 1, y := 2, dx := -1, dy := -1 } ∧
      s0.board.warps[0]? = some { x := 0, y := 1 } ∧
      s0.board.warps[1]? = some { x := 4, y := 2 } ∧
      (s0.board.read (s0.board.cell 0 1)).warp = some 1 ∧
      pong_ball.move s0 0 = some (s1, 0) ∧
      s1.board.warps[1]? = some { x := 4, y := 2, ball := some 0 } ∧
      warp_thread s1 1 = some s2 ∧
      (s2.board.read (s2.board.cell 4 2)).ball = some 0 ∧
      s2.balls[0]? = some { x := 4, y := 2, dx := -1, dy := -1 } ∧
      s2.board.warps[1]? = some { x := 4, y := 2 } := by
  have h := warp_pair_transit small_config small_script
    ((setup small_config small_script).get (by decide)) 0 (0, 1) (4, 2) (by decide) (by decide)
    (Option.some_get (by decide)).symm rfl
  obtain ⟨⟨_, _, _, a4, a5, _, a7, _, _⟩, hB, _⟩ := h
  obtain ⟨s1, m1, m2, _, m4⟩ := hB [] _ 0 { x := 1, y := 2, dx := -1, dy := -1 } rfl
    (by decide) rfl (by decide) (by decide) (by decide) (by
      intro w hw
      rw [a5] at hw
      rw [← Option.some.inj hw])
  have e1 : s1 = ((pong_ball.move ((setup small_config small_script).get (by decide)) 0).get
      (by decide)).1 := by
    have hc : pong_ball.move ((setup small_config small_script).get (by decide)) 0
        = some (((pong_ball.move ((setup small_config small_script).get (by decide)) 0).get
            (by decide)).1, 0) := by decide
    rw [hc] at m1
    exact ((Prod.mk.inj (Option.some.inj m1)).1).symm
  obtain ⟨s2, n1, n2, n3, n4, _⟩ := m4 (by rw [e1]; decide)
  exact ⟨_, s1, s2, (Option.some_get (by decide)).symm, by decide, a4, a5, a7, m1, m2, n1, n2,
    n3, n4⟩

/-! ## The brick rows -/

theorem place_brick_read (c : config) (nbricks : Int) (n x : Nat) (b : pong_board) (u : Nat)
    (h : filling c b u) (r : cell_ref) :
    (place_brick nbricks n b x).read r =
      if r = b.cell x n then
        ((b.read r).set_type .cell_obstacle).set_strength (Int.tdiv (nbricks - n - 1) 2 + 1)
      else b.read r := by
  have hv := cell_ref_ok b h.1.cells_ok x n
  unfold place_brick
  simp only [write_cell]
  split
  · rename_i e
    subst e
    rw [read_write_same _ _ _ ((ref_ok_congr b _ (by simp) _).2 hv), read_write_same _ _ _ hv]
  · rename_i e
    rw [read_write_ne _ _ _ _ e, read_write_ne _ _ _ _ e]

theorem place_brick_is_brick (c : config) (nbricks : Int) (n x : Nat) (b : pong_board)
    (u : Nat) (h : filling c b u) (hx : (x : Int) < c.width) (hn : (n : Int) < c.height)
    (x1 n1 : Int) (hin : b.in_bounds x1 n1)
    (hq : is_brick nbricks b x1 n1 ∨ (x1 = x ∧ n1 = n)) :
    is_brick nbricks (place_brick nbricks n b x) x1 n1 := by
  have hin0 : b.in_bounds x n := ⟨by omega, by rw [h.2.1]; exact hx, by omega,
    by rw [h.2.2.1]; exact hn⟩
  have hc : (place_brick nbricks n b x).cell x1 n1 = b.cell x1 n1 := by
    simp [place_brick]
  unfold is_brick
  rw [hc, place_brick_read c nbricks n x b u h]
  by_cases e : b.cell x1 n1 = b.cell x n
  · rw [if_pos e]
    obtain ⟨_, e2⟩ := cell_inj b _ _ _ _ hin0 hin e
    exact ⟨rfl, by rw [e2]; rfl⟩
  · rw [if_neg e]
    rcases hq with hq | ⟨e1, e2⟩
    · exact hq
    · exact absurd (by rw [e1, e2]) e

theorem place_brick_row_is_brick (c : config) (nbricks : Int) (n : Nat) (b : pong_board)
    (u : Nat) (h : filling c b u) (hn : (n : Int) < c.height) :
    ∀ x1 n1, b.in_bounds x1 n1 → (is_brick nbricks b x1 n1 ∨ n1 = n) →
      is_brick nbricks (place_brick_row nbricks b n) x1 n1 := by
  unfold place_brick_row
  rw [h.2.1]
  have key := foldl_range_inv (place_brick nbricks n)
    (fun bd k => filling c bd (u + k) ∧ ∀ x1 n1, b.in_bounds x1 n1 →
      (is_brick nbricks b x1 n1 ∨ (n1 = n ∧ x1 < k)) → is_brick nbricks bd x1 n1)
    c.width.toNat b ⟨h, fun x1 n1 hin hq => by
      rcases hq with hq | ⟨_, hq⟩
      · exact hq
      · have := hin.1
        omega⟩ (by
      intro bd k hk ⟨hbd, ih⟩
      refine ⟨place_brick_filling c nbricks n k bd (u + k) hbd (by omega) hn, ?_⟩
      intro x1 n1 hin hq
      have hin1 : bd.in_bounds x1 n1 :=
        (in_bounds_congr b bd (hbd.2.1.trans h.2.1.symm) (hbd.2.2.1.trans h.2.2.1.symm) _ _).2 hin
      refine place_brick_is_brick c nbricks n k bd (u + k) hbd (by omega) hn x1 n1 hin1 ?_
      rcases hq with hq | ⟨e1, e2⟩
      · exact Or.inl (ih x1 n1 hin (Or.inl hq))
      · by_cases e3 : x1 = k
        · exact Or.inr ⟨e3, e1⟩
        · exact Or.inl (ih x1 n1 hin (Or.inr ⟨e1, by omega⟩)))
  intro x1 n1 hin hq
  refine key.2 x1 n1 hin ?_
  rcases hq with hq | hq
  · exact Or.inl hq
  · refine Or.inr ⟨hq, ?_⟩
    have := hin.2.1
    rw [h.2.1] at this
    omega

theorem place_bricks_is_brick (c : config) (nbricks : Int) (b : pong_board) (u : Nat)
    (h : filling c b u) (hn : nbricks ≤ c.height) :
    ∀ x1 n1, b.in_bounds x1 n1 → n1 < nbricks →
      is_brick nbricks (place_bricks b nbricks) x1 n1 := by
  unfold place_bricks
  have key := foldl_range_inv (place_brick_row nbricks)
    (fun bd k => filling c bd (u + k * c.width.toNat) ∧ ∀ x1 n1, b.in_bounds x1 n1 →
      n1 < k → is_brick nbricks bd x1 n1)
    nbricks.toNat b ⟨by simpa using h, fun x1 n1 hin hq => by
      have := hin.2.2.1
      omega⟩ (by
      intro bd k hk ⟨hbd, ih⟩
      have hf := place_brick_row_filling c nbricks k bd _ hbd (by omega)
      refine ⟨by rw [Nat.succ_mul, ← Nat.add_assoc]; exact hf, ?_⟩
      intro x1 n1 hin hq
      have hin1 : bd.in_bounds x1 n1 :=
        (in_bounds_congr b bd (hbd.2.1.trans h.2.1.symm) (hbd.2.2.1.trans h.2.2.1.symm) _ _).2 hin
      refine place_brick_row_is_brick c nbricks k bd _ hbd (by omega) x1 n1 hin1 ?_
      by_cases e : n1 = k
      · exact Or.inr e
      · exact Or.inl (ih x1 n1 hin (by omega)))
  intro x1 n1 hin hq
  exact key.2 x1 n1 hin (by omega)

theorem write_low_row_read (c : config) (b : pong_board) (u : Nat) (x : Nat) (y : Int)
    (cl : pong_cell) (h : filling c b u) (hx : (x : Int) < c.width) (hy1 : c.height - 2 ≤ y)
    (hy2 : y < c.height) (hh : 2 ≤ c.height) (x1 n1 : Int) (hin : b.in_bounds x1 n1)
    (hn1 : n1 < c.height - 2) :
    (b.write (b.cell x y) cl).read (b.cell x1 n1) = b.read (b.cell x1 n1) := by
  have hin0 : b.in_bounds x y := ⟨by omega, by rw [h.2.1]; exact hx, by omega,
    by rw [h.2.2.1]; exact hy2⟩
  refine read_write_ne _ _ _ _ ?_
  intro e
  have := (cell_inj b _ _ _ _ hin0 hin e).2
  omega

theorem place_trash_row_read (c : config) (b : pong_board) (u : Nat) (h : filling c b u)
    (hh : 2 ≤ c.height) (x1 n1 : Int) (hin : b.in_bounds x1 n1) (hn1 : n1 < c.height - 2) :
    (place_trash_row b).read (b.cell x1 n1) = b.read (b.cell x1 n1) := by
  unfold place_trash_row
  rw [h.2.1]
  refine (foldl_range_inv _
    (fun (bd : pong_board) _ => filling c bd u ∧ bd.read (b.cell x1 n1) = b.read (b.cell x1 n1))
    _ b ⟨h, rfl⟩ ?_).2
  intro bd k hk ⟨hbd, ih⟩
  have hw := hbd.2.1.trans h.2.1.symm
  have hh1 := hbd.2.2.1.trans h.2.2.1.symm
  refine ⟨write_low_row_filling c bd u k (bd.height - 1) .cell_trash hbd (by omega)
    (by rw [hbd.2.2.1]; omega) (by rw [hbd.2.2.1]; omega) hh, ?_⟩
  rw [← cell_congr b bd hw hh1 x1 n1]
  rw [write_low_row_read c bd u k (bd.height - 1) _ hbd (by omega) (by rw [hbd.2.2.1]; omega)
    (by rw [hbd.2.2.1]; omega) hh x1 n1 ((in_bounds_congr b bd hw hh1 _ _).2 hin) hn1]
  rw [cell_congr b bd hw hh1 x1 n1]
  exact ih

theorem place_paddle_cells_read (c : config) (b : pong_board) (u : Nat) (h : filling c b u)
    (hh : 2 ≤ c.height) (x1 n1 : Int) (hin : b.in_bounds x1 n1) (hn1 : n1 < c.height - 2) :
    (place_paddle_cells b).read (b.cell x1 n1) = b.read (b.cell x1 n1) := by
  unfold place_paddle_cells
  rw [h.2.1]
  refine (foldl_range_inv _
    (fun (bd : pong_board) _ => filling c bd u ∧ bd.read (b.cell x1 n1) = b.read (b.cell x1 n1))
    _ b ⟨h, rfl⟩ ?_).2
  intro bd k hk ⟨hbd, ih⟩
  have hw := hbd.2.1.trans h.2.1.symm
  have hh1 := hbd.2.2.1.trans h.2.2.1.symm
  refine ⟨write_low_row_filling c bd u k (bd.height - 2) .cell_paddle hbd (by omega)
    (by rw [hbd.2.2.1]) (by rw [hbd.2.2.1]; omega) hh, ?_⟩
  rw [← cell_congr b bd hw hh1 x1 n1]
  rw [write_low_row_read c bd u k (bd.height - 2) _ hbd (by omega) (by rw [hbd.2.2.1])
    (by rw [hbd.2.2.1]; omega) hh x1 n1 ((in_bounds_congr b bd hw hh1 _ _).2 hin) hn1]
  rw [cell_congr b bd hw hh1 x1 n1]
  exact ih

/-- On the board with bricks and paddle, every cell of the rows
`0 .. nbricks - 1` is a brick. -/
theorem initial_board_bricks (c : config) (hh : 2 ≤ c.height) (hn : c.bricks ≤ c.height - 2)
    (x n : Int) (hx0 : 0 ≤ x) (hx1 : x < c.width) (hn0 : 0 ≤ n) (hn1 : n < c.bricks) :
    is_brick c.bricks (initial_board c) x n := by
  have f0 := filling_new c
  have f1 := place_bricks_filling c c.bricks _ 0 f0 (by omega)
  have hin : (pong_board.new c.width c.height).in_bounds x n := ⟨hx0, hx1, hn0, by
    show n < c.height
    omega⟩
  have hb := place_bricks_is_brick c c.bricks _ 0 f0 (by omega) x n hin hn1
  have hw1 := f1.2.1
  have hh1 := f1.2.2.1
  have hin1 : (place_bricks (pong_board.new c.width c.height) c.bricks).in_bounds x n :=
    ⟨hx0, by rw [hw1]; exact hx1, hn0, by rw [hh1]; omega⟩
  unfold initial_board
  simp only []
  split
  · have f2 := place_trash_row_filling c _ _ f1 hh
    have hin2 : (place_trash_row
        (place_bricks (pong_board.new c.width c.height) c.bricks)).in_bounds x n :=
      ⟨hx0, by rw [f2.2.1]; exact hx1, hn0, by rw [f2.2.2.1]; omega⟩
    have f3 := place_paddle_cells_filling c _ _ f2 hh
    have e1 := place_trash_row_read c _ _ f1 hh x n hin1 (by omega)
    have e2 := place_paddle_cells_read c _ _ f2 hh x n hin2 (by omega)
    have c2 := cell_congr (place_bricks (pong_board.new c.width c.height) c.bricks) _
      (f2.2.1.trans hw1.symm) (f2.2.2.1.trans hh1.symm) x n
    have c3 := cell_congr (place_bricks (pong_board.new c.width c.height) c.bricks) _
      (f3.2.1.trans hw1.symm) (f3.2.2.1.trans hh1.symm) x n
    unfold is_brick at hb ⊢
    rw [c3, ← c2, e2, c2, e1]
    exact hb
  · exact hb


/-- In the state that the setup hands over, every cell of the brick rows is
still a brick, and no ball stands on it. -/
theorem setup_bricks (c : config) (sc : script) (s : pong_state) (hh : 2 ≤ c.height)
    (hn : c.bricks ≤ c.height - 2) (h : setup c sc = some s) (x n : Int) (hx0 : 0 ≤ x)
    (hx1 : x < c.width) (hn0 : 0 ≤ n) (hn1 : n < c.bricks) :
    is_brick c.bricks s.board x n ∧ (s.board.read (s.board.cell x n)).ball = none := by
  obtain ⟨f, t, _, _, fb, fl, _⟩ := setup_facts c sc s hh (by omega) h
  have f0 := initial_board_filling c hh (by omega)
  have hb := initial_board_bricks c hh hn x n hx0 hx1 hn0 hn1
  have hc : s.board.cell x n = (initial_board c).cell x n :=
    cell_congr _ _ (f.2.1.trans f0.2.1.symm) (f.2.2.1.trans f0.2.2.1.symm) x n
  obtain ⟨t1, t2, _⟩ := t _ (by rw [hb.1]; decide)
  have hty : (s.board.read (s.board.cell x n)).type = .cell_obstacle := by
    rw [hc, t1]; exact hb.1
  refine ⟨⟨hty, by rw [hc, t2]; exact hb.2⟩, ?_⟩
  cases hj : (s.board.read (s.board.cell x n)).ball with
  | none => rfl
  | some j =>
    exfalso
    obtain ⟨bl, b1, _, b3⟩ := f.1.occupancy _ j hj
    have hjl : j < sc.balls.length := by
      rw [← fl]; exact (List.getElem?_eq_some.1 b1).1
    obtain ⟨_, g2, _, g4⟩ := fb j (sc.balls[j]).1 (sc.balls[j]).2
      (by rw [List.getElem?_eq_getElem hjl])
    rw [g2] at b1
    have e := Option.some.inj b1
    rw [← e] at b3
    change s.board.cell (sc.balls[j]).1.1 (sc.balls[j]).1.2 = _ at b3
    rw [b3, hty] at g4
    exact absurd g4 (by decide)

/-- Configurations with non-negative counts that pass the test of `main`
without overflow in its arithmetic: the number of brick rows is between 0
and `height - 3`, so the brick rows `0 .. nbricks - 1` lie strictly inside the placement rows
`0 .. height - 3`; at every step of the three placement loops (after any
final draws of the steps before) a draw on which the `do ... while` loop ends
exists, that is, an eligible cell remains in the placement rows: an empty
cell for a sticky cell, two empty cells for a warp pair, an unoccupied empty
or sticky cell for a ball; so the setup can run to its end; and however it
runs, nothing is placed over something else: the state handed over is well
formed (every ball is the one occupant of its own cell), every cell of the
brick rows is a brick without a ball, no typed cell of the board with bricks
and paddle has been overwritten, every drawn sticky cell is sticky, the two
mouths of every warp pair are different warp cells, and every ball stands at
its drawn position on an empty or sticky cell that names it. -/
theorem configuration_fit (c : config) (hcfg : ¬ c.usage) (hr : c.no_overflow)
    (h1 : 0 ≤ c.nballs) (h2 : 0 ≤ c.nsticky) (h3 : 0 ≤ c.nwarps) :
    (0 ≤ c.bricks ∧ c.bricks ≤ c.height - 3) ∧
    (∀ (ss : List (Int × Int)) (s : pong_state), (ss.length : Int) < c.nsticky →
      setup c ⟨ss, [], []⟩ = some s → ∃ x y b1, place_sticky s.board x y = some b1) ∧
    (∀ (ss : List (Int × Int)) (ws : List ((Int × Int) × (Int × Int))) (s : pong_state),
      (ss.length : Int) = c.nsticky → 2 * (ws.length : Int) < c.nwarps →
      setup c ⟨ss, ws, []⟩ = some s → ∃ d1 d2 b1, place_warp_pair s.board d1 d2 = some b1) ∧
    (∀ (sc : script) (s : pong_state) (rx ry : Int),
      (sc.stickies.length : Int) = c.nsticky → 2 * (sc.warps.length : Int) = c.nwarps →
      (sc.balls.length : Int) < c.nballs → setup c sc = some s →
      0 ≤ rx ∧ rx ≤ 1 → 0 ≤ ry ∧ ry ≤ 1 → ∃ x y s1, place_ball s x y rx ry = some s1) ∧
    (∃ sc s, sc.complete c ∧ setup c sc = some s) ∧
    (∀ (sc : script) (s : pong_state), setup c sc = some s →
      state_ok s ∧
      (∀ x n : Int, 0 ≤ x → x < c.width → 0 ≤ n → n < c.bricks →
        is_brick c.bricks s.board x n ∧ (s.board.read (s.board.cell x n)).ball = none) ∧
      typed_cells_kept (initial_board c) s.board ∧
      (∀ d ∈ sc.stickies, (s.board.read (s.board.cell d.1 d.2)).type = .cell_sticky) ∧
      (∀ (k : Nat) (d1 d2 : Int × Int), sc.warps[k]? = some (d1, d2) →
        d1 ≠ d2 ∧ draw_ok s.board d1.1 d1.2 ∧ draw_ok s.board d2.1 d2.2 ∧
        (s.board.read (s.board.cell d1.1 d1.2)).type = .cell_warp ∧
        (s.board.read (s.board.cell d2.1 d2.2)).type = .cell_warp) ∧
      (∀ (j : Nat) (d v : Int × Int), sc.balls[j]? = some (d, v) →
        draw_ok s.board d.1 d.2 ∧ s.balls[j]? = some (new_ball d.1 d.2 v.1 v.2) ∧
        (s.board.read (s.board.cell d.1 d.2)).ball = some j ∧
        (s.board.read (s.board.cell d.1 d.2)).type.val ≤ 1)) := by
  obtain ⟨_, a2, a3, a4, _⟩ := config_fit c hcfg hr h1 h2 h3
  refine ⟨⟨a3, a4⟩, ?_, ?_, ?_, complete_script_exists c hcfg hr h1 h2 h3, ?_⟩
  · intro ss s hl h
    exact sticky_step_possible c hcfg hr h1 h2 h3 ss s hl h
  · intro ss ws s hl hl2 h
    exact warp_step_possible c hcfg hr h1 h2 h3 ss ws s hl hl2 h
  · intro sc s rx ry hl hl2 hl3 h hrx hry
    exact ball_step_possible c hcfg hr h1 h2 h3 sc s hl hl2 hl3 h rx ry hrx hry
  · intro sc s h
    obtain ⟨f, t, fs, fw, fb, _⟩ := setup_facts c sc s a2 (by omega) h
    refine ⟨f.1, fun x n hx0 hx1 hn0 hn1 =>
      setup_bricks c sc s a2 (by omega) h x n hx0 hx1 hn0 hn1, t, fs, ?_, fb⟩
    intro k d1 d2 hk
    obtain ⟨g1, g2, g3, _, _, g6, _, g8, _⟩ := fw k d1 d2 hk
    exact ⟨g1, g2, g3, g6, g8⟩

theorem configuration_fit_small :
    ¬ small_config.usage ∧
    (0 ≤ small_config.bricks ∧ small_config.bricks ≤ small_config.height - 3) ∧
    (∃ sc s, sc.complete small_config ∧ setup small_config sc = some s) ∧
    (∃ s, setup small_config small_script = some s ∧ state_ok s ∧
      is_brick small_config.bricks s.board 3 0 ∧
      typed_cells_kept (initial_board small_config) s.board) := by
  have h := configuration_fit small_config (by decide) (by decide) (by decide) (by decide)
    (by decide)
  obtain ⟨a, _, _, _, e, n⟩ := h
  obtain ⟨n1, n2, n3, _⟩ := n small_script ((setup small_config small_script).get (by decide))
    (Option.some_get (by decide)).symm
  exact ⟨by decide, a, e, _, (Option.some_get (by decide)).symm, n1,
    (n2 3 0 (by decide) (by decide) (by decide) (by decide)).1, n3⟩

/-! ## The size test in `int` -/

theorem place_sticky_count (b : pong_board) (x y : Int) (b1 : pong_board) (hok : board_ok b)
    (h : place_sticky b x y = some b1) : sticky_cells b1 = sticky_cells b + 1 := by
  obtain ⟨hd, ht, rfl⟩ := place_sticky_some b x y b1 h
  have hin := draw_in_bounds b x y hd
  have hv := cell_ref_ok b hok x y
  rw [cell_in_bounds b x y hin] at ht hv ⊢
  have hi : (y * b.width + x).toNat < b.cells.length := hv
  have hget : b.read (.cells (y * b.width + x).toNat) = b.cells[(y * b.width + x).toNat] := by
    simp [pong_board.read, List.getD_eq_getElem?_getD, List.getElem?_eq_getElem hi]
  unfold sticky_cells
  show (b.cells.set _ _).countP _ = _
  rw [List.countP_set _ _ _ _ hi, ← hget]
  simp [ht]

/-- Every sticky cell that the setup places is one more sticky cell of the
board, so the loop places no more sticky cells than the board has cells. -/
theorem place_stickies_length_le (c : config) (ss : List (Int × Int)) (b : pong_board)
    (u : Nat) (b1 : pong_board) (hf : filling c b u) (h : place_stickies b ss = some b1) :
    sticky_cells b + ss.length = sticky_cells b1 ∧ ss.length ≤ b.cells.length := by
  have hcount : sticky_cells b + ss.length = sticky_cells b1 := by
    induction ss generalizing b u with
    | nil =>
      have e : b1 = b := (Option.some.inj h).symm
      subst e
      rfl
    | cons d ds ih =>
      unfold place_stickies at h
      cases hp : place_sticky b d.1 d.2 with
      | none => rw [hp] at h; cases h
      | some b2 =>
        rw [hp] at h
        have g1 := (place_sticky_filling c b u d.1 d.2 b2 hf hp).1
        have e1 := place_sticky_count b d.1 d.2 b2 hf.1.cells_ok hp
        have e2 := ih b2 (u + 1) g1 h
        rw [List.length_cons]
        omega
  refine ⟨hcount, ?_⟩
  have f1 := (place_stickies_filling c ss b u b1 hf h).1
  have hlen : b1.cells.length = b.cells.length := by
    have a1 : b1.cells.length = (b1.width * b1.height).toNat := f1.1.cells_ok
    have a2 : b.cells.length = (b.width * b.height).toNat := hf.1.cells_ok
    rw [a1, a2, f1.2.1, f1.2.2.1, hf.2.1, hf.2.2.1]
  have hle : sticky_cells b1 ≤ b1.cells.length := List.countP_le_length _
  omega

/-- C20, at an input where the code departs from it: for
`./breakout61 -s 2147483647` every count is non-negative and a value of
`int`; the objects need 2147484671 cells and the placement rows have 2900;
the sum `nballs + nsticky` of the size test overflows, the test computed in
`int` does not reject the configuration, and the setup that follows cannot
run to its end: the loop can place at most 3100 sticky cells, so that one
of the `do ... while` loops that draw a sticky cell finds no empty cell. -/
theorem size_test_overflow :
    ¬ overflow_config.usage ∧
    (0 ≤ overflow_config.nballs ∧ 0 ≤ overflow_config.nsticky ∧ 0 ≤ overflow_config.nwarps) ∧
    (in_int overflow_config.nballs ∧ in_int overflow_config.nsticky) ∧
    ¬ in_int (overflow_config.nballs + overflow_config.nsticky) ∧
    overflow_config.nballs + overflow_config.nsticky + overflow_config.nwarps
      + overflow_config.width * overflow_config.bricks = 2147484671 ∧
    overflow_config.width * (overflow_config.height - 2) = 2900 ∧
    (∀ (ss : List (Int × Int)) (b : pong_board),
      place_stickies (initial_board overflow_config) ss = some b → ss.length ≤ 3100) ∧
    (∀ (sc : script) (s : pong_state), sc.complete overflow_config →
      setup overflow_config sc ≠ some s) := by
  have f0 := initial_board_filling overflow_config (by decide) (by decide)
  have hlen : (initial_board overflow_config).cells.length = 3100 := by
    have a : (initial_board overflow_config).cells.length
        = ((initial_board overflow_config).width * (initial_board overflow_config).height).toNat :=
      f0.1.cells_ok
    rw [a, f0.2.1, f0.2.2.1]
    rfl
  have hbound : ∀ (ss : List (Int × Int)) (b : pong_board),
      place_stickies (initial_board overflow_config) ss = some b → ss.length ≤ 3100 := by
    intro ss b h
    have := (place_stickies_length_le overflow_config ss _ _ b f0 h).2
    omega
  refine ⟨by decide, by decide, by decide, by decide, by decide, by decide, hbound, ?_⟩
  intro sc s hc hs
  obtain ⟨b1, _, e1, _⟩ := setup_stages overflow_config sc s hs
  have h1 := hbound sc.stickies b1 e1
  have h2 : (sc.stickies.length : Int) = 2147483647 := hc.1
  omega

/-! ## `hit_obstacle` on cells that are not obstacles with strength -/

theorem hit_times_ball_warp (k : Nat) (c : pong_cell) :
    (hit_times k c).ball = c.ball ∧ (hit_times k c).warp = c.warp := by
  induction k generalizing c with
  | zero => exact ⟨rfl, rfl⟩
  | succ k ih =>
    obtain ⟨h1, h2⟩ := ih c.hit_obstacle
    exact ⟨h1.trans (hit_obstacle_ball c), h2.trans (hit_obstacle_warp c)⟩

theorem hit_times_fixed (k : Nat) (c : pong_cell) (h : c.hit_obstacle = c) :
    hit_times k c = c := by
  induction k with
  | zero => rfl
  | succ k ih =>
    show hit_times k c.hit_obstacle = c
    rw [h]
    exact ih

/-- C27: `hit_obstacle` applied to a cell that is not an obstacle (a paddle
cell, or a cell of any other type) or that is an obstacle of strength 0
returns the cell as it is (type, strength, occupant and warp link), and so
does any number of calls; and on every cell, any number of calls leaves the
occupant and the warp link as they are. -/
theorem hit_obstacle_frame (c : pong_cell) (k : Nat)
    (h : c.type ≠ .cell_obstacle ∨ c.strength = 0) :
    c.hit_obstacle = c ∧ hit_times k c = c ∧
    ∀ (c1 : pong_cell) (n : Nat),
      c1.hit_obstacle.ball = c1.ball ∧ c1.hit_obstacle.warp = c1.warp ∧
      (hit_times n c1).ball = c1.ball ∧ (hit_times n c1).warp = c1.warp := by
  have h1 : c.hit_obstacle = c := by
    rcases h with h | h
    · exact hit_obstacle_other c h
    · exact hit_obstacle_zero c h
  refine ⟨h1, hit_times_fixed k c h1, ?_⟩
  intro c1 n
  exact ⟨hit_obstacle_ball c1, hit_obstacle_warp c1, hit_times_ball_warp n c1⟩

theorem hit_obstacle_frame_witness :
    (({ type := .cell_paddle, ball := some 1, strength := 3, warp := some 0 } : pong_cell).type
      ≠ .cell_obstacle) ∧
    hit_times 5 { type := .cell_paddle, ball := some 1, strength := 3, warp := some 0 }
      = { type := .cell_paddle, ball := some 1, strength := 3, warp := some 0 } ∧
    hit_times 5 { type := .cell_obstacle, ball := some 1, strength := 0, warp := some 0 }
      = { type := .cell_obstacle, ball := some 1, strength := 0, warp := some 0 } := by
  have a := hit_obstacle_frame
    { type := .cell_paddle, ball := some 1, strength := 3, warp := some 0 } 5
    (Or.inl (by decide))
  exact ⟨by decide, a.2.1, by decide⟩

/-! ## The two axis checks -/

theorem list_set_getD_self {α : Type} (l : List α) (i : Nat) (d : α) :
    l.set i (l.getD i d) = l := by
  induction l generalizing i with
  | nil => rfl
  | cons a t ih =>
    cases i with
    | zero => rfl
    | succ i =>
      show a :: t.set i (t.getD i d) = a :: t
      rw [ih]

theorem write_read_self (b : pong_board) (r : cell_ref) : b.write r (b.read r) = b := by
  cases r with
  | obstacle_cell => rfl
  | cells i =>
    by_cases hi : i < b.cells.length
    · simp only [pong_board.write, pong_board.read, list_set_getD_self]
    · exact read_write_bad b _ _ hi

theorem hit_obstacle_class (c : pong_cell) (h : obstacle_class c)
    (h1 : ¬ obstacle_class c.hit_obstacle) :
    c.type = .cell_obstacle ∧ c.strength = 1 ∧ c.hit_obstacle.hit_obstacle = c.hit_obstacle := by
  rcases hit_obstacle_type c with e | ⟨e1, e2, e3⟩
  · exfalso
    apply h1
    unfold obstacle_class at h ⊢
    rw [e]
    exact h
  · exact ⟨e1, e2, hit_obstacle_other _ (by rw [e3]; decide)⟩

/-- The board and the ball after the first axis check. -/
theorem check_x_axis (bd : pong_board) (m : pong_ball) :
    check_x bd m =
      (axis_hit bd (obstacle_class (bd.read (bd.cell (m.x + m.dx) m.y)))
          (bd.cell (m.x + m.dx) m.y),
        { m with dx := if obstacle_class (bd.read (bd.cell (m.x + m.dx) m.y)) then -m.dx
                        else m.dx }) := by
  rw [check_x_eq]
  unfold axis_hit obstacle_class
  split <;> rfl

theorem check_y_axis (bd : pong_board) (m : pong_ball) :
    check_y bd m =
      (axis_hit bd (obstacle_class (bd.read (bd.cell m.x (m.y + m.dy))))
          (bd.cell m.x (m.y + m.dy)),
        { m with dy := if obstacle_class (bd.read (bd.cell m.x (m.y + m.dy))) then -m.dy
                        else m.dy }) := by
  rw [check_y_eq]
  unfold axis_hit obstacle_class
  split <;> rfl


/-- The board and the ball after the two axis checks, on a board whose
off-board cell has strength 0: each check is decided by the type that its
neighbour had before the call. -/
theorem checks_axis (bd : pong_board) (m : pong_ball) (hbd : board_ok bd)
    (hs0 : bd.obstacle_cell.strength = 0) :
    check_y (check_x bd m).1 (check_x bd m).2 =
      (axis_hit
          (axis_hit bd (obstacle_class (bd.read (bd.cell (m.x + m.dx) m.y)))
            (bd.cell (m.x + m.dx) m.y))
          (obstacle_class (bd.read (bd.cell m.x (m.y + m.dy)))) (bd.cell m.x (m.y + m.dy)),
        { m with
          dx := if obstacle_class (bd.read (bd.cell (m.x + m.dx) m.y)) then -m.dx else m.dx
          dy := if obstacle_class (bd.read (bd.cell m.x (m.y + m.dy))) then -m.dy
                else m.dy }) := by
  rw [check_x_axis, check_y_axis]
  have hcell : ∀ (fire : Prop) [Decidable fire] (r : cell_ref) (x y : Int),
      (axis_hit bd fire r).cell x y = bd.cell x y := by
    intro fire _ r x y
    unfold axis_hit
    split
    · simp
    · rfl
  simp only [hcell]
  by_cases hfx : obstacle_class (bd.read (bd.cell (m.x + m.dx) m.y))
  · by_cases e : bd.cell m.x (m.y + m.dy) = bd.cell (m.x + m.dx) m.y
    · have hr : (axis_hit bd (obstacle_class (bd.read (bd.cell (m.x + m.dx) m.y)))
          (bd.cell (m.x + m.dx) m.y)).read (bd.cell m.x (m.y + m.dy))
          = (bd.read (bd.cell (m.x + m.dx) m.y)).hit_obstacle := by
        unfold axis_hit
        rw [if_pos hfx, e, read_write_same bd _ _ (cell_ref_ok bd hbd _ _)]
      rw [hr, e]
      by_cases hc : obstacle_class (bd.read (bd.cell (m.x + m.dx) m.y)).hit_obstacle
      · simp only [hfx, hc, if_true]
      · obtain ⟨h1, h2, h3⟩ := hit_obstacle_class _ hfx hc
        have hdy : m.dy = 0 := by
          by_cases hin : bd.in_bounds (m.x + m.dx) m.y
          · have hin2 : bd.in_bounds m.x (m.y + m.dy) := by
              by_contra hn
              rw [cell_off_board bd _ _ hn, cell_in_bounds bd _ _ hin] at e
              cases e
            have := (cell_inj bd _ _ _ _ hin hin2 e).2
            omega
          · exfalso
            rw [cell_off_board bd _ _ hin] at h2
            change bd.obstacle_cell.strength = 1 at h2
            omega
        have hb : axis_hit (axis_hit bd True (bd.cell (m.x + m.dx) m.y)) True
            (bd.cell (m.x + m.dx) m.y) = axis_hit bd True (bd.cell (m.x + m.dx) m.y) := by
          unfold axis_hit
          simp only [if_true]
          have hrd := read_write_same bd (bd.cell (m.x + m.dx) m.y)
            (bd.read (bd.cell (m.x + m.dx) m.y)).hit_obstacle (cell_ref_ok bd hbd _ _)
          have hw := write_read_self (bd.write (bd.cell (m.x + m.dx) m.y)
            (bd.read (bd.cell (m.x + m.dx) m.y)).hit_obstacle) (bd.cell (m.x + m.dx) m.y)
          rw [hrd] at hw
          rw [hrd, h3]
          exact hw
        simp only [hfx, hc, if_true, if_false, hdy, neg_zero]
        rw [hb]
        unfold axis_hit
        simp only [if_false]
    · have hr : (axis_hit bd (obstacle_class (bd.read (bd.cell (m.x + m.dx) m.y)))
          (bd.cell (m.x + m.dx) m.y)).read (bd.cell m.x (m.y + m.dy))
          = bd.read (bd.cell m.x (m.y + m.dy)) := by
        unfold axis_hit
        rw [if_pos hfx, read_write_ne bd _ _ _ e]
      rw [hr]
  · have hb : axis_hit bd (obstacle_class (bd.read (bd.cell (m.x + m.dx) m.y)))
        (bd.cell (m.x + m.dx) m.y) = bd := by
      unfold axis_hit
      rw [if_neg hfx]
    rw [hb]

theorem axis_hit_read (bd : pong_board) (fx fy : Prop) [Decidable fx] [Decidable fy] (cx cy : cell_ref) (hne : cx ≠ cy) (hx : ref_ok bd cx) (hy : ref_ok bd cy)
    (r : cell_ref) :
    (axis_hit (axis_hit bd fx cx) fy cy).read r =
      if (r = cx ∧ fx) ∨ (r = cy ∧ fy) then (bd.read r).hit_obstacle else bd.read r := by
  have h1 : ∀ r1, (axis_hit bd fx cx).read r1
      = if r1 = cx ∧ fx then (bd.read r1).hit_obstacle else bd.read r1 := by
    intro r1
    unfold axis_hit
    by_cases hf : fx
    · rw [if_pos hf, read_write]
      by_cases e : r1 = cx
      · subst e
        rw [if_pos ⟨rfl, hx⟩, if_pos ⟨rfl, hf⟩]
      · rw [if_neg (fun h => e h.1), if_neg (fun h => e h.1)]
    · rw [if_neg hf, if_neg (fun h => hf h.2)]
  have hy1 : ref_ok (axis_hit bd fx cx) cy := by
    refine (ref_ok_congr bd _ ?_ _).2 hy
    unfold axis_hit
    split
    · simp
    · rfl
  unfold axis_hit at hy1 ⊢
  by_cases hf : fy
  · rw [if_pos hf, read_write]
    by_cases e : r = cy
    · subst e
      have hne1 : ¬ (r = cx ∧ fx) := fun h => hne h.1.symm
      rw [if_pos ⟨rfl, hy1⟩, if_pos (Or.inr ⟨rfl, hf⟩)]
      have := h1 r
      unfold axis_hit at this
      rw [this, if_neg hne1]
    · rw [if_neg (fun h => e h.1)]
      have := h1 r
      unfold axis_hit at this
      rw [this]
      by_cases hc : r = cx ∧ fx
      · rw [if_pos hc, if_pos (Or.inl hc)]
      · rw [if_neg hc, if_neg (fun h => h.elim hc (fun h2 => e h2.1))]
  · rw [if_neg hf]
    have := h1 r
    unfold axis_hit at this
    rw [this]
    by_cases hc : r = cx ∧ fx
    · rw [if_pos hc, if_pos (Or.inl hc)]
    · rw [if_neg hc, if_neg (fun h => h.elim hc (fun h2 => hf h2.2))]


/-- C23: for a non-stopped ball `i` (`me`) on the board in a well-formed
state, with `fires_x` and `fires_y` the tests "the neighbour `(x+dx, y)`,
resp. `(x, y+dy)`, is an obstacle or a paddle cell (or off the board)" on
the state before the call: the velocity with which `move()` goes on is
`(dx', dy')` with `dx' = -dx` if `fires_x` and `dx` otherwise, `dy' = -dy` if
`fires_y` and `dy` otherwise; the target cell that `move()` examines is
`(x+dx', y+dy')`; the board on which it examines it is the board before the
call with one `hit_obstacle` on the x neighbour if `fires_x` and one on the
y neighbour if `fires_y`, so that, when the two neighbours are different
cells, each has been hit once if it fired, and no other cell has changed;
and each of the four combinations of the two checks occurs. -/
theorem axis_prechecks (s : pong_state) (i : Nat) (me : pong_ball) (hok : state_ok s)
    (hi : s.balls[i]? = some me) (hst : me.stopped = false)
    (ha : (s.board.read (s.board.cell me.x me.y)).ball = some i) :
    bounced s me = { me with dx := if fires_x s me then -me.dx else me.dx
                             dy := if fires_y s me then -me.dy else me.dy } ∧
    target_ref s me =
      s.board.cell (me.x + (if fires_x s me then -me.dx else me.dx))
        (me.y + (if fires_y s me then -me.dy else me.dy)) ∧
    (check_y (check_x s.board me).1 (check_x s.board me).2).1 =
      axis_hit (axis_hit s.board (fires_x s me) (s.board.cell (me.x + me.dx) me.y))
        (fires_y s me) (s.board.cell me.x (me.y + me.dy)) ∧
    pong_ball.move s i =
      move_target
        (axis_hit (axis_hit s.board (fires_x s me) (s.board.cell (me.x + me.dx) me.y))
          (fires_y s me) (s.board.cell me.x (me.y + me.dy)))
        s.balls i (bounced s me) (s.board.cell me.x me.y) ∧
    (s.board.cell (me.x + me.dx) me.y ≠ s.board.cell me.x (me.y + me.dy) →
      ∀ r, (check_y (check_x s.board me).1 (check_x s.board me).2).1.read r =
        if (r = s.board.cell (me.x + me.dx) me.y ∧ fires_x s me) ∨
            (r = s.board.cell me.x (me.y + me.dy) ∧ fires_y s me) then
          (s.board.read r).hit_obstacle
        else s.board.read r) ∧
    ((fires_x (axis_state 0 0 (-1) (-1)) { x := 0, y := 0, dx := -1, dy := -1 } ∧
        fires_y (axis_state 0 0 (-1) (-1)) { x := 0, y := 0, dx := -1, dy := -1 }) ∧
      (fires_x (axis_state 0 1 (-1) 1) { x := 0, y := 1, dx := -1, dy := 1 } ∧
        ¬ fires_y (axis_state 0 1 (-1) 1) { x := 0, y := 1, dx := -1, dy := 1 }) ∧
      (¬ fires_x (axis_state 1 0 1 (-1)) { x := 1, y := 0, dx := 1, dy := -1 } ∧
        fires_y (axis_state 1 0 1 (-1)) { x := 1, y := 0, dx := 1, dy := -1 }) ∧
      (¬ fires_x (axis_state 1 1 1 1) { x := 1, y := 1, dx := 1, dy := 1 } ∧
        ¬ fires_y (axis_state 1 1 1 1) { x := 1, y := 1, dx := 1, dy := 1 })) := by
  have hc := checks_axis s.board me hok.cells_ok hok.sentinel_strength
  have hbd : (check_y (check_x s.board me).1 (check_x s.board me).2).1 =
      axis_hit (axis_hit s.board (fires_x s me) (s.board.cell (me.x + me.dx) me.y))
        (fires_y s me) (s.board.cell me.x (me.y + me.dy)) := by
    rw [hc]
    rfl
  refine ⟨?_, ?_, hbd, ?_, ?_, by decide⟩
  · unfold bounced
    rw [hc]
    rfl
  · unfold target_ref
    rw [hc]
    have hcell : ∀ (bd : pong_board) (fire : Prop) [Decidable fire] (r : cell_ref) (x y : Int),
        (axis_hit bd fire r).cell x y = bd.cell x y := by
      intro bd fire _ r x y
      unfold axis_hit
      split
      · simp
      · rfl
    simp only [hcell]
    rfl
  · rw [move_eq s i me hi hst ha, ← hbd]
    rfl
  · intro hne r
    rw [hbd]
    exact axis_hit_read s.board (fires_x s me) (fires_y s me) _ _ hne
      (cell_ref_ok _ hok.cells_ok _ _) (cell_ref_ok _ hok.cells_ok _ _) r

theorem axis_prechecks_witness :
    bounced corner_state { x := 0, y := 0, dx := -1, dy := -1 }
      = { x := 0, y := 0, dx := 1, dy := 1 } ∧
    target_ref corner_state { x := 0, y := 0, dx := -1, dy := -1 }
      = corner_state.board.cell 1 1 := by
  have h := axis_prechecks corner_state 0 { x := 0, y := 0, dx := -1, dy := -1 }
    (state_ok_of_check _ (by decide)) rfl rfl (by decide)
  exact ⟨h.1.trans (by decide), h.2.1.trans (by decide)⟩

/-! ## The full bounce -/

/-- C24: for a non-stopped ball `i` (`me`) on the board in a well-formed
state, when the target cell, as `move()` reads it after the axis checks, has
no occupant and is an obstacle or a paddle cell (or the off-board cell):
`move()` returns 0; the board is the board after the axis checks with one
`hit_obstacle` on the target cell and no other change; both velocity
components are negated relative to their values after the checks, so that a
component whose axis check fired has its value from before the call and the
other one is negated; the position and the `stopped` flag of the ball, every
other ball, every occupant link and the collision counter are unchanged. -/
theorem full_bounce (s : pong_state) (i : Nat) (me : pong_ball) (hok : state_ok s)
    (hi : s.balls[i]? = some me) (hst : me.stopped = false)
    (ha : (s.board.read (s.board.cell me.x me.y)).ball = some i)
    (htb : (target_cell s me).ball = none) (htt : obstacle_class (target_cell s me)) :
    ∃ s1, pong_ball.move s i = some (s1, 0) ∧
      s1.board = (check_y (check_x s.board me).1 (check_x s.board me).2).1.write
        (target_ref s me) (target_cell s me).hit_obstacle ∧
      s1.board.read (target_ref s me) = (target_cell s me).hit_obstacle ∧
      (∀ r, r ≠ target_ref s me →
        s1.board.read r = (check_y (check_x s.board me).1 (check_x s.board me).2).1.read r) ∧
      s1.balls[i]? = some { me with dx := -(bounced s me).dx, dy := -(bounced s me).dy } ∧
      -(bounced s me).dx = (if fires_x s me then me.dx else -me.dx) ∧
      -(bounced s me).dy = (if fires_y s me then me.dy else -me.dy) ∧
      (∀ j, j ≠ i → s1.balls[j]? = s.balls[j]?) ∧
      (∀ r, (s1.board.read r).ball = (s.board.read r).ball) ∧
      s1.board.ncollisions = s.board.ncollisions := by
  have hil : i < s.balls.length := (List.getElem?_eq_some.1 hi).1
  have hmove : pong_ball.move s i = some
      (⟨(check_y (check_x s.board me).1 (check_x s.board me).2).1.write (target_ref s me)
          (target_cell s me).hit_obstacle,
        s.balls.set i { bounced s me with dx := -(bounced s me).dx, dy := -(bounced s me).dy }⟩,
        0) := by
    rw [move_eq s i me hi hst ha]
    exact move_target_obstacle _ _ _ _ _ htb htt
  have hb := (checks_axis s.board me hok.cells_ok hok.sentinel_strength)
  have hbx : (bounced s me).dx = (if fires_x s me then -me.dx else me.dx) := by
    unfold bounced; rw [hb]; rfl
  have hby : (bounced s me).dy = (if fires_y s me then -me.dy else me.dy) := by
    unfold bounced; rw [hb]; rfl
  have hrok : ref_ok (check_y (check_x s.board me).1 (check_x s.board me).2).1
      (target_ref s me) := by
    refine (ref_ok_congr s.board _ (by simp) _).2 ?_
    unfold target_ref
    simp only [check_y_cell, check_x_cell]
    exact cell_ref_ok _ hok.cells_ok _ _
  refine ⟨_, hmove, rfl, ?_, ?_, ?_, ?_, ?_, ?_, ?_, ?_⟩
  · exact read_write_same _ _ _ hrok
  · intro r hr
    exact read_write_ne _ _ _ _ hr
  · show (s.balls.set i _)[i]? = _
    rw [List.getElem?_set_self hil]
    have h1 : (bounced s me).x = me.x := by unfold bounced; simp
    have h2 : (bounced s me).y = me.y := by unfold bounced; simp
    have h3 : (bounced s me).stopped = me.stopped := by unfold bounced; simp
    simp only [h1, h2, h3]
  · rw [hbx]; split <;> simp
  · rw [hby]; split <;> simp
  · intro j hj
    show (s.balls.set i _)[j]? = _
    rw [List.getElem?_set_ne (fun e => hj e.symm)]
  · intro r
    show ((pong_board.write _ _ _).read r).ball = _
    unfold target_cell
    rw [hit_write_ball]
    simp
  · show (pong_board.write _ _ _).ncollisions = _
    simp

theorem full_bounce_witness :
    ∃ s1, pong_ball.move diagonal_state 0 = some (s1, 0) ∧
      s1.balls[0]? = some { x := 1, y := 1, dx := -1, dy := -1 } ∧
      s1.board.read (diagonal_state.board.cell 2 2)
        = { type := .cell_obstacle, strength := 1 } := by
  obtain ⟨s1, h1, _, h3, _, h5, _⟩ := full_bounce diagonal_state 0
    { x := 1, y := 1, dx := 1, dy := 1 } (state_ok_of_check _ (by decide)) rfl rfl
    (by decide) (by decide) (by decide)
  exact ⟨s1, h1, h5.trans (by decide), h3.trans (by decide)⟩

/-! ## The collision branch and the moving ball itself -/

theorem target_ref_eq (s : pong_state) (me : pong_ball) :
    target_ref s me =
      s.board.cell (me.x + (bounced s me).dx) (me.y + (bounced s me).dy) := by
  unfold target_ref bounced
  simp

theorem bounced_zero (s : pong_state) (me : pong_ball) :
    ((bounced s me).dx = 0 ↔ me.dx = 0) ∧ ((bounced s me).dy = 0 ↔ me.dy = 0) := by
  unfold bounced
  rw [check_x_eq]
  split <;> rw [check_y_eq] <;> split <;> simp

/-- The occupant of the target cell is the moving ball itself exactly when
the velocity is `(0,0)`. -/
theorem target_is_self (s : pong_state) (i j : Nat) (me : pong_ball) (hok : state_ok s)
    (hi : s.balls[i]? = some me)
    (ha : (s.board.read (s.board.cell me.x me.y)).ball = some i)
    (hj : (target_cell s me).ball = some j) : j = i ↔ (me.dx = 0 ∧ me.dy = 0) := by
  have hz := bounced_zero s me
  have htc : (target_cell s me).ball = (s.board.read (target_ref s me)).ball := by
    unfold target_cell
    simp
  constructor
  · intro e
    subst e
    rw [htc] at hj
    obtain ⟨bl, h1, h2, h3⟩ := hok.occupancy _ j hj
    rw [hi] at h1
    have e1 : bl = me := (Option.some.inj h1).symm
    subst e1
    rw [target_ref_eq] at h3
    have hin2 : s.board.in_bounds (bl.x + (bounced s bl).dx) (bl.y + (bounced s bl).dy) := by
      by_contra hn
      rw [cell_off_board _ _ _ hn, cell_in_bounds _ _ _ h2] at h3
      cases h3
    have := cell_inj s.board _ _ _ _ hin2 h2 h3
    exact ⟨hz.1.1 (by omega), hz.2.1 (by omega)⟩
  · rintro ⟨e1, e2⟩
    rw [htc, target_ref_eq, hz.1.2 e1, hz.2.2 e2, Int.add_zero, Int.add_zero, ha] at hj
    exact (Option.some.inj hj).symm


/-- C25 (amended): for a non-stopped ball `i` (`me`) on the board in a
well-formed state, `move()` takes the collision branch exactly when the
target cell, as read after the axis checks, has an occupant, and the
collision counter grows by one exactly then.  The occupant is a ball other
than `i` unless the velocity of `i` is `(0,0)`; with velocity `(0,0)` the
target is the cell of `i`, the occupant is `i` itself, and the call takes the
collision branch all the same: it returns 0, counts one collision and
leaves every ball object as it is. -/
theorem collision_branch (s : pong_state) (i : Nat) (me : pong_ball) (hok : state_ok s)
    (hi : s.balls[i]? = some me) (hst : me.stopped = false)
    (ha : (s.board.read (s.board.cell me.x me.y)).ball = some i) :
    (takes_collision s i = true ↔ ∃ j, (target_cell s me).ball = some j) ∧
    (∀ s1 r, pong_ball.move s i = some (s1, r) →
      s1.board.ncollisions = s.board.ncollisions + (if takes_collision s i then 1 else 0)) ∧
    (∀ j, (target_cell s me).ball = some j → (j = i ↔ (me.dx = 0 ∧ me.dy = 0))) ∧
    (me.dx = 0 ∧ me.dy = 0 →
      (target_cell s me).ball = some i ∧ takes_collision s i = true ∧
      ∃ s1, pong_ball.move s i = some (s1, 0) ∧ s1.balls = s.balls ∧
        s1.board.ncollisions = s.board.ncollisions + 1) := by
  have htk : takes_collision s i = (target_cell s me).ball.isSome := by
    unfold takes_collision
    simp only [hi, hst]
    rfl
  have hz := bounced_zero s me
  have htc : (target_cell s me).ball = (s.board.read (target_ref s me)).ball := by
    unfold target_cell
    simp
  refine ⟨?_, fun s1 r h => move_ncollisions s i s1 r h, ?_, ?_⟩
  · rw [htk, Option.isSome_iff_exists]
  · intro j hj
    exact target_is_self s i j me hok hi ha hj
  · rintro ⟨e1, e2⟩
    have hself : (target_cell s me).ball = some i := by
      rw [htc, target_ref_eq, hz.1.2 e1, hz.2.2 e2, Int.add_zero, Int.add_zero, ha]
    have htk1 : takes_collision s i = true := by rw [htk, hself]; rfl
    have hil : i < s.balls.length := (List.getElem?_eq_some.1 hi).1
    have hb : bounced s me = me := by
      have h1 : (bounced s me).x = me.x := by unfold bounced; simp
      have h2 : (bounced s me).y = me.y := by unfold bounced; simp
      have h3 : (bounced s me).stopped = me.stopped := by unfold bounced; simp
      have h4 := hz.1.2 e1
      have h5 := hz.2.2 e2
      cases hm : bounced s me
      cases me
      rw [hm] at h1 h2 h3 h4 h5
      simp only at h1 h2 h3 h4 h5 e1 e2
      subst h1 h2 h3 h4 h5 e1 e2
      rfl
    have hset : s.balls.set i me = s.balls := by
      apply List.ext_getElem?
      intro n
      rw [List.getElem?_set]
      split
      · rename_i e
        subst e
        simp [hil, hi]
      · rfl
    have hmove : pong_ball.move s i = some
        (⟨{ (check_y (check_x s.board me).1 (check_x s.board me).2).1 with
            ncollisions := (check_y (check_x s.board me).1 (check_x s.board me).2).1.ncollisions
              + 1 }, s.balls⟩, 0) := by
      rw [move_eq s i me hi hst ha, move_target_collision _ _ _ _ _ i hself]
      have hm2 : (check_y (check_x s.board me).1 (check_x s.board me).2).2 = me := hb
      rw [hm2, hset, collide_self s.balls i me hi]
      have hme : ({ me with stopped := false } : pong_ball) = me := by
        cases me
        simp only at hst
        subst hst
        rfl
      rw [hme, hset]
      rfl
    refine ⟨hself, htk1, _, hmove, rfl, ?_⟩
    show (check_y (check_x s.board me).1 (check_x s.board me).2).1.ncollisions + 1 = _
    simp

theorem collision_branch_witness :
    takes_collision bounce_collision_state 0 = true ∧
    (target_cell bounce_collision_state { x := 1, y := 1, dx := 1, dy := 1 }).ball = some 1 := by
  have h := collision_branch bounce_collision_state 0 { x := 1, y := 1, dx := 1, dy := 1 }
    (state_ok_of_check _ (by decide)) rfl rfl (by decide)
  exact ⟨h.1.2 ⟨1, by decide⟩, by decide⟩

/-- C25 as stated fails: in `still_state` the ball 0 is not stopped and has
velocity `(0,0)`; its target cell is its own cell, whose occupant is ball 0
itself, and `move()` takes the collision branch: it returns 0 and the
collision counter goes from 0 to 1. -/
theorem self_collision :
    still_state.balls[0]? = some { x := 1, y := 1, dx := 0, dy := 0 } ∧
    state_check still_state ∧
    (target_cell still_state { x := 1, y := 1, dx := 0, dy := 0 }).ball = some 0 ∧
    takes_collision still_state 0 = true ∧
    still_state.board.ncollisions = 0 ∧
    ∃ s1, pong_ball.move still_state 0 = some (s1, 0) ∧ s1.board.ncollisions = 1 :=
  ⟨rfl, by decide, by decide, by decide, by decide,
    (pong_ball.move still_state 0).get (by decide) |>.1, by decide, by decide⟩

/-! ## The single-threaded mode -/

theorem cooperative_loop_none (s : pong_state) (n k : Nat)
    (h : cooperative_loop n s = none) : cooperative_loop (n + k) s = none := by
  induction n generalizing s with
  | zero => cases h
  | succ n ih =>
    rw [Nat.succ_add]
    simp only [cooperative_loop] at h ⊢
    cases hp : cooperative_pass s with
    | none => rfl
    | some s1 =>
      rw [hp] at h
      exact ih s1 h

/-- C26, at an input where the code departs from it:
`./breakout61 -1 -P -w 10 -h 4 -b 1 -s 0 -B 0` is accepted, and with the ball
drawn at `(8,1)` with velocity `(1,1)` the first pass of the single-threaded
loop moves the ball to `(9,2)`, in the gap that the paddle leaves in the row
`height - 2`; in the second pass its target `(8,3)` is a trash cell, so
`move()` clears the cell `(9,2)` and returns -1, leaving the ball not
stopped; in the third pass the loop calls `move()` on that ball again, its
cell does not name it, and the assertion at the start of `move()` fails. -/
theorem cooperative_loop_trips_assertion :
    ¬ trash_config.usage ∧ trash_script.complete trash_config ∧
    ∃ s0 s1 s2, setup trash_config trash_script = some s0 ∧
      state_check s0 ∧
      cooperative_pass s0 = some s1 ∧ pong_ball.move s0 0 = some (s1, 1) ∧
      s1.balls[0]? = some { x := 9, y := 2, dx := 1, dy := 1 } ∧
      (s1.board.read (s1.board.cell 8 3)).type = .cell_trash ∧
      cooperative_pass s1 = some s2 ∧ pong_ball.move s1 0 = some (s2, -1) ∧
      single_threaded trash_config s0 2 = some s2 ∧
      s2.balls[0]? = some { x := 9, y := 2, dx := -1, dy := 1 } ∧
      (s2.board.read (s2.board.cell 9 2)).ball = none ∧
      pong_ball.move s2 0 = none ∧ cooperative_pass s2 = none ∧
      ∀ n, single_threaded trash_config s0 (3 + n) = none := by
  refine ⟨by decide, by unfold script.complete; decide, (setup trash_config trash_script).get (by decide),
    (cooperative_loop 1 ((setup trash_config trash_script).get (by decide))).get (by decide),
    (cooperative_loop 2 ((setup trash_config trash_script).get (by decide))).get (by decide),
    by decide, by decide, by decide, by decide, by decide, by decide, by decide, by decide,
    by decide, by decide, by decide, by decide, by decide, ?_⟩
  intro n
  unfold single_threaded
  rw [if_neg (by decide)]
  exact cooperative_loop_none _ 3 n (by decide)

/-! ## The cell lookup in `int` arithmetic -/

/-- On a board whose number of cells `width * height` is a value of `int`,
the index that the source computes in `int` is the exact index. -/
theorem cell_int_eq_cell (b : pong_board) (x y : Int) (hfit : in_int (b.width * b.height)) :
    b.cell_int x y = b.cell x y := by
  unfold pong_board.cell_int pong_board.cell
  by_cases h : x < 0 ∨ x ≥ b.width ∨ y < 0 ∨ y ≥ b.height
  · rw [if_pos h, if_pos h]
  · rw [if_neg h, if_neg h]
    have hi := index_bounds b.width b.height x y (by omega) (by omega) (by omega) (by omega)
    have hy : 0 ≤ y * b.width := Int.mul_nonneg (by omega) (by omega)
    obtain ⟨f1, f2⟩ := hfit
    have e1 : int_wrap (y * b.width) = y * b.width :=
      int_wrap_of_in_int _ ⟨by omega, by omega⟩
    have e2 : int_wrap (y * b.width + x) = y * b.width + x :=
      int_wrap_of_in_int _ ⟨by omega, by omega⟩
    rw [e1, e2]
    congr 1
    omega

/-- When the number of cells `w * h` is a non-negative value of `int`, the
constructor builds the board with `w * h` cells. -/
theorem new_int_eq_new (w h : Int) (h0 : 0 ≤ w * h) (hfit : in_int (w * h)) :
    pong_board.new_int w h = some (pong_board.new w h) := by
  unfold pong_board.new_int pong_board.new
  rw [int_wrap_of_in_int _ hfit, if_neg (by omega)]

/-- A board that the constructor builds has `width * height` cells exactly
when that number is a value of `int`. -/
theorem new_int_board_ok (w h : Int) (b : pong_board) (hw : 0 < w) (hh : 0 < h)
    (hb : pong_board.new_int w h = some b) : board_ok b ↔ in_int (w * h) := by
  unfold pong_board.new_int at hb
  have hpos : 0 < w * h := Int.mul_pos hw hh
  by_cases hn : int_wrap (w * h) < 0
  · rw [if_pos hn] at hb
    exact absurd hb (by simp)
  · rw [if_neg hn] at hb
    have hb1 := (Option.some.inj hb).symm
    subst hb1
    unfold board_ok
    simp only [List.length_replicate]
    unfold int_wrap in_int at *
    constructor
    · intro he
      omega
    · intro hfit
      omega

/-- For every board that the constructor builds with a number of cells
`w * h` that is a value of `int`: an out-of-range pair denotes the
`obstacle_cell`; an in-range pair denotes the element of `cells` at the
index `y * w + x`, the element exists, and no other in-range pair denotes
it. -/
theorem cell_lookup_int (w h : Int) (h0 : 0 ≤ w * h) (hfit : in_int (w * h)) :
    ∃ b, pong_board.new_int w h = some b ∧ b.width = w ∧ b.height = h ∧
      b.cells.length = (w * h).toNat ∧
      ∀ x y : Int,
        ((x < 0 ∨ x ≥ w ∨ y < 0 ∨ y ≥ h) →
          b.cell_int x y = .obstacle_cell ∧ b.read (b.cell_int x y) = b.obstacle_cell) ∧
        (¬ (x < 0 ∨ x ≥ w ∨ y < 0 ∨ y ≥ h) →
          b.cell_int x y = .cells (y * w + x).toNat ∧
          ((y * w + x).toNat : Int) = y * w + x ∧
          y * w + x < w * h ∧
          b.cells[(y * w + x).toNat]? = some (b.read (b.cell_int x y)) ∧
          ∀ x1 y1 : Int, ¬ (x1 < 0 ∨ x1 ≥ w ∨ y1 < 0 ∨ y1 ≥ h) →
            (x1 ≠ x ∨ y1 ≠ y) → b.cell_int x1 y1 ≠ b.cell_int x y) := by
  refine ⟨pong_board.new w h, new_int_eq_new w h h0 hfit, rfl, rfl, new_board_ok w h, ?_⟩
  have hfit1 : in_int ((pong_board.new w h).width * (pong_board.new w h).height) := hfit
  intro x y
  rw [cell_int_eq_cell _ x y hfit1]
  constructor
  · intro hout
    have hc : (pong_board.new w h).cell x y = .obstacle_cell := by
      apply cell_off_board
      unfold pong_board.in_bounds
      show ¬ (0 ≤ x ∧ x < w ∧ 0 ≤ y ∧ y < h)
      omega
    rw [hc]
    exact ⟨rfl, rfl⟩
  · intro hin
    have hb : (pong_board.new w h).in_bounds x y := by
      unfold pong_board.in_bounds
      show 0 ≤ x ∧ x < w ∧ 0 ≤ y ∧ y < h
      omega
    have hc : (pong_board.new w h).cell x y = .cells (y * w + x).toNat :=
      cell_in_bounds _ x y hb
    have hi := index_bounds w h x y (by omega) (by omega) (by omega) (by omega)
    refine ⟨hc, by omega, hi.2, ?_, ?_⟩
    · rw [hc]
      apply read_cells_eq
      rw [new_board_ok w h]
      show (y * w + x).toNat < (w * h).toNat
      omega
    · intro x1 y1 h1 hne he
      rw [cell_int_eq_cell _ x1 y1 hfit1] at he
      have hb1 : (pong_board.new w h).in_bounds x1 y1 := by
        unfold pong_board.in_bounds
        show 0 ≤ x1 ∧ x1 < w ∧ 0 ≤ y1 ∧ y1 < h
        omega
      have := cell_inj _ x y x1 y1 hb hb1 he
      omega

/-- C1: the lookup `pong_board::cell` does not give every in-range pair its
own element of the grid.  The options `-w 1024 -h 4194307 -b 1 -s 0 -B 0`
pass the test of `main`; the constructor computes the number of cells
`1024 * 4194307` in `int` and builds a vector of 3072 cells; the pairs
`(5, 0)` and `(5, 4194304)` are both in range and `cell` computes the index 5
for both, so two different in-range pairs denote one element; and the
in-range pair `(0, 3)` has the index 3072, at which the vector has no
element. -/
theorem cell_index_overflow :
    ¬ tall_config.usage ∧
    ∃ b, pong_board.new_int tall_config.width tall_config.height = some b ∧
      b.width = 1024 ∧ b.height = 4194307 ∧ b.width * b.height = 4294970368 ∧
      b.cells.length = 3072 ∧
      b.in_bounds 5 0 ∧ b.in_bounds 5 4194304 ∧
      b.cell_int 5 0 = .cells 5 ∧ b.cell_int 5 4194304 = .cells 5 ∧
      b.in_bounds 0 3 ∧ b.cell_int 0 3 = .cells 3072 ∧ ¬ ref_ok b (b.cell_int 0 3) := by
  refine ⟨by decide, (pong_board.new_int tall_config.width tall_config.height).get (by decide),
    (Option.some_get (by decide)).symm, rfl, rfl, by decide, ?_, by decide, by decide, by decide, by decide,
    by decide, by decide, ?_⟩
  · show (List.replicate _ _).length = 3072
    rw [List.length_replicate]
    decide
  · have hc : ((pong_board.new_int tall_config.width tall_config.height).get (by decide)).cell_int
        0 3 = .cells 3072 := by decide
    rw [hc]
    show ¬ (3072 < (List.replicate _ _).length)
    rw [List.length_replicate]
    decide

end Pong

/-! # Theorems about the io61 cache -/

namespace Io61

/-! ## The read cache -/

/-- The bytes that `read` returns for a block at the file position. -/
theorem fill_fields (f : io61_file) (hr : f.fd.readable = true) :
    (io61_fill f).tag = f.end_tag ∧ (io61_fill f).pos_tag = f.end_tag ∧
    (io61_fill f).end_tag
      = f.end_tag + (((f.fd.data.drop f.fd.pos).take bufsize.toNat).length : Nat) ∧
    (io61_fill f).md = f.md ∧ (io61_fill f).fd.data = f.fd.data ∧
    (io61_fill f).fd.readable = true ∧ (io61_fill f).fd.seekable = f.fd.seekable ∧
    (io61_fill f).fd.pos = f.fd.pos + ((f.fd.data.drop f.fd.pos).take bufsize.toNat).length ∧
    ∀ j, (io61_fill f).cbuf j
      = ((f.fd.data.drop f.fd.pos).take bufsize.toNat).getD j (f.cbuf j) := by
  simp [io61_fill, sys_read, hr]

theorem cache_inv_fill (f : io61_file) : cache_inv (io61_fill f) := by
  unfold cache_inv
  by_cases hr : f.fd.readable = true
  · obtain ⟨h1, h2, h3, _⟩ := fill_fields f hr
    rw [h1, h2, h3]
    have : ((f.fd.data.drop f.fd.pos).take bufsize.toNat).length ≤ bufsize.toNat :=
      List.length_take_le _ _
    have hb : bufsize.toNat = 16384 := rfl
    have hb2 : bufsize = 16384 := rfl
    omega
  · have hr1 : f.fd.readable = false := by simpa using hr
    have hb2 : bufsize = 16384 := rfl
    simp [io61_fill, sys_read, hr1, hb2]

/-- Filling an exhausted read cache keeps the offset of the next byte; the
cache is still exhausted afterwards only at the end of the file. -/
theorem fill_reads_at (F : List (Fin 256)) (f : io61_file) (p : Int) (h : reads_at F f p)
    (he : f.pos_tag = f.end_tag) :
    reads_at F (io61_fill f) p ∧
    ((io61_fill f).pos_tag = (io61_fill f).end_tag → (F.length : Int) ≤ p) := by
  obtain ⟨h1, h2, h3, h4, ⟨h5, h6, h7⟩, h8, h9, h10, h11⟩ := h
  obtain ⟨g1, g2, g3, g4, g5, g6, _, g8, g9⟩ := fill_fields f h3
  have hb : bufsize.toNat = 16384 := rfl
  have hb2 : bufsize = 16384 := rfl
  have hlen : ((f.fd.data.drop f.fd.pos).take bufsize.toNat).length
      = min 16384 (F.length - f.fd.pos) := by
    rw [List.length_take, List.length_drop, h2, hb]
  refine ⟨⟨g4.trans h1, g5.trans h2, g6, by rw [g1]; omega, cache_inv_fill f, ?_, ?_, ?_, ?_⟩,
    ?_⟩
  · rw [g3, hlen]; omega
  · rw [g8, g3]; push_cast; omega
  · rw [g2]; omega
  · intro i hi1 hi2
    rw [g1] at hi1
    rw [g3, hlen] at hi2
    rw [g9, g1]
    have hj : (i - f.end_tag).toNat = i - f.fd.pos := by omega
    rw [hj]
    have hlt : i - f.fd.pos < ((f.fd.data.drop f.fd.pos).take bufsize.toNat).length := by
      rw [hlen]; omega
    rw [List.getD_eq_getElem?_getD, List.getElem?_eq_getElem hlt, Option.getD_some,
      List.getElem_take, List.getElem_drop]
    have hidx : f.fd.pos + (i - f.fd.pos) = i := by omega
    have hthis : f.fd.data[f.fd.pos + (i - f.fd.pos)]? = F[i]? := by rw [h2, hidx]
    rw [← hthis, List.getElem?_eq_getElem]
  · intro heq
    rw [g2, g3, hlen] at heq
    omega

/-- One byte from a read cache that is not exhausted. -/
theorem read_step (F : List (Fin 256)) (f : io61_file) (p : Nat) (h : reads_at F f p)
    (hlt : f.pos_tag < f.end_tag) :
    ∃ b, cbuf_get f (f.pos_tag - f.tag) = some b ∧ F[p]? = some b ∧
      reads_at F { f with pos_tag := f.pos_tag + 1 } ((p + 1 : Nat) : Int) := by
  obtain ⟨h1, h2, h3, h4, ⟨h5, h6, h7⟩, h8, h9, h10, h11⟩ := h
  have hb2 : bufsize = 16384 := rfl
  refine ⟨f.cbuf (f.pos_tag - f.tag).toNat, ?_, ?_, ?_⟩
  · unfold cbuf_get
    rw [if_pos]
    omega
  · have := h11 p (by omega) (by omega)
    rw [this, h10]
  · refine ⟨h1, h2, h3, h4, ⟨?_, ?_, h7⟩, h8, h9, ?_, h11⟩
    · show f.tag ≤ f.pos_tag + 1
      omega
    · show f.pos_tag + 1 ≤ f.end_tag
      omega
    · show f.pos_tag + 1 = _
      push_cast
      omega

/-- The loop of `io61_read` on a read cache appends the next bytes of the
file, as many as are asked for and left. -/
theorem read_loop_spec (F : List (Fin 256)) (n : Nat) (f : io61_file) (p : Nat)
    (out : List (Fin 256)) (h : reads_at F f p) :
    ∃ f1, io61_read_loop n f out = some (f1, out ++ (F.drop p).take n) ∧
      reads_at F f1 ((p + ((F.drop p).take n).length : Nat) : Int) ∧
      f1.fd.seekable = f.fd.seekable := by
  induction n generalizing f p out with
  | zero => exact ⟨f, by simp [io61_read_loop], by simpa using h, rfl⟩
  | succ n ih =>
    have hr1 : reads_at F (if f.pos_tag = f.end_tag then io61_fill f else f) p := by
      split
      · rename_i he
        exact (fill_reads_at F f p h he).1
      · exact h
    have hs1 : (if f.pos_tag = f.end_tag then io61_fill f else f).fd.seekable
        = f.fd.seekable := by
      split
      · exact (fill_fields f h.2.2.1).2.2.2.2.2.2.1
      · rfl
    unfold io61_read_loop
    simp only []
    by_cases hc : f.pos_tag = f.end_tag ∧
        (if f.pos_tag = f.end_tag then io61_fill f else f).pos_tag
          = (if f.pos_tag = f.end_tag then io61_fill f else f).end_tag
    · rw [if_pos hc]
      have heof : (F.length : Int) ≤ p := by
        have := (fill_reads_at F f p h hc.1).2
        rw [if_pos hc.1] at hc
        exact this hc.2
      have hd : F.drop p = [] := List.drop_eq_nil_of_le (by omega)
      refine ⟨if f.pos_tag = f.end_tag then io61_fill f else f, by rw [hd]; simp, ?_, hs1⟩
      rw [hd]
      simpa using hr1
    · rw [if_neg hc]
      have hlt : (if f.pos_tag = f.end_tag then io61_fill f else f).pos_tag
          < (if f.pos_tag = f.end_tag then io61_fill f else f).end_tag := by
        have hle := hr1.2.2.2.2.1.2.1
        by_cases he : f.pos_tag = f.end_tag
        · have hne : ¬ ((if f.pos_tag = f.end_tag then io61_fill f else f).pos_tag
              = (if f.pos_tag = f.end_tag then io61_fill f else f).end_tag) :=
            fun e => hc ⟨he, e⟩
          omega
        · rw [if_neg he] at hle ⊢
          omega
      obtain ⟨b, hb1, hb2, hb3⟩ := read_step F _ p hr1 hlt
      rw [hb1]
      simp only []
      obtain ⟨f2, e1, e2, e3⟩ := ih _ (p + 1) (out ++ [b]) hb3
      have hpl : p < F.length := (List.getElem?_eq_some.1 hb2).1
      have hdrop : F.drop p = b :: F.drop (p + 1) := by
        rw [List.drop_eq_getElem_cons hpl]
        congr 1
        have := (List.getElem?_eq_some.1 hb2).2
        exact this
      refine ⟨f2, ?_, ?_, e3.trans hs1⟩
      · rw [e1, hdrop, List.take_succ_cons]
        simp
      · rw [hdrop, List.take_succ_cons, List.length_cons]
        have : p + (((F.drop (p + 1)).take n).length + 1)
            = p + 1 + ((F.drop (p + 1)).take n).length := by omega
        rw [this]
        exact e2

/-- A call of `io61_read` on a read cache hands back the next bytes of the
file, as many as are asked for and left. -/
theorem read_spec (F : List (Fin 256)) (f : io61_file) (p sz : Nat) (h : reads_at F f p) :
    ∃ f1, io61_read f sz = some (f1, (F.drop p).take sz) ∧
      ((F.drop p).take sz).length = min sz (F.length - p) ∧
      reads_at F f1 ((p + min sz (F.length - p) : Nat) : Int) ∧
      f1.fd.seekable = f.fd.seekable := by
  obtain ⟨f1, e1, e2, e3⟩ := read_loop_spec F sz f p [] h
  have hlen : ((F.drop p).take sz).length = min sz (F.length - p) := by
    rw [List.length_take, List.length_drop]
  refine ⟨f1, ?_, hlen, ?_, e3⟩
  · unfold io61_read
    rw [e1]
    simp
  · rw [← hlen]
    exact e2

/-- A call of `io61_readc` on a read cache hands back the next byte of the
file, or `EOF` at its end. -/
theorem readc_spec (F : List (Fin 256)) (f : io61_file) (p : Nat) (h : reads_at F f p) :
    ∃ f1, f1.fd.seekable = f.fd.seekable ∧
      ((∃ b, F[p]? = some b ∧ io61_readc f = some (f1, (b.val : Int)) ∧
          reads_at F f1 ((p + 1 : Nat) : Int)) ∨
       (F[p]? = none ∧ io61_readc f = some (f1, EOF) ∧ reads_at F f1 p)) := by
  obtain ⟨f1, e1, e2, e3, e4⟩ := read_spec F f p 1 h
  refine ⟨f1, e4, ?_⟩
  by_cases hp : p < F.length
  · left
    have hdrop : F.drop p = F[p] :: F.drop (p + 1) := List.drop_eq_getElem_cons hp
    refine ⟨F[p], List.getElem?_eq_getElem hp, ?_, ?_⟩
    · unfold io61_readc
      rw [e1, hdrop]
      simp only [List.take_succ_cons, List.take_zero, List.length_cons, List.length_nil]
      rw [if_pos trivial]
      rfl
    · have hm : min 1 (F.length - p) = 1 := by omega
      rw [hm] at e3
      exact e3
  · right
    have hd : F.drop p = [] := List.drop_eq_nil_of_le (by omega)
    refine ⟨List.getElem?_eq_none (by omega), ?_, ?_⟩
    · unfold io61_readc
      rw [e1, hd]
      simp
    · have hm : min 1 (F.length - p) = 0 := by omega
      rw [hm] at e3
      simpa using e3

/-- A seek on a read cache to an offset within the file succeeds, in the
cached block or by loading the aligned block that holds the offset, and the
next byte to return is the one at that offset. -/
theorem seek_spec (F : List (Fin 256)) (f : io61_file) (p : Int) (pos : Int)
    (h : reads_at F f p) (h0 : 0 ≤ pos) (hle : pos ≤ F.length) :
    ∃ f1 r, io61_seek f pos = some (f1, r) ∧ f1.fd.seekable = f.fd.seekable ∧
      ((r = 0 ∧ reads_at F f1 pos) ∨
       (r = -1 ∧ f.fd.seekable = false ∧ reads_at F f1 p)) := by
  have h' := h
  obtain ⟨h1, h2, h3, h4, ⟨h5, h6, h7⟩, h8, h9, h10, h11⟩ := h
  have hb : bufsize.toNat = 16384 := rfl
  have hb2 : bufsize = 16384 := rfl
  unfold io61_seek
  rw [if_pos h1]
  by_cases hin : f.tag ≤ pos ∧ pos < f.end_tag
  · rw [if_pos hin]
    exact ⟨_, 0, rfl, rfl,
      Or.inl ⟨rfl, h1, h2, h3, h4, ⟨hin.1, le_of_lt hin.2, h7⟩, h8, h9, rfl, h11⟩⟩
  · rw [if_neg hin]
    have hm : Int.tmod pos bufsize = pos % 16384 := by
      rw [hb2, Int.tmod_eq_emod h0 (by decide)]
    have ha0 : 0 ≤ pos - Int.tmod pos bufsize := by rw [hm]; omega
    have hal : pos - Int.tmod pos bufsize ≤ pos := by rw [hm]; omega
    have hag : pos - (pos - Int.tmod pos bufsize) < 16384 := by rw [hm]; omega
    generalize pos - Int.tmod pos bufsize = a at ha0 hal hag
    by_cases hs : f.fd.seekable = true
    swap
    · have hl : sys_lseek f.fd a = (-1, f.fd) := by
        unfold sys_lseek
        rw [if_neg (fun hc => hs hc.1)]
      simp only [hl]
      rw [if_pos (Or.inr (by decide))]
      exact ⟨_, -1, rfl, rfl, Or.inr ⟨rfl, by simpa using hs, h'⟩⟩
    have hl : sys_lseek f.fd a = (a, { f.fd with pos := a.toNat }) := by
      unfold sys_lseek
      rw [if_pos ⟨hs, ha0⟩]
    simp only [hl]
    rw [if_neg (by omega)]
    have hr1 : reads_at F
        { f with
          fd := { f.fd with pos := a.toNat }
          pos_tag := a
          tag := a
          end_tag := a } a := by
      refine ⟨h1, h2, h3, ha0, ⟨le_refl _, le_refl _, ?_⟩, ?_, ?_, rfl, ?_⟩
      · show a - a ≤ bufsize
        omega
      · show a ≤ _
        omega
      · show ((a.toNat : Nat) : Int) = a
        omega
      · intro i hi1 hi2
        change a ≤ _ at hi1
        change _ < a at hi2
        omega
    obtain ⟨k1, k2, k3, k4, ⟨k5, k6, k7⟩, k8, k9, k10, k11⟩ := (fill_reads_at F _ a hr1 rfl).1
    obtain ⟨g1, g2, g3, g4, g5, g6, g7, g8, g9⟩ := fill_fields _ hr1.2.2.1
    refine ⟨_, 0, rfl, g7, Or.inl ⟨rfl, k1, k2, k3, k4, ⟨?_, ?_, k7⟩, k8, k9, rfl, k11⟩⟩
    · show (io61_fill _).tag ≤ pos
      rw [g1]
      exact hal
    · show pos ≤ (io61_fill _).end_tag
      rw [g3, List.length_take, List.length_drop]
      show pos ≤ a + ((min bufsize.toNat (f.fd.data.length - a.toNat) : Nat) : Int)
      rw [h2, hb]
      omega

/-- A sequence of calls on a read cache hands back what the same calls hand
back on the contents of the file, when its seeks are to offsets within the
file and the file can be repositioned (or there is no seek). -/
theorem run_spec (F : List (Fin 256)) (ops : List io_op) (f : io61_file) (p : Nat)
    (h : reads_at F f p)
    (hs : f.fd.seekable = true ∨ ∀ pos, io_op.seek pos ∉ ops)
    (hops : ∀ pos, io_op.seek pos ∈ ops → 0 ≤ pos ∧ pos ≤ F.length) :
    ∃ f1, io61_run f ops = some (f1, file_run F p ops) := by
  induction ops generalizing f p with
  | nil => exact ⟨f, rfl⟩
  | cons o os ih =>
    have hops1 : ∀ pos, io_op.seek pos ∈ os → 0 ≤ pos ∧ pos ≤ F.length :=
      fun pos hm => hops pos (List.mem_cons_of_mem _ hm)
    have hs1 : ∀ f1 : io61_file, f1.fd.seekable = f.fd.seekable →
        (f1.fd.seekable = true ∨ ∀ pos, io_op.seek pos ∉ os) :=
      fun f1 e => hs.imp (fun hh => e.trans hh)
        (fun hh pos hm => hh pos (List.mem_cons_of_mem _ hm))
    cases o with
    | read sz =>
      obtain ⟨f1, e1, e2, e3, e4⟩ := read_spec F f p sz h
      obtain ⟨f2, e5⟩ := ih f1 _ e3 (hs1 f1 e4) hops1
      refine ⟨f2, ?_⟩
      rw [← e2] at e5
      simp [io61_run, io61_step, file_run, e1, e5]
    | readc =>
      obtain ⟨f1, e4, hc⟩ := readc_spec F f p h
      rcases hc with ⟨b, hb, e1, e3⟩ | ⟨hb, e1, e3⟩
      · obtain ⟨f2, e5⟩ := ih f1 _ e3 (hs1 f1 e4) hops1
        refine ⟨f2, ?_⟩
        simp [io61_run, io61_step, file_run, e1, e5, hb]
      · obtain ⟨f2, e5⟩ := ih f1 _ e3 (hs1 f1 e4) hops1
        refine ⟨f2, ?_⟩
        simp [io61_run, io61_step, file_run, e1, e5, hb]
    | seek pos =>
      obtain ⟨hp0, hp1⟩ := hops pos (List.mem_cons_self _ _)
      obtain ⟨f1, r, e1, e4, hc⟩ := seek_spec F f p pos h hp0 hp1
      rcases hc with ⟨hr, e3⟩ | ⟨_, hns, _⟩
      · have hpos : ((pos.toNat : Nat) : Int) = pos := by omega
        rw [← hpos] at e3
        obtain ⟨f2, e5⟩ := ih f1 _ e3 (hs1 f1 e4) hops1
        refine ⟨f2, ?_⟩
        simp [io61_run, io61_step, file_run, e1, e5, hr]
      · rcases hs with hs | hs
        · rw [hs] at hns
          exact absurd hns (by decide)
        · exact absurd (List.mem_cons_self _ _) (hs pos)

/-- A read-only cache that starts empty at offset 0 over a file at position 0. -/
theorem reads_at_start (f : io61_file) (hmd : f.md = O_RDONLY) (ht : f.tag = 0)
    (hp : f.pos_tag = 0) (he : f.end_tag = 0) (hk : f.fd.pos = 0)
    (hr : f.fd.readable = true) : reads_at f.fd.data f ((0 : Nat) : Int) := by
  refine ⟨hmd, rfl, hr, by omega, ⟨by omega, by omega, ?_⟩, by omega, by omega, by omega, ?_⟩
  · rw [he, ht]
    decide
  · intro i h1 h2
    omega

/-! ## The read cache returns the bytes of the file -/

/-- C21: let `f` be a read-only `io61_file` whose cache starts empty at offset
0 (`tag = pos_tag = end_tag = 0`) over a readable file at position 0 with
contents `F`, the system call `read` returning the next
`min(16384, remaining)` bytes.  Then `f` is a read cache on `F` at offset 0
(`reads_at`), and from every read cache `g` on `F` at an offset `p`:
`io61_read(g, buf, sz)` returns `n = min(sz, |F| - p)`, stores
`F[p .. p+n)` in `buf` and leaves a read cache at offset `p + n`;
`io61_readc(g)` returns the byte `F[p]`, a value in 0..255, and leaves a read
cache at `p + 1`, or returns `EOF` (-1) when `p` is at the end of the file; a
call `io61_seek(g, pos)` with `0 <= pos <= |F|` returns, and when it returns
0 it leaves a read cache at offset `pos`, which it does whenever the file can
be repositioned.  So every sequence of `io61_read` calls on `f` hands back
what the same reads hand back on `F` from offset 0, `p` being the number of
bytes returned so far, and so does every sequence of `io61_read`,
`io61_readc` and `io61_seek` calls with seek positions in `0..|F|` when the
file can be repositioned. -/
theorem read_cache_returns_file (f : io61_file) (hmd : f.md = O_RDONLY) (ht : f.tag = 0)
    (hp : f.pos_tag = 0) (he : f.end_tag = 0) (hk : f.fd.pos = 0)
    (hr : f.fd.readable = true) :
    reads_at f.fd.data f 0 ∧
    (∀ (g : io61_file) (p sz : Nat), reads_at f.fd.data g p →
      ∃ g1, io61_read g sz = some (g1, (f.fd.data.drop p).take sz) ∧
        ((f.fd.data.drop p).take sz).length = min sz (f.fd.data.length - p) ∧
        reads_at f.fd.data g1 ((p + min sz (f.fd.data.length - p) : Nat) : Int)) ∧
    (∀ (g : io61_file) (p : Nat), reads_at f.fd.data g p →
      ∃ g1 c, io61_readc g = some (g1, c) ∧
        ((∃ b : Fin 256, f.fd.data[p]? = some b ∧ c = b.val ∧ 0 ≤ c ∧ c ≤ 255 ∧
            reads_at f.fd.data g1 ((p + 1 : Nat) : Int)) ∨
         (f.fd.data.length ≤ p ∧ c = EOF ∧ c = -1 ∧ reads_at f.fd.data g1 p))) ∧
    (∀ (g : io61_file) (p : Nat) (pos : Int), reads_at f.fd.data g p →
      0 ≤ pos → pos ≤ f.fd.data.length →
      ∃ g1 r, io61_seek g pos = some (g1, r) ∧ (r = 0 → reads_at f.fd.data g1 pos) ∧
        (g.fd.seekable = true → r = 0)) ∧
    (∀ szs : List Nat, ∃ f1,
      io61_run f (szs.map io_op.read) = some (f1, file_run f.fd.data 0 (szs.map io_op.read))) ∧
    (f.fd.seekable = true → ∀ ops : List io_op,
      (∀ pos, io_op.seek pos ∈ ops → 0 ≤ pos ∧ pos ≤ f.fd.data.length) →
      ∃ f1, io61_run f ops = some (f1, file_run f.fd.data 0 ops)) := by
  have hstart := reads_at_start f hmd ht hp he hk hr
  refine ⟨by simpa using hstart, ?_, ?_, ?_, ?_, ?_⟩
  · intro g p sz hg
    obtain ⟨g1, e1, e2, e3, _⟩ := read_spec f.fd.data g p sz hg
    exact ⟨g1, e1, e2, e3⟩
  · intro g p hg
    obtain ⟨g1, _, hc⟩ := readc_spec f.fd.data g p hg
    rcases hc with ⟨b, hb, e1, e3⟩ | ⟨hb, e1, e3⟩
    · refine ⟨g1, b.val, e1, Or.inl ⟨b, hb, rfl, by omega, ?_, e3⟩⟩
      have := b.isLt
      omega
    · exact ⟨g1, EOF, e1, Or.inr ⟨List.getElem?_eq_none_iff.1 hb, rfl, rfl, e3⟩⟩
  · intro g p pos hg h0 h1
    obtain ⟨g1, r, e1, _, hc⟩ := seek_spec f.fd.data g p pos hg h0 h1
    refine ⟨g1, r, e1, ?_, ?_⟩
    · intro hr0
      rcases hc with ⟨_, e3⟩ | ⟨hr1, _, _⟩
      · exact e3
      · omega
    · intro hs
      rcases hc with ⟨hr0, _⟩ | ⟨_, hns, _⟩
      · exact hr0
      · rw [hs] at hns
        exact absurd hns (by decide)
  · intro szs
    exact run_spec f.fd.data _ f 0 hstart (Or.inr (by simp)) (by simp)
  · intro hs ops hops
    exact run_spec f.fd.data ops f 0 hstart (Or.inl hs) hops

theorem read_cache_returns_file_witness :
    (io61_read (open_read ten_bytes) 4).map (fun r => r.2) = some [10, 11, 12, 13] ∧
    (io61_run (open_read ten_bytes) [.read 3, .read 20, .read 2]).map (fun r => r.2)
      = some [.bytes [10, 11, 12], .bytes [13, 14, 15, 16, 17, 18, 19], .bytes []] ∧
    (io61_run (open_read ten_bytes)
        [.read 3, .readc, .seek 1, .read 20, .readc, .seek 10, .readc]).map (fun r => r.2)
      = some [.bytes [10, 11, 12], .char 13, .status 0,
          .bytes [11, 12, 13, 14, 15, 16, 17, 18, 19], .char (-1), .status 0, .char (-1)] := by
  have h := read_cache_returns_file (open_read ten_bytes) rfl rfl rfl rfl rfl rfl
  refine ⟨?_, ?_, ?_⟩
  · obtain ⟨g1, e1, _⟩ := h.2.1 (open_read ten_bytes) 0 4 (by simpa using h.1)
    rw [e1]
    simp only [Option.map_some']
    decide
  · obtain ⟨f1, e1⟩ := h.2.2.2.2.1 [3, 20, 2]
    have e2 : io61_run (open_read ten_bytes) [.read 3, .read 20, .read 2]
        = some (f1, file_run ten_bytes.data 0 [.read 3, .read 20, .read 2]) := e1
    rw [e2]
    simp only [Option.map_some']
    decide
  · obtain ⟨f1, e1⟩ := h.2.2.2.2.2 rfl
      [.read 3, .readc, .seek 1, .read 20, .readc, .seek 10, .readc]
      (by
        intro pos hm
        simp at hm
        rcases hm with rfl | rfl <;> decide)
    rw [e1]
    simp only [Option.map_some']
    decide

/-! ## The cache invariant -/

/-- The loop of `io61_read` keeps the cache invariant, and under it every
index it uses is inside the buffer. -/
theorem read_loop_cache_inv (n : Nat) (f : io61_file) (out : List (Fin 256))
    (h : cache_inv f) :
    ∃ r, io61_read_loop n f out = some r ∧ cache_inv r.1 := by
  induction n generalizing f out with
  | zero => exact ⟨(f, out), rfl, h⟩
  | succ n ih =>
    have hb2 : bufsize = 16384 := rfl
    have h1 : cache_inv (if f.pos_tag = f.end_tag then io61_fill f else f) := by
      split
      · exact cache_inv_fill f
      · exact h
    unfold io61_read_loop
    simp only []
    by_cases hc : f.pos_tag = f.end_tag ∧
        (if f.pos_tag = f.end_tag then io61_fill f else f).pos_tag
          = (if f.pos_tag = f.end_tag then io61_fill f else f).end_tag
    · rw [if_pos hc]
      exact ⟨_, rfl, h1⟩
    · rw [if_neg hc]
      have hlt : (if f.pos_tag = f.end_tag then io61_fill f else f).pos_tag
          < (if f.pos_tag = f.end_tag then io61_fill f else f).end_tag := by
        have hle := h1.2.1
        by_cases he : f.pos_tag = f.end_tag
        · have hne : ¬ ((if f.pos_tag = f.end_tag then io61_fill f else f).pos_tag
              = (if f.pos_tag = f.end_tag then io61_fill f else f).end_tag) :=
            fun e => hc ⟨he, e⟩
          omega
        · rw [if_neg he] at hle ⊢
          omega
      generalize (if f.pos_tag = f.end_tag then io61_fill f else f) = g at h1 hlt
      obtain ⟨g1, g2, g3⟩ := h1
      have hget : cbuf_get g (g.pos_tag - g.tag) = some (g.cbuf (g.pos_tag - g.tag).toNat) := by
        unfold cbuf_get
        rw [if_pos]
        omega
      rw [hget]
      simp only []
      apply ih
      refine ⟨?_, ?_, g3⟩
      · show g.tag ≤ g.pos_tag + 1
        omega
      · show g.pos_tag + 1 ≤ g.end_tag
        omega

/-- The function `io61_flush` keeps the cache invariant. -/
theorem flush_cache_inv (f : io61_file) (h : cache_inv f) :
    ∃ r, io61_flush f = some r ∧ cache_inv r.1 ∧ r.1.md = f.md := by
  obtain ⟨g1, g2, g3⟩ := h
  have hb2 : bufsize = 16384 := rfl
  unfold io61_flush
  by_cases hm : f.md = O_RDONLY
  · rw [if_pos hm]
    exact ⟨_, rfl, ⟨g1, g2, g3⟩, rfl⟩
  · rw [if_neg hm, if_pos (by omega)]
    refine ⟨_, rfl, ⟨le_refl _, le_refl _, ?_⟩, rfl⟩
    show f.end_tag - f.end_tag ≤ bufsize
    omega

/-- The loop of `io61_write` on a file that is not read-only keeps the cache
invariant, and under it every index it uses is inside the buffer. -/
theorem write_loop_cache_inv (bytes : List (Fin 256)) (f : io61_file) (pos : Nat)
    (hm : f.md ≠ O_RDONLY) (h : cache_inv f) :
    ∃ r, io61_write_loop bytes f pos = some r ∧ cache_inv r.1 := by
  induction bytes generalizing f pos with
  | nil => exact ⟨(f, pos), rfl, h⟩
  | cons b bs ih =>
    have hb2 : bufsize = 16384 := rfl
    obtain ⟨g, hg, hgm, k1, k2, k3, k4⟩ : ∃ g : io61_file,
        (if f.end_tag = f.tag + bufsize then (io61_flush f).map (fun r => r.1) else some f)
          = some g ∧ g.md = f.md ∧ g.tag ≤ g.pos_tag ∧ g.pos_tag ≤ g.end_tag ∧
          g.end_tag - g.tag ≤ bufsize ∧ g.end_tag ≠ g.tag + bufsize := by
      by_cases he : f.end_tag = f.tag + bufsize
      · rw [if_pos he]
        obtain ⟨g1, g2, g3⟩ := h
        refine ⟨{ f with
            fd := (sys_write f.fd ((List.range (f.pos_tag - f.tag).toNat).map f.cbuf)).2
            tag := f.end_tag
            pos_tag := f.end_tag }, ?_, rfl, le_refl _, le_refl _, ?_, ?_⟩
        · unfold io61_flush
          rw [if_neg hm, if_pos (by omega)]
          rfl
        · show f.end_tag - f.end_tag ≤ bufsize
          omega
        · show f.end_tag ≠ f.end_tag + bufsize
          omega
      · rw [if_neg he]
        exact ⟨f, rfl, rfl, h.1, h.2.1, h.2.2, he⟩
    unfold io61_write_loop
    rw [hg]
    simp only []
    have hset : cbuf_set g (g.pos_tag - g.tag) b
        = some { g with cbuf := Function.update g.cbuf (g.pos_tag - g.tag).toNat b } := by
      unfold cbuf_set
      rw [if_pos]
      omega
    rw [hset]
    simp only []
    apply ih
    · show g.md ≠ O_RDONLY
      rw [hgm]
      exact hm
    · refine ⟨?_, ?_, ?_⟩
      · show g.tag ≤ g.pos_tag + 1
        omega
      · show g.pos_tag + 1 ≤ g.end_tag + 1
        omega
      · show g.end_tag + 1 - g.tag ≤ bufsize
        omega

/-- The function `io61_seek` keeps the cache invariant on a file that is not
read-only, and on a read-only file when the position is in the cached
block. -/
theorem seek_cache_inv (f : io61_file) (pos : Int) (h : cache_inv f)
    (hp : f.md = O_RDONLY → f.tag ≤ pos ∧ pos < f.end_tag) :
    ∃ r, io61_seek f pos = some r ∧ cache_inv r.1 := by
  unfold io61_seek
  by_cases hm : f.md = O_RDONLY
  · rw [if_pos hm, if_pos (hp hm)]
    exact ⟨_, rfl, (hp hm).1, le_of_lt (hp hm).2, h.2.2⟩
  · rw [if_neg hm]
    by_cases hw : f.md = O_WRONLY
    · rw [if_pos hw]
      obtain ⟨r, e1, e2, _⟩ := flush_cache_inv f h
      rw [e1]
      simp only []
      split
      · exact ⟨_, rfl, e2⟩
      · exact ⟨_, rfl, e2⟩
    · rw [if_neg hw]
      exact ⟨_, rfl, h⟩

/-- C22: the cache invariant `tag <= pos_tag <= end_tag`, with
`tag = pos_tag = end_tag = 0` after `io61_fdopen`, is not kept by the code.
`io61_fdopen` assigns only `fd` and `md`, so the tags are those that the
storage of the new object holds: over an empty file, in storage that a
closed file left with tags `(0, 3, 10)`, the file starts with `pos_tag = 3`
and `end_tag = 10`, and `io61_read` of two bytes returns the bytes 13 and 14
of the closed file.  On a read-only file of ten bytes whose cache starts
empty at 0 (invariant holding), `io61_seek(f, 20)` returns 0 and leaves
`tag = 0`, `pos_tag = 20`, `end_tag = 10`, so the invariant fails, and the
next `io61_read` of two bytes returns two bytes of the buffer beyond the
valid cached bytes; `io61_seek(f, -5)` returns 0 and leaves `pos_tag = -5`,
below `tag = 0`, and the next `io61_read` uses the index -5, outside the
buffer. -/
theorem seek_breaks_cache_invariant :
    (∀ (k : kernel_file) (mode : Int) (fresh : io61_file),
      (io61_fdopen k mode fresh).tag = fresh.tag ∧
      (io61_fdopen k mode fresh).pos_tag = fresh.pos_tag ∧
      (io61_fdopen k mode fresh).end_tag = fresh.end_tag) ∧
    tags_of (io61_fdopen empty_file O_RDONLY reused_object, 0) = (0, 3, 10, 0) ∧
    (io61_read (io61_fdopen empty_file O_RDONLY reused_object) 2).map (fun r => r.2)
      = some [13, 14] ∧
    cache_inv (open_read ten_bytes) ∧
    (io61_seek (open_read ten_bytes) 20).map tags_of = some (0, 20, 10, 0) ∧
    ¬ cache_inv ((io61_seek (open_read ten_bytes) 20).get (by decide)).1 ∧
    ((io61_seek (open_read ten_bytes) 20).bind (fun r => io61_read r.1 2)).map (fun r => r.2)
      = some [0, 0] ∧
    (io61_seek (open_read ten_bytes) (-5)).map tags_of = some (0, -5, 10, 0) ∧
    ¬ cache_inv ((io61_seek (open_read ten_bytes) (-5)).get (by decide)).1 ∧
    ((io61_seek (open_read ten_bytes) (-5)).bind (fun r => io61_read r.1 2)).map (fun r => r.2)
      = none := by
  refine ⟨fun _ _ _ => ⟨rfl, rfl, rfl⟩, by decide, by decide, by decide, by decide, by decide,
    by decide, by decide, by decide, by decide⟩

end Io61
